import Mathlib

/-!
Cursor window storage engine: shallow embedding and verification.

Two sibling implementations are embedded:

* `Ashmem`   : `src/jni/AshmemCursorWindow.{h,cpp}` (fixed-size shared window),
* `Growable` : `src/android-database-sqlcipher/src/main/cpp/CursorWindow.cpp`
  (process-local window that reallocates its buffer).

The buffer is a byte-addressed memory `Nat → Fin 256`; every multi-byte field is
read and written little-endian at a byte offset, exactly as the C++ code does
through `mData + offset`.  `uint32_t` arithmetic is `Nat` arithmetic reduced
modulo `2^32`; `size_t` arithmetic is reduced modulo `2^W` where the width `W` is
a parameter of the functions in which it can matter.  Accesses outside
`[0, mSize)` are not trapped by the memory itself; statements that need
in-bounds accesses say so.  The shared window runs with 32-bit pointers (its
native layer keeps the window pointer in a `jint`): the pointer to the byte at
offset `o` is the address of the mapping plus `o`, modulo `2^32`, and the
pointer 0 is `NULL`; `getFieldSlot`, whose pointer arithmetic can leave the
region and come back to it, is embedded at that level.
-/

namespace CW

/-! ## Byte memory -/

abbrev Byte := Fin 256

abbrev Mem := Nat → Byte

/-- Modulus of `uint32_t`. -/
def U32 : Nat := 4294967296

/-- Modulus of `uint64_t` / `int64_t`. -/
def U64 : Nat := 18446744073709551616

/-- Low byte of a natural number. -/
def byteOf (v : Nat) : Byte := ⟨v % 256, Nat.mod_lt _ (by decide)⟩

/-- Little-endian load of a `uint32_t` at offset `a`. -/
def read32 (m : Mem) (a : Nat) : Nat :=
  (m a).val + 256 * (m (a + 1)).val + 65536 * (m (a + 2)).val + 16777216 * (m (a + 3)).val

/-- Little-endian store of a `uint32_t` at offset `a` (the value is truncated to 32 bits). -/
def write32 (m : Mem) (a v : Nat) : Mem := fun i =>
  if i = a then byteOf v
  else if i = a + 1 then byteOf (v / 256)
  else if i = a + 2 then byteOf (v / 65536)
  else if i = a + 3 then byteOf (v / 16777216)
  else m i

/-- Little-endian load of a 64-bit pattern at offset `a`. -/
def read64 (m : Mem) (a : Nat) : Nat :=
  read32 m a + U32 * read32 m (a + 4)

/-- Little-endian store of a 64-bit pattern at offset `a`. -/
def write64 (m : Mem) (a v : Nat) : Mem :=
  write32 (write32 m a v) (a + 4) (v / U32)

/-- Store of a single byte (`uint8_t`) at offset `a`. -/
def write8 (m : Mem) (a v : Nat) : Mem := fun i => if i = a then byteOf v else m i

/-- Load of a single byte at offset `a`. -/
def read8 (m : Mem) (a : Nat) : Nat := (m a).val

/-- The effect of `memset(mData + a, 0, n)`. -/
def memset0 (m : Mem) (a n : Nat) : Mem := fun i =>
  if a ≤ i ∧ i < a + n then (0 : Byte) else m i

/-- The effect of `memcpy(mData + a, src, n)`; the source is a caller buffer, read at
index `i - a`. -/
def memcpy (m : Mem) (a : Nat) (src : Nat → Byte) (n : Nat) : Mem := fun i =>
  if a ≤ i ∧ i < a + n then src (i - a) else m i

/-- Two's-complement bit pattern of an `int64_t`. -/
def toU64 (v : Int) : Nat := (v % (U64 : Int)).toNat

/-- The `int64_t` denoted by a 64-bit pattern. -/
def ofU64 (n : Nat) : Int :=
  if n % U64 < 9223372036854775808 then ((n % U64 : Nat) : Int) else ((n % U64 : Nat) : Int) - (U64 : Int)

/-- `Frame m m1 a n`: memory `m1` differs from `m` at most inside `[a, a + n)`. -/
def Frame (m m1 : Mem) (a n : Nat) : Prop :=
  ∀ i, i < a ∨ a + n ≤ i → m1 i = m i


/-! ## Shared (ashmem) window: `src/jni/AshmemCursorWindow.{h,cpp}` -/

namespace Ashmem

/-- Result codes of `status_t` used by the window (`utils/Errors.h`). -/
inductive Status where
  | OK
  | NO_MEMORY
  | INVALID_OPERATION
  | BAD_VALUE
  deriving DecidableEq, Repr

/-- The members of `AshmemCursorWindow` that the operations use: the mapped region
`mData`, its length `mSize` and the `mReadOnly` flag.  `mHeader` is `mData` itself.
The pointer `mData` is kept as two fields: `mData` holds the bytes, indexed by their
offset from the start of the mapping, and `mDataPtr` is the numeric value of the
pointer, the address at which the region is mapped. -/
structure Window where
  mData : Mem
  mDataPtr : Nat
  mSize : Nat
  mReadOnly : Bool

/-- Field type tags (`enum` in `AshmemCursorWindow.h`). -/
def NEW_FIELD_TYPE_NULL : Nat := 0
def NEW_FIELD_TYPE_INTEGER : Nat := 1
def NEW_FIELD_TYPE_FLOAT : Nat := 2
def NEW_FIELD_TYPE_STRING : Nat := 3
def NEW_FIELD_TYPE_BLOB : Nat := 4

/-- Header field `mHeader->freeOffset` (`struct Header`, byte offset 0). -/
def freeOffset (s : Window) : Nat := read32 s.mData 0

/-- Header field `mHeader->firstChunkOffset` (byte offset 4). -/
def firstChunkOffset (s : Window) : Nat := read32 s.mData 4

/-- Header field `mHeader->numRows` (byte offset 8); also `getNumRows()`. -/
def numRows (s : Window) : Nat := read32 s.mData 8

/-- Header field `mHeader->numColumns` (byte offset 12); also `getNumColumns()`. -/
def numColumns (s : Window) : Nat := read32 s.mData 12

/-- `AshmemCursorWindow::clear`.  `sizeof(Header) = 16`, `sizeof(RowSlotChunk) = 404`
(100 row slots of 4 bytes and `nextChunkOffset` at byte 400 of the chunk). -/
def clear (s : Window) : Status × Window :=
  if s.mReadOnly then (Status.INVALID_OPERATION, s)
  else
    let m1 := write32 s.mData 0 (16 + 404)
    let m2 := write32 m1 4 16
    let m3 := write32 m2 8 0
    let m4 := write32 m3 12 0
    let firstChunk := read32 m4 4
    (Status.OK, { s with mData := write32 m4 (firstChunk + 400) 0 })

/-- `AshmemCursorWindow::setNumColumns`. -/
def setNumColumns (s : Window) (n : Nat) : Status × Window :=
  if s.mReadOnly then (Status.INVALID_OPERATION, s)
  else
    let cur := numColumns s
    if (cur > 0 ∨ numRows s > 0) ∧ cur ≠ n then (Status.INVALID_OPERATION, s)
    else (Status.OK, { s with mData := write32 s.mData 12 n })

/-- `AshmemCursorWindow::alloc`.  Returns the offset (0 for "no space") and the new
state.  `padding`, `offset` and `nextFreeOffset` are `uint32_t`; `offset + size` is
formed in `size_t` and truncated to 32 bits by the assignment, which for every
`size_t` of at least 32 bits is the sum modulo `2^32`. -/
def alloc (s : Window) (size : Nat) (aligned : Bool) : Nat × Window :=
  let padding := if aligned then ((U32 - 1 - freeOffset s) + 1) % U32 % 4 else 0
  let offset := (freeOffset s + padding) % U32
  let nextFreeOffset := (offset + size) % U32
  if nextFreeOffset > s.mSize then (0, s)
  else (offset, { s with mData := write32 s.mData 0 nextFreeOffset })

/-- The `while (chunkPos >= NEW_ROW_SLOT_CHUNK_NUM_ROWS)` loop of `getRowSlot`; the
result is the address `&chunk->slots[chunkPos]`.  Every iteration lowers `chunkPos`
by 100, so fuel `row` is never exhausted. -/
def getRowSlotLoop (m : Mem) : Nat → Nat → Nat → Nat
  | 0, chunk, chunkPos => chunk + 4 * chunkPos
  | fuel + 1, chunk, chunkPos =>
    if chunkPos ≥ 100 then getRowSlotLoop m fuel (read32 m (chunk + 400)) (chunkPos - 100)
    else chunk + 4 * chunkPos

/-- `AshmemCursorWindow::getRowSlot`: the address of the row slot of `row`. -/
def getRowSlot (s : Window) (row : Nat) : Nat :=
  getRowSlotLoop s.mData row (firstChunkOffset s) row

/-- The `while (chunkPos > NEW_ROW_SLOT_CHUNK_NUM_ROWS)` loop of `allocRowSlot`; the
result is the pair `(chunk, chunkPos)` at loop exit. -/
def allocRowSlotLoop (m : Mem) : Nat → Nat → Nat → Nat × Nat
  | 0, chunk, chunkPos => (chunk, chunkPos)
  | fuel + 1, chunk, chunkPos =>
    if chunkPos > 100 then allocRowSlotLoop m fuel (read32 m (chunk + 400)) (chunkPos - 100)
    else (chunk, chunkPos)

/-- Tail of `allocRowSlot` once `chunk->nextChunkOffset` is known to be non-zero:
enter the next chunk, terminate it, and count the row (its slot is slot 0). -/
def enterNextChunk (s : Window) (chunk : Nat) : Option Nat × Window :=
  let next := read32 s.mData (chunk + 400)
  let m1 := write32 s.mData (next + 400) 0
  let m2 := write32 m1 8 ((read32 m1 8 + 1) % U32)
  (some next, { s with mData := m2 })

/-- `AshmemCursorWindow::allocRowSlot`: the address of the new row slot (`none` for
`NULL`) and the new state. -/
def allocRowSlot (s : Window) : Option Nat × Window :=
  let w := allocRowSlotLoop s.mData (numRows s) (firstChunkOffset s) (numRows s)
  let chunk := w.1
  let chunkPos := w.2
  if chunkPos = 100 then
    if read32 s.mData (chunk + 400) = 0 then
      let r := alloc s 404 true
      let s1 : Window := { r.2 with mData := write32 r.2.mData (chunk + 400) r.1 }
      if read32 s1.mData (chunk + 400) = 0 then (none, s1)
      else enterNextChunk s1 chunk
    else enterNextChunk s chunk
  else
    (some (chunk + 4 * chunkPos),
      { s with mData := write32 s.mData 8 ((numRows s + 1) % U32) })

/-- `AshmemCursorWindow::allocRow`.  `W` is the width of `size_t`, in which
`fieldDirSize = numColumns * sizeof(FieldSlot)` is computed (`sizeof(FieldSlot) = 12`,
the struct is packed). -/
def allocRow (W : Nat) (s : Window) : Status × Window :=
  if s.mReadOnly then (Status.INVALID_OPERATION, s)
  else
    match allocRowSlot s with
    | (none, s1) => (Status.NO_MEMORY, s1)
    | (some rowSlot, s1) =>
      let fieldDirSize := (numColumns s1 * 12) % 2 ^ W
      let r := alloc s1 fieldDirSize true
      if r.1 = 0 then
        (Status.NO_MEMORY,
          { r.2 with mData := write32 r.2.mData 8 ((numRows r.2 + (U32 - 1)) % U32) })
      else
        let m1 := memset0 r.2.mData r.1 fieldDirSize
        (Status.OK, { r.2 with mData := write32 m1 rowSlot r.1 })

/-- `AshmemCursorWindow::freeLastRow`. -/
def freeLastRow (s : Window) : Status × Window :=
  if s.mReadOnly then (Status.INVALID_OPERATION, s)
  else if numRows s > 0 then
    (Status.OK, { s with mData := write32 s.mData 8 (numRows s - 1) })
  else (Status.OK, s)

/-- `AshmemCursorWindow::getFieldSlot`: the offset of the field slot from `mData`,
`none` for `NULL`.  The native layer keeps the window pointer in a `jint`, so the code
runs with 32-bit pointers: the pointer at offset `o` has the value
`(mDataPtr + o) mod 2^32`, `&fieldDir[column]` is formed modulo `2^32`, and a pointer of
value 0 is `NULL`, both in the test `!rowSlot` and for the caller of `getFieldSlot`. -/
def getFieldSlot (s : Window) (row column : Nat) : Option Nat :=
  if row ≥ numRows s ∨ column ≥ numColumns s then none
  else
    let rowSlot := getRowSlot s row
    if (s.mDataPtr + rowSlot) % U32 = 0 then none
    else
      let fieldSlot := (read32 s.mData rowSlot + 12 * column) % U32
      if (s.mDataPtr + fieldSlot) % U32 = 0 then none else some fieldSlot

/-- `getFieldSlotType`: the `int32_t type` at byte 0 of the slot. -/
def getFieldSlotType (s : Window) (fieldSlot : Nat) : Nat := read32 s.mData fieldSlot

/-- `getFieldSlotValueLong`: `data.l`, the 8 bytes at byte 4 of the slot. -/
def getFieldSlotValueLong (s : Window) (fieldSlot : Nat) : Int :=
  ofU64 (read64 s.mData (fieldSlot + 4))

/-- `getFieldSlotValueDouble`: the bit pattern of `data.d`. -/
def getFieldSlotValueDouble (s : Window) (fieldSlot : Nat) : Nat :=
  read64 s.mData (fieldSlot + 4)

/-- `getFieldSlotValueString`: `(*outSizeIncludingNull, offset of the returned pointer)`. -/
def getFieldSlotValueString (s : Window) (fieldSlot : Nat) : Nat × Nat :=
  (read32 s.mData (fieldSlot + 8), read32 s.mData (fieldSlot + 4))

/-- `getFieldSlotValueBlob`: `(*outSize, offset of the returned pointer)`. -/
def getFieldSlotValueBlob (s : Window) (fieldSlot : Nat) : Nat × Nat :=
  (read32 s.mData (fieldSlot + 8), read32 s.mData (fieldSlot + 4))

/-- `AshmemCursorWindow::putBlobOrString`; `value` is the caller's buffer and `size`
the `size_t` byte count. -/
def putBlobOrString (s : Window) (row column : Nat) (value : Nat → Byte) (size : Nat)
    (type : Nat) : Status × Window :=
  if s.mReadOnly then (Status.INVALID_OPERATION, s)
  else
    match getFieldSlot s row column with
    | none => (Status.BAD_VALUE, s)
    | some fieldSlot =>
      let r := alloc s size false
      if r.1 = 0 then (Status.NO_MEMORY, r.2)
      else
        let m1 := memcpy r.2.mData r.1 value size
        let m2 := write32 m1 fieldSlot type
        let m3 := write32 m2 (fieldSlot + 4) r.1
        let m4 := write32 m3 (fieldSlot + 8) size
        (Status.OK, { r.2 with mData := m4 })

/-- `AshmemCursorWindow::putBlob`. -/
def putBlob (s : Window) (row column : Nat) (value : Nat → Byte) (size : Nat) :
    Status × Window :=
  putBlobOrString s row column value size NEW_FIELD_TYPE_BLOB

/-- `AshmemCursorWindow::putString`. -/
def putString (s : Window) (row column : Nat) (value : Nat → Byte)
    (sizeIncludingNull : Nat) : Status × Window :=
  putBlobOrString s row column value sizeIncludingNull NEW_FIELD_TYPE_STRING

/-- `AshmemCursorWindow::putLong`. -/
def putLong (s : Window) (row column : Nat) (value : Int) : Status × Window :=
  if s.mReadOnly then (Status.INVALID_OPERATION, s)
  else
    match getFieldSlot s row column with
    | none => (Status.BAD_VALUE, s)
    | some fieldSlot =>
      let m1 := write32 s.mData fieldSlot NEW_FIELD_TYPE_INTEGER
      (Status.OK, { s with mData := write64 m1 (fieldSlot + 4) (toU64 value) })

/-- `AshmemCursorWindow::putDouble`; the `double` is carried as its 64-bit pattern. -/
def putDouble (s : Window) (row column : Nat) (bits : Nat) : Status × Window :=
  if s.mReadOnly then (Status.INVALID_OPERATION, s)
  else
    match getFieldSlot s row column with
    | none => (Status.BAD_VALUE, s)
    | some fieldSlot =>
      let m1 := write32 s.mData fieldSlot NEW_FIELD_TYPE_FLOAT
      (Status.OK, { s with mData := write64 m1 (fieldSlot + 4) bits })

/-- `AshmemCursorWindow::putNull`. -/
def putNull (s : Window) (row column : Nat) : Status × Window :=
  if s.mReadOnly then (Status.INVALID_OPERATION, s)
  else
    match getFieldSlot s row column with
    | none => (Status.BAD_VALUE, s)
    | some fieldSlot =>
      let m1 := write32 s.mData fieldSlot NEW_FIELD_TYPE_NULL
      let m2 := write32 m1 (fieldSlot + 4) 0
      (Status.OK, { s with mData := write32 m2 (fieldSlot + 8) 0 })

/-- The mutating operations of the public interface, as data. -/
inductive Op where
  | clear
  | setNumColumns (n : Nat)
  | allocRow
  | freeLastRow
  | putBlob (row column : Nat) (value : Nat → Byte) (size : Nat)
  | putString (row column : Nat) (value : Nat → Byte) (sizeIncludingNull : Nat)
  | putLong (row column : Nat) (value : Int)
  | putDouble (row column : Nat) (bits : Nat)
  | putNull (row column : Nat)

/-- Run one operation. -/
def step (W : Nat) (s : Window) : Op → Status × Window
  | Op.clear => clear s
  | Op.setNumColumns n => setNumColumns s n
  | Op.allocRow => allocRow W s
  | Op.freeLastRow => freeLastRow s
  | Op.putBlob r c v n => putBlob s r c v n
  | Op.putString r c v n => putString s r c v n
  | Op.putLong r c v => putLong s r c v
  | Op.putDouble r c b => putDouble s r c b
  | Op.putNull r c => putNull s r c

/-- Run a sequence of operations, discarding the result codes. -/
def run (W : Nat) (s : Window) : List Op → Window
  | [] => s
  | op :: ops => run W (step W s op).2 ops

end Ashmem

/-! ## Shared window: the native readers of `src/jni/net_sqlcipher_AshmemCursorWindow.cpp`

A native method is modelled by the exception it leaves pending in the JNI environment
and the value it returns; a call that writes past the end of a heap array has the
outcome `Pending.overrun` in place of an exception.  Text conversions done by library calls (`String16`,
`snprintf`, `strtoll`, `strtod`, the `double` to `jlong` cast) are kept symbolic: the
result records which conversion is applied to which stored value.  The JVM calls that
build a `jstring` or fill a `CharArrayBuffer` are taken to succeed; `NewByteArray`,
whose failure the code handles, has its outcome as a parameter. -/

namespace Ashmem

/-- Conversion of a `jint` argument to a `uint32_t` parameter. -/
def jintToU32 (x : Int) : Nat := (x % (U32 : Int)).toNat

/-- The texts that the readers pass to `throw_sqlite3_exception`. -/
inductive SqliteMessage where
  /-- "Native could not create new byte[]" -/
  | couldNotCreateByteArray
  /-- "INTEGER data in nativeGetBlob " -/
  | integerDataInGetBlob
  /-- "FLOAT data in nativeGetBlob " -/
  | floatDataInGetBlob
  /-- "Unable to convert BLOB to string" -/
  | unableToConvertBlobToString
  /-- "Unable to convert BLOB to long" -/
  | unableToConvertBlobToLong
  /-- "Unable to convert BLOB to double" -/
  | unableToConvertBlobToDouble
  deriving DecidableEq, Repr

/-- The Java exception that a native method leaves pending. -/
inductive Pending where
  /-- No exception. -/
  | nothing
  /-- `throwExceptionWithRowCol`: an `IllegalStateException` naming the row and column. -/
  | illegalStateRowCol (row column : Int)
  /-- `throwUnknownTypeException`: an `IllegalStateException` naming the type. -/
  | illegalStateUnknownType (type : Nat)
  /-- `throw_sqlite3_exception` with the given text. -/
  | sqlite (message : SqliteMessage)
  /-- No defined outcome: `sprintf` has written `written` bytes into the array of 100
  bytes that `throwExceptionWithRowCol` allocates, past its end. -/
  | overrun (written : Nat)
  deriving DecidableEq, Repr

/-- The `jstring` returned by `nativeGetString`. -/
inductive JString where
  | null
  /-- `gEmptyString`. -/
  | empty
  /-- `NewString` of the UTF-16 conversion of these UTF-8 bytes. -/
  | utf8 (bytes : List Byte)
  /-- `NewStringUTF` of `snprintf("%lld", value)`. -/
  | decimal (value : Int)
  /-- `NewStringUTF` of `snprintf("%g", value)`, the double given by its bits. -/
  | general (bits : Nat)
  deriving DecidableEq, Repr

/-- The `jlong` returned by `nativeGetLong`. -/
inductive JLong where
  | value (v : Int)
  /-- `strtoll(value, NULL, 0)` of the text stored at the offset. -/
  | strtoll (offset : Nat)
  /-- `jlong(d)` of the double with the given bits. -/
  | ofDouble (bits : Nat)
  deriving DecidableEq, Repr

/-- The `jdouble` returned by `nativeGetDouble`. -/
inductive JDouble where
  /-- The double with the given bits (`0.0` is `bits 0`). -/
  | bits (b : Nat)
  /-- `strtod(value, NULL)` of the text stored at the offset. -/
  | strtod (offset : Nat)
  /-- `jdouble(v)` of the integer. -/
  | ofLong (v : Int)
  deriving DecidableEq, Repr

/-- What `nativeCopyStringToBuffer` does to the `CharArrayBuffer`. -/
inductive BufferEffect where
  | untouched
  /-- `fillCharArrayBufferUTF` with these UTF-8 bytes. -/
  | filled (bytes : List Byte)
  /-- `fillCharArrayBufferUTF` with `snprintf("%lld", value)`. -/
  | filledDecimal (value : Int)
  /-- `fillCharArrayBufferUTF` with `snprintf("%g", value)`. -/
  | filledGeneral (bits : Nat)
  /-- `clearCharArrayBuffer`. -/
  | cleared
  deriving DecidableEq, Repr

/-- The `size` bytes of the buffer that start at `offset`. -/
def bytesAt (m : Mem) (offset size : Nat) : List Byte :=
  (List.range size).map (fun i => m (offset + i))

/-- The text that `sprintf` produces in `throwExceptionWithRowCol`, without the
terminating NUL; `%d` prints the `jint` in decimal. -/
def rowColMessage (row column : Int) : String :=
  "Couldn\x27t read row " ++ toString row ++ ", col " ++ toString column ++
    " from AshmemCursorWindow.  Make sure the Cursor is initialized correctly before " ++
    "accessing data from it."

/-- `throwExceptionWithRowCol`: `sprintf` writes the text and its NUL into
`str = new char[100]`.  When they fit, the text becomes the message of an
`IllegalStateException`; when they do not, `sprintf` writes past the end of the array. -/
def throwExceptionWithRowCol (row column : Int) : Pending :=
  if (rowColMessage row column).length + 1 ≤ 100 then Pending.illegalStateRowCol row column
  else Pending.overrun ((rowColMessage row column).length + 1)

/-- `nativeGetType`. -/
def nativeGetType (s : Window) (row column : Int) : Pending × Nat :=
  match getFieldSlot s (jintToU32 row) (jintToU32 column) with
  | none => (Pending.nothing, NEW_FIELD_TYPE_NULL)
  | some fieldSlot => (Pending.nothing, getFieldSlotType s fieldSlot)

/-- `nativeGetBlob`; `newByteArray` tells whether `env->NewByteArray` succeeds. -/
def nativeGetBlob (s : Window) (row column : Int) (newByteArray : Bool) :
    Pending × Option (List Byte) :=
  match getFieldSlot s (jintToU32 row) (jintToU32 column) with
  | none => (throwExceptionWithRowCol row column, none)
  | some fieldSlot =>
    let type := getFieldSlotType s fieldSlot
    if type = NEW_FIELD_TYPE_BLOB ∨ type = NEW_FIELD_TYPE_STRING then
      let v := getFieldSlotValueBlob s fieldSlot
      if newByteArray then (Pending.nothing, some (bytesAt s.mData v.2 v.1))
      else (Pending.sqlite SqliteMessage.couldNotCreateByteArray, none)
    else if type = NEW_FIELD_TYPE_INTEGER then
      (Pending.sqlite SqliteMessage.integerDataInGetBlob, none)
    else if type = NEW_FIELD_TYPE_FLOAT then
      (Pending.sqlite SqliteMessage.floatDataInGetBlob, none)
    else if type = NEW_FIELD_TYPE_NULL then (Pending.nothing, none)
    else (Pending.illegalStateUnknownType type, none)

/-- `nativeGetString`. -/
def nativeGetString (s : Window) (row column : Int) : Pending × JString :=
  match getFieldSlot s (jintToU32 row) (jintToU32 column) with
  | none => (throwExceptionWithRowCol row column, JString.null)
  | some fieldSlot =>
    let type := getFieldSlotType s fieldSlot
    if type = NEW_FIELD_TYPE_STRING then
      let v := getFieldSlotValueString s fieldSlot
      if v.1 ≤ 1 then (Pending.nothing, JString.empty)
      else (Pending.nothing, JString.utf8 (bytesAt s.mData v.2 (v.1 - 1)))
    else if type = NEW_FIELD_TYPE_INTEGER then
      (Pending.nothing, JString.decimal (getFieldSlotValueLong s fieldSlot))
    else if type = NEW_FIELD_TYPE_FLOAT then
      (Pending.nothing, JString.general (getFieldSlotValueDouble s fieldSlot))
    else if type = NEW_FIELD_TYPE_NULL then (Pending.nothing, JString.null)
    else if type = NEW_FIELD_TYPE_BLOB then
      (Pending.sqlite SqliteMessage.unableToConvertBlobToString, JString.null)
    else (Pending.illegalStateUnknownType type, JString.null)

/-- `nativeCopyStringToBuffer`. -/
def nativeCopyStringToBuffer (s : Window) (row column : Int) : Pending × BufferEffect :=
  match getFieldSlot s (jintToU32 row) (jintToU32 column) with
  | none => (throwExceptionWithRowCol row column, BufferEffect.untouched)
  | some fieldSlot =>
    let type := getFieldSlotType s fieldSlot
    if type = NEW_FIELD_TYPE_STRING then
      let v := getFieldSlotValueString s fieldSlot
      if v.1 > 1 then (Pending.nothing, BufferEffect.filled (bytesAt s.mData v.2 (v.1 - 1)))
      else (Pending.nothing, BufferEffect.cleared)
    else if type = NEW_FIELD_TYPE_INTEGER then
      (Pending.nothing, BufferEffect.filledDecimal (getFieldSlotValueLong s fieldSlot))
    else if type = NEW_FIELD_TYPE_FLOAT then
      (Pending.nothing, BufferEffect.filledGeneral (getFieldSlotValueDouble s fieldSlot))
    else if type = NEW_FIELD_TYPE_NULL then (Pending.nothing, BufferEffect.cleared)
    else if type = NEW_FIELD_TYPE_BLOB then
      (Pending.sqlite SqliteMessage.unableToConvertBlobToString, BufferEffect.untouched)
    else (Pending.illegalStateUnknownType type, BufferEffect.untouched)

/-- `nativeGetLong`. -/
def nativeGetLong (s : Window) (row column : Int) : Pending × JLong :=
  match getFieldSlot s (jintToU32 row) (jintToU32 column) with
  | none => (throwExceptionWithRowCol row column, JLong.value 0)
  | some fieldSlot =>
    let type := getFieldSlotType s fieldSlot
    if type = NEW_FIELD_TYPE_INTEGER then
      (Pending.nothing, JLong.value (getFieldSlotValueLong s fieldSlot))
    else if type = NEW_FIELD_TYPE_STRING then
      let v := getFieldSlotValueString s fieldSlot
      if v.1 > 1 then (Pending.nothing, JLong.strtoll v.2) else (Pending.nothing, JLong.value 0)
    else if type = NEW_FIELD_TYPE_FLOAT then
      (Pending.nothing, JLong.ofDouble (getFieldSlotValueDouble s fieldSlot))
    else if type = NEW_FIELD_TYPE_NULL then (Pending.nothing, JLong.value 0)
    else if type = NEW_FIELD_TYPE_BLOB then
      (Pending.sqlite SqliteMessage.unableToConvertBlobToLong, JLong.value 0)
    else (Pending.illegalStateUnknownType type, JLong.value 0)

/-- `nativeGetDouble`. -/
def nativeGetDouble (s : Window) (row column : Int) : Pending × JDouble :=
  match getFieldSlot s (jintToU32 row) (jintToU32 column) with
  | none => (throwExceptionWithRowCol row column, JDouble.bits 0)
  | some fieldSlot =>
    let type := getFieldSlotType s fieldSlot
    if type = NEW_FIELD_TYPE_FLOAT then
      (Pending.nothing, JDouble.bits (getFieldSlotValueDouble s fieldSlot))
    else if type = NEW_FIELD_TYPE_STRING then
      let v := getFieldSlotValueString s fieldSlot
      if v.1 > 1 then (Pending.nothing, JDouble.strtod v.2) else (Pending.nothing, JDouble.bits 0)
    else if type = NEW_FIELD_TYPE_INTEGER then
      (Pending.nothing, JDouble.ofLong (getFieldSlotValueLong s fieldSlot))
    else if type = NEW_FIELD_TYPE_NULL then (Pending.nothing, JDouble.bits 0)
    else if type = NEW_FIELD_TYPE_BLOB then
      (Pending.sqlite SqliteMessage.unableToConvertBlobToDouble, JDouble.bits 0)
    else (Pending.illegalStateUnknownType type, JDouble.bits 0)

end Ashmem

/-! ## Shared window: `AshmemCursorWindow::create` -/

namespace Ashmem

/-- Numeric value of a `status_t` result code, as in the platform header
`utils/Errors.h`: `OK = 0`, `NO_MEMORY = -ENOMEM`, `INVALID_OPERATION = -ENOSYS`,
`BAD_VALUE = -EINVAL`. -/
def Status.code : Status → Int
  | Status.OK => 0
  | Status.NO_MEMORY => -12
  | Status.INVALID_OPERATION => -38
  | Status.BAD_VALUE => -22

/-- What the operating system answers to the calls made by `create`. -/
structure CreateEnv where
  /-- Return value of `ashmem_create_region`. -/
  ashmemFd : Int
  /-- Value of `errno` after a failed `ashmem_create_region`. -/
  createErrno : Int
  /-- Return value of `ashmem_set_prot_region(ashmemFd, PROT_READ | PROT_WRITE)`. -/
  protReadWrite : Int
  /-- Result of `mmap`: `none` for `MAP_FAILED`, else the bytes of the mapped region. -/
  mapped : Option Mem
  /-- The address that a successful `mmap` returns. -/
  mappedAt : Nat
  /-- Value of `errno` after a failed `mmap`. -/
  mmapErrno : Int
  /-- Return value of `ashmem_set_prot_region(ashmemFd, PROT_READ)`. -/
  protRead : Int

/-- The calls that `create` makes.  In `setProtRegion` and `mmap` the flag tells
whether the protection is `PROT_READ | PROT_WRITE` (`true`) or `PROT_READ` (`false`);
`construct` is `new AshmemCursorWindow(.., readOnly)` and `destroy` is `delete window`. -/
inductive CreateEvent where
  | createRegion (size : Nat)
  | setProtRegion (write : Bool)
  | mmap (size : Nat) (write : Bool)
  | construct (readOnly : Bool)
  | clear
  | destroy
  | munmap
  | close
  deriving DecidableEq, Repr

/-- One execution of `create`: the calls made in program order, the returned
`status_t`, and `*outAshmemCursorWindow` (`none` for `NULL`). -/
structure CreateRun where
  calls : List CreateEvent
  result : Int
  out : Option Window

/-- `AshmemCursorWindow::create(name, size, outAshmemCursorWindow)`. -/
def create (env : CreateEnv) (size : Nat) : CreateRun :=
  if env.ashmemFd < 0 then
    { calls := [CreateEvent.createRegion size], result := -env.createErrno, out := none }
  else if env.protReadWrite ≥ 0 then
    match env.mapped with
    | none =>
      { calls := [CreateEvent.createRegion size, CreateEvent.setProtRegion true,
          CreateEvent.mmap size true, CreateEvent.munmap, CreateEvent.close]
        result := -env.mmapErrno
        out := none }
    | some mem =>
      if env.protRead ≥ 0 then
        let r := clear
          { mData := mem, mDataPtr := env.mappedAt, mSize := size, mReadOnly := false }
        if Status.code r.1 = 0 then
          { calls := [CreateEvent.createRegion size, CreateEvent.setProtRegion true,
              CreateEvent.mmap size true, CreateEvent.setProtRegion false,
              CreateEvent.construct false, CreateEvent.clear]
            result := Status.code Status.OK
            out := some r.2 }
        else
          { calls := [CreateEvent.createRegion size, CreateEvent.setProtRegion true,
              CreateEvent.mmap size true, CreateEvent.setProtRegion false,
              CreateEvent.construct false, CreateEvent.clear, CreateEvent.destroy,
              CreateEvent.munmap, CreateEvent.close]
            result := Status.code r.1
            out := none }
      else
        { calls := [CreateEvent.createRegion size, CreateEvent.setProtRegion true,
            CreateEvent.mmap size true, CreateEvent.setProtRegion false,
            CreateEvent.munmap, CreateEvent.close]
          result := env.protRead
          out := none }
  else
    { calls := [CreateEvent.createRegion size, CreateEvent.setProtRegion true,
        CreateEvent.close]
      result := env.protReadWrite
      out := none }

end Ashmem

/-! ## Growable window: `src/android-database-sqlcipher/src/main/cpp/CursorWindow.cpp`

`CursorWindow.h` is not part of the sources.  What the `.cpp` file takes from it
(the header layout, the chunk capacity, the two compile-time switches and the
width of `size_t`) is collected in `Config`; the shape of `field_slot_t` and the
type tags are modelled from the specification. -/

namespace Growable

/-- Compile-time facts that `CursorWindow.cpp` takes from the missing `CursorWindow.h`. -/
structure Config where
  /-- Width of `size_t` in bits. -/
  sizeBits : Nat
  /-- `sizeof(window_header_t)`. -/
  headerSize : Nat
  /-- Byte offset of `numRows` in `window_header_t`. -/
  numRowsOff : Nat
  /-- Byte offset of `numColumns` in `window_header_t`. -/
  numColumnsOff : Nat
  /-- `ROW_SLOT_CHUNK_NUM_ROWS`. -/
  chunkNumRows : Nat
  /-- `WINDOW_STORAGE_INLINE_NUMERICS`. -/
  inlineNumerics : Bool
  /-- Default value of the parameter `aligned` of `alloc`. -/
  defaultAligned : Bool

/-- Modelled from the spec: `ROW_SLOT_CHUNK_SIZE`, the byte size of a row-slot chunk,
missing with `CursorWindow.h`: a fixed-capacity array of `RowSlot{offset: u32}`
entries plus a trailing `nextChunkOffset` (u32). -/
def ROW_SLOT_CHUNK_SIZE (cfg : Config) : Nat := cfg.chunkNumRows * 4 + 4

/-- Modelled from the spec: `sizeof(field_slot_t)`, missing with `CursorWindow.h`:
`{ type:i32; union{ d:f64; l:i64; {offset:u32,size:u32} } }`, packed, with the tag
at byte 0, and the union at byte 4 (`buffer.offset` at byte 4, `buffer.size` at byte 8). -/
def FIELD_SLOT_SIZE : Nat := 12

/-- Modelled from the spec: the type tags of the growable variant, missing with
`CursorWindow.h`; the tag set {NULL, INTEGER, FLOAT, STRING, BLOB} with the values of
the sibling header. -/
def FIELD_TYPE_NULL : Nat := 0
def FIELD_TYPE_INTEGER : Nat := 1
def FIELD_TYPE_FLOAT : Nat := 2
def FIELD_TYPE_STRING : Nat := 3
def FIELD_TYPE_BLOB : Nat := 4

/-- Outcome of the `realloc` call inside `alloc`, chosen by the C library. -/
inductive Realloc where
  | failed
  | inPlace
  | moved
  deriving DecidableEq, Repr

/-- The members of `CursorWindow`.  `mHeader` is `mData` itself.  The
`unordered_map<int, uint32_t>` is an association list whose first match wins and
whose `insert` leaves an existing key alone. -/
structure CursorWindow where
  mData : Mem
  mSize : Nat
  mInitialSize : Nat
  mGrowthPaddingSize : Nat
  mMaxSize : Nat
  mFreeOffset : Nat
  mChunkNumToNextChunkOffset : List (Nat × Nat)
  mLastChunkPtrOffset : Nat

/-- Header field `mHeader->numRows`. -/
def numRows (cfg : Config) (s : CursorWindow) : Nat := read32 s.mData cfg.numRowsOff

/-- Header field `mHeader->numColumns`. -/
def numColumns (cfg : Config) (s : CursorWindow) : Nat := read32 s.mData cfg.numColumnsOff

/-- `unordered_map::find`. -/
def mapFind (l : List (Nat × Nat)) (k : Nat) : Option Nat :=
  match l with
  | [] => none
  | (k1, v) :: rest => if k1 = k then some v else mapFind rest k

/-- `unordered_map::insert`: no effect when the key is present. -/
def mapInsert (l : List (Nat × Nat)) (k v : Nat) : List (Nat × Nat) :=
  match mapFind l k with
  | some _ => l
  | none => (k, v) :: l

/-- `CursorWindow::clear`. -/
def clear (cfg : Config) (s : CursorWindow) : CursorWindow :=
  let m1 := write32 s.mData cfg.numRowsOff 0
  let m2 := write32 m1 cfg.numColumnsOff 0
  let free := (cfg.headerSize + ROW_SLOT_CHUNK_SIZE cfg) % U32
  { s with
    mData := write32 m2 (free - 4) 0
    mFreeOffset := free
    mChunkNumToNextChunkOffset := []
    mLastChunkPtrOffset := 0 }

/-- The constructor `CursorWindow::CursorWindow` followed by a successful
`initBuffer`: `malloc(mInitialSize)` returned the (uninitialised) block `mem`. -/
def initBuffer (cfg : Config) (initialSize growthPaddingSize maxSize : Nat) (mem : Mem) :
    CursorWindow :=
  clear cfg
    { mData := mem
      mSize := initialSize
      mInitialSize := initialSize
      mGrowthPaddingSize := growthPaddingSize
      mMaxSize := maxSize
      mFreeOffset := 0
      mChunkNumToNextChunkOffset := []
      mLastChunkPtrOffset := 0 }

/-- `CursorWindow::freeSpace`: `mSize - mFreeOffset` is formed in `size_t`, converted to
`int32_t` (low 32 bits, two's complement) and clamped at 0. -/
def freeSpace (cfg : Config) (s : CursorWindow) : Nat :=
  let d := ((s.mSize + 2 ^ cfg.sizeBits - s.mFreeOffset % 2 ^ cfg.sizeBits) % 2 ^ cfg.sizeBits) % U32
  if d < 2147483648 then d else 0

/-- The `uint32_t padding` of `alloc`. -/
def allocPadding (s : CursorWindow) (aligned : Bool) : Nat :=
  if aligned then 4 - s.mFreeOffset % 4 else 0

/-- The `size_t size` of `alloc`. -/
def allocSize (cfg : Config) (s : CursorWindow) (requestedSize : Nat) (aligned : Bool) : Nat :=
  (requestedSize + allocPadding s aligned) % 2 ^ cfg.sizeBits

/-- The `size_t new_allocation_sz` of `alloc` (used when `size > freeSpace()`). -/
def newAllocationSz (cfg : Config) (s : CursorWindow) (requestedSize : Nat) (aligned : Bool) :
    Nat :=
  (s.mSize + allocSize cfg s requestedSize aligned - freeSpace cfg s + s.mGrowthPaddingSize)
    % 2 ^ cfg.sizeBits

/-- `CursorWindow::alloc`.  Returns the `uint32_t` result and the new state; `re` is the
outcome of `realloc` should it be called.  A grown block keeps its old bytes; the
bytes added are whatever the memory holds there. -/
def alloc (cfg : Config) (s : CursorWindow) (requestedSize : Nat) (aligned : Bool)
    (re : Realloc) : Nat × CursorWindow :=
  let padding := allocPadding s aligned
  let size := allocSize cfg s requestedSize aligned
  let commit (t : CursorWindow) : Nat × CursorWindow :=
    ((t.mFreeOffset + padding) % U32, { t with mFreeOffset := (t.mFreeOffset + size) % U32 })
  if size > freeSpace cfg s then
    let new_allocation_sz := newAllocationSz cfg s requestedSize aligned
    if s.mMaxSize = 0 ∨ new_allocation_sz ≤ s.mMaxSize then
      if re = Realloc.failed then (0, s)
      else commit { s with mSize := new_allocation_sz }
    else (0, s)
  else commit s

/-- Whether `alloc` replaces `mData` by a block at another address. -/
def allocRelocates (cfg : Config) (s : CursorWindow) (requestedSize : Nat) (aligned : Bool)
    (re : Realloc) : Bool :=
  decide (allocSize cfg s requestedSize aligned > freeSpace cfg s) &&
    decide (s.mMaxSize = 0 ∨ newAllocationSz cfg s requestedSize aligned ≤ s.mMaxSize) &&
    decide (re = Realloc.moved)

/-- The list walk of `getRowSlot`: `n` hops from the chunk whose link word is at
`chunkPtrOffset`; the result is `rowChunk - mData`. -/
def walkChunks (cfg : Config) (m : Mem) : Nat → Nat → Nat → Nat
  | 0, rowChunk, _ => rowChunk
  | n + 1, _, chunkPtrOffset =>
    let rowChunk := read32 m chunkPtrOffset
    walkChunks cfg m n rowChunk (rowChunk + cfg.chunkNumRows * 4)

/-- `CursorWindow::getRowSlot` for `row ≥ 0`: the offset of the row slot. -/
def getRowSlot (cfg : Config) (s : CursorWindow) (row : Nat) : Nat :=
  let chunkNum := row / cfg.chunkNumRows
  let chunkPos := row % cfg.chunkNumRows
  match mapFind s.mChunkNumToNextChunkOffset chunkNum with
  | some off => off + chunkPos * 4
  | none =>
    walkChunks cfg s.mData chunkNum cfg.headerSize
      (cfg.headerSize + ROW_SLOT_CHUNK_SIZE cfg - 4) + chunkPos * 4

/-- The fallback of `getRowSlot`, taken when the cache has no entry for the chunk:
the walk of the linked list from the first chunk. -/
def getRowSlotWalk (cfg : Config) (s : CursorWindow) (row : Nat) : Nat :=
  walkChunks cfg s.mData (row / cfg.chunkNumRows) cfg.headerSize
    (cfg.headerSize + ROW_SLOT_CHUNK_SIZE cfg - 4) + (row % cfg.chunkNumRows) * 4

/-- `CursorWindow::allocRowSlot`: the offset of the new row slot (`none` for `NULL`)
and the new state. -/
def allocRowSlot (cfg : Config) (s : CursorWindow) (re : Realloc) :
    Option Nat × CursorWindow :=
  let chunkNum := numRows cfg s / cfg.chunkNumRows
  let chunkPos := numRows cfg s % cfg.chunkNumRows
  let chunkPtrOffset :=
    if s.mLastChunkPtrOffset ≠ 0 then s.mLastChunkPtrOffset
    else cfg.headerSize + ROW_SLOT_CHUNK_SIZE cfg - 4
  let count (t : CursorWindow) (rowChunk : Nat) : Option Nat × CursorWindow :=
    (some (rowChunk + chunkPos * 4),
      { t with mData := write32 t.mData cfg.numRowsOff ((numRows cfg t + 1) % U32) })
  if chunkNum > 0 then
    let nextChunkOffset := read32 s.mData chunkPtrOffset
    if nextChunkOffset = 0 then
      let s1 := { s with mLastChunkPtrOffset := chunkPtrOffset }
      let r := alloc cfg s1 (ROW_SLOT_CHUNK_SIZE cfg) true re
      let s2 := { r.2 with
        mChunkNumToNextChunkOffset := mapInsert r.2.mChunkNumToNextChunkOffset chunkNum r.1 }
      if r.1 = 0 then (none, s2)
      else
        let m1 := write32 s2.mData chunkPtrOffset r.1
        let m2 := write32 m1 (r.1 + ROW_SLOT_CHUNK_SIZE cfg - 4) 0
        count { s2 with mData := m2 } r.1
    else
      let chunkPtrOffset1 := nextChunkOffset + cfg.chunkNumRows * 4
      let s1 :=
        if chunkPos = cfg.chunkNumRows - 1 then { s with mLastChunkPtrOffset := chunkPtrOffset1 }
        else s
      count s1 nextChunkOffset
  else count s cfg.headerSize

/-- `CursorWindow::allocRow`: the offset of the field directory (`none` for `NULL`) and
the new state; `re1`, `re2` are the `realloc` outcomes of the two allocations. -/
def allocRow (cfg : Config) (s : CursorWindow) (re1 re2 : Realloc) :
    Option Nat × CursorWindow :=
  match allocRowSlot cfg s re1 with
  | (none, s1) => (none, s1)
  | (some rowSlotOffset, s1) =>
    let fieldDirSize := (numColumns cfg s1 * FIELD_SLOT_SIZE) % 2 ^ cfg.sizeBits
    let r := alloc cfg s1 fieldDirSize cfg.defaultAligned re2
    if r.1 = 0 then
      (none, { r.2 with
        mData := write32 r.2.mData cfg.numRowsOff ((numRows cfg r.2 + (U32 - 1)) % U32) })
    else
      let m1 := memset0 r.2.mData r.1 fieldDirSize
      (some r.1, { r.2 with mData := write32 m1 rowSlotOffset r.1 })

/-- `CursorWindow::getFieldSlotWithCheck` with its `int` arguments: the offset of the
field slot, `none` for `NULL`. -/
def getFieldSlotWithCheck (cfg : Config) (s : CursorWindow) (row column : Int) : Option Nat :=
  if row < 0 ∨ row ≥ (numRows cfg s : Int) ∨ column < 0 ∨ column ≥ (numColumns cfg s : Int) then
    none
  else
    let rowSlot := getRowSlot cfg s row.toNat
    let offset := read32 s.mData rowSlot
    if offset = 0 ∨ offset ≥ s.mSize then none
    else some (offset + column.toNat * FIELD_SLOT_SIZE)

/-- Conversion of an `unsigned int` argument to the `int` parameter of
`getFieldSlotWithCheck`. -/
def toInt32 (x : Nat) : Int :=
  if x % U32 < 2147483648 then ((x % U32 : Nat) : Int) else ((x % U32 : Nat) : Int) - (U32 : Int)

/-- `CursorWindow::putLong`.  In the out-of-line mode the pointer `fieldSlot` is taken
before `alloc`; when `alloc` moved the block the three stores through it go to the
released block and do not reach the window. -/
def putLong (cfg : Config) (s : CursorWindow) (row col : Nat) (value : Int) (re : Realloc) :
    Bool × CursorWindow :=
  match getFieldSlotWithCheck cfg s (toInt32 row) (toInt32 col) with
  | none => (false, s)
  | some fieldSlot =>
    if cfg.inlineNumerics then
      let m1 := write64 s.mData (fieldSlot + 4) (toU64 value)
      (true, { s with mData := write32 m1 fieldSlot FIELD_TYPE_INTEGER })
    else
      let r := alloc cfg s 8 cfg.defaultAligned re
      if r.1 = 0 then (false, r.2)
      else
        let m1 := write64 r.2.mData r.1 (toU64 value)
        if allocRelocates cfg s 8 cfg.defaultAligned re then (true, { r.2 with mData := m1 })
        else
          let m2 := write32 m1 (fieldSlot + 4) r.1
          let m3 := write32 m2 (fieldSlot + 8) 8
          (true, { r.2 with mData := write32 m3 fieldSlot FIELD_TYPE_INTEGER })

/-- `CursorWindow::putDouble`; the `double` is carried as its 64-bit pattern. -/
def putDouble (cfg : Config) (s : CursorWindow) (row col : Nat) (bits : Nat) (re : Realloc) :
    Bool × CursorWindow :=
  match getFieldSlotWithCheck cfg s (toInt32 row) (toInt32 col) with
  | none => (false, s)
  | some fieldSlot =>
    if cfg.inlineNumerics then
      let m1 := write64 s.mData (fieldSlot + 4) bits
      (true, { s with mData := write32 m1 fieldSlot FIELD_TYPE_FLOAT })
    else
      let r := alloc cfg s 8 cfg.defaultAligned re
      if r.1 = 0 then (false, r.2)
      else
        let m1 := write64 r.2.mData r.1 bits
        if allocRelocates cfg s 8 cfg.defaultAligned re then (true, { r.2 with mData := m1 })
        else
          let m2 := write32 m1 (fieldSlot + 4) r.1
          let m3 := write32 m2 (fieldSlot + 8) 8
          (true, { r.2 with mData := write32 m3 fieldSlot FIELD_TYPE_FLOAT })

/-- `CursorWindow::putNull`. -/
def putNull (cfg : Config) (s : CursorWindow) (row col : Nat) : Bool × CursorWindow :=
  match getFieldSlotWithCheck cfg s (toInt32 row) (toInt32 col) with
  | none => (false, s)
  | some fieldSlot =>
    let m1 := write32 s.mData fieldSlot FIELD_TYPE_NULL
    let m2 := write32 m1 (fieldSlot + 4) 0
    (true, { s with mData := write32 m2 (fieldSlot + 8) 0 })

/-- `CursorWindow::getLong`: the returned flag and `*valueOut` (`none` when it is not
written). -/
def getLong (cfg : Config) (s : CursorWindow) (row col : Nat) : Bool × Option Int :=
  match getFieldSlotWithCheck cfg s (toInt32 row) (toInt32 col) with
  | none => (false, none)
  | some fieldSlot =>
    if read32 s.mData fieldSlot ≠ FIELD_TYPE_INTEGER then (false, none)
    else if cfg.inlineNumerics then (true, some (ofU64 (read64 s.mData (fieldSlot + 4))))
    else (true, some (ofU64 (read64 s.mData (read32 s.mData (fieldSlot + 4)))))

/-- `CursorWindow::getDouble`: the returned flag and the bit pattern of `*valueOut`. -/
def getDouble (cfg : Config) (s : CursorWindow) (row col : Nat) : Bool × Option Nat :=
  match getFieldSlotWithCheck cfg s (toInt32 row) (toInt32 col) with
  | none => (false, none)
  | some fieldSlot =>
    if read32 s.mData fieldSlot ≠ FIELD_TYPE_FLOAT then (false, none)
    else if cfg.inlineNumerics then (true, some (read64 s.mData (fieldSlot + 4)))
    else (true, some (read64 s.mData (read32 s.mData (fieldSlot + 4))))

/-- `CursorWindow::getNull`: the returned flag and `*valueOut`. -/
def getNull (cfg : Config) (s : CursorWindow) (row col : Nat) : Bool × Option Bool :=
  match getFieldSlotWithCheck cfg s (toInt32 row) (toInt32 col) with
  | none => (false, none)
  | some fieldSlot =>
    if read32 s.mData fieldSlot ≠ FIELD_TYPE_NULL then (true, some false)
    else (true, some true)

/-- Modelled from the spec: `setNumColumns` of the growable window, declared in the
missing `CursorWindow.h`: it fixes the column count, is a no-op when called again
with the same value, and fails if rows already exist or columns already differ. -/
def setNumColumns (cfg : Config) (s : CursorWindow) (n : Nat) : Bool × CursorWindow :=
  let cur := numColumns cfg s
  if (cur > 0 ∨ numRows cfg s > 0) ∧ cur ≠ n then (false, s)
  else (true, { s with mData := write32 s.mData cfg.numColumnsOff n })

/-- The mutating operations of the growable window, each with the `realloc` outcomes
it may consume. -/
inductive Op where
  | clear
  | setNumColumns (n : Nat)
  | allocRow (re1 re2 : Realloc)
  | alloc (requestedSize : Nat) (aligned : Bool) (re : Realloc)
  | putLong (row col : Nat) (value : Int) (re : Realloc)
  | putDouble (row col : Nat) (bits : Nat) (re : Realloc)
  | putNull (row col : Nat)

/-- Run one operation. -/
def step (cfg : Config) (s : CursorWindow) : Op → CursorWindow
  | Op.clear => clear cfg s
  | Op.setNumColumns n => (setNumColumns cfg s n).2
  | Op.allocRow re1 re2 => (allocRow cfg s re1 re2).2
  | Op.alloc n a re => (alloc cfg s n a re).2
  | Op.putLong r c v re => (putLong cfg s r c v re).2
  | Op.putDouble r c b re => (putDouble cfg s r c b re).2
  | Op.putNull r c => (putNull cfg s r c).2

/-- Run a sequence of operations. -/
def run (cfg : Config) (s : CursorWindow) : List Op → CursorWindow
  | [] => s
  | op :: ops => run cfg (step cfg s op) ops

end Growable

/-! ## Growable window: `copyIn` and `copyOut` -/

namespace Growable

/-- `CursorWindow::copyIn(uint32_t offset, uint8_t const* data, size_t size)`: `none`
when `assert(offset + size <= mSize)` fails (the sum is formed in `size_t`), else the
state after `memcpy(mData + offset, data, size)`. -/
def copyIn (cfg : Config) (s : CursorWindow) (offset : Nat) (data : Nat → Byte) (size : Nat) :
    Option CursorWindow :=
  if (offset + size) % 2 ^ cfg.sizeBits ≤ s.mSize then
    some { s with mData := memcpy s.mData offset data size }
  else none

/-- `CursorWindow::copyOut(uint32_t offset, uint8_t* data, size_t size)`: `none` when
`assert(offset + size <= mSize)` fails, else the `size` bytes stored to `data`. -/
def copyOut (cfg : Config) (s : CursorWindow) (offset size : Nat) : Option (List Byte) :=
  if (offset + size) % 2 ^ cfg.sizeBits ≤ s.mSize then
    some ((List.range size).map (fun i => s.mData (offset + i)))
  else none

/-- The operations of a run of `alloc` calls, given the size, alignment flag and
`realloc` outcome of each. -/
def allocOps (rs : List (Nat × Bool × Realloc)) : List Op :=
  rs.map (fun r => Op.alloc r.1 r.2.1 r.2.2)

end Growable

/-! ## Layout invariant of the shared window -/

namespace Ashmem

/-- Offset of the `k`-th chunk of the row-slot chunk list: `firstChunkOffset`, then
`k` times `nextChunkOffset`. -/
def chunkAt (m : Mem) : Nat → Nat
  | 0 => read32 m 4
  | k + 1 => read32 m (chunkAt m k + 400)

/-- `k` hops along `nextChunkOffset` starting at chunk `c`. -/
def chunkFrom (m : Mem) (c : Nat) : Nat → Nat
  | 0 => c
  | k + 1 => chunkFrom m (read32 m (c + 400)) k

/-- Address of the row slot of `row`: slot `row % 100` of chunk `row / 100`. -/
def rowSlotAddr (m : Mem) (row : Nat) : Nat := chunkAt m (row / 100) + 4 * (row % 100)

/-- Offset of the field directory of `row`, as stored in its row slot. -/
def rowDir (m : Mem) (row : Nat) : Nat := read32 m (rowSlotAddr m row)

/-- Index of the last chunk that holds a slot of an allocated row (0 when there is
no row). -/
def lastChunk (s : Window) : Nat := (numRows s - 1) / 100

/-- The `nextChunkOffset` of the last chunk in use: 0, or a chunk left behind by
`freeLastRow`. -/
def spareChunk (s : Window) : Nat := read32 s.mData (chunkAt s.mData (lastChunk s) + 400)

/-- The words of chunks `0 .. L` of `m` (100 row slots and the link word of each)
read the same in `m1`. -/
def ChunksAgree (m m1 : Mem) (L : Nat) : Prop :=
  ∀ k i, k ≤ L → i ≤ 100 → read32 m1 (chunkAt m k + 4 * i) = read32 m (chunkAt m k + 4 * i)

/-- The `uint32_t padding` that `alloc` adds at free offset `f`. -/
def padOf (f : Nat) (aligned : Bool) : Nat := if aligned then (4 - f % 4) % 4 else 0

/-- Layout invariant of a shared window whose sizes stay below `2^32`: the chunk list
and the field directories lie between the header and the free offset, in
allocation order and without overlap. -/
structure Inv (s : Window) : Prop where
  first : firstChunkOffset s = 16
  free_lo : 420 ≤ freeOffset s
  free_hi : freeOffset s ≤ s.mSize
  regime : s.mSize + 12 * numColumns s + 407 < U32
  chunk_mono : ∀ k, k < lastChunk s → chunkAt s.mData k + 404 ≤ chunkAt s.mData (k + 1)
  chunk_hi : chunkAt s.mData (lastChunk s) + 404 ≤ freeOffset s
  spare : spareChunk s = 0 ∨
    (chunkAt s.mData (lastChunk s) + 404 ≤ spareChunk s ∧ spareChunk s + 404 ≤ freeOffset s)
  row_lo : ∀ r, r < numRows s → 420 ≤ rowDir s.mData r
  row_hi : ∀ r, r < numRows s → rowDir s.mData r + 12 * numColumns s ≤ freeOffset s
  row_chunk : ∀ r k, r < numRows s → k ≤ lastChunk s →
    rowDir s.mData r + 12 * numColumns s ≤ chunkAt s.mData k ∨
      chunkAt s.mData k + 404 ≤ rowDir s.mData r
  row_spare : ∀ r, r < numRows s → spareChunk s ≠ 0 →
    rowDir s.mData r + 12 * numColumns s ≤ spareChunk s ∨ spareChunk s + 404 ≤ rowDir s.mData r
  row_mono : ∀ r r1, r < r1 → r1 < numRows s →
    rowDir s.mData r + 12 * numColumns s ≤ rowDir s.mData r1

/-- The region is mapped inside the 32-bit address space and not at address 0: every
pointer into it, and the one just past its end, is its offset added to `mDataPtr`
without wrap. -/
def Mapped (s : Window) : Prop := 0 < s.mDataPtr ∧ s.mDataPtr + s.mSize ≤ U32

/-- `SlotFor s a`: `a` is the address of the row slot that the next row of `s` gets:
the next slot of the last chunk in use, or slot 0 of the terminated spare chunk when
that chunk is full. -/
def SlotFor (s : Window) (a : Nat) : Prop :=
  (numRows s - 100 * lastChunk s ≠ 100 ∧
      a = chunkAt s.mData (lastChunk s) + 4 * (numRows s - 100 * lastChunk s)) ∨
  (numRows s - 100 * lastChunk s = 100 ∧ spareChunk s = a ∧ a ≠ 0 ∧
      read32 s.mData (a + 400) = 0)

/-- Operations whose size arguments keep the 32-bit offset arithmetic of a window of
`mSize` bytes exact. -/
def Op.Sized (mSize : Nat) : Op → Prop
  | Op.setNumColumns n => mSize + 12 * n + 407 < U32
  | Op.putBlob _ _ _ size => mSize + size < U32
  | Op.putString _ _ _ size => mSize + size < U32
  | _ => True

/-- An operation other than `clear`. -/
def Op.NotClear : Op → Prop
  | Op.clear => False
  | _ => True

end Ashmem

namespace Ashmem

/-- The next row needs a new row-slot chunk: the walk of `allocRowSlot` ends on a full
chunk (`chunkPos == NEW_ROW_SLOT_CHUNK_NUM_ROWS`) whose `nextChunkOffset` is 0. -/
def needsNewChunk (s : Window) : Prop :=
  (allocRowSlotLoop s.mData (numRows s) (firstChunkOffset s) (numRows s)).2 = 100 ∧
  read32 s.mData
    ((allocRowSlotLoop s.mData (numRows s) (firstChunkOffset s) (numRows s)).1 + 400) = 0

end Ashmem

namespace Ashmem

/-- The walk of `getRowSlot` with the `nextChunkOffset` values it reads recorded: the
links followed, in order, and the address returned. -/
def getRowSlotTrace (m : Mem) : Nat → Nat → Nat → List Nat × Nat
  | 0, chunk, chunkPos => ([], chunk + 4 * chunkPos)
  | fuel + 1, chunk, chunkPos =>
    if chunkPos ≥ 100 then
      (read32 m (chunk + 400) ::
          (getRowSlotTrace m fuel (read32 m (chunk + 400)) (chunkPos - 100)).1,
        (getRowSlotTrace m fuel (read32 m (chunk + 400)) (chunkPos - 100)).2)
    else ([], chunk + 4 * chunkPos)

/-- Bookkeeping for one operation: an `allocRow` that returns OK in state `s` records,
for the row index `numRows s`, the slot address that its `allocRowSlot` returned. -/
def noteSlot (W : Nat) (s : Window) (op : Op) (g : Nat → Option Nat) : Nat → Option Nat :=
  match op with
  | Op.allocRow =>
    if (allocRow W s).1 = Status.OK then
      fun r => if r = numRows s then (allocRowSlot s).1 else g r
    else g
  | _ => g

/-- Bookkeeping along a run: for each row index, the slot address that `allocRowSlot`
returned when that row was last allocated. -/
def handedOut (W : Nat) : Window → List Op → (Nat → Option Nat) → Nat → Option Nat
  | _, [], g => g
  | s, op :: ops, g => handedOut W (step W s op).2 ops (noteSlot W s op g)

end Ashmem

/-! ## Predicates on growable windows -/

namespace Growable

/-- `Capped M s`: the window was created with maximum size `M` and its total size
does not exceed it. -/
def Capped (M : Nat) (s : CursorWindow) : Prop := s.mMaxSize = M ∧ s.mSize ≤ M

/-- The `chunkPtrOffset` with which `allocRowSlot` starts: `mLastChunkPtrOffset` when it
is set, else the link word of the first chunk. -/
def chunkPtrOffsetOf (cfg : Config) (s : CursorWindow) : Nat :=
  if s.mLastChunkPtrOffset ≠ 0 then s.mLastChunkPtrOffset
  else cfg.headerSize + ROW_SLOT_CHUNK_SIZE cfg - 4

/-- The next row needs a new row-slot chunk: `chunkNum > 0` and the link word read by
`allocRowSlot` is 0. -/
def needsNewChunk (cfg : Config) (s : CursorWindow) : Prop :=
  numRows cfg s / cfg.chunkNumRows > 0 ∧ read32 s.mData (chunkPtrOffsetOf cfg s) = 0

/-- `mLastChunkPtrOffset` is unset or lies behind the `numRows` field of the header. -/
def LastOk (cfg : Config) (s : CursorWindow) : Prop :=
  s.mLastChunkPtrOffset = 0 ∨ cfg.numRowsOff + 4 ≤ s.mLastChunkPtrOffset

/-- A request of `n` bytes whose size computation in `alloc` does not overflow `size_t`. -/
def AllocFits (cfg : Config) (s : CursorWindow) (n : Nat) : Prop :=
  s.mSize + n + 4 + s.mGrowthPaddingSize < 2 ^ cfg.sizeBits

/-- Every allocation that the operation requests in state `s` fits (`AllocFits`). -/
def Op.Fits (cfg : Config) (s : CursorWindow) : Op → Prop
  | Op.alloc n _ _ => AllocFits cfg s n
  | Op.allocRow re1 _ =>
    AllocFits cfg s (ROW_SLOT_CHUNK_SIZE cfg) ∧
    AllocFits cfg (allocRowSlot cfg s re1).2
      ((numColumns cfg (allocRowSlot cfg s re1).2 * FIELD_SLOT_SIZE) % 2 ^ cfg.sizeBits)
  | Op.putLong _ _ _ _ => AllocFits cfg s 8
  | Op.putDouble _ _ _ _ => AllocFits cfg s 8
  | _ => True

/-- Along the run, every allocation request fits at the state in which it is made. -/
def RunFits (cfg : Config) : CursorWindow → List Op → Prop
  | _, [] => True
  | s, op :: ops => op.Fits cfg s ∧ RunFits cfg (step cfg s op) ops

/-- The free offset is within the buffer, the buffer is at least as large as the header
plus the first chunk, and its size is a `size_t` value. -/
def Within (cfg : Config) (s : CursorWindow) : Prop :=
  s.mFreeOffset ≤ s.mSize ∧ s.mSize < 2 ^ cfg.sizeBits ∧
    cfg.headerSize + ROW_SLOT_CHUNK_SIZE cfg ≤ s.mSize

end Growable

namespace Growable

/-- Offset of the `k`-th chunk of the row-slot chunk list: the first chunk follows the
header, each further one is found through the link word of its predecessor. -/
def chunkOffset (cfg : Config) (m : Mem) : Nat → Nat
  | 0 => cfg.headerSize
  | k + 1 => read32 m (chunkOffset cfg m k + cfg.chunkNumRows * 4)

/-- Index of the last chunk that holds a slot of an allocated row (0 when there is no
row). -/
def lastIdx (cfg : Config) (s : CursorWindow) : Nat := (numRows cfg s - 1) / cfg.chunkNumRows

/-- State of a window that was filled by sequential appends: the chunks in use lie in
allocation order between the header and the free offset, the last one is terminated,
the cache holds exactly the chunks after the first, and the pointer with which
`allocRowSlot` starts is the link word of the chunk before the one of the next row. -/
structure Appended (cfg : Config) (s : CursorWindow) : Prop where
  free_le : s.mFreeOffset ≤ s.mSize
  size_lt : s.mSize < 2 ^ cfg.sizeBits
  chunk_mono : ∀ k, k < lastIdx cfg s →
    chunkOffset cfg s.mData k + ROW_SLOT_CHUNK_SIZE cfg ≤ chunkOffset cfg s.mData (k + 1)
  chunk_hi : chunkOffset cfg s.mData (lastIdx cfg s) + ROW_SLOT_CHUNK_SIZE cfg ≤ s.mFreeOffset
  cap : cfg.headerSize + 4 * (cfg.chunkNumRows * (lastIdx cfg s + 1)) ≤ s.mFreeOffset
  last_link :
    read32 s.mData (chunkOffset cfg s.mData (lastIdx cfg s) + cfg.chunkNumRows * 4) = 0
  cache_hit : ∀ k, 1 ≤ k → k ≤ lastIdx cfg s →
    mapFind s.mChunkNumToNextChunkOffset k = some (chunkOffset cfg s.mData k)
  cache_miss : ∀ k, k = 0 ∨ lastIdx cfg s < k → mapFind s.mChunkNumToNextChunkOffset k = none
  last_ptr : chunkPtrOffsetOf cfg s
    = chunkOffset cfg s.mData (numRows cfg s / cfg.chunkNumRows - 1) + cfg.chunkNumRows * 4

/-- The operations of a run of `allocRow` calls, given the `realloc` outcomes of each. -/
def rowOps (rs : List (Realloc × Realloc)) : List Op :=
  rs.map (fun r => Op.allocRow r.1 r.2)

/-- Whether every `allocRow` of the run returns a row. -/
def allSucceed (cfg : Config) : CursorWindow → List (Realloc × Realloc) → Bool
  | _, [] => true
  | s, r :: rs =>
    (allocRow cfg s r.1 r.2).1.isSome && allSucceed cfg (allocRow cfg s r.1 r.2).2 rs

/-- The state that `clear` leaves behind, whatever the column count: no rows, the free
offset behind the first chunk, the first chunk terminated, an empty cache and no
`mLastChunkPtrOffset`. -/
def Cleared (cfg : Config) (s : CursorWindow) : Prop :=
  numRows cfg s = 0 ∧ s.mFreeOffset = cfg.headerSize + ROW_SLOT_CHUNK_SIZE cfg ∧
  read32 s.mData (cfg.headerSize + cfg.chunkNumRows * 4) = 0 ∧
  s.mChunkNumToNextChunkOffset = [] ∧ s.mLastChunkPtrOffset = 0

/-- The row-slot offsets that `allocRowSlot` hands out along a run of `allocRow` calls,
in order. -/
def slotsOf (cfg : Config) : CursorWindow → List (Realloc × Realloc) → List (Option Nat)
  | _, [] => []
  | s, r :: rs => (allocRowSlot cfg s r.1).1 :: slotsOf cfg (allocRow cfg s r.1 r.2).2 rs

end Growable

/-! ## Concrete windows and runs used in the statements below -/

/-- A block of zero bytes. -/
def zeroMem : Mem := fun _ => 0

namespace Ashmem

/-- The `uint32_t padding` of an aligned `alloc` at free offset `f`:
`(~f + 1) & 3`, with `~f = 2^32 - 1 - f`. -/
def alignPadding (f : Nat) : Nat := ((U32 - 1 - f) + 1) % U32 % 4

/-- A writable window of 4096 bytes over a zeroed region mapped at address `2^30`,
before `clear`. -/
def w4096 : Window :=
  { mData := zeroMem, mDataPtr := 1073741824, mSize := 4096, mReadOnly := false }

/-- A window attached read-only to a region of 4096 bytes. -/
def roWin : Window :=
  { mData := zeroMem, mDataPtr := 1073741824, mSize := 4096, mReadOnly := true }

/-- A window created over a region of 100 bytes (`create(name, 100, ..)`), before the
`clear()` that `create` runs. -/
def w100 : Window :=
  { mData := zeroMem, mDataPtr := 1073741824, mSize := 100, mReadOnly := false }

/-- A column count `n` with `n * sizeof(FieldSlot) = 3 * 2^32`. -/
def manyColumns : Nat := 1073741824

/-- One row in a window of `manyColumns` columns. -/
def opsOverlap : List Op := [Op.clear, Op.setNumColumns manyColumns, Op.allocRow]

/-- A row written with `putLong(0, 0, -1)`, then a reset, `manyColumns` columns, and a row
that is allocated and freed. -/
def opsStale : List Op :=
  [Op.clear, Op.setNumColumns 1, Op.allocRow, Op.putLong 0 0 (-1), Op.clear,
    Op.setNumColumns manyColumns, Op.allocRow, Op.freeLastRow]

/-- A row of `manyColumns` columns whose first cell is written before the next row is
allocated. -/
def opsShared : List Op :=
  [Op.clear, Op.setNumColumns manyColumns, Op.allocRow, Op.putLong 0 0 7]

/-- A window of 4096 bytes with three columns and one row. -/
def sOneRow : Window := run 32 w4096 [Op.clear, Op.setNumColumns 3, Op.allocRow]

/-- The bytes of the C string "hi": `h`, `i`, NUL. -/
def hiBytes : Nat → Byte := fun i => if i = 0 then 104 else if i = 1 then 105 else 0

/-- The window `sOneRow` after `putString(0, 1, "hi", 3)`. -/
def sString : Window := (putString sOneRow 0 1 hiBytes 3).2

/-- A window of 4096 bytes with `manyColumns` columns and 101 rows, after
`putLong(0, 0, 0)`. -/
def opsLow : List Op :=
  [Op.clear, Op.setNumColumns manyColumns] ++ List.replicate 101 Op.allocRow ++
    [Op.putLong 0 0 0]

/-- Two columns and 101 rows: the last row lies in a second chunk. -/
def opsRows : List Op := [Op.setNumColumns 2] ++ List.replicate 101 Op.allocRow

/-- Three columns and some cell traffic after a reset. -/
def opsThree : List Op :=
  [Op.allocRow, Op.putLong 0 0 5, Op.setNumColumns 3, Op.freeLastRow, Op.allocRow,
    Op.putBlob 0 1 zeroMem 10]

/-- Two rows in a window of `manyColumns` columns. -/
def opsTwo : List Op := [Op.clear, Op.setNumColumns manyColumns, Op.allocRow, Op.allocRow]

/-- With `manyColumns` columns and 101 rows: `putNull(0, 0)`, whose slot is the row slot
of row 100, then `putLong(100, 0, 16 + 101 * 2^32)`, whose slot is the header. -/
def opsOne : List Op :=
  [Op.clear, Op.setNumColumns manyColumns] ++ List.replicate 101 Op.allocRow ++
    [Op.putNull 0 0, Op.putLong 100 0 433791696912]

/-- A blob of 255 bytes, zero except for bytes 3 (16), 7 (1), 11 (1), 15 (164) and
16 (1). -/
def hdrBytes : Nat → Byte := fun i =>
  if i = 3 then 16 else if i = 7 then 1 else if i = 11 then 1 else if i = 15 then 164
  else if i = 16 then 1 else 0

/-- The run `opsOne` followed by `putBlob(0, 0, hdrBytes, 255)`. -/
def opsZero : List Op := opsOne ++ [Op.putBlob 0 0 hdrBytes 255]

/-- A window of 4096 bytes whose free offset is 421: `w4096` after `clear` and an
unaligned allocation of one byte. -/
def sOdd : Window := (alloc (clear w4096).2 1 false).2

/-- The column `c` of a window mapped at address `2^30` for which
`2^30 + 420 + 12 * c = 2^32`. -/
def nullColumn : Nat := 268435421

/-- The column `c` with `420 + 12 * c = 4` modulo `2^32`: `12 * c = 2 * 2^32 - 416`. -/
def headerColumn : Nat := 715827848

/-- The last column of a window of `manyColumns` columns. -/
def lastColumn : Nat := 1073741823

/-- A window with `manyColumns` columns and 101 rows, then `putLong(0, lastColumn, 0)`. -/
def opsCut : List Op :=
  [Op.clear, Op.setNumColumns manyColumns] ++ List.replicate 101 Op.allocRow ++
    [Op.putLong 0 lastColumn 0]

/-- An operating system on which every call of `create` succeeds: descriptor 3, a
zero-filled region mapped at address `2^30`; the `errno` values are those a failure
would have left (`ENOMEM`). -/
def envOk : CreateEnv :=
  { ashmemFd := 3, createErrno := 12, protReadWrite := 0, mapped := some zeroMem,
    mappedAt := 1073741824, mmapErrno := 12, protRead := 0 }

end Ashmem

namespace Growable

/-- The layout of the released `CursorWindow.h`: an 8-byte header (`numRows`,
`numColumns`), 128 row slots per chunk, inline numerics, `alloc` unaligned by default,
64-bit `size_t`. -/
def cfgA : Config :=
  { sizeBits := 64, headerSize := 8, numRowsOff := 0, numColumnsOff := 4,
    chunkNumRows := 128, inlineNumerics := true, defaultAligned := false }

/-- A window of 4096 bytes that grows by 600 bytes and is capped at 4697 bytes. -/
def s0 : CursorWindow := initBuffer cfgA 4096 600 4697 zeroMem

/-- One column and `k` rows. -/
def opsA (k : Nat) : List Op :=
  [Op.setNumColumns 1] ++ List.replicate k (Op.allocRow Realloc.moved Realloc.moved)

/-- Fill the first chunk, write cell (30, 0), use up the free space, fail to allocate row
128, grow the buffer by a one-byte allocation and allocate row 128 again. -/
def opsB : List Op :=
  opsA 128 ++ [Op.putLong 30 0 42 Realloc.moved, Op.alloc 2036 false Realloc.moved,
    Op.allocRow Realloc.moved Realloc.moved, Op.alloc 1 false Realloc.moved,
    Op.allocRow Realloc.moved Realloc.moved]

/-- The run `opsB` followed by the allocation of row 129. -/
def opsC : List Op := opsB ++ [Op.allocRow Realloc.moved Realloc.moved]

/-- Without columns: fill the first chunk, use up the free space, fail to allocate row
128, grow the buffer by a one-byte allocation and allocate row 128 again. -/
def opsD : List Op :=
  List.replicate 128 (Op.allocRow Realloc.moved Realloc.moved) ++
    [Op.alloc 3572 false Realloc.moved, Op.allocRow Realloc.moved Realloc.moved,
     Op.alloc 1 false Realloc.moved, Op.allocRow Realloc.moved Realloc.moved]

/-- The `realloc` outcomes of 130 `allocRow` calls whose buffer moves at every growth. -/
def rows130 : List (Realloc × Realloc) := List.replicate 130 (Realloc.moved, Realloc.moved)

/-- A window of 2060 bytes capped at 2580 bytes, after one column and 128 rows: the free
offset has reached the size, and the next row starts a new chunk. -/
def sFull : CursorWindow := run cfgA (initBuffer cfgA 2060 0 2580 zeroMem) (opsA 128)

/-- An uncapped window of 4096 bytes after a payload allocation that brings the free
offset to `2^32 - 4`. -/
def sWrap : CursorWindow :=
  (alloc cfgA (initBuffer cfgA 4096 0 0 zeroMem) 4294966768 false Realloc.moved).2

/-- An uncapped window of 4096 bytes after a payload allocation that brings the free
offset to `2^32 - 3`. -/
def sWrap3 : CursorWindow :=
  run cfgA (initBuffer cfgA 4096 0 0 zeroMem) [Op.alloc 4294966769 false Realloc.moved]

/-- An uncapped window of 4096 bytes whose growth padding is `2^31` bytes. -/
def sPad : CursorWindow := initBuffer cfgA 4096 2147483648 0 zeroMem

/-- The run `opsB` without the cell write: fill the first chunk, use up the free space,
fail to allocate row 128, grow the buffer by a one-byte allocation. -/
def opsE : List Op :=
  opsA 128 ++ [Op.alloc 2036 false Realloc.moved, Op.allocRow Realloc.moved Realloc.moved,
    Op.alloc 1 false Realloc.moved]

/-- The layout `cfgA` built without `WINDOW_STORAGE_INLINE_NUMERICS`. -/
def cfgO : Config := { cfgA with inlineNumerics := false }

/-- One column, one row, and a payload allocation that uses up the 4096 bytes. -/
def opsF : List Op :=
  [Op.setNumColumns 1, Op.allocRow Realloc.moved Realloc.moved,
    Op.alloc 3560 false Realloc.moved]

/-- An uncapped window of 4096 bytes with 2732167 columns: a field directory takes
`12 * 2732167 = 32786004` bytes. -/
def sWide : CursorWindow := (setNumColumns cfgA (initBuffer cfgA 4096 0 0 zeroMem) 2732167).2

/-- The `realloc` outcomes of 132 `allocRow` calls whose buffer moves at every growth. -/
def rows132 : List (Realloc × Realloc) := List.replicate 132 (Realloc.moved, Realloc.moved)

/-- An uncapped window of 100 bytes that grows without padding: `CursorWindow(100, 0, 0)`
after `initBuffer`. -/
def sSmall : CursorWindow := initBuffer cfgA 100 0 0 zeroMem

end Growable
/-! ## Memory lemmas -/

theorem byteOf_val (v : Nat) : (byteOf v).val = v % 256 := rfl

theorem read32_lt (m : Mem) (a : Nat) : read32 m a < U32 := by
  have h0 := (m a).isLt
  have h1 := (m (a + 1)).isLt
  have h2 := (m (a + 2)).isLt
  have h3 := (m (a + 3)).isLt
  unfold read32 U32
  omega

theorem read32_write32_same (m : Mem) (a v : Nat) : read32 (write32 m a v) a = v % U32 := by
  unfold read32 write32 U32
  simp [byteOf_val]
  omega

theorem Frame.refl (m : Mem) (a n : Nat) : Frame m m a n := fun _ _ => rfl

theorem Frame.trans {m m1 m2 : Mem} {a n : Nat} (h1 : Frame m m1 a n) (h2 : Frame m1 m2 a n) :
    Frame m m2 a n := fun i hi => (h2 i hi).trans (h1 i hi)

theorem Frame.mono {m m1 : Mem} {a n b k : Nat} (h : Frame m m1 a n) (hb : b ≤ a)
    (hk : a + n ≤ b + k) : Frame m m1 b k := fun i hi => h i (by omega)

theorem frame_write32 (m : Mem) (a v : Nat) : Frame m (write32 m a v) a 4 := by
  intro i hi
  unfold write32
  have h0 : i ≠ a := by omega
  have h1 : i ≠ a + 1 := by omega
  have h2 : i ≠ a + 2 := by omega
  have h3 : i ≠ a + 3 := by omega
  simp [h0, h1, h2, h3]

theorem frame_write8 (m : Mem) (a v : Nat) : Frame m (write8 m a v) a 1 := by
  intro i hi
  unfold write8
  have h0 : i ≠ a := by omega
  simp [h0]

theorem frame_write64 (m : Mem) (a v : Nat) : Frame m (write64 m a v) a 8 := by
  unfold write64
  exact ((frame_write32 m a v).mono (Nat.le_refl a) (by omega)).trans
    ((frame_write32 _ (a + 4) _).mono (by omega) (by omega))

theorem frame_memset0 (m : Mem) (a n : Nat) : Frame m (memset0 m a n) a n := by
  intro i hi
  unfold memset0
  have h : ¬ (a ≤ i ∧ i < a + n) := by omega
  simp [h]

theorem frame_memcpy (m : Mem) (a : Nat) (src : Nat → Byte) (n : Nat) :
    Frame m (memcpy m a src n) a n := by
  intro i hi
  unfold memcpy
  have h : ¬ (a ≤ i ∧ i < a + n) := by omega
  simp [h]

theorem Frame.read32 {m m1 : Mem} {a n b : Nat} (h : Frame m m1 a n)
    (hd : b + 4 ≤ a ∨ a + n ≤ b) : read32 m1 b = read32 m b := by
  unfold CW.read32
  rw [h b (by omega), h (b + 1) (by omega), h (b + 2) (by omega), h (b + 3) (by omega)]

theorem Frame.read8 {m m1 : Mem} {a n b : Nat} (h : Frame m m1 a n)
    (hd : b < a ∨ a + n ≤ b) : read8 m1 b = read8 m b := by
  unfold CW.read8
  rw [h b (by omega)]

theorem Frame.read64 {m m1 : Mem} {a n b : Nat} (h : Frame m m1 a n)
    (hd : b + 8 ≤ a ∨ a + n ≤ b) : read64 m1 b = read64 m b := by
  unfold CW.read64
  rw [h.read32 (by omega), h.read32 (by omega)]

theorem read32_write32_other (m : Mem) (a v b : Nat) (hd : b + 4 ≤ a ∨ a + 4 ≤ b) :
    read32 (write32 m a v) b = read32 m b :=
  (frame_write32 m a v).read32 hd

theorem read64_write64_same (m : Mem) (a v : Nat) : read64 (write64 m a v) a = v % U64 := by
  unfold read64 write64
  rw [read32_write32_same, read32_write32_other _ _ _ _ (by omega), read32_write32_same]
  unfold U32 U64
  omega

theorem write32_read32 (m : Mem) (a : Nat) : write32 m a (read32 m a) = m := by
  funext i
  have h0 := (m a).isLt
  have h1 := (m (a + 1)).isLt
  have h2 := (m (a + 2)).isLt
  have h3 := (m (a + 3)).isLt
  unfold write32
  split
  · next h => subst h; apply Fin.ext; simp only [byteOf_val, read32]; omega
  · split
    · next h => subst h; apply Fin.ext; simp only [byteOf_val, read32]; omega
    · split
      · next h => subst h; apply Fin.ext; simp only [byteOf_val, read32]; omega
      · split
        · next h => subst h; apply Fin.ext; simp only [byteOf_val, read32]; omega
        · rfl

theorem ofU64_toU64 (v : Int) (h1 : -9223372036854775808 ≤ v) (h2 : v < 9223372036854775808) :
    ofU64 (toU64 v) = v := by
  unfold ofU64 toU64 U64
  have hnn : (0 : Int) ≤ v % 18446744073709551616 := Int.emod_nonneg _ (by decide)
  have hlt : v % 18446744073709551616 < 18446744073709551616 := Int.emod_lt_of_pos _ (by decide)
  have hc : (((v % 18446744073709551616).toNat : Nat) : Int) = v % 18446744073709551616 :=
    Int.toNat_of_nonneg hnn
  have hm : (v % 18446744073709551616).toNat % 18446744073709551616
      = (v % 18446744073709551616).toNat := by
    apply Nat.mod_eq_of_lt
    omega
  simp only [Nat.cast_ofNat, hm]
  split <;> omega


/-! ## Growable window: the allocator and the capacity ceiling -/

namespace Growable

theorem alloc_fail_unchanged (cfg : Config) (s : CursorWindow) (n : Nat) (a : Bool)
    (re : Realloc) (hgrow : allocSize cfg s n a > freeSpace cfg s)
    (hfail : ¬ (s.mMaxSize = 0 ∨ newAllocationSz cfg s n a ≤ s.mMaxSize) ∨ re = Realloc.failed) :
    alloc cfg s n a re = (0, s) := by
  unfold alloc
  dsimp only
  rw [if_pos hgrow]
  rcases hfail with h | h
  · rw [if_neg h]
  · split
    · rfl
    · rfl

theorem alloc_zero_unchanged (cfg : Config) (s : CursorWindow) (n : Nat) (a : Bool)
    (re : Realloc) (h0 : (alloc cfg s n a re).1 = 0)
    (hnz : (s.mFreeOffset + allocPadding s a) % U32 ≠ 0) :
    (alloc cfg s n a re).2 = s := by
  unfold alloc at h0 ⊢
  dsimp only at h0 ⊢
  split at h0
  · next hg =>
    rw [if_pos hg]
    split at h0
    · next hp =>
      rw [if_pos hp]
      split at h0
      · next hf => rw [if_pos hf]
      · exact absurd h0 hnz
    · next hp => rw [if_neg hp]
  · exact absurd h0 hnz

theorem alloc_capped (cfg : Config) (M : Nat) (s : CursorWindow) (n : Nat) (a : Bool)
    (re : Realloc) (hM : 0 < M) (h : Capped M s) : Capped M (alloc cfg s n a re).2 := by
  obtain ⟨h1, h2⟩ := h
  unfold alloc Capped
  dsimp only
  split
  · split
    · next hperm =>
      split
      · exact ⟨h1, h2⟩
      · refine ⟨h1, ?_⟩
        rcases hperm with h0 | hle
        · omega
        · dsimp only; omega
    · exact ⟨h1, h2⟩
  · exact ⟨h1, h2⟩

theorem alloc_grows_only_within (cfg : Config) (s : CursorWindow) (n : Nat) (a : Bool)
    (re : Realloc) (hne : (alloc cfg s n a re).2.mSize ≠ s.mSize) :
    (alloc cfg s n a re).2.mSize = newAllocationSz cfg s n a ∧
      (s.mMaxSize = 0 ∨ newAllocationSz cfg s n a ≤ s.mMaxSize) := by
  unfold alloc at hne ⊢
  dsimp only at hne ⊢
  split at hne
  · next hg =>
    rw [if_pos hg]
    split at hne
    · next hp =>
      rw [if_pos hp]
      split at hne
      · exact absurd rfl hne
      · next hf => rw [if_neg hf]; exact ⟨rfl, hp⟩
    · exact absurd rfl hne
  · exact absurd rfl hne

theorem clear_capped (cfg : Config) (M : Nat) (s : CursorWindow) (h : Capped M s) :
    Capped M (clear cfg s) := h

theorem allocRowSlot_capped (cfg : Config) (M : Nat) (s : CursorWindow) (re : Realloc)
    (hM : 0 < M) (h : Capped M s) : Capped M (allocRowSlot cfg s re).2 := by
  have key : ∀ t : CursorWindow, Capped M t →
      Capped M (alloc cfg t (ROW_SLOT_CHUNK_SIZE cfg) true re).2 :=
    fun t ht => alloc_capped cfg M t _ _ re hM ht
  unfold allocRowSlot
  dsimp only
  split_ifs <;> first | exact h | exact key _ h

theorem allocRow_capped (cfg : Config) (M : Nat) (s : CursorWindow) (re1 re2 : Realloc)
    (hM : 0 < M) (h : Capped M s) : Capped M (allocRow cfg s re1 re2).2 := by
  have h1 := allocRowSlot_capped cfg M s re1 hM h
  unfold allocRow
  split
  · next s1 heq => rw [heq] at h1; exact h1
  · next rs s1 heq =>
    rw [heq] at h1
    dsimp only
    split
    · exact alloc_capped cfg M s1 _ _ re2 hM h1
    · exact alloc_capped cfg M s1 _ _ re2 hM h1

theorem putLong_capped (cfg : Config) (M : Nat) (s : CursorWindow) (r c : Nat) (v : Int)
    (re : Realloc) (hM : 0 < M) (h : Capped M s) : Capped M (putLong cfg s r c v re).2 := by
  unfold putLong
  split
  · exact h
  · split
    · exact h
    · dsimp only
      split
      · exact alloc_capped cfg M s _ _ re hM h
      · split
        · exact alloc_capped cfg M s _ _ re hM h
        · exact alloc_capped cfg M s _ _ re hM h

theorem putDouble_capped (cfg : Config) (M : Nat) (s : CursorWindow) (r c : Nat) (b : Nat)
    (re : Realloc) (hM : 0 < M) (h : Capped M s) : Capped M (putDouble cfg s r c b re).2 := by
  unfold putDouble
  split
  · exact h
  · split
    · exact h
    · dsimp only
      split
      · exact alloc_capped cfg M s _ _ re hM h
      · split
        · exact alloc_capped cfg M s _ _ re hM h
        · exact alloc_capped cfg M s _ _ re hM h

theorem putNull_capped (cfg : Config) (M : Nat) (s : CursorWindow) (r c : Nat)
    (h : Capped M s) : Capped M (putNull cfg s r c).2 := by
  unfold putNull
  split
  · exact h
  · exact h

theorem setNumColumns_capped (cfg : Config) (M : Nat) (s : CursorWindow) (n : Nat)
    (h : Capped M s) : Capped M (setNumColumns cfg s n).2 := by
  unfold setNumColumns
  dsimp only
  split
  · exact h
  · exact h

theorem step_capped (cfg : Config) (M : Nat) (s : CursorWindow) (op : Op)
    (hM : 0 < M) (h : Capped M s) : Capped M (step cfg s op) := by
  cases op with
  | clear => exact clear_capped cfg M s h
  | setNumColumns n => exact setNumColumns_capped cfg M s n h
  | allocRow re1 re2 => exact allocRow_capped cfg M s re1 re2 hM h
  | alloc n a re => exact alloc_capped cfg M s n a re hM h
  | putLong r c v re => exact putLong_capped cfg M s r c v re hM h
  | putDouble r c b re => exact putDouble_capped cfg M s r c b re hM h
  | putNull r c => exact putNull_capped cfg M s r c h

theorem run_capped (cfg : Config) (M : Nat) (ops : List Op) (hM : 0 < M) :
    ∀ s : CursorWindow, Capped M s → Capped M (run cfg s ops) := by
  induction ops with
  | nil => intro s h; exact h
  | cons op ops ih => intro s h; exact ih _ (step_capped cfg M s op hM h)

/-- C7. Growable window, capacity ceiling: a window created with maximum size `M > 0`
and initial size at most `M` has `mSize ≤ M` after every sequence of operations
(`alloc`, `allocRow`, and the other mutators); and whenever `alloc` changes `mSize`,
the new size is the computed new allocation size, which is then at most `M`. -/
theorem C7_size_never_exceeds_max (cfg : Config) (initialSize growthPaddingSize M : Nat)
    (mem : Mem) (hM : 0 < M) (hi : initialSize ≤ M) (ops : List Op) :
    (run cfg (initBuffer cfg initialSize growthPaddingSize M mem) ops).mSize ≤ M ∧
    (∀ (s : CursorWindow) (n : Nat) (a : Bool) (re : Realloc), s.mMaxSize = M →
      (alloc cfg s n a re).2.mSize ≠ s.mSize →
      (alloc cfg s n a re).2.mSize = newAllocationSz cfg s n a ∧
        newAllocationSz cfg s n a ≤ M) := by
  refine ⟨(run_capped cfg M ops hM _ ⟨rfl, hi⟩).2, ?_⟩
  intro s n a re hs hne
  obtain ⟨h1, h2⟩ := alloc_grows_only_within cfg s n a re hne
  refine ⟨h1, ?_⟩
  rcases h2 with h0 | hle
  · omega
  · omega

end Growable

/-! ## Growable window: free space, row slots and rows -/

namespace Growable

theorem freeSpace_eq (cfg : Config) (s : CursorWindow) (h1 : s.mFreeOffset ≤ s.mSize)
    (h2 : s.mSize < 2 ^ cfg.sizeBits) :
    freeSpace cfg s
      = if (s.mSize - s.mFreeOffset) % U32 < 2147483648 then (s.mSize - s.mFreeOffset) % U32
        else 0 := by
  unfold freeSpace
  generalize 2 ^ cfg.sizeBits = B at *
  have e1 : s.mFreeOffset % B = s.mFreeOffset := Nat.mod_eq_of_lt (by omega)
  have e2 : (s.mSize + B - s.mFreeOffset) % B = s.mSize - s.mFreeOffset := by
    have : s.mSize + B - s.mFreeOffset = (s.mSize - s.mFreeOffset) + B := by omega
    rw [this, Nat.add_mod_right]
    exact Nat.mod_eq_of_lt (by omega)
  rw [e1, e2]

theorem freeSpace_le (cfg : Config) (s : CursorWindow) (h1 : s.mFreeOffset ≤ s.mSize)
    (h2 : s.mSize < 2 ^ cfg.sizeBits) : freeSpace cfg s ≤ s.mSize - s.mFreeOffset := by
  rw [freeSpace_eq cfg s h1 h2]
  have := Nat.mod_le (s.mSize - s.mFreeOffset) U32
  split <;> omega

theorem freeSpace_exact (cfg : Config) (s : CursorWindow) (h1 : s.mFreeOffset ≤ s.mSize)
    (h2 : s.mSize < 2 ^ cfg.sizeBits) (h3 : s.mSize - s.mFreeOffset < 2147483648) :
    freeSpace cfg s = s.mSize - s.mFreeOffset := by
  rw [freeSpace_eq cfg s h1 h2]
  have e : (s.mSize - s.mFreeOffset) % U32 = s.mSize - s.mFreeOffset :=
    Nat.mod_eq_of_lt (by unfold U32; omega)
  rw [e, if_pos h3]

theorem allocPadding_le (s : CursorWindow) (a : Bool) : allocPadding s a ≤ 4 := by
  unfold allocPadding; split <;> omega

/-- The state after an `alloc` that grows the buffer. -/
theorem alloc_grow (cfg : Config) (s : CursorWindow) (n : Nat) (a : Bool) (re : Realloc)
    (hgrow : allocSize cfg s n a > freeSpace cfg s)
    (hperm : s.mMaxSize = 0 ∨ newAllocationSz cfg s n a ≤ s.mMaxSize)
    (hre : re ≠ Realloc.failed) :
    alloc cfg s n a re = ((s.mFreeOffset + allocPadding s a) % U32,
      { s with mSize := newAllocationSz cfg s n a
               mFreeOffset := (s.mFreeOffset + allocSize cfg s n a) % U32 }) := by
  unfold alloc
  dsimp only
  rw [if_pos hgrow, if_pos hperm, if_neg hre]

/-- The state after an `alloc` that is served from the free space. -/
theorem alloc_fit (cfg : Config) (s : CursorWindow) (n : Nat) (a : Bool) (re : Realloc)
    (hfit : ¬ allocSize cfg s n a > freeSpace cfg s) :
    alloc cfg s n a re = ((s.mFreeOffset + allocPadding s a) % U32,
      { s with mFreeOffset := (s.mFreeOffset + allocSize cfg s n a) % U32 }) := by
  unfold alloc
  dsimp only
  rw [if_neg hfit]

end Growable

namespace Growable

theorem alloc_mData (cfg : Config) (s : CursorWindow) (n : Nat) (a : Bool) (re : Realloc) :
    (alloc cfg s n a re).2.mData = s.mData ∧
    (alloc cfg s n a re).2.mLastChunkPtrOffset = s.mLastChunkPtrOffset ∧
    (alloc cfg s n a re).2.mGrowthPaddingSize = s.mGrowthPaddingSize := by
  unfold alloc
  dsimp only
  split_ifs <;> exact ⟨rfl, rfl, rfl⟩

/-- `alloc` does not look at `mLastChunkPtrOffset`. -/
theorem alloc_setLast (cfg : Config) (s : CursorWindow) (x n : Nat) (a : Bool) (re : Realloc) :
    (alloc cfg { s with mLastChunkPtrOffset := x } n a re).1 = (alloc cfg s n a re).1 ∧
    (alloc cfg { s with mLastChunkPtrOffset := x } n a re).2.mFreeOffset
      = (alloc cfg s n a re).2.mFreeOffset ∧
    (alloc cfg { s with mLastChunkPtrOffset := x } n a re).2.mSize
      = (alloc cfg s n a re).2.mSize := by
  unfold alloc allocSize newAllocationSz allocSize freeSpace allocPadding
  dsimp only
  split_ifs <;> exact ⟨rfl, rfl, rfl⟩

/-- `alloc` keeps the free offset inside the buffer when its size computation does not
overflow. -/
theorem alloc_within (cfg : Config) (s : CursorWindow) (n : Nat) (a : Bool) (re : Realloc)
    (h : Within cfg s) (hf : AllocFits cfg s n) : Within cfg (alloc cfg s n a re).2 := by
  obtain ⟨h1, h2, h3⟩ := h
  unfold AllocFits at hf
  have hp := allocPadding_le s a
  have hfs := freeSpace_le cfg s h1 h2
  have hsize : allocSize cfg s n a = n + allocPadding s a := Nat.mod_eq_of_lt (by omega)
  by_cases hg : allocSize cfg s n a > freeSpace cfg s
  · by_cases hperm : s.mMaxSize = 0 ∨ newAllocationSz cfg s n a ≤ s.mMaxSize
    · by_cases hre : re = Realloc.failed
      · rw [alloc_fail_unchanged cfg s n a re hg (Or.inr hre)]
        exact ⟨h1, h2, h3⟩
      · rw [alloc_grow cfg s n a re hg hperm hre]
        have hnew : newAllocationSz cfg s n a
            = s.mSize + (n + allocPadding s a - freeSpace cfg s) + s.mGrowthPaddingSize := by
          unfold newAllocationSz
          rw [hsize, Nat.mod_eq_of_lt (by omega)]
          omega
        have hmod := Nat.mod_le (s.mFreeOffset + allocSize cfg s n a) U32
        rw [hsize] at hg hmod
        refine ⟨?_, ?_, ?_⟩
        · show (s.mFreeOffset + allocSize cfg s n a) % U32 ≤ newAllocationSz cfg s n a
          rw [hnew, hsize]; omega
        · show newAllocationSz cfg s n a < 2 ^ cfg.sizeBits
          rw [hnew]; omega
        · show cfg.headerSize + ROW_SLOT_CHUNK_SIZE cfg ≤ newAllocationSz cfg s n a
          rw [hnew]; omega
    · rw [alloc_fail_unchanged cfg s n a re hg (Or.inl hperm)]
      exact ⟨h1, h2, h3⟩
  · rw [alloc_fit cfg s n a re hg]
    have hmod := Nat.mod_le (s.mFreeOffset + allocSize cfg s n a) U32
    refine ⟨?_, h2, h3⟩
    show (s.mFreeOffset + allocSize cfg s n a) % U32 ≤ s.mSize
    omega

/-- The sizes after `allocRowSlot`: those of the state before, or those after its
`alloc` of a chunk. -/
theorem allocRowSlot_sizes (cfg : Config) (s : CursorWindow) (re : Realloc) :
    ((allocRowSlot cfg s re).2.mFreeOffset = s.mFreeOffset ∧
      (allocRowSlot cfg s re).2.mSize = s.mSize) ∨
    (needsNewChunk cfg s ∧
      (allocRowSlot cfg s re).2.mFreeOffset
        = (alloc cfg s (ROW_SLOT_CHUNK_SIZE cfg) true re).2.mFreeOffset ∧
      (allocRowSlot cfg s re).2.mSize = (alloc cfg s (ROW_SLOT_CHUNK_SIZE cfg) true re).2.mSize) := by
  have hal := alloc_setLast cfg s (chunkPtrOffsetOf cfg s) (ROW_SLOT_CHUNK_SIZE cfg) true re
  have hP : (if s.mLastChunkPtrOffset ≠ 0 then s.mLastChunkPtrOffset
      else cfg.headerSize + ROW_SLOT_CHUNK_SIZE cfg - 4) = chunkPtrOffsetOf cfg s := rfl
  unfold allocRowSlot needsNewChunk
  dsimp only
  rw [hP]
  split
  · next hc =>
    split
    · next hz =>
      right
      refine ⟨⟨hc, hz⟩, ?_⟩
      split
      · exact ⟨hal.2.1, hal.2.2⟩
      · exact ⟨hal.2.1, hal.2.2⟩
    · left
      split <;> exact ⟨rfl, rfl⟩
  · exact Or.inl ⟨rfl, rfl⟩

theorem allocRowSlot_within (cfg : Config) (s : CursorWindow) (re : Realloc)
    (h : Within cfg s) (hf : AllocFits cfg s (ROW_SLOT_CHUNK_SIZE cfg)) :
    Within cfg (allocRowSlot cfg s re).2 := by
  have ha := alloc_within cfg s (ROW_SLOT_CHUNK_SIZE cfg) true re h hf
  unfold Within at *
  rcases allocRowSlot_sizes cfg s re with ⟨e1, e2⟩ | ⟨_, e1, e2⟩
  · rw [e1, e2]; exact h
  · rw [e1, e2]; exact ha

theorem allocRow_within (cfg : Config) (s : CursorWindow) (re1 re2 : Realloc)
    (h : Within cfg s) (hf : (Op.allocRow re1 re2).Fits cfg s) :
    Within cfg (allocRow cfg s re1 re2).2 := by
  obtain ⟨hf1, hf2⟩ := hf
  have h1 := allocRowSlot_within cfg s re1 h hf1
  unfold allocRow
  split
  · next s1 heq => rw [heq] at h1; exact h1
  · next rs s1 heq =>
    rw [heq] at h1 hf2
    have h2 := alloc_within cfg s1 _ cfg.defaultAligned re2 h1 hf2
    dsimp only
    split
    · exact h2
    · exact h2

theorem putLong_within (cfg : Config) (s : CursorWindow) (r c : Nat) (v : Int) (re : Realloc)
    (h : Within cfg s) (hf : AllocFits cfg s 8) : Within cfg (putLong cfg s r c v re).2 := by
  have h2 := alloc_within cfg s 8 cfg.defaultAligned re h hf
  unfold putLong
  split
  · exact h
  · split
    · exact h
    · dsimp only
      split
      · exact h2
      · split
        · exact h2
        · exact h2

theorem putDouble_within (cfg : Config) (s : CursorWindow) (r c : Nat) (b : Nat) (re : Realloc)
    (h : Within cfg s) (hf : AllocFits cfg s 8) : Within cfg (putDouble cfg s r c b re).2 := by
  have h2 := alloc_within cfg s 8 cfg.defaultAligned re h hf
  unfold putDouble
  split
  · exact h
  · split
    · exact h
    · dsimp only
      split
      · exact h2
      · split
        · exact h2
        · exact h2

theorem clear_within (cfg : Config) (s : CursorWindow)
    (h2 : s.mSize < 2 ^ cfg.sizeBits) (h3 : cfg.headerSize + ROW_SLOT_CHUNK_SIZE cfg ≤ s.mSize) :
    Within cfg (clear cfg s) := by
  have := Nat.mod_le (cfg.headerSize + ROW_SLOT_CHUNK_SIZE cfg) U32
  refine ⟨?_, h2, h3⟩
  show (cfg.headerSize + ROW_SLOT_CHUNK_SIZE cfg) % U32 ≤ s.mSize
  omega

theorem step_within (cfg : Config) (s : CursorWindow) (op : Op) (h : Within cfg s)
    (hf : op.Fits cfg s) : Within cfg (step cfg s op) := by
  cases op with
  | clear => exact clear_within cfg s h.2.1 h.2.2
  | setNumColumns n =>
    show Within cfg (setNumColumns cfg s n).2
    unfold setNumColumns
    dsimp only
    split <;> exact h
  | allocRow re1 re2 => exact allocRow_within cfg s re1 re2 h hf
  | alloc n a re => exact alloc_within cfg s n a re h hf
  | putLong r c v re => exact putLong_within cfg s r c v re h hf
  | putDouble r c b re => exact putDouble_within cfg s r c b re h hf
  | putNull r c =>
    show Within cfg (putNull cfg s r c).2
    unfold putNull
    split <;> exact h

theorem run_within (cfg : Config) (ops : List Op) :
    ∀ s : CursorWindow, Within cfg s → RunFits cfg s ops → Within cfg (run cfg s ops) := by
  induction ops with
  | nil => intro s h _; exact h
  | cons op ops ih =>
    intro s h hf
    exact ih _ (step_within cfg s op h hf.1) hf.2

end Growable

namespace Growable

theorem chunkPtrOffsetOf_ge (cfg : Config) (s : CursorWindow)
    (hcfg : cfg.numRowsOff + 4 ≤ cfg.chunkNumRows * 4) (hlast : LastOk cfg s) :
    cfg.numRowsOff + 4 ≤ chunkPtrOffsetOf cfg s := by
  unfold chunkPtrOffsetOf ROW_SLOT_CHUNK_SIZE
  unfold LastOk at hlast
  split <;> omega

/-- `allocRowSlot` returns `NULL` exactly when a new chunk is needed and `alloc` returns
0; the buffer contents are then unchanged. -/
theorem allocRowSlot_none_iff (cfg : Config) (s : CursorWindow) (re : Realloc) :
    ((allocRowSlot cfg s re).1 = none ↔
      (needsNewChunk cfg s ∧ (alloc cfg s (ROW_SLOT_CHUNK_SIZE cfg) true re).1 = 0)) ∧
    ((allocRowSlot cfg s re).1 = none → (allocRowSlot cfg s re).2.mData = s.mData) := by
  have hal := alloc_setLast cfg s (chunkPtrOffsetOf cfg s) (ROW_SLOT_CHUNK_SIZE cfg) true re
  have hmd := alloc_mData cfg { s with mLastChunkPtrOffset := chunkPtrOffsetOf cfg s }
    (ROW_SLOT_CHUNK_SIZE cfg) true re
  have hP : (if s.mLastChunkPtrOffset ≠ 0 then s.mLastChunkPtrOffset
      else cfg.headerSize + ROW_SLOT_CHUNK_SIZE cfg - 4) = chunkPtrOffsetOf cfg s := rfl
  unfold allocRowSlot needsNewChunk
  dsimp only
  rw [hP]
  split
  · next hc =>
    split
    · next hz =>
      rw [hal.1]
      split
      · next h0 => exact ⟨⟨fun _ => ⟨⟨hc, hz⟩, h0⟩, fun _ => rfl⟩, fun _ => hmd.1⟩
      · next h0 =>
        exact ⟨⟨fun h => absurd h (by simp), fun h => absurd h.2 h0⟩, fun h => absurd h (by simp)⟩
    · next hz =>
      exact ⟨⟨fun h => absurd h (by simp), fun h => absurd h.1.2 hz⟩, fun h => absurd h (by simp)⟩
  · next hc =>
    exact ⟨⟨fun h => absurd h (by simp), fun h => absurd h.1.1 hc⟩, fun h => absurd h (by simp)⟩

/-- A successful `allocRowSlot` counts the row. -/
theorem allocRowSlot_some_numRows (cfg : Config) (s : CursorWindow) (re : Realloc)
    (hcfg : cfg.numRowsOff + 4 ≤ cfg.chunkNumRows * 4) (hlast : LastOk cfg s)
    (h : (allocRowSlot cfg s re).1 ≠ none) :
    numRows cfg (allocRowSlot cfg s re).2 = (numRows cfg s + 1) % U32 := by
  have hge := chunkPtrOffsetOf_ge cfg s hcfg hlast
  have hmd := alloc_mData cfg { s with mLastChunkPtrOffset := chunkPtrOffsetOf cfg s }
    (ROW_SLOT_CHUNK_SIZE cfg) true re
  have hP : (if s.mLastChunkPtrOffset ≠ 0 then s.mLastChunkPtrOffset
      else cfg.headerSize + ROW_SLOT_CHUNK_SIZE cfg - 4) = chunkPtrOffsetOf cfg s := rfl
  have hmm : ∀ x, (x % U32) % U32 = x % U32 := fun x => Nat.mod_mod _ _
  have hchunk : cfg.numRowsOff + 8 ≤ ROW_SLOT_CHUNK_SIZE cfg := by
    unfold ROW_SLOT_CHUNK_SIZE; omega
  have hni := (allocRowSlot_none_iff cfg s re).1.mpr
  have hal := alloc_setLast cfg s (chunkPtrOffsetOf cfg s) (ROW_SLOT_CHUNK_SIZE cfg) true re
  unfold needsNewChunk at hni
  unfold allocRowSlot
  dsimp only
  rw [hP]
  unfold numRows at hni ⊢
  split
  · next hc =>
    split
    · next hz =>
      split
      · next h0 => exact absurd (hni ⟨⟨hc, hz⟩, by rw [← hal.1]; exact h0⟩) h
      · dsimp only
        rw [read32_write32_same, hmm, hmd.1,
          read32_write32_other _ _ _ _ (by omega), read32_write32_other _ _ _ _ (by omega)]
    · split
      · dsimp only
        rw [read32_write32_same, hmm]
      · dsimp only
        rw [read32_write32_same, hmm]
  · dsimp only
    rw [read32_write32_same, hmm]

/-- A failing `allocRow` leaves `numRows` as it was. -/
theorem allocRow_fail_numRows (cfg : Config) (s : CursorWindow) (re1 re2 : Realloc)
    (hcfg : cfg.numRowsOff + 4 ≤ cfg.chunkNumRows * 4) (hlast : LastOk cfg s)
    (hfail : (allocRow cfg s re1 re2).1 = none) :
    numRows cfg (allocRow cfg s re1 re2).2 = numRows cfg s := by
  have hnone := (allocRowSlot_none_iff cfg s re1).2
  have hsome := allocRowSlot_some_numRows cfg s re1 hcfg hlast
  have hlt : read32 s.mData cfg.numRowsOff < U32 := read32_lt _ _
  unfold allocRow at hfail ⊢
  split at hfail
  · next s1 heq =>
    rw [heq] at hnone
    simp only [heq]
    unfold numRows
    rw [hnone rfl]
  · next rs s1 heq =>
    rw [heq] at hsome
    simp only [heq]
    dsimp only at hfail ⊢
    have hmd := alloc_mData cfg s1 (numColumns cfg s1 * FIELD_SLOT_SIZE % 2 ^ cfg.sizeBits)
      cfg.defaultAligned re2
    split at hfail
    · next h0 =>
      rw [if_pos h0]
      unfold numRows at hsome ⊢
      dsimp only
      rw [read32_write32_same, hmd.1, hsome (by simp)]
      unfold U32 at *
      omega
    · exact absurd hfail (by simp)

theorem alloc_mFreeOffset_cases (cfg : Config) (s : CursorWindow) (n : Nat) (a : Bool)
    (re : Realloc) :
    (alloc cfg s n a re).2.mFreeOffset = s.mFreeOffset ∨
    (alloc cfg s n a re).2.mFreeOffset = (s.mFreeOffset + allocSize cfg s n a) % U32 := by
  unfold alloc
  dsimp only
  split_ifs
  · exact Or.inl rfl
  · exact Or.inr rfl
  · exact Or.inl rfl
  · exact Or.inr rfl

end Growable

/-! ## Shared window: header and row directory lemmas -/

namespace Ashmem

theorem chunkFrom_succ (m : Mem) (c k : Nat) :
    chunkFrom m c (k + 1) = read32 m (chunkFrom m c k + 400) := by
  induction k generalizing c with
  | zero => rfl
  | succ k ih =>
    show chunkFrom m (read32 m (c + 400)) (k + 1) = _
    rw [ih]
    rfl

theorem chunkAt_eq_chunkFrom (m : Mem) (k : Nat) : chunkAt m k = chunkFrom m (read32 m 4) k := by
  induction k with
  | zero => rfl
  | succ k ih => rw [chunkFrom_succ, ← ih]; rfl

theorem getRowSlotLoop_eq (m : Mem) (fuel : Nat) :
    ∀ chunk chunkPos, chunkPos / 100 ≤ fuel →
      getRowSlotLoop m fuel chunk chunkPos
        = chunkFrom m chunk (chunkPos / 100) + 4 * (chunkPos % 100) := by
  induction fuel with
  | zero =>
    intro chunk chunkPos h
    have h0 : chunkPos / 100 = 0 := by omega
    have h1 : chunkPos % 100 = chunkPos := by omega
    simp [getRowSlotLoop, h0, h1, chunkFrom]
  | succ fuel ih =>
    intro chunk chunkPos h
    unfold getRowSlotLoop
    split
    · next hge =>
      have hd : chunkPos / 100 = (chunkPos - 100) / 100 + 1 := by omega
      have hm : chunkPos % 100 = (chunkPos - 100) % 100 := by omega
      rw [ih _ _ (by omega), hd, hm]
      rfl
    · next hlt =>
      have h0 : chunkPos / 100 = 0 := by omega
      have h1 : chunkPos % 100 = chunkPos := by omega
      simp [h0, h1, chunkFrom]

theorem getRowSlot_eq (s : Window) (row : Nat) : getRowSlot s row = rowSlotAddr s.mData row := by
  unfold getRowSlot rowSlotAddr firstChunkOffset
  rw [getRowSlotLoop_eq _ _ _ _ (by omega), chunkAt_eq_chunkFrom]

theorem allocRowSlotLoop_eq (m : Mem) (fuel : Nat) :
    ∀ chunk chunkPos, (chunkPos - 1) / 100 ≤ fuel →
      allocRowSlotLoop m fuel chunk chunkPos
        = (chunkFrom m chunk ((chunkPos - 1) / 100), chunkPos - 100 * ((chunkPos - 1) / 100)) := by
  induction fuel with
  | zero =>
    intro chunk chunkPos h
    have h0 : (chunkPos - 1) / 100 = 0 := by omega
    simp [allocRowSlotLoop, h0, chunkFrom]
  | succ fuel ih =>
    intro chunk chunkPos h
    unfold allocRowSlotLoop
    split
    · next hgt =>
      have hd : (chunkPos - 1) / 100 = (chunkPos - 100 - 1) / 100 + 1 := by omega
      rw [ih _ _ (by omega), hd]
      simp only [chunkFrom, Prod.mk.injEq, true_and]
      omega
    · next hle =>
      have h0 : (chunkPos - 1) / 100 = 0 := by omega
      simp [h0, chunkFrom]

theorem allocRowSlotLoop_numRows (s : Window) :
    allocRowSlotLoop s.mData (numRows s) (firstChunkOffset s) (numRows s)
      = (chunkAt s.mData (lastChunk s), numRows s - 100 * lastChunk s) := by
  unfold firstChunkOffset lastChunk
  rw [allocRowSlotLoop_eq _ _ _ _ (by omega), chunkAt_eq_chunkFrom]

theorem chunkAt_congr (m m1 : Mem) (k : Nat) (h0 : read32 m1 4 = read32 m 4)
    (h : ∀ j, j < k → read32 m1 (chunkAt m j + 400) = read32 m (chunkAt m j + 400)) :
    chunkAt m1 k = chunkAt m k := by
  induction k with
  | zero => exact h0
  | succ k ih =>
    show read32 m1 (chunkAt m1 k + 400) = read32 m (chunkAt m k + 400)
    rw [ih (fun j hj => h j (by omega))]
    exact h k (by omega)

end Ashmem

namespace Ashmem

theorem freeOffset_lt (s : Window) : freeOffset s < U32 := read32_lt _ _
theorem numRows_lt (s : Window) : numRows s < U32 := read32_lt _ _
theorem numColumns_lt (s : Window) : numColumns s < U32 := read32_lt _ _

theorem alloc_padding (f : Nat) (hf : f < U32) : (U32 - 1 - f + 1) % U32 % 4 = (4 - f % 4) % 4 := by
  unfold U32 at *
  omega

/-- Behaviour of `alloc` while `freeOffset + padding + size` stays below `2^32`. -/
theorem alloc_exact (s : Window) (size : Nat) (aligned : Bool)
    (hno : freeOffset s + padOf (freeOffset s) aligned + size < U32) :
    (s.mSize < freeOffset s + padOf (freeOffset s) aligned + size →
        alloc s size aligned = (0, s)) ∧
    (freeOffset s + padOf (freeOffset s) aligned + size ≤ s.mSize →
        alloc s size aligned = (freeOffset s + padOf (freeOffset s) aligned,
          { s with
            mData := write32 s.mData 0 (freeOffset s + padOf (freeOffset s) aligned + size) })) := by
  have hf := freeOffset_lt s
  have hp : (if aligned = true then (U32 - 1 - freeOffset s + 1) % U32 % 4 else 0)
      = padOf (freeOffset s) aligned := by
    unfold padOf
    split
    · exact alloc_padding _ hf
    · rfl
  have hp3 : padOf (freeOffset s) aligned ≤ 3 := by
    unfold padOf; split <;> omega
  have h1 : (freeOffset s + padOf (freeOffset s) aligned) % U32
      = freeOffset s + padOf (freeOffset s) aligned := Nat.mod_eq_of_lt (by omega)
  have h2 : (freeOffset s + padOf (freeOffset s) aligned + size) % U32
      = freeOffset s + padOf (freeOffset s) aligned + size := Nat.mod_eq_of_lt (by omega)
  unfold alloc
  simp only [hp, h1, h2]
  constructor
  · intro h
    rw [if_pos (by omega)]
  · intro h
    rw [if_neg (by omega)]

theorem chunkAt_agree (m m1 : Mem) (L : Nat) (h4 : read32 m1 4 = read32 m 4)
    (h : ChunksAgree m m1 L) : ∀ k, k ≤ L + 1 → chunkAt m1 k = chunkAt m k := by
  intro k hk
  apply chunkAt_congr _ _ _ h4
  intro j hj
  have := h j 100 (by omega) (by omega)
  simpa using this

theorem rowSlotAddr_agree (m m1 : Mem) (L : Nat) (h4 : read32 m1 4 = read32 m 4)
    (h : ChunksAgree m m1 L) (r : Nat) (hr : r / 100 ≤ L) :
    rowSlotAddr m1 r = rowSlotAddr m r := by
  unfold rowSlotAddr
  rw [chunkAt_agree m m1 L h4 h _ (by omega)]

theorem rowDir_agree (m m1 : Mem) (L : Nat) (h4 : read32 m1 4 = read32 m 4)
    (h : ChunksAgree m m1 L) (r : Nat) (hr : r / 100 ≤ L) :
    rowDir m1 r = rowDir m r := by
  unfold rowDir
  rw [rowSlotAddr_agree m m1 L h4 h r hr]
  unfold rowSlotAddr
  exact h (r / 100) (r % 100) hr (by omega)

theorem row_div_le_lastChunk (s : Window) (r : Nat) (hr : r < numRows s) :
    r / 100 ≤ lastChunk s := by
  unfold lastChunk
  omega

/-- The invariant only looks at the header and at the chunks in use. -/
theorem Inv.transfer {s s1 : Window} (hI : Inv s) (hsz : s1.mSize = s.mSize)
    (h4 : read32 s1.mData 4 = read32 s.mData 4) (h8 : numRows s1 = numRows s)
    (h12 : numColumns s1 = numColumns s) (hf : freeOffset s ≤ freeOffset s1)
    (hf2 : freeOffset s1 ≤ s1.mSize)
    (hc : ChunksAgree s.mData s1.mData (lastChunk s)) : Inv s1 := by
  have hL : lastChunk s1 = lastChunk s := by unfold lastChunk; rw [h8]
  have hca : ∀ k, k ≤ lastChunk s + 1 → chunkAt s1.mData k = chunkAt s.mData k :=
    chunkAt_agree _ _ _ h4 hc
  have hrd : ∀ r, r < numRows s → rowDir s1.mData r = rowDir s.mData r :=
    fun r hr => rowDir_agree _ _ _ h4 hc r (row_div_le_lastChunk s r hr)
  have hsp : spareChunk s1 = spareChunk s := by
    unfold spareChunk
    rw [hL, hca _ (by omega)]
    have := hc (lastChunk s) 100 (by omega) (by omega)
    simpa using this
  constructor
  · show read32 s1.mData 4 = 16
    rw [h4]; exact hI.first
  · have := hI.free_lo; omega
  · exact hf2
  · rw [hsz, h12]; exact hI.regime
  · intro k hk
    rw [hL] at hk
    rw [hca _ (by omega), hca _ (by omega)]
    exact hI.chunk_mono k hk
  · rw [hL, hca _ (by omega)]
    have := hI.chunk_hi; omega
  · rw [hsp, hL, hca _ (by omega)]
    rcases hI.spare with h | ⟨h1, h2⟩
    · exact Or.inl h
    · exact Or.inr ⟨h1, by omega⟩
  · intro r hr
    rw [h8] at hr
    rw [hrd r hr]; exact hI.row_lo r hr
  · intro r hr
    rw [h8] at hr
    rw [hrd r hr, h12]
    have := hI.row_hi r hr; omega
  · intro r k hr hk
    rw [h8] at hr
    rw [hL] at hk
    rw [hrd r hr, h12, hca _ (by omega)]
    exact hI.row_chunk r k hr hk
  · intro r hr hne
    rw [h8] at hr
    rw [hsp] at hne ⊢
    rw [hrd r hr, h12]
    exact hI.row_spare r hr hne
  · intro r r1 hlt hr1
    rw [h8] at hr1
    rw [hrd r (by omega), hrd r1 hr1, h12]
    exact hI.row_mono r r1 hlt hr1

end Ashmem

namespace Ashmem

theorem read32_congr (m m1 : Mem) (a : Nat)
    (h : ∀ i, a ≤ i → i < a + 4 → m1 i = m i) : read32 m1 a = read32 m a := by
  unfold read32
  rw [h a (by omega) (by omega), h (a + 1) (by omega) (by omega),
    h (a + 2) (by omega) (by omega), h (a + 3) (by omega) (by omega)]

theorem Inv.chunk0 {s : Window} (hI : Inv s) : chunkAt s.mData 0 = 16 := hI.first

theorem Inv.chunk_lt {s : Window} (hI : Inv s) :
    ∀ k j, k ≤ lastChunk s → j < k → chunkAt s.mData j + 404 ≤ chunkAt s.mData k := by
  intro k
  induction k with
  | zero => intro j _ hj; omega
  | succ k ih =>
    intro j hk hj
    have h1 := hI.chunk_mono k (by omega)
    rcases Nat.lt_or_ge j k with h | h
    · have := ih j (by omega) h; omega
    · have : j = k := by omega
      subst this; exact h1

theorem Inv.chunk_ge {s : Window} (hI : Inv s) (k : Nat) (hk : k ≤ lastChunk s) :
    16 + 404 * k ≤ chunkAt s.mData k := by
  induction k with
  | zero => rw [hI.chunk0]
  | succ k ih =>
    have h1 := hI.chunk_mono k (by omega)
    have := ih (by omega)
    omega

theorem Inv.chunk_le_free {s : Window} (hI : Inv s) (k : Nat) (hk : k ≤ lastChunk s) :
    chunkAt s.mData k + 404 ≤ freeOffset s := by
  rcases Nat.lt_or_ge k (lastChunk s) with h | h
  · have := hI.chunk_lt (lastChunk s) k (Nat.le_refl _) h
    have := hI.chunk_hi
    omega
  · have : k = lastChunk s := by omega
    subst this; exact hI.chunk_hi

theorem Inv.numRows_bound {s : Window} (hI : Inv s) : 4 * numRows s ≤ freeOffset s := by
  have h1 := hI.chunk_ge (lastChunk s) (Nat.le_refl _)
  have h2 := hI.chunk_hi
  unfold lastChunk at *
  omega

/-- A state that keeps the size, does not lower the free offset and agrees with `s` on
the header words `firstChunkOffset`, `numRows`, `numColumns` and on the chunks in use
satisfies the invariant again. -/
theorem Inv.update {s s1 : Window} (hI : Inv s) (hsz : s1.mSize = s.mSize)
    (hf : freeOffset s ≤ freeOffset s1) (hf2 : freeOffset s1 ≤ s.mSize)
    (hag : ∀ i, (4 ≤ i ∧ i < 16) ∨
        (∃ k, k ≤ lastChunk s ∧ chunkAt s.mData k ≤ i ∧ i < chunkAt s.mData k + 404) →
        s1.mData i = s.mData i) : Inv s1 := by
  apply hI.transfer hsz
  · exact read32_congr _ _ _ (fun i h1 h2 => hag i (Or.inl ⟨by omega, by omega⟩))
  · exact read32_congr _ _ _ (fun i h1 h2 => hag i (Or.inl ⟨by omega, by omega⟩))
  · exact read32_congr _ _ _ (fun i h1 h2 => hag i (Or.inl ⟨by omega, by omega⟩))
  · exact hf
  · rw [hsz]; exact hf2
  · intro k j hk hj
    exact read32_congr _ _ _ (fun i h1 h2 => hag i (Or.inr ⟨k, hk, by omega, by omega⟩))

end Ashmem

/-! ## Shared window: the operations keep the layout invariant -/

namespace Ashmem

theorem chunkAt_frame (m m1 : Mem) (a n : Nat) (hfr : Frame m m1 a n)
    (h4 : a + n ≤ 4 ∨ 8 ≤ a) (k : Nat)
    (hd : ∀ j, j < k → chunkAt m j + 404 ≤ a ∨ a + n ≤ chunkAt m j + 400) :
    chunkAt m1 k = chunkAt m k := by
  apply chunkAt_congr
  · exact hfr.read32 (by omega)
  · intro j hj
    have := hd j hj
    exact hfr.read32 (by omega)

theorem clear_writable (s : Window) (hw : s.mReadOnly = false) :
    clear s = (Status.OK,
      { s with
        mData := write32 (write32 (write32 (write32 (write32 s.mData 0 420) 4 16) 8 0) 12 0) 416 0 }) := by
  unfold clear
  simp only [hw, Bool.false_eq_true, if_false]
  have h : read32 (write32 (write32 (write32 (write32 s.mData 0 (16 + 404)) 4 16) 8 0) 12 0) 4
      = 16 := by
    rw [read32_write32_other _ _ _ _ (by omega), read32_write32_other _ _ _ _ (by omega),
      read32_write32_same]
    rfl
  rw [h]

theorem clear_header (s : Window) (hw : s.mReadOnly = false) :
    freeOffset (clear s).2 = 420 ∧ firstChunkOffset (clear s).2 = 16 ∧
      numRows (clear s).2 = 0 ∧ numColumns (clear s).2 = 0 ∧
      read32 (clear s).2.mData 416 = 0 := by
  rw [clear_writable s hw]
  unfold freeOffset firstChunkOffset numRows numColumns
  dsimp only
  refine ⟨?_, ?_, ?_, ?_, ?_⟩
  · rw [read32_write32_other _ _ _ _ (by omega), read32_write32_other _ _ _ _ (by omega),
      read32_write32_other _ _ _ _ (by omega), read32_write32_other _ _ _ _ (by omega),
      read32_write32_same]
    rfl
  · rw [read32_write32_other _ _ _ _ (by omega), read32_write32_other _ _ _ _ (by omega),
      read32_write32_other _ _ _ _ (by omega), read32_write32_same]
    rfl
  · rw [read32_write32_other _ _ _ _ (by omega), read32_write32_other _ _ _ _ (by omega),
      read32_write32_same]
    rfl
  · rw [read32_write32_other _ _ _ _ (by omega), read32_write32_same]
    rfl
  · rw [read32_write32_same]
    rfl

/-- A window without rows whose header is in order satisfies the invariant. -/
theorem inv_of_empty (s1 : Window) (h4 : firstChunkOffset s1 = 16) (hf : 420 ≤ freeOffset s1)
    (hf2 : freeOffset s1 ≤ s1.mSize) (hreg : s1.mSize + 12 * numColumns s1 + 407 < U32)
    (h8 : numRows s1 = 0)
    (hsp : read32 s1.mData 416 = 0 ∨
      (420 ≤ read32 s1.mData 416 ∧ read32 s1.mData 416 + 404 ≤ freeOffset s1)) : Inv s1 := by
  have hL : lastChunk s1 = 0 := by unfold lastChunk; rw [h8]
  have hc0 : chunkAt s1.mData 0 = 16 := h4
  have hspe : spareChunk s1 = read32 s1.mData 416 := by
    unfold spareChunk; rw [hL, hc0]
  constructor
  · exact h4
  · exact hf
  · exact hf2
  · exact hreg
  · intro k hk; omega
  · rw [hL, hc0]; omega
  · rw [hspe, hL, hc0]; omega
  · intro r hr; omega
  · intro r hr; omega
  · intro r k hr; omega
  · intro r hr; omega
  · intro r r1 _ hr; omega

/-- `clear` establishes the invariant on a writable window that can hold the header
and the first chunk. -/
theorem inv_clear (s : Window) (hw : s.mReadOnly = false) (h1 : 420 ≤ s.mSize)
    (h2 : s.mSize + 407 < U32) : Inv (clear s).2 := by
  obtain ⟨hf, h4, h8, h12, h416⟩ := clear_header s hw
  have hsz : (clear s).2.mSize = s.mSize := by rw [clear_writable s hw]
  apply inv_of_empty
  · exact h4
  · omega
  · omega
  · rw [hsz, h12]; omega
  · exact h8
  · exact Or.inl h416

theorem setNumColumns_ok_state (s : Window) (n : Nat) (hw : s.mReadOnly = false)
    (h : ¬ ((numColumns s > 0 ∨ numRows s > 0) ∧ numColumns s ≠ n)) :
    setNumColumns s n = (Status.OK, { s with mData := write32 s.mData 12 n }) := by
  unfold setNumColumns
  simp only [hw, Bool.false_eq_true, if_false]
  rw [if_neg h]

theorem setNumColumns_bad_state (s : Window) (n : Nat) (hw : s.mReadOnly = false)
    (h : (numColumns s > 0 ∨ numRows s > 0) ∧ numColumns s ≠ n) :
    setNumColumns s n = (Status.INVALID_OPERATION, s) := by
  unfold setNumColumns
  simp only [hw, Bool.false_eq_true, if_false]
  rw [if_pos h]

theorem setNumColumns_readOnly (s : Window) (n : Nat) (hw : s.mReadOnly = true) :
    setNumColumns s n = (Status.INVALID_OPERATION, s) := by
  unfold setNumColumns
  simp only [hw, if_true]

theorem setNumColumns_same (s : Window) (hw : s.mReadOnly = false) :
    setNumColumns s (numColumns s) = (Status.OK, s) := by
  rw [setNumColumns_ok_state s _ hw (by simp)]
  unfold numColumns
  rw [write32_read32]

theorem inv_setNumColumns (s : Window) (n : Nat) (hI : Inv s)
    (hn : s.mSize + 12 * n + 407 < U32) : Inv (setNumColumns s n).2 := by
  cases hw : s.mReadOnly with
  | true => rw [setNumColumns_readOnly s n hw]; exact hI
  | false =>
    by_cases hc : (numColumns s > 0 ∨ numRows s > 0) ∧ numColumns s ≠ n
    · rw [setNumColumns_bad_state s n hw hc]; exact hI
    · by_cases hsame : numColumns s = n
      · subst hsame
        rw [setNumColumns_same s hw]; exact hI
      · rw [setNumColumns_ok_state s n hw hc]
        have hz : numColumns s = 0 ∧ numRows s = 0 := by omega
        have hnlt : n < U32 := by omega
        have hfr := frame_write32 s.mData 12 n
        have hL0 : lastChunk s = 0 := by unfold lastChunk; omega
        have hc0 := hI.chunk0
        have hspare : read32 s.mData 416 = 0 ∨
            (16 + 404 ≤ read32 s.mData 416 ∧ read32 s.mData 416 + 404 ≤ freeOffset s) := by
          have := hI.spare
          unfold spareChunk at this
          rw [hL0, hc0] at this
          exact this
        apply inv_of_empty
        · show read32 (write32 s.mData 12 n) 4 = 16
          rw [hfr.read32 (by omega)]; exact hI.first
        · show 420 ≤ read32 (write32 s.mData 12 n) 0
          rw [hfr.read32 (by omega)]; exact hI.free_lo
        · show read32 (write32 s.mData 12 n) 0 ≤ s.mSize
          rw [hfr.read32 (by omega)]; exact hI.free_hi
        · show s.mSize + 12 * read32 (write32 s.mData 12 n) 12 + 407 < U32
          rw [read32_write32_same, Nat.mod_eq_of_lt hnlt]; exact hn
        · show read32 (write32 s.mData 12 n) 8 = 0
          rw [hfr.read32 (by omega)]; exact hz.2
        · show read32 (write32 s.mData 12 n) 416 = 0 ∨
            (420 ≤ read32 (write32 s.mData 12 n) 416 ∧
              read32 (write32 s.mData 12 n) 416 + 404 ≤ read32 (write32 s.mData 12 n) 0)
          rw [hfr.read32 (by omega), hfr.read32 (by omega)]
          unfold freeOffset at hspare
          omega

end Ashmem

namespace Ashmem

/-- Variant of `Inv.transfer` in which the link word of the last chunk in use may change,
provided the chunk it then names is a fresh or spare chunk clear of all directories. -/
theorem Inv.rebuild {s s1 : Window} (hI : Inv s) (hsz : s1.mSize = s.mSize)
    (h4 : read32 s1.mData 4 = read32 s.mData 4) (h8 : numRows s1 = numRows s)
    (h12 : numColumns s1 = numColumns s) (hf : freeOffset s ≤ freeOffset s1)
    (hf2 : freeOffset s1 ≤ s1.mSize)
    (hlinks : ∀ k, k < lastChunk s →
      read32 s1.mData (chunkAt s.mData k + 400) = read32 s.mData (chunkAt s.mData k + 400))
    (hslots : ∀ k i, k ≤ lastChunk s → i < 100 →
      read32 s1.mData (chunkAt s.mData k + 4 * i) = read32 s.mData (chunkAt s.mData k + 4 * i))
    (v : Nat) (hv : read32 s1.mData (chunkAt s.mData (lastChunk s) + 400) = v)
    (hsp : v = 0 ∨ (chunkAt s.mData (lastChunk s) + 404 ≤ v ∧ v + 404 ≤ freeOffset s1))
    (hrsp : v ≠ 0 → ∀ r, r < numRows s →
      rowDir s.mData r + 12 * numColumns s ≤ v ∨ v + 404 ≤ rowDir s.mData r) : Inv s1 := by
  have hL : lastChunk s1 = lastChunk s := by unfold lastChunk; rw [h8]
  have hca : ∀ k, k ≤ lastChunk s → chunkAt s1.mData k = chunkAt s.mData k := by
    intro k hk
    exact chunkAt_congr _ _ _ h4 (fun j hj => hlinks j (by omega))
  have hrd : ∀ r, r < numRows s → rowDir s1.mData r = rowDir s.mData r := by
    intro r hr
    have hr1 := row_div_le_lastChunk s r hr
    unfold rowDir rowSlotAddr
    rw [hca _ hr1]
    exact hslots _ _ hr1 (by omega)
  have hsp1 : spareChunk s1 = v := by
    unfold spareChunk
    rw [hL, hca _ (Nat.le_refl _)]
    exact hv
  constructor
  · show read32 s1.mData 4 = 16
    rw [h4]; exact hI.first
  · have := hI.free_lo; omega
  · exact hf2
  · rw [hsz, h12]; exact hI.regime
  · intro k hk
    rw [hL] at hk
    rw [hca _ (by omega), hca _ (by omega)]
    exact hI.chunk_mono k hk
  · rw [hL, hca _ (Nat.le_refl _)]
    have := hI.chunk_hi; omega
  · rw [hsp1, hL, hca _ (Nat.le_refl _)]
    exact hsp
  · intro r hr
    rw [h8] at hr
    rw [hrd r hr]; exact hI.row_lo r hr
  · intro r hr
    rw [h8] at hr
    rw [hrd r hr, h12]
    have := hI.row_hi r hr; omega
  · intro r k hr hk
    rw [h8] at hr
    rw [hL] at hk
    rw [hrd r hr, h12, hca _ hk]
    exact hI.row_chunk r k hr hk
  · intro r hr hne
    rw [h8] at hr
    rw [hsp1] at hne ⊢
    rw [hrd r hr, h12]
    exact hrsp hne r hr
  · intro r r1 hlt hr1
    rw [h8] at hr1
    rw [hrd r (by omega), hrd r1 hr1, h12]
    exact hI.row_mono r r1 hlt hr1

/-- Dropping the last row keeps the invariant: the chunk that held only that row becomes
the spare chunk. -/
theorem Inv.shrink {s s1 : Window} (hI : Inv s) (hsz : s1.mSize = s.mSize)
    (hpos : 0 < numRows s) (h8 : numRows s1 = numRows s - 1)
    (hag : ∀ i, i < 8 ∨ 12 ≤ i → s1.mData i = s.mData i) : Inv s1 := by
  have h0 : freeOffset s1 = freeOffset s :=
    read32_congr _ _ _ (fun i h1 h2 => hag i (by omega))
  have h4 : read32 s1.mData 4 = read32 s.mData 4 :=
    read32_congr _ _ _ (fun i h1 h2 => hag i (by omega))
  have h12 : numColumns s1 = numColumns s :=
    read32_congr _ _ _ (fun i h1 h2 => hag i (by omega))
  have hrd32 : ∀ a, 16 ≤ a → read32 s1.mData a = read32 s.mData a :=
    fun a ha => read32_congr _ _ _ (fun i h1 h2 => hag i (by omega))
  have hca : ∀ k, k ≤ lastChunk s + 1 → chunkAt s1.mData k = chunkAt s.mData k := by
    intro k hk
    apply chunkAt_congr _ _ _ h4
    intro j hj
    exact hrd32 _ (by have := hI.chunk_ge j (by omega); omega)
  have hrd : ∀ r, r < numRows s → rowDir s1.mData r = rowDir s.mData r := by
    intro r hr
    have hr1 := row_div_le_lastChunk s r hr
    unfold rowDir rowSlotAddr
    rw [hca _ (by omega)]
    exact hrd32 _ (by have := hI.chunk_ge _ hr1; omega)
  have hLle : lastChunk s1 ≤ lastChunk s := by
    unfold lastChunk; rw [h8]; omega
  have hLcase : lastChunk s1 = lastChunk s ∨ lastChunk s1 + 1 = lastChunk s := by
    unfold lastChunk; rw [h8]; omega
  have hsp1 : spareChunk s1 = spareChunk s ∧ lastChunk s1 = lastChunk s ∨
      spareChunk s1 = chunkAt s.mData (lastChunk s) ∧ lastChunk s1 + 1 = lastChunk s := by
    rcases hLcase with h | h
    · left
      refine ⟨?_, h⟩
      unfold spareChunk
      rw [h, hca _ (by omega)]
      exact hrd32 _ (by have := hI.chunk_ge (lastChunk s) (Nat.le_refl _); omega)
    · right
      refine ⟨?_, h⟩
      unfold spareChunk
      rw [hca _ (by omega), hrd32 _ (by have := hI.chunk_ge (lastChunk s1) (by omega); omega)]
      rw [← h]
      rfl
  constructor
  · show read32 s1.mData 4 = 16
    rw [h4]; exact hI.first
  · rw [h0]; exact hI.free_lo
  · rw [h0, hsz]; exact hI.free_hi
  · rw [hsz, h12]; exact hI.regime
  · intro k hk
    rw [hca _ (by omega), hca _ (by omega)]
    exact hI.chunk_mono k (by omega)
  · rw [hca _ (by omega), h0]
    exact hI.chunk_le_free _ hLle
  · rw [h0, hca _ (by omega)]
    rcases hsp1 with ⟨h1, h2⟩ | ⟨h1, h2⟩
    · rw [h1, h2]; exact hI.spare
    · rw [h1]
      right
      exact ⟨hI.chunk_lt _ _ (Nat.le_refl _) (by omega), hI.chunk_hi⟩
  · intro r hr
    rw [h8] at hr
    rw [hrd r (by omega)]; exact hI.row_lo r (by omega)
  · intro r hr
    rw [h8] at hr
    rw [hrd r (by omega), h12, h0]
    exact hI.row_hi r (by omega)
  · intro r k hr hk
    rw [h8] at hr
    rw [hrd r (by omega), h12, hca _ (by omega)]
    exact hI.row_chunk r k (by omega) (by omega)
  · intro r hr hne
    rw [h8] at hr
    rw [hrd r (by omega), h12]
    rcases hsp1 with ⟨h1, h2⟩ | ⟨h1, h2⟩
    · rw [h1] at hne ⊢
      exact hI.row_spare r (by omega) hne
    · rw [h1]
      exact hI.row_chunk r _ (by omega) (Nat.le_refl _)
  · intro r r1 hlt hr1
    rw [h8] at hr1
    rw [hrd r (by omega), hrd r1 (by omega), h12]
    exact hI.row_mono r r1 hlt (by omega)

theorem inv_freeLastRow (s : Window) (hI : Inv s) : Inv (freeLastRow s).2 := by
  unfold freeLastRow
  split
  · exact hI
  · split
    · next hpos =>
      refine hI.shrink ?_ hpos ?_ ?_
      · rfl
      · show read32 (write32 s.mData 8 (numRows s - 1)) 8 = numRows s - 1
        rw [read32_write32_same]
        exact Nat.mod_eq_of_lt (by have := numRows_lt s; omega)
      · intro i hi
        exact frame_write32 _ _ _ i (by omega)
    · exact hI

end Ashmem

namespace Ashmem

theorem padOf_le (f : Nat) (aligned : Bool) : padOf f aligned ≤ 3 := by
  unfold padOf; split <;> omega

theorem padOf_false (f : Nat) : padOf f false = 0 := rfl

theorem padOf_aligned (f : Nat) : (f + padOf f true) % 4 = 0 := by
  unfold padOf; simp only [if_true]; omega

/-- Under the invariant `alloc` either fails and changes nothing, or hands out the
range that starts at the padded free offset. -/
theorem alloc_cases (s : Window) (hI : Inv s) (size : Nat) (aligned : Bool)
    (hno : s.mSize + padOf (freeOffset s) aligned + size < U32) :
    (s.mSize < freeOffset s + padOf (freeOffset s) aligned + size ∧
        alloc s size aligned = (0, s)) ∨
    (freeOffset s + padOf (freeOffset s) aligned + size ≤ s.mSize ∧
        alloc s size aligned = (freeOffset s + padOf (freeOffset s) aligned,
          { s with
            mData := write32 s.mData 0 (freeOffset s + padOf (freeOffset s) aligned + size) })) := by
  have hf := hI.free_hi
  have h := alloc_exact s size aligned (by omega)
  rcases Nat.lt_or_ge s.mSize (freeOffset s + padOf (freeOffset s) aligned + size) with hlt | hge
  · exact Or.inl ⟨hlt, h.1 hlt⟩
  · exact Or.inr ⟨hge, h.2 hge⟩

/-- A cell outside the window resolves to `NULL`. -/
theorem getFieldSlot_out (s : Window) (row column : Nat)
    (h : row ≥ numRows s ∨ column ≥ numColumns s) : getFieldSlot s row column = none := by
  unfold getFieldSlot
  rw [if_pos h]

/-- A resolving cell lies in the window; its slot is `&fieldDir[column]`, formed modulo
`2^32`, and the pointer to it is not 0. -/
theorem getFieldSlot_range (s : Window) (row column slot : Nat)
    (h : getFieldSlot s row column = some slot) :
    row < numRows s ∧ column < numColumns s ∧
    slot = (rowDir s.mData row + 12 * column) % U32 ∧ (s.mDataPtr + slot) % U32 ≠ 0 := by
  unfold getFieldSlot at h
  split at h
  · exact absurd h (by simp)
  · next hc =>
    dsimp only at h
    split at h
    · exact absurd h (by simp)
    · split at h
      · exact absurd h (by simp)
      · next hnz =>
        rw [getRowSlot_eq] at h hnz
        have h1 : (rowDir s.mData row + 12 * column) % U32 = slot := by
          unfold rowDir; exact Option.some.inj h
        refine ⟨by omega, by omega, h1.symm, ?_⟩
        rw [← h1]
        unfold rowDir
        exact hnz

theorem getFieldSlot_some (s : Window) (row column slot : Nat) (hI : Inv s)
    (h : getFieldSlot s row column = some slot) :
    row < numRows s ∧ column < numColumns s ∧ slot = rowDir s.mData row + 12 * column := by
  obtain ⟨hr, hc, hslot, _⟩ := getFieldSlot_range s row column slot h
  have h1 := hI.row_hi row hr
  have h2 := hI.free_hi
  have h3 := hI.regime
  rw [Nat.mod_eq_of_lt (by omega)] at hslot
  exact ⟨hr, hc, hslot⟩

/-- In a mapped window that satisfies the layout invariant, every cell of the window
resolves to slot `column` of the field directory of its row. -/
theorem getFieldSlot_in (s : Window) (hI : Inv s) (hM : Mapped s) (row column : Nat)
    (hr : row < numRows s) (hc : column < numColumns s) :
    getFieldSlot s row column = some (rowDir s.mData row + 12 * column) := by
  have h1 := hI.row_hi row hr
  have h2 := hI.free_hi
  have h3 := hI.regime
  have h4 := hI.chunk_le_free (row / 100) (row_div_le_lastChunk s row hr)
  have h5 : row % 100 < 100 := Nat.mod_lt _ (by omega)
  have h6 : rowSlotAddr s.mData row < freeOffset s := by
    unfold rowSlotAddr; omega
  obtain ⟨hp, hm⟩ := hM
  unfold getFieldSlot
  rw [if_neg (by omega)]
  dsimp only
  rw [getRowSlot_eq, if_neg (by rw [Nat.mod_eq_of_lt (by omega)]; omega)]
  have h7 : (read32 s.mData (rowSlotAddr s.mData row) + 12 * column) % U32
      = rowDir s.mData row + 12 * column := by
    unfold rowDir at h1 ⊢
    exact Nat.mod_eq_of_lt (by omega)
  rw [h7, if_neg (by rw [Nat.mod_eq_of_lt (by omega)]; omega)]

/-- Writing inside the field slot of an allocated cell, and above the old free offset,
keeps the invariant. -/
theorem Inv.cell_write {s s1 : Window} (hI : Inv s) (hsz : s1.mSize = s.mSize)
    (hf : freeOffset s ≤ freeOffset s1) (hf2 : freeOffset s1 ≤ s.mSize)
    (r c : Nat) (hr : r < numRows s) (hc : c < numColumns s)
    (hag : ∀ i, 4 ≤ i → i < freeOffset s →
      (i < rowDir s.mData r + 12 * c ∨ rowDir s.mData r + 12 * c + 12 ≤ i) →
      s1.mData i = s.mData i) : Inv s1 := by
  apply hI.update hsz hf hf2
  intro i hi
  have hlo := hI.row_lo r hr
  have hfl := hI.free_lo
  rcases hi with ⟨h1, h2⟩ | ⟨k, hk, h1, h2⟩
  · exact hag i h1 (by omega) (by omega)
  · have hkf := hI.chunk_le_free k hk
    have hkg := hI.chunk_ge k hk
    have hd := hI.row_chunk r k hr hk
    exact hag i (by omega) (by omega) (by omega)

theorem inv_putLong (s : Window) (row column : Nat) (value : Int) (hI : Inv s) :
    Inv (putLong s row column value).2 := by
  unfold putLong
  split
  · exact hI
  · split
    · exact hI
    · next slot hs =>
      obtain ⟨hr, hc, hslot⟩ := getFieldSlot_some s row column slot hI hs
      refine hI.cell_write ?_ ?_ ?_ row column hr hc ?_
      · rfl
      · show freeOffset s ≤ read32 (write64 (write32 s.mData slot _) (slot + 4) _) 0
        rw [(frame_write64 _ _ _).read32 (by have := hI.row_lo row hr; omega),
          (frame_write32 _ _ _).read32 (by have := hI.row_lo row hr; omega)]
        exact Nat.le_refl _
      · show read32 (write64 (write32 s.mData slot _) (slot + 4) _) 0 ≤ s.mSize
        rw [(frame_write64 _ _ _).read32 (by have := hI.row_lo row hr; omega),
          (frame_write32 _ _ _).read32 (by have := hI.row_lo row hr; omega)]
        exact hI.free_hi
      · intro i _ _ h3
        show write64 (write32 s.mData slot _) (slot + 4) _ i = s.mData i
        rw [frame_write64 _ _ _ i (by omega), frame_write32 _ _ _ i (by omega)]

theorem inv_putDouble (s : Window) (row column : Nat) (bits : Nat) (hI : Inv s) :
    Inv (putDouble s row column bits).2 := by
  unfold putDouble
  split
  · exact hI
  · split
    · exact hI
    · next slot hs =>
      obtain ⟨hr, hc, hslot⟩ := getFieldSlot_some s row column slot hI hs
      refine hI.cell_write ?_ ?_ ?_ row column hr hc ?_
      · rfl
      · show freeOffset s ≤ read32 (write64 (write32 s.mData slot _) (slot + 4) _) 0
        rw [(frame_write64 _ _ _).read32 (by have := hI.row_lo row hr; omega),
          (frame_write32 _ _ _).read32 (by have := hI.row_lo row hr; omega)]
        exact Nat.le_refl _
      · show read32 (write64 (write32 s.mData slot _) (slot + 4) _) 0 ≤ s.mSize
        rw [(frame_write64 _ _ _).read32 (by have := hI.row_lo row hr; omega),
          (frame_write32 _ _ _).read32 (by have := hI.row_lo row hr; omega)]
        exact hI.free_hi
      · intro i _ _ h3
        show write64 (write32 s.mData slot _) (slot + 4) _ i = s.mData i
        rw [frame_write64 _ _ _ i (by omega), frame_write32 _ _ _ i (by omega)]

theorem inv_putNull (s : Window) (row column : Nat) (hI : Inv s) :
    Inv (putNull s row column).2 := by
  unfold putNull
  split
  · exact hI
  · split
    · exact hI
    · next slot hs =>
      obtain ⟨hr, hc, hslot⟩ := getFieldSlot_some s row column slot hI hs
      have hlo := hI.row_lo row hr
      refine hI.cell_write ?_ ?_ ?_ row column hr hc ?_
      · rfl
      · show freeOffset s ≤ read32 (write32 (write32 (write32 s.mData slot _) (slot + 4) _)
          (slot + 8) _) 0
        rw [(frame_write32 _ _ _).read32 (by omega), (frame_write32 _ _ _).read32 (by omega),
          (frame_write32 _ _ _).read32 (by omega)]
        exact Nat.le_refl _
      · show read32 (write32 (write32 (write32 s.mData slot _) (slot + 4) _)
          (slot + 8) _) 0 ≤ s.mSize
        rw [(frame_write32 _ _ _).read32 (by omega), (frame_write32 _ _ _).read32 (by omega),
          (frame_write32 _ _ _).read32 (by omega)]
        exact hI.free_hi
      · intro i _ _ h3
        show write32 (write32 (write32 s.mData slot _) (slot + 4) _) (slot + 8) _ i = s.mData i
        rw [frame_write32 _ _ _ i (by omega), frame_write32 _ _ _ i (by omega),
          frame_write32 _ _ _ i (by omega)]

theorem inv_putBlobOrString (s : Window) (row column : Nat) (value : Nat → Byte)
    (size type : Nat) (hI : Inv s) (hsize : s.mSize + size < U32) :
    Inv (putBlobOrString s row column value size type).2 := by
  unfold putBlobOrString
  split
  · exact hI
  · split
    · exact hI
    · next slot hs =>
      obtain ⟨hr, hc, hslot⟩ := getFieldSlot_some s row column slot hI hs
      have hlo := hI.row_lo row hr
      have hhi := hI.row_hi row hr
      have hfl := hI.free_lo
      rcases alloc_cases s hI size false (by rw [padOf_false]; omega) with ⟨_, h⟩ | ⟨hfit, h⟩
      · rw [h]; exact hI
      · rw [h, padOf_false] at *
        dsimp only
        rw [if_neg (by omega)]
        have hlt : freeOffset s + 0 + size < U32 := by have := hI.free_hi; omega
        refine hI.cell_write ?_ ?_ ?_ row column hr hc ?_
        · rfl
        · show freeOffset s ≤ read32 (write32 (write32 (write32 (memcpy
            (write32 s.mData 0 _) _ value size) slot _) (slot + 4) _) (slot + 8) _) 0
          rw [(frame_write32 _ _ _).read32 (by omega), (frame_write32 _ _ _).read32 (by omega),
            (frame_write32 _ _ _).read32 (by omega), (frame_memcpy _ _ _ _).read32 (by omega),
            read32_write32_same, Nat.mod_eq_of_lt hlt]
          omega
        · show read32 (write32 (write32 (write32 (memcpy
            (write32 s.mData 0 _) _ value size) slot _) (slot + 4) _) (slot + 8) _) 0 ≤ s.mSize
          rw [(frame_write32 _ _ _).read32 (by omega), (frame_write32 _ _ _).read32 (by omega),
            (frame_write32 _ _ _).read32 (by omega), (frame_memcpy _ _ _ _).read32 (by omega),
            read32_write32_same, Nat.mod_eq_of_lt hlt]
          omega
        · intro i h1 h2 h3
          show write32 (write32 (write32 (memcpy
            (write32 s.mData 0 _) _ value size) slot _) (slot + 4) _) (slot + 8) _ i = s.mData i
          rw [frame_write32 _ _ _ i (by omega), frame_write32 _ _ _ i (by omega),
            frame_write32 _ _ _ i (by omega), frame_memcpy _ _ _ _ i (by omega),
            frame_write32 _ _ _ i (by omega)]

end Ashmem

/-! ## Shared window: `allocRow` keeps the layout invariant -/

namespace Ashmem

/-- The next row slot lies between the header and the free offset. -/
theorem Inv.slotFor_range {s : Window} (hI : Inv s) (a : Nat) (hslot : SlotFor s a) :
    16 ≤ a ∧ a + 4 ≤ freeOffset s := by
  have hcL := hI.chunk_hi
  have hcLg := hI.chunk_ge (lastChunk s) (Nat.le_refl _)
  have hLdef : lastChunk s = (numRows s - 1) / 100 := rfl
  rcases hslot with ⟨h1, h2⟩ | ⟨h1, h2, h3, h5⟩
  · exact ⟨by omega, by omega⟩
  · rcases hI.spare with h | ⟨h6, h7⟩
    · omega
    · rw [h2] at h6 h7
      exact ⟨by omega, by omega⟩

/-- Adding a row: the row counter goes up by one, the row slot `a` receives the offset
`o` of a directory taken from above the old free offset, and nothing else below the
old free offset changes outside the header. -/
theorem Inv.extend {sa sf : Window} (hI : Inv sa) (a o : Nat) (hslot : SlotFor sa a)
    (hsz : sf.mSize = sa.mSize) (h4 : read32 sf.mData 4 = read32 sa.mData 4)
    (h8 : numRows sf = numRows sa + 1) (h12 : numColumns sf = numColumns sa)
    (ho : freeOffset sa ≤ o) (hf : freeOffset sf = o + 12 * numColumns sa)
    (hf2 : freeOffset sf ≤ sa.mSize) (hao : read32 sf.mData a = o)
    (hag : ∀ i, 16 ≤ i → i < freeOffset sa → (i < a ∨ a + 4 ≤ i) →
      sf.mData i = sa.mData i) :
    Inv sf ∧ rowDir sf.mData (numRows sa) = o ∧
      (∀ r, r < numRows sa → rowDir sf.mData r = rowDir sa.mData r) ∧
      rowSlotAddr sf.mData (numRows sa) = a ∧
      ∀ k, k ≤ lastChunk sa → chunkAt sf.mData k = chunkAt sa.mData k := by
  have hfl := hI.free_lo
  have hLf : lastChunk sf = numRows sa / 100 := by unfold lastChunk; rw [h8]; rfl
  have hLdef : lastChunk sa = (numRows sa - 1) / 100 := rfl
  have hcL := hI.chunk_hi
  have hcLg := hI.chunk_ge (lastChunk sa) (Nat.le_refl _)
  -- where the slot lies
  have ha : 16 ≤ a ∧ a + 4 ≤ freeOffset sa ∧
      (chunkAt sa.mData (lastChunk sa) ≤ a ∧ a + 4 ≤ chunkAt sa.mData (lastChunk sa) + 400 ∨
        chunkAt sa.mData (lastChunk sa) + 404 ≤ a) := by
    rcases hslot with ⟨h1, h2⟩ | ⟨h1, h2, h3, h5⟩
    · refine ⟨by omega, by omega, Or.inl ⟨by omega, by omega⟩⟩
    · rcases hI.spare with h | ⟨h6, h7⟩
      · omega
      · rw [h2] at h6 h7
        exact ⟨by omega, by omega, Or.inr h6⟩
  have hrd32 : ∀ b, 16 ≤ b → b + 4 ≤ freeOffset sa → (b + 4 ≤ a ∨ a + 4 ≤ b) →
      read32 sf.mData b = read32 sa.mData b :=
    fun b h1 h2 h3 => read32_congr _ _ _ (fun i h5 h6 => hag i (by omega) (by omega) (by omega))
  have hlink : ∀ j, j ≤ lastChunk sa →
      read32 sf.mData (chunkAt sa.mData j + 400) = read32 sa.mData (chunkAt sa.mData j + 400) := by
    intro j hj
    have h1 := hI.chunk_ge j hj
    have h2 := hI.chunk_le_free j hj
    apply hrd32 _ (by omega) (by omega)
    rcases Nat.lt_or_ge j (lastChunk sa) with h | h
    · have := hI.chunk_lt _ _ (Nat.le_refl _) h
      omega
    · have : j = lastChunk sa := by omega
      subst this
      omega
  have hca : ∀ k, k ≤ lastChunk sa + 1 → chunkAt sf.mData k = chunkAt sa.mData k :=
    fun k hk => chunkAt_congr _ _ _ h4 (fun j hj => hlink j (by omega))
  have hspa : chunkAt sa.mData (lastChunk sa + 1) = spareChunk sa := rfl
  have hrd : ∀ r, r < numRows sa → rowDir sf.mData r = rowDir sa.mData r := by
    intro r hr
    have hr1 := row_div_le_lastChunk sa r hr
    unfold rowDir rowSlotAddr
    rw [hca _ (by omega)]
    have h1 := hI.chunk_ge _ hr1
    have h2 := hI.chunk_le_free _ hr1
    apply hrd32 _ (by omega) (by omega)
    rcases hslot with ⟨h5, h6⟩ | ⟨h5, h6, h7, h9⟩
    · rcases Nat.lt_or_ge (r / 100) (lastChunk sa) with h | h
      · have := hI.chunk_lt _ _ (Nat.le_refl _) h
        omega
      · have : r / 100 = lastChunk sa := by omega
        rw [this]
        omega
    · have hsp : chunkAt sa.mData (lastChunk sa) + 404 ≤ a := by
        rcases hI.spare with h | ⟨h10, _⟩
        · omega
        · rw [h6] at h10; exact h10
      rcases Nat.lt_or_ge (r / 100) (lastChunk sa) with h10 | h10
      · have := hI.chunk_lt (lastChunk sa) (r / 100) (Nat.le_refl _) h10
        omega
      · have : r / 100 = lastChunk sa := by omega
        rw [this]; omega
  -- the chunk that holds the new row
  have hcf : (numRows sa / 100 = lastChunk sa ∧
        a = chunkAt sa.mData (lastChunk sa) + 4 * (numRows sa % 100) ∧
        numRows sa - 100 * lastChunk sa ≠ 100) ∨
      (numRows sa / 100 = lastChunk sa + 1 ∧ numRows sa % 100 = 0 ∧ spareChunk sa = a ∧
        chunkAt sa.mData (lastChunk sa) + 404 ≤ a ∧ a + 404 ≤ freeOffset sa ∧
        read32 sa.mData (a + 400) = 0) := by
    rcases hslot with ⟨h5, h6⟩ | ⟨h5, h6, h7, h9⟩
    · left
      refine ⟨by omega, ?_, h5⟩
      rw [h6]
      have : numRows sa - 100 * lastChunk sa = numRows sa % 100 := by omega
      rw [this]
    · right
      rcases hI.spare with h | ⟨h10, h11⟩
      · omega
      · rw [h6] at h10 h11
        exact ⟨by omega, by omega, h6, h10, h11, h9⟩
  have hnew : rowDir sf.mData (numRows sa) = o := by
    unfold rowDir rowSlotAddr
    rcases hcf with ⟨h5, h6, _⟩ | ⟨h5, h6, h7, _⟩
    · rw [h5, hca _ (by omega), ← h6]; exact hao
    · rw [h5, hca _ (by omega), hspa, h7, h6]; exact hao
  have hspf : spareChunk sf = spareChunk sa ∧ numRows sa / 100 = lastChunk sa ∨
      spareChunk sf = 0 ∧ numRows sa / 100 = lastChunk sa + 1 := by
    unfold spareChunk
    rw [hLf]
    rcases hcf with ⟨h5, h6, h7⟩ | ⟨h5, h6, h7, h9, h10, h11⟩
    · left
      rw [h5, hca _ (by omega)]
      exact ⟨hlink _ (Nat.le_refl _), rfl⟩
    · right
      rw [h5, hca _ (by omega), hspa, h7]
      refine ⟨?_, rfl⟩
      rw [hrd32 _ (by omega) (by omega) (by omega)]
      exact h11
  have hrdall : ∀ r, r < numRows sa + 1 →
      (r < numRows sa ∧ rowDir sf.mData r = rowDir sa.mData r) ∨
        (r = numRows sa ∧ rowDir sf.mData r = o) := by
    intro r hr
    rcases Nat.lt_or_ge r (numRows sa) with h | h
    · exact Or.inl ⟨h, hrd r h⟩
    · have : r = numRows sa := by omega
      subst this
      exact Or.inr ⟨rfl, hnew⟩
  have hnewa : rowSlotAddr sf.mData (numRows sa) = a := by
    unfold rowSlotAddr
    rcases hcf with ⟨h5, h6, _⟩ | ⟨h5, h6, h7, _⟩
    · rw [h5, hca _ (by omega), ← h6]
    · rw [h5, hca _ (by omega), hspa, h7, h6]
      rfl
  refine ⟨?_, hnew, hrd, hnewa, fun k hk => hca k (by omega)⟩
  constructor
  · show read32 sf.mData 4 = 16
    rw [h4]; exact hI.first
  · omega
  · rw [hsz]; exact hf2
  · rw [hsz, h12]; exact hI.regime
  · intro k hk
    rw [hLf] at hk
    rcases hcf with ⟨h5, _, _⟩ | ⟨h5, h6, h7, h9, h10, h11⟩
    · rw [hca _ (by omega), hca _ (by omega)]
      exact hI.chunk_mono k (by omega)
    · rw [hca _ (by omega), hca _ (by omega)]
      rcases Nat.lt_or_ge k (lastChunk sa) with h | h
      · exact hI.chunk_mono k h
      · have : k = lastChunk sa := by omega
        subst this
        rw [hspa, h7]; exact h9
  · rw [hLf]
    rcases hcf with ⟨h5, _, _⟩ | ⟨h5, h6, h7, h9, h10, h11⟩
    · rw [h5, hca _ (by omega)]; omega
    · rw [h5, hca _ (by omega), hspa, h7]; omega
  · rcases hspf with ⟨h5, h6⟩ | ⟨h5, h6⟩
    · rw [h5, hLf, h6, hca _ (by omega)]
      rcases hI.spare with h | ⟨h7, h9⟩
      · exact Or.inl h
      · exact Or.inr ⟨h7, by omega⟩
    · exact Or.inl h5
  · intro r hr
    rw [h8] at hr
    rcases hrdall r hr with ⟨h5, h6⟩ | ⟨h5, h6⟩
    · rw [h6]; exact hI.row_lo r h5
    · rw [h6]; omega
  · intro r hr
    rw [h8] at hr
    rw [h12, hf]
    rcases hrdall r hr with ⟨h5, h6⟩ | ⟨h5, h6⟩
    · rw [h6]; have := hI.row_hi r h5; omega
    · rw [h6]
  · intro r k hr hk
    rw [h8] at hr
    rw [hLf] at hk
    rw [h12, hca _ (by rcases hcf with ⟨h5, _, _⟩ | ⟨h5, _⟩ <;> omega)]
    have hkc : k ≤ lastChunk sa ∨
        (k = lastChunk sa + 1 ∧ chunkAt sa.mData k = a ∧ a + 404 ≤ freeOffset sa ∧
          spareChunk sa = a ∧ a ≠ 0) := by
      rcases hcf with ⟨h5, _, _⟩ | ⟨h5, h6, h7, h9, h10, h11⟩
      · left; omega
      · rcases Nat.lt_or_ge k (lastChunk sa + 1) with h | h
        · left; omega
        · right
          have : k = lastChunk sa + 1 := by omega
          subst this
          exact ⟨rfl, by rw [hspa, h7], h10, h7, by omega⟩
    rcases hrdall r hr with ⟨h5, h6⟩ | ⟨h5, h6⟩
    · rw [h6]
      rcases hkc with h | ⟨_, h9, _, h10, h11⟩
      · exact hI.row_chunk r k h5 h
      · rw [h9]
        have := hI.row_spare r h5 (by rw [h10]; exact h11)
        rw [h10] at this
        exact this
    · rw [h6]
      right
      rcases hkc with h | ⟨_, h9, h10, _, _⟩
      · have := hI.chunk_le_free k h; omega
      · rw [h9]; omega
  · intro r hr hne
    rw [h8] at hr
    rw [h12]
    rcases hspf with ⟨h5, h6⟩ | ⟨h5, h6⟩
    · rw [h5] at hne ⊢
      rcases hrdall r hr with ⟨h7, h9⟩ | ⟨h7, h9⟩
      · rw [h9]; exact hI.row_spare r h7 hne
      · rw [h9]
        right
        rcases hI.spare with h | ⟨_, h10⟩
        · exact absurd h hne
        · omega
    · exact absurd h5 hne
  · intro r r1 hlt hr1
    rw [h8] at hr1
    rw [h12]
    rcases hrdall r1 hr1 with ⟨h5, h6⟩ | ⟨h5, h6⟩
    · rw [h6, hrd r (by omega)]
      exact hI.row_mono r r1 hlt h5
    · rw [h6, hrd r (by omega)]
      have := hI.row_hi r (by omega)
      omega

end Ashmem

namespace Ashmem

theorem write32_write32_same (m : Mem) (a v w : Nat) :
    write32 (write32 m a v) a w = write32 m a w := by
  funext i
  unfold write32
  split
  · rfl
  · split
    · rfl
    · split
      · rfl
      · split
        · rfl
        · next h1 h2 h3 h4 => simp [h1, h2, h3, h4]

theorem Inv.numRows_succ_lt {s : Window} (hI : Inv s) : numRows s + 1 < U32 := by
  have h1 := hI.numRows_bound
  have h2 := hI.free_hi
  have h3 := hI.regime
  have h4 := hI.free_lo
  omega

/-- Entering the spare chunk left behind by `freeLastRow`: its link word is cleared. -/
theorem Inv.prep_reuse {s : Window} (hI : Inv s) (hsp : spareChunk s ≠ 0)
    (hfull : numRows s - 100 * lastChunk s = 100) :
    Inv { s with mData := write32 s.mData (spareChunk s + 400) 0 } ∧
    numRows { s with mData := write32 s.mData (spareChunk s + 400) 0 } = numRows s ∧
    numColumns { s with mData := write32 s.mData (spareChunk s + 400) 0 } = numColumns s ∧
    freeOffset { s with mData := write32 s.mData (spareChunk s + 400) 0 } = freeOffset s ∧
    SlotFor { s with mData := write32 s.mData (spareChunk s + 400) 0 } (spareChunk s) ∧
    ∀ k, k ≤ lastChunk s →
      chunkAt (write32 s.mData (spareChunk s + 400) 0) k = chunkAt s.mData k := by
  have hfr := frame_write32 s.mData (spareChunk s + 400) 0
  have hcL := hI.chunk_ge (lastChunk s) (Nat.le_refl _)
  obtain ⟨h1, h2⟩ : chunkAt s.mData (lastChunk s) + 404 ≤ spareChunk s ∧
      spareChunk s + 404 ≤ freeOffset s := by
    rcases hI.spare with h | h
    · exact absurd h hsp
    · exact h
  have hterm : read32 (write32 s.mData (spareChunk s + 400) 0) (spareChunk s + 400) = 0 := by
    rw [read32_write32_same]; rfl
  have hspdef : read32 s.mData (chunkAt s.mData (lastChunk s) + 400) = spareChunk s := rfl
  generalize hm1 : write32 s.mData (spareChunk s + 400) 0 = m1 at hfr hterm
  generalize hv : spareChunk s = v at *
  have h0 : read32 m1 0 = freeOffset s := hfr.read32 (by omega)
  have h8 : read32 m1 8 = numRows s := hfr.read32 (by omega)
  have h12 : read32 m1 12 = numColumns s := hfr.read32 (by omega)
  have hI1 : Inv { s with mData := m1 } := by
    refine hI.update rfl ?_ ?_ ?_
    · show freeOffset s ≤ read32 m1 0
      rw [h0]
    · show read32 m1 0 ≤ s.mSize
      rw [h0]; exact hI.free_hi
    · intro i hi
      apply hfr i
      rcases hi with ⟨h3, h4⟩ | ⟨k, hk, h3, h4⟩
      · omega
      · rcases Nat.lt_or_ge k (lastChunk s) with h | h
        · have := hI.chunk_lt _ _ (Nat.le_refl _) h; omega
        · have : k = lastChunk s := by omega
          subst this; omega
  have hL : lastChunk { s with mData := m1 } = lastChunk s := by
    unfold lastChunk numRows; dsimp only; rw [h8]; rfl
  have hca : chunkAt m1 (lastChunk s) = chunkAt s.mData (lastChunk s) := by
    apply chunkAt_frame _ _ _ _ hfr (by omega)
    intro j hj
    have := hI.chunk_lt _ _ (Nat.le_refl _) hj
    omega
  refine ⟨hI1, h8, h12, h0, Or.inr ⟨?_, ?_, hsp, hterm⟩, ?_⟩
  · rw [hL]
    show read32 m1 8 - 100 * lastChunk s = 100
    rw [h8]; exact hfull
  · unfold spareChunk
    rw [hL]
    show read32 m1 (chunkAt m1 (lastChunk s) + 400) = v
    rw [hca, hfr.read32 (by omega)]
    exact hspdef
  · intro k hk
    apply chunkAt_frame _ _ _ _ hfr (by omega)
    intro j hj
    have := hI.chunk_lt _ _ (Nat.le_refl _) (show j < lastChunk s by omega)
    omega

/-- Linking a freshly allocated chunk `c` behind the last chunk in use. -/
theorem Inv.prep_fresh {s : Window} (hI : Inv s)
    (hfull : numRows s - 100 * lastChunk s = 100) (c : Nat) (hc : freeOffset s ≤ c)
    (hfit : c + 404 ≤ s.mSize) :
    Inv { s with mData := write32 (write32 (write32 s.mData 0 (c + 404))
      (chunkAt s.mData (lastChunk s) + 400) c) (c + 400) 0 } ∧
    numRows { s with mData := write32 (write32 (write32 s.mData 0 (c + 404))
      (chunkAt s.mData (lastChunk s) + 400) c) (c + 400) 0 } = numRows s ∧
    numColumns { s with mData := write32 (write32 (write32 s.mData 0 (c + 404))
      (chunkAt s.mData (lastChunk s) + 400) c) (c + 400) 0 } = numColumns s ∧
    freeOffset { s with mData := write32 (write32 (write32 s.mData 0 (c + 404))
      (chunkAt s.mData (lastChunk s) + 400) c) (c + 400) 0 } = c + 404 ∧
    SlotFor { s with mData := write32 (write32 (write32 s.mData 0 (c + 404))
      (chunkAt s.mData (lastChunk s) + 400) c) (c + 400) 0 } c ∧
    ∀ k, k ≤ lastChunk s →
      chunkAt (write32 (write32 (write32 s.mData 0 (c + 404))
        (chunkAt s.mData (lastChunk s) + 400) c) (c + 400) 0) k = chunkAt s.mData k := by
  have hcL := hI.chunk_ge (lastChunk s) (Nat.le_refl _)
  have hchi := hI.chunk_hi
  have hfl := hI.free_lo
  have hreg := hI.regime
  have hclt : c + 404 < U32 := by omega
  generalize hm1 : write32 (write32 (write32 s.mData 0 (c + 404))
      (chunkAt s.mData (lastChunk s) + 400) c) (c + 400) 0 = m1
  have hbyte : ∀ i, 4 ≤ i → i < freeOffset s →
      (i < chunkAt s.mData (lastChunk s) + 400 ∨ chunkAt s.mData (lastChunk s) + 404 ≤ i) →
      m1 i = s.mData i := by
    intro i h1 h2 h3
    rw [← hm1, frame_write32 _ _ _ i (by omega), frame_write32 _ _ _ i (by omega),
      frame_write32 _ _ _ i (by omega)]
  have hrd32 : ∀ b, 4 ≤ b → b + 4 ≤ freeOffset s →
      (b + 4 ≤ chunkAt s.mData (lastChunk s) + 400 ∨ chunkAt s.mData (lastChunk s) + 404 ≤ b) →
      read32 m1 b = read32 s.mData b :=
    fun b h1 h2 h3 => read32_congr _ _ _ (fun i h5 h6 => hbyte i (by omega) (by omega) (by omega))
  have h0 : read32 m1 0 = c + 404 := by
    rw [← hm1, read32_write32_other _ _ _ _ (by omega), read32_write32_other _ _ _ _ (by omega),
      read32_write32_same, Nat.mod_eq_of_lt hclt]
  have hlinkL : read32 m1 (chunkAt s.mData (lastChunk s) + 400) = c := by
    rw [← hm1, read32_write32_other _ _ _ _ (by omega), read32_write32_same,
      Nat.mod_eq_of_lt (by omega)]
  have hterm : read32 m1 (c + 400) = 0 := by
    rw [← hm1, read32_write32_same]; rfl
  have h8 : read32 m1 8 = numRows s := hrd32 8 (by omega) (by omega) (by omega)
  have h12 : read32 m1 12 = numColumns s := hrd32 12 (by omega) (by omega) (by omega)
  have hI1 : Inv { s with mData := m1 } := by
    refine hI.rebuild rfl ?_ h8 h12 ?_ ?_ ?_ ?_ c hlinkL ?_ ?_
    · exact hrd32 4 (by omega) (by omega) (by omega)
    · show freeOffset s ≤ read32 m1 0
      rw [h0]; omega
    · show read32 m1 0 ≤ s.mSize
      rw [h0]; exact hfit
    · intro k hk
      have h1 := hI.chunk_lt _ _ (Nat.le_refl _) hk
      have h2 := hI.chunk_ge k (by omega)
      exact hrd32 _ (by omega) (by omega) (by omega)
    · intro k i hk hi
      have h2 := hI.chunk_ge k hk
      rcases Nat.lt_or_ge k (lastChunk s) with h | h
      · have h1 := hI.chunk_lt _ _ (Nat.le_refl _) h
        exact hrd32 _ (by omega) (by omega) (by omega)
      · have : k = lastChunk s := by omega
        subst this
        exact hrd32 _ (by omega) (by omega) (by omega)
    · right
      constructor
      · omega
      · show c + 404 ≤ read32 m1 0
        rw [h0]
    · intro _ r hr
      left
      have := hI.row_hi r hr
      omega
  have hL : lastChunk { s with mData := m1 } = lastChunk s := by
    unfold lastChunk numRows; dsimp only; rw [h8]; rfl
  have hca : chunkAt m1 (lastChunk s) = chunkAt s.mData (lastChunk s) := by
    apply chunkAt_congr
    · exact hrd32 4 (by omega) (by omega) (by omega)
    · intro j hj
      have h1 := hI.chunk_lt _ _ (Nat.le_refl _) hj
      have h2 := hI.chunk_ge j (by omega)
      exact hrd32 _ (by omega) (by omega) (by omega)
  refine ⟨hI1, h8, h12, h0, Or.inr ⟨?_, ?_, by omega, hterm⟩, ?_⟩
  · rw [hL]
    show read32 m1 8 - 100 * lastChunk s = 100
    rw [h8]; exact hfull
  · unfold spareChunk
    rw [hL]
    show read32 m1 (chunkAt m1 (lastChunk s) + 400) = c
    rw [hca]; exact hlinkL
  · intro k hk
    apply chunkAt_congr
    · exact hrd32 4 (by omega) (by omega) (by omega)
    · intro j hj
      have h1 := hI.chunk_lt _ _ (Nat.le_refl _) (show j < lastChunk s by omega)
      have h2 := hI.chunk_ge j (by omega)
      exact hrd32 _ (by omega) (by omega) (by omega)

end Ashmem

namespace Ashmem

/-- What `allocRowSlot` does under the invariant: it fails without a trace, or it
prepares the chunk list (state `sa`, still satisfying the invariant), counts the row and
returns the slot address `a`. -/
theorem allocRowSlot_cases (s : Window) (hI : Inv s) :
    allocRowSlot s = (none, s) ∨
    ∃ sa a, Inv sa ∧ sa.mSize = s.mSize ∧ sa.mReadOnly = s.mReadOnly ∧
      numRows sa = numRows s ∧ numColumns sa = numColumns s ∧
      freeOffset s ≤ freeOffset sa ∧ SlotFor sa a ∧
      (∀ k, k ≤ lastChunk s → chunkAt sa.mData k = chunkAt s.mData k) ∧
      (∀ i, 16 ≤ i → i < freeOffset s →
        (i < chunkAt s.mData (lastChunk s) + 400 ∨ chunkAt s.mData (lastChunk s) + 404 ≤ i) →
        (spareChunk s ≠ 0 → i < spareChunk s + 400 ∨ spareChunk s + 404 ≤ i) →
        sa.mData i = s.mData i) ∧
      ((numRows s - 100 * lastChunk s ≠ 100 ∧
          a = chunkAt s.mData (lastChunk s) + 4 * (numRows s - 100 * lastChunk s)) ∨
        (spareChunk s ≠ 0 ∧ a = spareChunk s) ∨ freeOffset s ≤ a) ∧
      allocRowSlot s = (some a, { sa with mData := write32 sa.mData 8 (numRows s + 1) }) := by
  have hnr := hI.numRows_succ_lt
  have hmod : (numRows s + 1) % U32 = numRows s + 1 := Nat.mod_eq_of_lt hnr
  have hcL := hI.chunk_ge (lastChunk s) (Nat.le_refl _)
  have hchi := hI.chunk_hi
  have hfl := hI.free_lo
  unfold allocRowSlot
  rw [allocRowSlotLoop_numRows]
  dsimp only
  by_cases hfull : numRows s - 100 * lastChunk s = 100
  · rw [if_pos hfull]
    by_cases hsp : read32 s.mData (chunkAt s.mData (lastChunk s) + 400) = 0
    · rw [if_pos hsp]
      have hreg := hI.regime
      have hp3 := padOf_le (freeOffset s) true
      rcases alloc_cases s hI 404 true (by omega) with ⟨_, h⟩ | ⟨hfit, h⟩
      · left
        rw [h]
        dsimp only
        have hw : write32 s.mData (chunkAt s.mData (lastChunk s) + 400) 0 = s.mData := by
          conv => lhs; rw [← hsp]
          exact write32_read32 _ _
        rw [hw, if_pos hsp]
      · right
        rw [h]
        dsimp only
        have hc : read32 (write32 (write32 s.mData 0 (freeOffset s + padOf (freeOffset s) true + 404))
            (chunkAt s.mData (lastChunk s) + 400) (freeOffset s + padOf (freeOffset s) true))
            (chunkAt s.mData (lastChunk s) + 400) = freeOffset s + padOf (freeOffset s) true := by
          rw [read32_write32_same]
          exact Nat.mod_eq_of_lt (by have := hI.free_hi; omega)
        rw [if_neg (by rw [hc]; omega)]
        unfold enterNextChunk
        dsimp only
        rw [hc]
        obtain ⟨hI1, h8, h12, h0, hslot, hch⟩ :=
          hI.prep_fresh hfull (freeOffset s + padOf (freeOffset s) true) (by omega) (by omega)
        refine ⟨_, _, hI1, rfl, rfl, h8, h12, ?_, hslot, hch, ?_, Or.inr (Or.inr (by omega)), ?_⟩
        · rw [h0]; omega
        · intro i h16 hi hL _
          show write32 (write32 (write32 s.mData 0 _) _ _) _ 0 i = s.mData i
          rw [frame_write32 _ _ _ i (by omega), frame_write32 _ _ _ i (by omega),
            frame_write32 _ _ _ i (by omega)]
        · unfold numRows at h8
          dsimp only at h8
          rw [h8]
          unfold numRows at hmod
          rw [hmod]
          rfl
    · rw [if_neg hsp]
      right
      unfold enterNextChunk
      dsimp only
      have hsp1 : spareChunk s ≠ 0 := hsp
      obtain ⟨hI1, h8, h12, h0, hslot, hch⟩ := hI.prep_reuse hsp1 hfull
      refine ⟨_, _, hI1, rfl, rfl, h8, h12, ?_, hslot, hch, ?_, Or.inr (Or.inl ⟨hsp1, rfl⟩), ?_⟩
      · rw [h0]
      · intro i h16 hi _ hS
        have hS1 := hS hsp1
        show write32 s.mData (read32 s.mData (chunkAt s.mData (lastChunk s) + 400) + 400) 0 i
          = s.mData i
        have e : read32 s.mData (chunkAt s.mData (lastChunk s) + 400) = spareChunk s := rfl
        rw [e, frame_write32 _ _ _ i (by omega)]
      · unfold numRows spareChunk at h8
        dsimp only at h8
        rw [h8]
        unfold numRows at hmod
        rw [hmod]
        rfl
  · rw [if_neg hfull]
    right
    refine ⟨s, _, hI, rfl, rfl, rfl, rfl, Nat.le_refl _, Or.inl ⟨hfull, rfl⟩, fun _ _ => rfl,
      fun _ _ _ _ _ => rfl, Or.inl ⟨hfull, rfl⟩, ?_⟩
    rw [hmod]

/-- `allocRow` under the invariant.  It keeps the invariant and the column count; on
success the row count grows by one, the new row has a directory of `numColumns` zeroed
slots at an offset not below the old free offset; on failure the row count is unchanged.
In either case the free offset does not decrease and the chunks in use stay where they
are; on success the slot address returned by `allocRowSlot` is the row-slot address of
the new row.  Behind the header and below the old free offset, every byte outside the
unused tail of the last chunk in use and outside the spare chunk is unchanged. -/
theorem allocRow_framed (W : Nat) (hW : 32 ≤ W) (s : Window) (hI : Inv s) :
    Inv (allocRow W s).2 ∧ numColumns (allocRow W s).2 = numColumns s ∧
    ((allocRow W s).1 ≠ Status.OK → numRows (allocRow W s).2 = numRows s) ∧
    ((allocRow W s).1 = Status.OK →
      numRows (allocRow W s).2 = numRows s + 1 ∧
      freeOffset s ≤ rowDir (allocRow W s).2.mData (numRows s) ∧
      (∀ i, i < 12 * numColumns s →
        (allocRow W s).2.mData (rowDir (allocRow W s).2.mData (numRows s) + i) = 0)) ∧
    freeOffset s ≤ freeOffset (allocRow W s).2 ∧
    (∀ k, k ≤ lastChunk s → chunkAt (allocRow W s).2.mData k = chunkAt s.mData k) ∧
    ((allocRow W s).1 = Status.OK →
      (allocRowSlot s).1 = some (rowSlotAddr (allocRow W s).2.mData (numRows s))) ∧
    (∀ i, 16 ≤ i → i < freeOffset s →
      (i + 1 ≤ chunkAt s.mData (lastChunk s) + 4 * (numRows s - 100 * lastChunk s) ∨
        chunkAt s.mData (lastChunk s) + 404 ≤ i) →
      (spareChunk s ≠ 0 → i < spareChunk s ∨ spareChunk s + 404 ≤ i) →
      (allocRow W s).2.mData i = s.mData i) := by
  have hLdef : lastChunk s = (numRows s - 1) / 100 := rfl
  generalize hr : allocRow W s = r
  unfold allocRow at hr
  split at hr
  · subst hr
    exact ⟨hI, rfl, fun _ => rfl, fun h => absurd h (by simp), Nat.le_refl _,
      fun _ _ => rfl, fun h => absurd h (by simp), fun _ _ _ _ _ => rfl⟩
  · rcases allocRowSlot_cases s hI with
      h | ⟨sa, a, hIa, hsz, hro, h8, h12, hfa, hslot, hch, hsaf, hwhere, h⟩
    · rw [h] at hr
      dsimp only at hr
      subst hr
      exact ⟨hI, rfl, fun _ => rfl, fun h => absurd h (by simp), Nat.le_refl _,
        fun _ _ => rfl, fun h => absurd h (by simp), fun _ _ _ _ _ => rfl⟩
    · have hout : ∀ i, i < freeOffset s →
          (i + 1 ≤ chunkAt s.mData (lastChunk s) + 4 * (numRows s - 100 * lastChunk s) ∨
            chunkAt s.mData (lastChunk s) + 404 ≤ i) →
          (spareChunk s ≠ 0 → i < spareChunk s ∨ spareChunk s + 404 ≤ i) →
          i < a ∨ a + 4 ≤ i := by
        intro i hi hL hS
        rcases hwhere with ⟨_, hw1⟩ | ⟨hsp, hw1⟩ | hw1
        · omega
        · have := hS hsp; omega
        · omega
      have hkept : ∀ i, 16 ≤ i → i < freeOffset s →
          (i + 1 ≤ chunkAt s.mData (lastChunk s) + 4 * (numRows s - 100 * lastChunk s) ∨
            chunkAt s.mData (lastChunk s) + 404 ≤ i) →
          (spareChunk s ≠ 0 → i < spareChunk s ∨ spareChunk s + 404 ≤ i) →
          sa.mData i = s.mData i := by
        intro i h16 hi hL hS
        exact hsaf i h16 hi (by omega) (fun hsp => by have := hS hsp; omega)
      clear hwhere hsaf
      rw [h] at hr
      dsimp only at hr
      have hreg := hIa.regime
      have hfl := hIa.free_lo
      have hfh := hIa.free_hi
      have hnr := hI.numRows_succ_lt
      have hp3 := padOf_le (freeOffset sa) true
      have hU : U32 ≤ 2 ^ W := by
        have : (2 : Nat) ^ 32 ≤ 2 ^ W := Nat.pow_le_pow_right (by omega) hW
        unfold U32; omega
      have hfr8 := frame_write32 sa.mData 8 (numRows s + 1)
      have hnc : numColumns { sa with mData := write32 sa.mData 8 (numRows s + 1) }
          = numColumns sa := hfr8.read32 (by omega)
      have hf8 : freeOffset { sa with mData := write32 sa.mData 8 (numRows s + 1) }
          = freeOffset sa := hfr8.read32 (by omega)
      have hsize : numColumns sa * 12 % 2 ^ W = 12 * numColumns sa :=
        by rw [Nat.mod_eq_of_lt (by omega)]; omega
      rw [hnc, hsize] at hr
      have hex := alloc_exact { sa with mData := write32 sa.mData 8 (numRows s + 1) }
        (12 * numColumns sa) true (by rw [hf8]; omega)
      rw [hf8] at hex
      rcases Nat.lt_or_ge sa.mSize (freeOffset sa + padOf (freeOffset sa) true + 12 * numColumns sa)
        with hlt | hge
      · rw [hex.1 hlt] at hr
        dsimp only at hr
        rw [if_pos rfl] at hr
        have hn8 : numRows { sa with mData := write32 sa.mData 8 (numRows s + 1) }
            = numRows s + 1 := by
          show read32 (write32 sa.mData 8 (numRows s + 1)) 8 = numRows s + 1
          rw [read32_write32_same]; exact Nat.mod_eq_of_lt hnr
        rw [hn8, write32_write32_same] at hr
        have hv : (numRows s + 1 + (U32 - 1)) % U32 = read32 sa.mData 8 := by
          have : read32 sa.mData 8 = numRows s := h8
          rw [this]
          unfold U32 at *
          omega
        rw [hv, write32_read32] at hr
        subst hr
        refine ⟨hIa, h12, fun _ => h8, fun h => absurd h (by simp), hfa, hch,
          fun h => absurd h (by simp), ?_⟩
        exact hkept
      · rw [hex.2 hge] at hr
        dsimp only at hr
        rw [if_neg (by omega)] at hr
        obtain ⟨ha1, ha2⟩ := hIa.slotFor_range a hslot
        have holt : freeOffset sa + padOf (freeOffset sa) true < U32 := by omega
        generalize ho : freeOffset sa + padOf (freeOffset sa) true = o at hge holt hr
        generalize hmf : write32 (memset0 (write32 (write32 sa.mData 8 (numRows s + 1)) 0
          (o + 12 * numColumns sa)) o (12 * numColumns sa)) a o = mf at hr
        subst hr
        have hbyte : ∀ i, i < o → (i < a ∨ a + 4 ≤ i) →
            mf i = write32 (write32 sa.mData 8 (numRows s + 1)) 0 (o + 12 * numColumns sa) i := by
          intro i h1 h2
          rw [← hmf, frame_write32 _ _ _ i (by omega), frame_memset0 _ _ _ i (by omega)]
        have hrd : ∀ b, b + 4 ≤ 420 → (b + 4 ≤ a ∨ a + 4 ≤ b) →
            read32 mf b
              = read32 (write32 (write32 sa.mData 8 (numRows s + 1)) 0
                  (o + 12 * numColumns sa)) b :=
          fun b hb1 hb2 => read32_congr _ _ _ (fun i h5 h6 => hbyte i (by omega) (by omega))
        have h0 : read32 mf 0 = o + 12 * numColumns sa := by
          rw [hrd 0 (by omega) (by omega), read32_write32_same]
          exact Nat.mod_eq_of_lt (by omega)
        have h4 : read32 mf 4 = read32 sa.mData 4 := by
          rw [hrd 4 (by omega) (by omega), read32_write32_other _ _ _ _ (by omega),
            read32_write32_other _ _ _ _ (by omega)]
        have h8f : read32 mf 8 = numRows s + 1 := by
          rw [hrd 8 (by omega) (by omega), read32_write32_other _ _ _ _ (by omega),
            read32_write32_same, Nat.mod_eq_of_lt hnr]
        have h12f : read32 mf 12 = numColumns sa := by
          rw [hrd 12 (by omega) (by omega), read32_write32_other _ _ _ _ (by omega),
            read32_write32_other _ _ _ _ (by omega)]
          rfl
        have hao : read32 mf a = o := by
          rw [← hmf, read32_write32_same]
          exact Nat.mod_eq_of_lt holt
        have hext : Inv { sa with mData := mf } ∧ rowDir mf (numRows sa) = o ∧
            (∀ r, r < numRows sa → rowDir mf r = rowDir sa.mData r) ∧
            rowSlotAddr mf (numRows sa) = a ∧
            ∀ k, k ≤ lastChunk sa → chunkAt mf k = chunkAt sa.mData k := by
          refine hIa.extend a o hslot rfl h4 ?_ h12f (by omega) h0 ?_ hao ?_
          · show read32 mf 8 = numRows sa + 1
            rw [h8f, h8]
          · show read32 mf 0 ≤ sa.mSize
            rw [h0]; exact hge
          · intro i h1 h2 h3
            show mf i = sa.mData i
            rw [hbyte i (by omega) h3, frame_write32 _ _ _ i (by omega),
              frame_write32 _ _ _ i (by omega)]
        obtain ⟨hIf, hnew, hold, hsl, hch2⟩ := hext
        have hLa : lastChunk sa = lastChunk s := by unfold lastChunk; rw [h8]
        refine ⟨hIf, ?_, fun h => absurd rfl h, fun _ => ⟨h8f, ?_, ?_⟩, ?_, ?_, ?_, ?_⟩
        · show read32 mf 12 = numColumns s
          rw [h12f, h12]
        · show freeOffset s ≤ rowDir mf (numRows s)
          rw [← h8, hnew]; omega
        · intro i hi
          show mf (rowDir mf (numRows s) + i) = 0
          rw [← h8, hnew, ← hmf, frame_write32 _ _ _ _ (by omega)]
          unfold memset0
          rw [if_pos (by rw [← h12] at hi; omega)]
        · show freeOffset s ≤ read32 mf 0
          rw [h0]; omega
        · intro k hk
          show chunkAt mf k = chunkAt s.mData k
          rw [hch2 k (by rw [hLa]; exact hk), hch k hk]
        · intro _
          rw [h]
          show some a = some (rowSlotAddr mf (numRows s))
          rw [← h8, hsl]
        · have hfo : freeOffset s ≤ o := by omega
          intro i h16 hi hL hS
          show mf i = s.mData i
          rw [hbyte i (Nat.lt_of_lt_of_le hi hfo) (hout i hi hL hS),
            frame_write32 _ _ _ i (by omega), frame_write32 _ _ _ i (by omega)]
          exact hkept i h16 hi hL hS

/-- `allocRow` under the invariant.  It keeps the invariant and the column count; on
success the row count grows by one, the new row has a directory of `numColumns` zeroed
slots at an offset not below the old free offset; on failure the row count is unchanged.
In either case the free offset does not decrease and the chunks in use stay where they
are; on success the slot address returned by `allocRowSlot` is the row-slot address of
the new row. -/
theorem allocRow_full (W : Nat) (hW : 32 ≤ W) (s : Window) (hI : Inv s) :
    Inv (allocRow W s).2 ∧ numColumns (allocRow W s).2 = numColumns s ∧
    ((allocRow W s).1 ≠ Status.OK → numRows (allocRow W s).2 = numRows s) ∧
    ((allocRow W s).1 = Status.OK →
      numRows (allocRow W s).2 = numRows s + 1 ∧
      freeOffset s ≤ rowDir (allocRow W s).2.mData (numRows s) ∧
      (∀ i, i < 12 * numColumns s →
        (allocRow W s).2.mData (rowDir (allocRow W s).2.mData (numRows s) + i) = 0)) ∧
    freeOffset s ≤ freeOffset (allocRow W s).2 ∧
    (∀ k, k ≤ lastChunk s → chunkAt (allocRow W s).2.mData k = chunkAt s.mData k) ∧
    ((allocRow W s).1 = Status.OK →
      (allocRowSlot s).1 = some (rowSlotAddr (allocRow W s).2.mData (numRows s))) :=
  ⟨(allocRow_framed W hW s hI).1, (allocRow_framed W hW s hI).2.1,
    (allocRow_framed W hW s hI).2.2.1, (allocRow_framed W hW s hI).2.2.2.1,
    (allocRow_framed W hW s hI).2.2.2.2.1, (allocRow_framed W hW s hI).2.2.2.2.2.1,
    (allocRow_framed W hW s hI).2.2.2.2.2.2.1⟩

theorem allocRow_spec (W : Nat) (hW : 32 ≤ W) (s : Window) (hI : Inv s) :
    Inv (allocRow W s).2 ∧ numColumns (allocRow W s).2 = numColumns s ∧
    ((allocRow W s).1 ≠ Status.OK → numRows (allocRow W s).2 = numRows s) ∧
    ((allocRow W s).1 = Status.OK →
      numRows (allocRow W s).2 = numRows s + 1 ∧
      freeOffset s ≤ rowDir (allocRow W s).2.mData (numRows s) ∧
      (∀ i, i < 12 * numColumns s →
        (allocRow W s).2.mData (rowDir (allocRow W s).2.mData (numRows s) + i) = 0)) :=
  ⟨(allocRow_full W hW s hI).1, (allocRow_full W hW s hI).2.1,
    (allocRow_full W hW s hI).2.2.1, (allocRow_full W hW s hI).2.2.2.1⟩

/-- `allocRow` keeps the invariant (whether it succeeds or not). -/
theorem inv_allocRow (W : Nat) (hW : 32 ≤ W) (s : Window) (hI : Inv s) :
    Inv (allocRow W s).2 := (allocRow_spec W hW s hI).1

end Ashmem

/-! ## Shared window: sequences of operations -/

namespace Ashmem

theorem alloc_mSize (s : Window) (size : Nat) (aligned : Bool) :
    (alloc s size aligned).2.mSize = s.mSize ∧
      (alloc s size aligned).2.mReadOnly = s.mReadOnly := by
  unfold alloc
  dsimp only
  split_ifs <;> exact ⟨rfl, rfl⟩

theorem allocRowSlot_mSize (s : Window) :
    (allocRowSlot s).2.mSize = s.mSize ∧ (allocRowSlot s).2.mReadOnly = s.mReadOnly := by
  have h := alloc_mSize s 404 true
  unfold allocRowSlot enterNextChunk
  dsimp only
  split_ifs <;> first | exact ⟨rfl, rfl⟩ | exact h

theorem allocRow_mSize (W : Nat) (s : Window) :
    (allocRow W s).2.mSize = s.mSize ∧ (allocRow W s).2.mReadOnly = s.mReadOnly := by
  have h1 := allocRowSlot_mSize s
  unfold allocRow
  split
  · exact ⟨rfl, rfl⟩
  · split
    · next s1 heq => rw [heq] at h1; exact h1
    · next a s1 heq =>
      rw [heq] at h1
      have h2 := alloc_mSize s1 (numColumns s1 * 12 % 2 ^ W) true
      dsimp only
      split_ifs
      · exact ⟨h2.1.trans h1.1, h2.2.trans h1.2⟩
      · exact ⟨h2.1.trans h1.1, h2.2.trans h1.2⟩

theorem putBlobOrString_mSize (s : Window) (row column : Nat) (value : Nat → Byte)
    (size type : Nat) :
    (putBlobOrString s row column value size type).2.mSize = s.mSize ∧
      (putBlobOrString s row column value size type).2.mReadOnly = s.mReadOnly := by
  have h := alloc_mSize s size false
  unfold putBlobOrString
  split
  · exact ⟨rfl, rfl⟩
  · split
    · exact ⟨rfl, rfl⟩
    · dsimp only
      split_ifs
      · exact h
      · exact h

theorem clear_mSize (s : Window) :
    (clear s).2.mSize = s.mSize ∧ (clear s).2.mReadOnly = s.mReadOnly := by
  unfold clear
  dsimp only
  split_ifs <;> exact ⟨rfl, rfl⟩

theorem setNumColumns_mSize (s : Window) (n : Nat) :
    (setNumColumns s n).2.mSize = s.mSize ∧ (setNumColumns s n).2.mReadOnly = s.mReadOnly := by
  unfold setNumColumns
  dsimp only
  split_ifs <;> exact ⟨rfl, rfl⟩

theorem freeLastRow_mSize (s : Window) :
    (freeLastRow s).2.mSize = s.mSize ∧ (freeLastRow s).2.mReadOnly = s.mReadOnly := by
  unfold freeLastRow
  split_ifs <;> exact ⟨rfl, rfl⟩

theorem putLong_mSize (s : Window) (r c : Nat) (v : Int) :
    (putLong s r c v).2.mSize = s.mSize ∧ (putLong s r c v).2.mReadOnly = s.mReadOnly := by
  unfold putLong
  split
  · exact ⟨rfl, rfl⟩
  · split <;> exact ⟨rfl, rfl⟩

theorem putDouble_mSize (s : Window) (r c : Nat) (b : Nat) :
    (putDouble s r c b).2.mSize = s.mSize ∧ (putDouble s r c b).2.mReadOnly = s.mReadOnly := by
  unfold putDouble
  split
  · exact ⟨rfl, rfl⟩
  · split <;> exact ⟨rfl, rfl⟩

theorem putNull_mSize (s : Window) (r c : Nat) :
    (putNull s r c).2.mSize = s.mSize ∧ (putNull s r c).2.mReadOnly = s.mReadOnly := by
  unfold putNull
  split
  · exact ⟨rfl, rfl⟩
  · split <;> exact ⟨rfl, rfl⟩

theorem step_mSize (W : Nat) (s : Window) (op : Op) :
    (step W s op).2.mSize = s.mSize ∧ (step W s op).2.mReadOnly = s.mReadOnly := by
  cases op with
  | clear => exact clear_mSize s
  | setNumColumns n => exact setNumColumns_mSize s n
  | allocRow => exact allocRow_mSize W s
  | freeLastRow => exact freeLastRow_mSize s
  | putBlob r c v n => exact putBlobOrString_mSize s r c v n _
  | putString r c v n => exact putBlobOrString_mSize s r c v n _
  | putLong r c v => exact putLong_mSize s r c v
  | putDouble r c b => exact putDouble_mSize s r c b
  | putNull r c => exact putNull_mSize s r c

theorem inv_clear_of_inv (s : Window) (hI : Inv s) : Inv (clear s).2 := by
  cases hw : s.mReadOnly with
  | true =>
    unfold clear
    simp only [hw, if_true]
    exact hI
  | false =>
    have h1 := hI.free_lo
    have h2 := hI.free_hi
    have h3 := hI.regime
    exact inv_clear s hw (by omega) (by omega)

/-- Every operation whose size arguments are in range keeps the invariant. -/
theorem inv_step (W : Nat) (hW : 32 ≤ W) (s : Window) (op : Op) (hI : Inv s)
    (hop : op.Sized s.mSize) : Inv (step W s op).2 := by
  cases op with
  | clear => exact inv_clear_of_inv s hI
  | setNumColumns n => exact inv_setNumColumns s n hI hop
  | allocRow => exact inv_allocRow W hW s hI
  | freeLastRow => exact inv_freeLastRow s hI
  | putBlob r c v n => exact inv_putBlobOrString s r c v n _ hI hop
  | putString r c v n => exact inv_putBlobOrString s r c v n _ hI hop
  | putLong r c v => exact inv_putLong s r c v hI
  | putDouble r c b => exact inv_putDouble s r c b hI
  | putNull r c => exact inv_putNull s r c hI

theorem run_mSize (W : Nat) (ops : List Op) :
    ∀ s : Window, (run W s ops).mSize = s.mSize ∧ (run W s ops).mReadOnly = s.mReadOnly := by
  induction ops with
  | nil => intro s; exact ⟨rfl, rfl⟩
  | cons op ops ih =>
    intro s
    have h1 := step_mSize W s op
    have h2 := ih (step W s op).2
    exact ⟨h2.1.trans h1.1, h2.2.trans h1.2⟩

theorem inv_run (W : Nat) (hW : 32 ≤ W) (ops : List Op) :
    ∀ s : Window, Inv s → (∀ op, op ∈ ops → op.Sized s.mSize) → Inv (run W s ops) := by
  induction ops with
  | nil => intro s hI _; exact hI
  | cons op ops ih =>
    intro s hI hops
    have h1 := inv_step W hW s op hI (hops op (List.mem_cons_self _ _))
    apply ih _ h1
    intro op1 hop1
    rw [(step_mSize W s op).1]
    exact hops op1 (List.mem_cons_of_mem _ hop1)

end Ashmem

/-! ## Shared window: the address of the mapping is fixed -/

namespace Ashmem

theorem alloc_mDataPtr (s : Window) (size : Nat) (aligned : Bool) :
    (alloc s size aligned).2.mDataPtr = s.mDataPtr := by
  unfold alloc
  dsimp only
  split_ifs <;> rfl

theorem allocRowSlot_mDataPtr (s : Window) : (allocRowSlot s).2.mDataPtr = s.mDataPtr := by
  have h := alloc_mDataPtr s 404 true
  unfold allocRowSlot enterNextChunk
  dsimp only
  split_ifs <;> first | rfl | exact h

theorem allocRow_mDataPtr (W : Nat) (s : Window) :
    (allocRow W s).2.mDataPtr = s.mDataPtr := by
  have h1 := allocRowSlot_mDataPtr s
  unfold allocRow
  split
  · rfl
  · split
    · next s1 heq => rw [heq] at h1; exact h1
    · next a s1 heq =>
      rw [heq] at h1
      have h2 := alloc_mDataPtr s1 (numColumns s1 * 12 % 2 ^ W) true
      dsimp only
      split_ifs
      · exact h2.trans h1
      · exact h2.trans h1

theorem putBlobOrString_mDataPtr (s : Window) (row column : Nat) (value : Nat → Byte)
    (size type : Nat) :
    (putBlobOrString s row column value size type).2.mDataPtr = s.mDataPtr := by
  have h := alloc_mDataPtr s size false
  unfold putBlobOrString
  split
  · rfl
  · split
    · rfl
    · dsimp only
      split_ifs
      · exact h
      · exact h

theorem clear_mDataPtr (s : Window) : (clear s).2.mDataPtr = s.mDataPtr := by
  unfold clear
  dsimp only
  split_ifs <;> rfl

theorem setNumColumns_mDataPtr (s : Window) (n : Nat) :
    (setNumColumns s n).2.mDataPtr = s.mDataPtr := by
  unfold setNumColumns
  dsimp only
  split_ifs <;> rfl

theorem freeLastRow_mDataPtr (s : Window) : (freeLastRow s).2.mDataPtr = s.mDataPtr := by
  unfold freeLastRow
  split_ifs <;> rfl

theorem putLong_mDataPtr (s : Window) (r c : Nat) (v : Int) :
    (putLong s r c v).2.mDataPtr = s.mDataPtr := by
  unfold putLong
  split
  · rfl
  · split <;> rfl

theorem putDouble_mDataPtr (s : Window) (r c : Nat) (b : Nat) :
    (putDouble s r c b).2.mDataPtr = s.mDataPtr := by
  unfold putDouble
  split
  · rfl
  · split <;> rfl

theorem putNull_mDataPtr (s : Window) (r c : Nat) :
    (putNull s r c).2.mDataPtr = s.mDataPtr := by
  unfold putNull
  split
  · rfl
  · split <;> rfl

theorem step_mDataPtr (W : Nat) (s : Window) (op : Op) :
    (step W s op).2.mDataPtr = s.mDataPtr := by
  cases op with
  | clear => exact clear_mDataPtr s
  | setNumColumns n => exact setNumColumns_mDataPtr s n
  | allocRow => exact allocRow_mDataPtr W s
  | freeLastRow => exact freeLastRow_mDataPtr s
  | putBlob r c v n => exact putBlobOrString_mDataPtr s r c v n _
  | putString r c v n => exact putBlobOrString_mDataPtr s r c v n _
  | putLong r c v => exact putLong_mDataPtr s r c v
  | putDouble r c b => exact putDouble_mDataPtr s r c b
  | putNull r c => exact putNull_mDataPtr s r c

theorem run_mDataPtr (W : Nat) (ops : List Op) :
    ∀ s : Window, (run W s ops).mDataPtr = s.mDataPtr := by
  induction ops with
  | nil => intro s; rfl
  | cons op ops ih =>
    intro s
    exact (ih (step W s op).2).trans (step_mDataPtr W s op)

/-- No operation moves or resizes the mapping. -/
theorem mapped_step (W : Nat) (s : Window) (op : Op) (hM : Mapped s) :
    Mapped (step W s op).2 := by
  unfold Mapped at hM ⊢
  rw [step_mDataPtr, (step_mSize W s op).1]
  exact hM

theorem mapped_run (W : Nat) (ops : List Op) (s : Window) (hM : Mapped s) :
    Mapped (run W s ops) := by
  unfold Mapped at hM ⊢
  rw [run_mDataPtr, (run_mSize W ops s).1]
  exact hM

end Ashmem

/-! ## Shared window: what the cell writes leave alone -/

namespace Ashmem

/-- A state that agrees with `s` on the header words behind `freeOffset` and on the
chunks in use has the same row count, column count and row directories. -/
theorem Inv.update_keeps {s s1 : Window} (_hI : Inv s)
    (hag : ∀ i, (4 ≤ i ∧ i < 16) ∨
        (∃ k, k ≤ lastChunk s ∧ chunkAt s.mData k ≤ i ∧ i < chunkAt s.mData k + 404) →
        s1.mData i = s.mData i) :
    numRows s1 = numRows s ∧ numColumns s1 = numColumns s ∧
      ∀ r, r < numRows s → rowDir s1.mData r = rowDir s.mData r := by
  have h4 : read32 s1.mData 4 = read32 s.mData 4 :=
    read32_congr _ _ _ (fun i h1 h2 => hag i (Or.inl ⟨by omega, by omega⟩))
  have hc : ChunksAgree s.mData s1.mData (lastChunk s) := by
    intro k j hk hj
    exact read32_congr _ _ _ (fun i h1 h2 => hag i (Or.inr ⟨k, hk, by omega, by omega⟩))
  refine ⟨?_, ?_, ?_⟩
  · exact read32_congr _ _ _ (fun i h1 h2 => hag i (Or.inl ⟨by omega, by omega⟩))
  · exact read32_congr _ _ _ (fun i h1 h2 => hag i (Or.inl ⟨by omega, by omega⟩))
  · exact fun r hr => rowDir_agree _ _ _ h4 hc r (row_div_le_lastChunk s r hr)

/-- Writing inside the field slot of an allocated cell, and above the old free offset,
keeps the row count, the column count and every row directory. -/
theorem Inv.cell_write_keeps {s s1 : Window} (hI : Inv s)
    (r c : Nat) (hr : r < numRows s) (hc : c < numColumns s)
    (hag : ∀ i, 4 ≤ i → i < freeOffset s →
      (i < rowDir s.mData r + 12 * c ∨ rowDir s.mData r + 12 * c + 12 ≤ i) →
      s1.mData i = s.mData i) :
    numRows s1 = numRows s ∧ numColumns s1 = numColumns s ∧
      ∀ r1, r1 < numRows s → rowDir s1.mData r1 = rowDir s.mData r1 := by
  apply hI.update_keeps
  intro i hi
  have hlo := hI.row_lo r hr
  have hfl := hI.free_lo
  rcases hi with ⟨h1, h2⟩ | ⟨k, hk, h1, h2⟩
  · exact hag i h1 (by omega) (by omega)
  · have hkf := hI.chunk_le_free k hk
    have hkg := hI.chunk_ge k hk
    have hd := hI.row_chunk r k hr hk
    exact hag i (by omega) (by omega) (by omega)

theorem putLong_keeps (s : Window) (row column : Nat) (value : Int) (hI : Inv s) :
    numRows (putLong s row column value).2 = numRows s ∧
    numColumns (putLong s row column value).2 = numColumns s ∧
    ∀ r, r < numRows s →
      rowDir (putLong s row column value).2.mData r = rowDir s.mData r := by
  unfold putLong
  split
  · exact ⟨rfl, rfl, fun _ _ => rfl⟩
  · split
    · exact ⟨rfl, rfl, fun _ _ => rfl⟩
    · next slot hs =>
      obtain ⟨hr, hc, hslot⟩ := getFieldSlot_some s row column slot hI hs
      refine hI.cell_write_keeps row column hr hc ?_
      intro i _ _ h3
      show write64 (write32 s.mData slot _) (slot + 4) _ i = s.mData i
      rw [frame_write64 _ _ _ i (by omega), frame_write32 _ _ _ i (by omega)]

theorem putDouble_keeps (s : Window) (row column : Nat) (bits : Nat) (hI : Inv s) :
    numRows (putDouble s row column bits).2 = numRows s ∧
    numColumns (putDouble s row column bits).2 = numColumns s ∧
    ∀ r, r < numRows s →
      rowDir (putDouble s row column bits).2.mData r = rowDir s.mData r := by
  unfold putDouble
  split
  · exact ⟨rfl, rfl, fun _ _ => rfl⟩
  · split
    · exact ⟨rfl, rfl, fun _ _ => rfl⟩
    · next slot hs =>
      obtain ⟨hr, hc, hslot⟩ := getFieldSlot_some s row column slot hI hs
      refine hI.cell_write_keeps row column hr hc ?_
      intro i _ _ h3
      show write64 (write32 s.mData slot _) (slot + 4) _ i = s.mData i
      rw [frame_write64 _ _ _ i (by omega), frame_write32 _ _ _ i (by omega)]

theorem putNull_keeps (s : Window) (row column : Nat) (hI : Inv s) :
    numRows (putNull s row column).2 = numRows s ∧
    numColumns (putNull s row column).2 = numColumns s ∧
    ∀ r, r < numRows s → rowDir (putNull s row column).2.mData r = rowDir s.mData r := by
  unfold putNull
  split
  · exact ⟨rfl, rfl, fun _ _ => rfl⟩
  · split
    · exact ⟨rfl, rfl, fun _ _ => rfl⟩
    · next slot hs =>
      obtain ⟨hr, hc, hslot⟩ := getFieldSlot_some s row column slot hI hs
      refine hI.cell_write_keeps row column hr hc ?_
      intro i _ _ h3
      show write32 (write32 (write32 s.mData slot _) (slot + 4) _) (slot + 8) _ i = s.mData i
      rw [frame_write32 _ _ _ i (by omega), frame_write32 _ _ _ i (by omega),
        frame_write32 _ _ _ i (by omega)]

theorem putBlobOrString_keeps (s : Window) (row column : Nat) (value : Nat → Byte)
    (size type : Nat) (hI : Inv s) (hsize : s.mSize + size < U32) :
    numRows (putBlobOrString s row column value size type).2 = numRows s ∧
    numColumns (putBlobOrString s row column value size type).2 = numColumns s ∧
    ∀ r, r < numRows s →
      rowDir (putBlobOrString s row column value size type).2.mData r = rowDir s.mData r := by
  unfold putBlobOrString
  split
  · exact ⟨rfl, rfl, fun _ _ => rfl⟩
  · split
    · exact ⟨rfl, rfl, fun _ _ => rfl⟩
    · next slot hs =>
      obtain ⟨hr, hc, hslot⟩ := getFieldSlot_some s row column slot hI hs
      have hlo := hI.row_lo row hr
      have hhi := hI.row_hi row hr
      have hfl := hI.free_lo
      rcases alloc_cases s hI size false (by rw [padOf_false]; omega) with ⟨_, h⟩ | ⟨hfit, h⟩
      · rw [h]; exact ⟨rfl, rfl, fun _ _ => rfl⟩
      · rw [h, padOf_false] at *
        dsimp only
        rw [if_neg (by omega)]
        refine hI.cell_write_keeps row column hr hc ?_
        intro i h1 h2 h3
        show write32 (write32 (write32 (memcpy
          (write32 s.mData 0 _) _ value size) slot _) (slot + 4) _) (slot + 8) _ i = s.mData i
        rw [frame_write32 _ _ _ i (by omega), frame_write32 _ _ _ i (by omega),
          frame_write32 _ _ _ i (by omega), frame_memcpy _ _ _ _ i (by omega),
          frame_write32 _ _ _ i (by omega)]

theorem freeLastRow_numColumns (s : Window) :
    numColumns (freeLastRow s).2 = numColumns s := by
  unfold freeLastRow
  split
  · rfl
  · split
    · exact (frame_write32 _ _ _).read32 (by omega)
    · rfl

/-- Under the invariant no operation other than `clear` and `setNumColumns` changes the
column count. -/
theorem step_numColumns (W : Nat) (hW : 32 ≤ W) (s : Window) (op : Op) (hI : Inv s)
    (hop : op.Sized s.mSize) (hnc : op.NotClear) (hns : ∀ n, op ≠ Op.setNumColumns n) :
    numColumns (step W s op).2 = numColumns s := by
  cases op with
  | clear => exact absurd hnc (by simp [Op.NotClear])
  | setNumColumns n => exact absurd rfl (hns n)
  | allocRow => exact (allocRow_spec W hW s hI).2.1
  | freeLastRow => exact freeLastRow_numColumns s
  | putBlob r c v n => exact (putBlobOrString_keeps s r c v n _ hI hop).2.1
  | putString r c v n => exact (putBlobOrString_keeps s r c v n _ hI hop).2.1
  | putLong r c v => exact (putLong_keeps s r c v hI).2.1
  | putDouble r c b => exact (putDouble_keeps s r c b hI).2.1
  | putNull r c => exact (putNull_keeps s r c hI).2.1

/-- While the column count is `k > 0`, a run without `clear` keeps the invariant and the
column count: `setNumColumns` either repeats `k` or is refused. -/
theorem run_numColumns_fixed (W : Nat) (hW : 32 ≤ W) (k : Nat) (hk : 0 < k) (ops : List Op) :
    ∀ s : Window, Inv s → numColumns s = k →
      (∀ op, op ∈ ops → op.NotClear ∧ (op.Sized s.mSize ∨ ∃ n, op = Op.setNumColumns n)) →
      Inv (run W s ops) ∧ numColumns (run W s ops) = k := by
  induction ops with
  | nil => intro s hI hc _; exact ⟨hI, hc⟩
  | cons op ops ih =>
    intro s hI hc hops
    have hop := hops op (List.mem_cons_self _ _)
    have htail : ∀ op1, op1 ∈ ops →
        op1.NotClear ∧ (op1.Sized (step W s op).2.mSize ∨ ∃ n, op1 = Op.setNumColumns n) := by
      intro op1 h1
      rw [(step_mSize W s op).1]
      exact hops op1 (List.mem_cons_of_mem _ h1)
    show Inv (run W (step W s op).2 ops) ∧ numColumns (run W (step W s op).2 ops) = k
    by_cases hset : ∃ n, op = Op.setNumColumns n
    · obtain ⟨n, rfl⟩ := hset
      have hsame : (step W s (Op.setNumColumns n)).2 = s := by
        show (setNumColumns s n).2 = s
        cases hw : s.mReadOnly with
        | true => rw [setNumColumns_readOnly s n hw]
        | false =>
          by_cases hn : n = k
          · rw [hn, ← hc, setNumColumns_same s hw]
          · rw [setNumColumns_bad_state s n hw ⟨Or.inl (by omega), by omega⟩]
      rw [hsame] at htail ⊢
      exact ih s hI hc htail
    · have hsized : op.Sized s.mSize := by
        rcases hop.2 with h | h
        · exact h
        · exact absurd h hset
      have h1 := inv_step W hW s op hI hsized
      have h2 := step_numColumns W hW s op hI hsized hop.1 (fun n hn => hset ⟨n, hn⟩)
      exact ih _ h1 (h2.trans hc) htail

theorem toU64_lt (v : Int) : toU64 v < U64 := by
  unfold toU64 U64
  have hnn : (0 : Int) ≤ v % 18446744073709551616 := Int.emod_nonneg _ (by decide)
  have hlt : v % 18446744073709551616 < 18446744073709551616 := Int.emod_lt_of_pos _ (by decide)
  simp only [Nat.cast_ofNat]
  omega

/-- States with the same address, row count, column count, chunks in use and row
directories resolve every cell to the same slot. -/
theorem getFieldSlot_congr {s s1 : Window} (hp : s1.mDataPtr = s.mDataPtr)
    (h8 : numRows s1 = numRows s) (h12 : numColumns s1 = numColumns s)
    (hch : ∀ k, k ≤ lastChunk s → chunkAt s1.mData k = chunkAt s.mData k)
    (hrd : ∀ r, r < numRows s → rowDir s1.mData r = rowDir s.mData r) (row column : Nat) :
    getFieldSlot s1 row column = getFieldSlot s row column := by
  unfold getFieldSlot
  rw [h8, h12]
  split
  · rfl
  · next h =>
    have hr : row < numRows s := by omega
    have ha : rowSlotAddr s1.mData row = rowSlotAddr s.mData row := by
      unfold rowSlotAddr
      rw [hch _ (row_div_le_lastChunk s row hr)]
    have hd := hrd row hr
    unfold rowDir at hd
    rw [ha] at hd
    dsimp only
    rw [getRowSlot_eq, getRowSlot_eq, ha, hp, hd]

end Ashmem

/-! ## Shared window: the row count across a failing `allocRow` -/

namespace Ashmem

end Ashmem

/-! ## Stores of zeros, and `clear` done twice -/

theorem write32_zero_at (m : Mem) (a i : Nat) (h : a ≤ i ∧ i < a + 4) : write32 m a 0 i = 0 := by
  unfold write32
  split_ifs <;> first | rfl | (exfalso; omega)

theorem write32_zero_keep (m : Mem) (a i : Nat) (h : m i = 0) : write32 m a 0 i = 0 := by
  unfold write32
  split_ifs <;> first | rfl | exact h

theorem read32_zero_bytes (m : Mem) (a : Nat) (h : ∀ j, j < 4 → m (a + j) = 0) :
    read32 m a = 0 := by
  have h0 := h 0 (by omega)
  have h1 := h 1 (by omega)
  have h2 := h 2 (by omega)
  have h3 := h 3 (by omega)
  unfold read32
  rw [Nat.add_zero] at h0
  rw [h0, h1, h2, h3]
  rfl

/-- A store writes bytes that do not depend on the memory, and keeps the others. -/
theorem patch_write32 (a v : Nat) (i : Nat) :
    (∃ b, ∀ m : Mem, write32 m a v i = b) ∨ ∀ m : Mem, write32 m a v i = m i := by
  by_cases h : i = a ∨ i = a + 1 ∨ i = a + 2 ∨ i = a + 3
  · left
    refine ⟨write32 (fun _ => 0) a v i, ?_⟩
    intro m
    unfold write32
    split_ifs <;> first | rfl | (exfalso; omega)
  · right
    intro m
    unfold write32
    split_ifs <;> first | rfl | (exfalso; omega)

theorem patch_comp (P Q : Mem → Mem)
    (hP : ∀ i, (∃ b, ∀ m : Mem, P m i = b) ∨ ∀ m : Mem, P m i = m i)
    (hQ : ∀ i, (∃ b, ∀ m : Mem, Q m i = b) ∨ ∀ m : Mem, Q m i = m i) (i : Nat) :
    (∃ b, ∀ m : Mem, P (Q m) i = b) ∨ ∀ m : Mem, P (Q m) i = m i := by
  rcases hP i with ⟨b, hb⟩ | hid
  · exact Or.inl ⟨b, fun m => hb (Q m)⟩
  · rcases hQ i with ⟨b, hb⟩ | hid2
    · exact Or.inl ⟨b, fun m => by rw [hid, hb]⟩
    · exact Or.inr (fun m => by rw [hid, hid2])

/-- Stores of fixed values at fixed places, done twice, have the effect of doing them
once. -/
theorem patch_idem (P : Mem → Mem)
    (hP : ∀ i, (∃ b, ∀ m : Mem, P m i = b) ∨ ∀ m : Mem, P m i = m i) (m : Mem) :
    P (P m) = P m := by
  funext i
  rcases hP i with ⟨b, hb⟩ | hid
  · rw [hb, hb]
  · rw [hid]

namespace Ashmem

theorem clear_clear (s : Window) (hw : s.mReadOnly = false) : clear (clear s).2 = clear s := by
  have hw2 : (clear s).2.mReadOnly = false := by rw [clear_writable s hw]; exact hw
  rw [clear_writable _ hw2, clear_writable s hw]
  dsimp only
  congr 2
  exact patch_idem
    (fun m => write32 (write32 (write32 (write32 (write32 m 0 420) 4 16) 8 0) 12 0) 416 0)
    (patch_comp _ _ (patch_write32 416 0) (patch_comp _ _ (patch_write32 12 0)
      (patch_comp _ _ (patch_write32 8 0) (patch_comp _ _ (patch_write32 4 16)
        (patch_write32 0 420))))) s.mData

end Ashmem

namespace Growable

theorem clear_reads (cfg : Config) (s : CursorWindow) :
    numRows cfg (clear cfg s) = 0 ∧ numColumns cfg (clear cfg s) = 0 ∧
    read32 (clear cfg s).mData ((clear cfg s).mFreeOffset - 4) = 0 := by
  unfold numRows numColumns clear
  dsimp only
  refine ⟨?_, ?_, ?_⟩
  · apply read32_zero_bytes
    intro j hj
    exact write32_zero_keep _ _ _ (write32_zero_keep _ _ _ (write32_zero_at _ _ _ (by omega)))
  · apply read32_zero_bytes
    intro j hj
    exact write32_zero_keep _ _ _ (write32_zero_at _ _ _ (by omega))
  · apply read32_zero_bytes
    intro j hj
    exact write32_zero_at _ _ _ (by omega)

theorem clear_idem (cfg : Config) (s : CursorWindow) : clear cfg (clear cfg s) = clear cfg s := by
  unfold clear
  dsimp only
  congr 1
  exact patch_idem
    (fun m => write32 (write32 (write32 m cfg.numRowsOff 0) cfg.numColumnsOff 0)
      ((cfg.headerSize + ROW_SLOT_CHUNK_SIZE cfg) % U32 - 4) 0)
    (patch_comp _ _ (patch_write32 _ 0) (patch_comp _ _ (patch_write32 _ 0)
      (patch_write32 _ 0))) s.mData

end Growable

/-! ## Shared window: the row directory along a run -/

namespace Ashmem

theorem getRowSlotTrace_snd (m : Mem) :
    ∀ fuel chunk chunkPos,
      (getRowSlotTrace m fuel chunk chunkPos).2 = getRowSlotLoop m fuel chunk chunkPos := by
  intro fuel
  induction fuel with
  | zero => intro chunk chunkPos; rfl
  | succ fuel ih =>
    intro chunk chunkPos
    unfold getRowSlotTrace getRowSlotLoop
    split
    · exact ih _ _
    · rfl

/-- The walk follows `chunkPos / 100` links, the links of the chunk list from `chunk`. -/
theorem getRowSlotTrace_links (m : Mem) :
    ∀ fuel chunk chunkPos, chunkPos / 100 ≤ fuel →
      (getRowSlotTrace m fuel chunk chunkPos).1.length = chunkPos / 100 ∧
      ∀ link, link ∈ (getRowSlotTrace m fuel chunk chunkPos).1 →
        ∃ k, k < chunkPos / 100 ∧ link = chunkFrom m chunk (k + 1) := by
  intro fuel
  induction fuel with
  | zero =>
    intro chunk chunkPos h
    unfold getRowSlotTrace
    exact ⟨by simp only [List.length_nil]; omega, fun link hl => absurd hl (List.not_mem_nil _)⟩
  | succ fuel ih =>
    intro chunk chunkPos h
    unfold getRowSlotTrace
    split
    · next hge =>
      have hdiv : chunkPos / 100 = (chunkPos - 100) / 100 + 1 := by omega
      obtain ⟨h1, h2⟩ := ih (read32 m (chunk + 400)) (chunkPos - 100) (by omega)
      refine ⟨by simp only [List.length_cons]; omega, ?_⟩
      intro link hl
      rcases List.mem_cons.mp hl with h3 | h3
      · exact ⟨0, by omega, by rw [h3]; rfl⟩
      · obtain ⟨k, hk, he⟩ := h2 link h3
        exact ⟨k + 1, by omega, by rw [he]; rfl⟩
    · next hlt =>
      exact ⟨by simp only [List.length_nil]; omega,
        fun link hl => absurd hl (List.not_mem_nil _)⟩

theorem rowSlotAddr_of_chunks (m m1 : Mem) (r : Nat)
    (h : chunkAt m1 (r / 100) = chunkAt m (r / 100)) : rowSlotAddr m1 r = rowSlotAddr m r := by
  unfold rowSlotAddr
  rw [h]

/-- A state that agrees with `s` on the header words behind `freeOffset` and on the
chunks in use has the chunks in use at the same offsets. -/
theorem Inv.update_chunks {s : Window} (_hI : Inv s) (m1 : Mem)
    (hag : ∀ i, (4 ≤ i ∧ i < 16) ∨
        (∃ k, k ≤ lastChunk s ∧ chunkAt s.mData k ≤ i ∧ i < chunkAt s.mData k + 404) →
        m1 i = s.mData i) :
    ∀ k, k ≤ lastChunk s → chunkAt m1 k = chunkAt s.mData k := by
  have h4 : read32 m1 4 = read32 s.mData 4 :=
    read32_congr _ _ _ (fun i h1 h2 => hag i (Or.inl ⟨by omega, by omega⟩))
  have hc : ChunksAgree s.mData m1 (lastChunk s) := by
    intro k j hk hj
    exact read32_congr _ _ _ (fun i h1 h2 => hag i (Or.inr ⟨k, hk, by omega, by omega⟩))
  exact fun k hk => chunkAt_agree _ _ _ h4 hc k (by omega)

theorem Inv.cell_write_chunks {s : Window} (hI : Inv s) (m1 : Mem)
    (r c : Nat) (hr : r < numRows s) (_hc : c < numColumns s)
    (hag : ∀ i, i < freeOffset s →
      (i < rowDir s.mData r + 12 * c ∨ rowDir s.mData r + 12 * c + 12 ≤ i) →
      m1 i = s.mData i) :
    read32 m1 0 = freeOffset s ∧
      ∀ k, k ≤ lastChunk s → chunkAt m1 k = chunkAt s.mData k := by
  have hlo := hI.row_lo r hr
  have hfl := hI.free_lo
  constructor
  · exact read32_congr _ _ _ (fun i h1 h2 => hag i (by omega) (by omega))
  · apply hI.update_chunks
    intro i hi
    rcases hi with ⟨h1, h2⟩ | ⟨k, hk, h1, h2⟩
    · exact hag i (by omega) (by omega)
    · have hkf := hI.chunk_le_free k hk
      have hkg := hI.chunk_ge k hk
      have hd := hI.row_chunk r k hr hk
      exact hag i (by omega) (by omega)

theorem putLong_chunks (s : Window) (row column : Nat) (value : Int) (hI : Inv s) :
    freeOffset s ≤ freeOffset (putLong s row column value).2 ∧
    ∀ k, k ≤ lastChunk s →
      chunkAt (putLong s row column value).2.mData k = chunkAt s.mData k := by
  unfold putLong
  split
  · exact ⟨Nat.le_refl _, fun _ _ => rfl⟩
  · split
    · exact ⟨Nat.le_refl _, fun _ _ => rfl⟩
    · next slot hs =>
      obtain ⟨hr, hc, hslot⟩ := getFieldSlot_some s row column slot hI hs
      have h := hI.cell_write_chunks
        (write64 (write32 s.mData slot NEW_FIELD_TYPE_INTEGER) (slot + 4) (toU64 value))
        row column hr hc (by
          intro i _ h3
          rw [frame_write64 _ _ _ i (by omega), frame_write32 _ _ _ i (by omega)])
      exact ⟨Nat.le_of_eq h.1.symm, h.2⟩

theorem putDouble_chunks (s : Window) (row column : Nat) (bits : Nat) (hI : Inv s) :
    freeOffset s ≤ freeOffset (putDouble s row column bits).2 ∧
    ∀ k, k ≤ lastChunk s →
      chunkAt (putDouble s row column bits).2.mData k = chunkAt s.mData k := by
  unfold putDouble
  split
  · exact ⟨Nat.le_refl _, fun _ _ => rfl⟩
  · split
    · exact ⟨Nat.le_refl _, fun _ _ => rfl⟩
    · next slot hs =>
      obtain ⟨hr, hc, hslot⟩ := getFieldSlot_some s row column slot hI hs
      have h := hI.cell_write_chunks
        (write64 (write32 s.mData slot NEW_FIELD_TYPE_FLOAT) (slot + 4) bits)
        row column hr hc (by
          intro i _ h3
          rw [frame_write64 _ _ _ i (by omega), frame_write32 _ _ _ i (by omega)])
      exact ⟨Nat.le_of_eq h.1.symm, h.2⟩

theorem putNull_chunks (s : Window) (row column : Nat) (hI : Inv s) :
    freeOffset s ≤ freeOffset (putNull s row column).2 ∧
    ∀ k, k ≤ lastChunk s → chunkAt (putNull s row column).2.mData k = chunkAt s.mData k := by
  unfold putNull
  split
  · exact ⟨Nat.le_refl _, fun _ _ => rfl⟩
  · split
    · exact ⟨Nat.le_refl _, fun _ _ => rfl⟩
    · next slot hs =>
      obtain ⟨hr, hc, hslot⟩ := getFieldSlot_some s row column slot hI hs
      have h := hI.cell_write_chunks
        (write32 (write32 (write32 s.mData slot NEW_FIELD_TYPE_NULL) (slot + 4) 0) (slot + 8) 0)
        row column hr hc (by
          intro i _ h3
          rw [frame_write32 _ _ _ i (by omega), frame_write32 _ _ _ i (by omega),
            frame_write32 _ _ _ i (by omega)])
      exact ⟨Nat.le_of_eq h.1.symm, h.2⟩

theorem putBlobOrString_chunks (s : Window) (row column : Nat) (value : Nat → Byte)
    (size type : Nat) (hI : Inv s) (hsize : s.mSize + size < U32) :
    freeOffset s ≤ freeOffset (putBlobOrString s row column value size type).2 ∧
    ∀ k, k ≤ lastChunk s →
      chunkAt (putBlobOrString s row column value size type).2.mData k = chunkAt s.mData k := by
  unfold putBlobOrString
  split
  · exact ⟨Nat.le_refl _, fun _ _ => rfl⟩
  · split
    · exact ⟨Nat.le_refl _, fun _ _ => rfl⟩
    · next slot hs =>
      obtain ⟨hr, hc, hslot⟩ := getFieldSlot_some s row column slot hI hs
      have hlo := hI.row_lo row hr
      have hhi := hI.row_hi row hr
      have hfl := hI.free_lo
      have hfh := hI.free_hi
      rcases alloc_cases s hI size false (by rw [padOf_false]; omega) with ⟨_, h⟩ | ⟨hfit, h⟩
      · rw [h]; exact ⟨Nat.le_refl _, fun _ _ => rfl⟩
      · rw [h, padOf_false] at *
        dsimp only
        rw [if_neg (by omega)]
        constructor
        · show freeOffset s ≤ read32 (write32 (write32 (write32 (memcpy
            (write32 s.mData 0 _) _ value size) slot _) (slot + 4) _) (slot + 8) _) 0
          rw [read32_write32_other _ _ _ _ (by omega), read32_write32_other _ _ _ _ (by omega),
            read32_write32_other _ _ _ _ (by omega),
            (frame_memcpy _ _ _ _).read32 (by omega), read32_write32_same,
            Nat.mod_eq_of_lt (by omega)]
          omega
        · apply hI.update_chunks
          intro i hi
          show write32 (write32 (write32 (memcpy
            (write32 s.mData 0 _) _ value size) slot _) (slot + 4) _) (slot + 8) _ i = s.mData i
          have hout : 4 ≤ i ∧ i < freeOffset s ∧ (i < slot ∨ slot + 12 ≤ i) := by
            rcases hi with ⟨h1, h2⟩ | ⟨k, hk, h1, h2⟩
            · omega
            · have hkf := hI.chunk_le_free k hk
              have hkg := hI.chunk_ge k hk
              have hd := hI.row_chunk row k hr hk
              omega
          rw [frame_write32 _ _ _ i (by omega), frame_write32 _ _ _ i (by omega),
            frame_write32 _ _ _ i (by omega), frame_memcpy _ _ _ _ i (by omega),
            frame_write32 _ _ _ i (by omega)]

theorem setNumColumns_chunks (s : Window) (n : Nat) :
    freeOffset (setNumColumns s n).2 = freeOffset s ∧
    numRows (setNumColumns s n).2 = numRows s ∧
    ∀ k, chunkAt (setNumColumns s n).2.mData k = chunkAt s.mData k := by
  unfold setNumColumns
  dsimp only
  split_ifs
  · exact ⟨rfl, rfl, fun _ => rfl⟩
  · exact ⟨rfl, rfl, fun _ => rfl⟩
  · refine ⟨(frame_write32 _ _ _).read32 (by omega), (frame_write32 _ _ _).read32 (by omega), ?_⟩
    intro k
    exact chunkAt_frame _ _ 12 4 (frame_write32 _ _ _) (by omega) k (fun j _ => by omega)

theorem freeLastRow_chunks (s : Window) :
    freeOffset (freeLastRow s).2 = freeOffset s ∧
    numRows (freeLastRow s).2 ≤ numRows s ∧
    ∀ k, chunkAt (freeLastRow s).2.mData k = chunkAt s.mData k := by
  unfold freeLastRow
  split_ifs
  · exact ⟨rfl, Nat.le_refl _, fun _ => rfl⟩
  · refine ⟨(frame_write32 _ _ _).read32 (by omega), ?_, ?_⟩
    · show read32 (write32 s.mData 8 (numRows s - 1)) 8 ≤ numRows s
      rw [read32_write32_same]
      exact Nat.le_trans (Nat.mod_le _ _) (Nat.sub_le _ _)
    · intro k
      exact chunkAt_frame _ _ 8 4 (frame_write32 _ _ _) (by omega) k (fun j _ => by omega)
  · exact ⟨rfl, Nat.le_refl _, fun _ => rfl⟩

/-- Under the invariant, an operation other than `clear` does not lower the free offset
and leaves the chunks in use where they are. -/
theorem step_chunks (W : Nat) (hW : 32 ≤ W) (s : Window) (op : Op) (hI : Inv s)
    (hop : op.Sized s.mSize) (hnc : op.NotClear) :
    freeOffset s ≤ freeOffset (step W s op).2 ∧
    ∀ k, k ≤ lastChunk s → chunkAt (step W s op).2.mData k = chunkAt s.mData k := by
  cases op with
  | clear => exact absurd hnc (by unfold Op.NotClear; exact not_false)
  | setNumColumns n =>
    exact ⟨Nat.le_of_eq (setNumColumns_chunks s n).1.symm, fun k _ => (setNumColumns_chunks s n).2.2 k⟩
  | allocRow =>
    exact ⟨(allocRow_full W hW s hI).2.2.2.2.1, (allocRow_full W hW s hI).2.2.2.2.2.1⟩
  | freeLastRow =>
    exact ⟨Nat.le_of_eq (freeLastRow_chunks s).1.symm, fun k _ => (freeLastRow_chunks s).2.2 k⟩
  | putBlob r c v n => exact putBlobOrString_chunks s r c v n _ hI hop
  | putString r c v n => exact putBlobOrString_chunks s r c v n _ hI hop
  | putLong r c v => exact putLong_chunks s r c v hI
  | putDouble r c b => exact putDouble_chunks s r c b hI
  | putNull r c => exact putNull_chunks s r c hI

theorem step_numRows_le (W : Nat) (hW : 32 ≤ W) (s : Window) (op : Op) (hI : Inv s)
    (hop : op.Sized s.mSize) :
    numRows (step W s op).2 ≤ numRows s ∨
      (op = Op.allocRow ∧ (allocRow W s).1 = Status.OK ∧
        numRows (step W s op).2 = numRows s + 1) := by
  cases op with
  | clear =>
    left
    show numRows (clear s).2 ≤ numRows s
    cases hw : s.mReadOnly with
    | true =>
      unfold clear
      simp only [hw, if_true]
      exact Nat.le_refl _
    | false =>
      rw [(clear_header s hw).2.2.1]
      exact Nat.zero_le _
  | setNumColumns n => exact Or.inl (Nat.le_of_eq (setNumColumns_chunks s n).2.1)
  | allocRow =>
    by_cases hok : (allocRow W s).1 = Status.OK
    · exact Or.inr ⟨rfl, hok, ((allocRow_full W hW s hI).2.2.2.1 hok).1⟩
    · exact Or.inl (Nat.le_of_eq ((allocRow_full W hW s hI).2.2.1 hok))
  | freeLastRow => exact Or.inl (freeLastRow_chunks s).2.1
  | putBlob r c v n => exact Or.inl (Nat.le_of_eq (putBlobOrString_keeps s r c v n _ hI hop).1)
  | putString r c v n => exact Or.inl (Nat.le_of_eq (putBlobOrString_keeps s r c v n _ hI hop).1)
  | putLong r c v => exact Or.inl (Nat.le_of_eq (putLong_keeps s r c v hI).1)
  | putDouble r c b => exact Or.inl (Nat.le_of_eq (putDouble_keeps s r c b hI).1)
  | putNull r c => exact Or.inl (Nat.le_of_eq (putNull_keeps s r c hI).1)

theorem noteSlot_other (W : Nat) (s : Window) (op : Op) (g : Nat → Option Nat)
    (h : op ≠ Op.allocRow ∨ (allocRow W s).1 ≠ Status.OK) : noteSlot W s op g = g := by
  cases op with
  | allocRow =>
    rcases h with h | h
    · exact absurd rfl h
    · unfold noteSlot
      dsimp only
      rw [if_neg h]
  | _ => rfl

/-- One step of the bookkeeping: if every allocated row has on record the address of its
row slot, the same holds after the operation. -/
theorem step_handedOut (W : Nat) (hW : 32 ≤ W) (s : Window) (op : Op) (hI : Inv s)
    (hop : op.Sized s.mSize) (g : Nat → Option Nat)
    (hg : ∀ r, r < numRows s → g r = some (rowSlotAddr s.mData r)) :
    ∀ r, r < numRows (step W s op).2 →
      noteSlot W s op g r = some (rowSlotAddr (step W s op).2.mData r) := by
  intro r hr
  by_cases hcl : op = Op.clear
  · subst hcl
    rw [noteSlot_other W s _ g (Or.inl (by simp))]
    cases hw : s.mReadOnly with
    | true =>
      have : step W s Op.clear = (Status.INVALID_OPERATION, s) := by
        show clear s = _
        unfold clear
        simp only [hw, if_true]
      rw [this] at hr ⊢
      exact hg r hr
    | false =>
      have : numRows (step W s Op.clear).2 = 0 := (clear_header s hw).2.2.1
      omega
  · have hnc : op.NotClear := by
      cases op with
      | clear => exact absurd rfl hcl
      | _ => exact True.intro
    have hch := (step_chunks W hW s op hI hop hnc).2
    rcases step_numRows_le W hW s op hI hop with hle | ⟨hop2, hok, hn⟩
    · have hr2 : r < numRows s := by omega
      have hnote : noteSlot W s op g r = g r := by
        by_cases h1 : op = Op.allocRow
        · subst h1
          by_cases h2 : (allocRow W s).1 = Status.OK
          · have := ((allocRow_full W hW s hI).2.2.2.1 h2).1
            have h3 : numRows (step W s Op.allocRow).2 = numRows s + 1 := this
            omega
          · rw [noteSlot_other W s _ g (Or.inr h2)]
        · rw [noteSlot_other W s _ g (Or.inl h1)]
      rw [hnote, hg r hr2,
        rowSlotAddr_of_chunks _ _ r (hch _ (row_div_le_lastChunk s r hr2))]
    · subst hop2
      have hE3 := (allocRow_full W hW s hI).2.2.2.2.2.2 hok
      unfold noteSlot
      dsimp only
      rw [if_pos hok]
      by_cases hrn : r = numRows s
      · rw [if_pos hrn, hrn]
        exact hE3
      · rw [if_neg hrn]
        have hr2 : r < numRows s := by omega
        rw [hg r hr2, rowSlotAddr_of_chunks _ _ r (hch _ (row_div_le_lastChunk s r hr2))]

theorem run_handedOut (W : Nat) (hW : 32 ≤ W) (ops : List Op) :
    ∀ (s : Window) (g : Nat → Option Nat), Inv s → (∀ op, op ∈ ops → op.Sized s.mSize) →
      (∀ r, r < numRows s → g r = some (rowSlotAddr s.mData r)) →
      ∀ r, r < numRows (run W s ops) →
        handedOut W s ops g r = some (rowSlotAddr (run W s ops).mData r) := by
  induction ops with
  | nil => intro s g _ _ hg r hr; exact hg r hr
  | cons op ops ih =>
    intro s g hI hops hg r hr
    have hop := hops op (List.mem_cons_self _ _)
    have h1 := inv_step W hW s op hI hop
    exact ih (step W s op).2 (noteSlot W s op g) h1
      (fun op1 hop1 => by
        rw [(step_mSize W s op).1]
        exact hops op1 (List.mem_cons_of_mem _ hop1))
      (step_handedOut W hW s op hI hop g hg) r hr

theorem run_freeOffset_mono (W : Nat) (hW : 32 ≤ W) (ops : List Op) :
    ∀ s : Window, Inv s → (∀ op, op ∈ ops → op.Sized s.mSize ∧ op.NotClear) →
      freeOffset s ≤ freeOffset (run W s ops) := by
  induction ops with
  | nil => intro s _ _; exact Nat.le_refl _
  | cons op ops ih =>
    intro s hI hops
    have hop := hops op (List.mem_cons_self _ _)
    have h1 := inv_step W hW s op hI hop.1
    have h2 := (step_chunks W hW s op hI hop.1 hop.2).1
    have h3 := ih (step W s op).2 h1 (fun op1 hop1 => by
      rw [(step_mSize W s op).1]
      exact hops op1 (List.mem_cons_of_mem _ hop1))
    exact Nat.le_trans h2 h3

theorem padOf_mono (f f1 : Nat) (aligned : Bool) (h : f ≤ f1) :
    f + padOf f aligned ≤ f1 + padOf f1 aligned := by
  unfold padOf
  split <;> omega

end Ashmem

/-! ## Growable window: sequential appends -/

namespace Growable

theorem chunkOffset_congr (cfg : Config) (m m1 : Mem) (k : Nat)
    (h : ∀ j, j < k → read32 m1 (chunkOffset cfg m j + cfg.chunkNumRows * 4)
      = read32 m (chunkOffset cfg m j + cfg.chunkNumRows * 4)) :
    chunkOffset cfg m1 k = chunkOffset cfg m k := by
  induction k with
  | zero => rfl
  | succ k ih =>
    have h1 := ih (fun j hj => h j (by omega))
    show read32 m1 (chunkOffset cfg m1 k + _) = read32 m (chunkOffset cfg m k + _)
    rw [h1]
    exact h k (by omega)

theorem walkChunks_succ (cfg : Config) (m : Mem) :
    ∀ n c, walkChunks cfg m (n + 1) c (c + cfg.chunkNumRows * 4)
      = read32 m (walkChunks cfg m n c (c + cfg.chunkNumRows * 4) + cfg.chunkNumRows * 4) := by
  intro n
  induction n with
  | zero => intro c; rfl
  | succ n ih =>
    intro c
    have h := ih (read32 m (c + cfg.chunkNumRows * 4))
    exact h

theorem walkChunks_eq (cfg : Config) (m : Mem) (k : Nat) :
    walkChunks cfg m k cfg.headerSize (cfg.headerSize + ROW_SLOT_CHUNK_SIZE cfg - 4)
      = chunkOffset cfg m k := by
  have e : cfg.headerSize + ROW_SLOT_CHUNK_SIZE cfg - 4 = cfg.headerSize + cfg.chunkNumRows * 4 := by
    unfold ROW_SLOT_CHUNK_SIZE; omega
  rw [e]
  induction k with
  | zero => rfl
  | succ k ih =>
    rw [walkChunks_succ, ih]
    rfl

/-- The fallback walk returns slot `row % N` of the chunk `row / N` links behind the
first one. -/
theorem getRowSlotWalk_eq (cfg : Config) (s : CursorWindow) (row : Nat) :
    getRowSlotWalk cfg s row
      = chunkOffset cfg s.mData (row / cfg.chunkNumRows) + (row % cfg.chunkNumRows) * 4 := by
  unfold getRowSlotWalk
  rw [walkChunks_eq]

theorem div_pred_cases (N n : Nat) (hN : 0 < N) :
    (n % N = 0 → (n - 1) / N = n / N - 1) ∧ (n % N ≠ 0 → (n - 1) / N = n / N) := by
  have h := Nat.div_add_mod n N
  have hp := Nat.mod_lt n hN
  constructor
  · intro h0
    rcases Nat.eq_zero_or_pos (n / N) with hq | hq
    · rw [hq, h0] at h
      have : n = 0 := by simp at h; omega
      subst this
      simp
    · have e : n - 1 = (N - 1) + N * (n / N - 1) := by
        have : N * (n / N) = N * (n / N - 1) + N := by
          conv => lhs; rw [show n / N = (n / N - 1) + 1 by omega]
          rw [Nat.mul_succ]
        omega
      rw [e, Nat.add_mul_div_left _ _ hN, Nat.div_eq_of_lt (by omega)]
      omega
  · intro h0
    have e : n - 1 = (n % N - 1) + N * (n / N) := by omega
    rw [e, Nat.add_mul_div_left _ _ hN, Nat.div_eq_of_lt (by omega)]
    omega

theorem div_succ_cases (N n : Nat) (hN : 0 < N) :
    (n % N + 1 < N → (n + 1) / N = n / N ∧ (n + 1) % N = n % N + 1) ∧
    (n % N + 1 = N → (n + 1) / N = n / N + 1 ∧ (n + 1) % N = 0) := by
  have h := Nat.div_add_mod n N
  have hp := Nat.mod_lt n hN
  constructor
  · intro h0
    have e : n + 1 = (n % N + 1) + N * (n / N) := by omega
    constructor
    · rw [e, Nat.add_mul_div_left _ _ hN, Nat.div_eq_of_lt h0]
      omega
    · rw [e, Nat.add_mul_mod_self_left, Nat.mod_eq_of_lt h0]
  · intro h0
    have e : n + 1 = 0 + N * (n / N + 1) := by
      rw [Nat.mul_succ]; omega
    constructor
    · rw [e, Nat.add_mul_div_left _ _ hN]
      simp
    · rw [e, Nat.add_mul_mod_self_left]
      simp

theorem le_cap (N n : Nat) (hN : 0 < N) : n ≤ N * ((n - 1) / N + 1) := by
  have := Nat.lt_mul_div_succ (n - 1) hN
  omega

/-- An `alloc` that succeeds without leaving the 32-bit range: the offset returned and
the state. -/
theorem alloc_ok (cfg : Config) (s : CursorWindow) (n : Nat) (a : Bool) (re : Realloc)
    (h1 : s.mFreeOffset ≤ s.mSize) (h2 : s.mSize < 2 ^ cfg.sizeBits)
    (hf : AllocFits cfg s n) (hne : (alloc cfg s n a re).1 ≠ 0)
    (hU : (alloc cfg s n a re).2.mSize < U32) :
    ∃ sz, s.mSize ≤ sz ∧ sz < U32 ∧ sz < 2 ^ cfg.sizeBits ∧
      s.mFreeOffset + n + allocPadding s a ≤ sz ∧
      alloc cfg s n a re = (s.mFreeOffset + allocPadding s a,
        { s with mSize := sz, mFreeOffset := s.mFreeOffset + n + allocPadding s a }) := by
  unfold AllocFits at hf
  have hp := allocPadding_le s a
  have hfs := freeSpace_le cfg s h1 h2
  have hsize : allocSize cfg s n a = n + allocPadding s a := Nat.mod_eq_of_lt (by omega)
  by_cases hg : allocSize cfg s n a > freeSpace cfg s
  · by_cases hperm : s.mMaxSize = 0 ∨ newAllocationSz cfg s n a ≤ s.mMaxSize
    · by_cases hre : re = Realloc.failed
      · rw [alloc_fail_unchanged cfg s n a re hg (Or.inr hre)] at hne
        exact absurd rfl hne
      · rw [alloc_grow cfg s n a re hg hperm hre] at hU ⊢
        have hnew : newAllocationSz cfg s n a
            = s.mSize + (n + allocPadding s a - freeSpace cfg s) + s.mGrowthPaddingSize := by
          unfold newAllocationSz
          rw [hsize, Nat.mod_eq_of_lt (by omega)]
          omega
        have hU2 : newAllocationSz cfg s n a < U32 := hU
        rw [hsize] at hg
        refine ⟨newAllocationSz cfg s n a, by omega, hU2, by rw [hnew]; omega, by omega, ?_⟩
        rw [hsize, Nat.mod_eq_of_lt (by omega), Nat.mod_eq_of_lt (by omega)]
        have e : s.mFreeOffset + (n + allocPadding s a) = s.mFreeOffset + n + allocPadding s a := by
          omega
        rw [e]
    · rw [alloc_fail_unchanged cfg s n a re hg (Or.inl hperm)] at hne
      exact absurd rfl hne
  · rw [alloc_fit cfg s n a re hg] at hU ⊢
    have hU2 : s.mSize < U32 := hU
    rw [hsize] at hg
    refine ⟨s.mSize, Nat.le_refl _, hU2, h2, by omega, ?_⟩
    rw [hsize, Nat.mod_eq_of_lt (by omega), Nat.mod_eq_of_lt (by omega)]
    have e : s.mFreeOffset + (n + allocPadding s a) = s.mFreeOffset + n + allocPadding s a := by
      omega
    rw [e]

/-- The buffer never shrinks. -/
theorem alloc_mSize_le (cfg : Config) (s : CursorWindow) (n : Nat) (a : Bool) (re : Realloc)
    (h1 : s.mFreeOffset ≤ s.mSize) (h2 : s.mSize < 2 ^ cfg.sizeBits)
    (hf : AllocFits cfg s n) : s.mSize ≤ (alloc cfg s n a re).2.mSize := by
  unfold AllocFits at hf
  have hp := allocPadding_le s a
  have hfs := freeSpace_le cfg s h1 h2
  have hsize : allocSize cfg s n a = n + allocPadding s a := Nat.mod_eq_of_lt (by omega)
  by_cases hg : allocSize cfg s n a > freeSpace cfg s
  · by_cases hperm : s.mMaxSize = 0 ∨ newAllocationSz cfg s n a ≤ s.mMaxSize
    · by_cases hre : re = Realloc.failed
      · rw [alloc_fail_unchanged cfg s n a re hg (Or.inr hre)]
      · rw [alloc_grow cfg s n a re hg hperm hre]
        show s.mSize ≤ newAllocationSz cfg s n a
        unfold newAllocationSz
        rw [hsize, Nat.mod_eq_of_lt (by omega)]
        rw [hsize] at hg
        omega
    · rw [alloc_fail_unchanged cfg s n a re hg (Or.inl hperm)]
  · rw [alloc_fit cfg s n a re hg]

end Growable

namespace Growable

theorem mapFind_mapInsert_self (l : List (Nat × Nat)) (k v : Nat) (h : mapFind l k = none) :
    mapFind (mapInsert l k v) k = some v := by
  unfold mapInsert
  rw [h]
  show (if k = k then some v else mapFind l k) = some v
  rw [if_pos rfl]

theorem mapFind_mapInsert_other (l : List (Nat × Nat)) (k v k1 : Nat) (h : k ≠ k1) :
    mapFind (mapInsert l k v) k1 = mapFind l k1 := by
  unfold mapInsert
  cases hf : mapFind l k with
  | some x => rfl
  | none =>
    show (if k = k1 then some v else mapFind l k1) = mapFind l k1
    rw [if_neg h]

theorem Appended.offset_lt {cfg : Config} {s : CursorWindow} (hA : Appended cfg s) :
    ∀ k j, k ≤ lastIdx cfg s → j < k →
      chunkOffset cfg s.mData j + ROW_SLOT_CHUNK_SIZE cfg ≤ chunkOffset cfg s.mData k := by
  intro k
  induction k with
  | zero => intro j _ hj; omega
  | succ k ih =>
    intro j hk hj
    have h1 := hA.chunk_mono k (by omega)
    rcases Nat.lt_or_ge j k with h | h
    · have := ih j (by omega) h
      omega
    · have : j = k := by omega
      subst this
      exact h1

theorem Appended.offset_ge {cfg : Config} {s : CursorWindow} (hA : Appended cfg s) (k : Nat)
    (hk : k ≤ lastIdx cfg s) : cfg.headerSize ≤ chunkOffset cfg s.mData k := by
  rcases Nat.eq_zero_or_pos k with h | h
  · subst h; exact Nat.le_refl _
  · have := hA.offset_lt k 0 hk h
    have e : chunkOffset cfg s.mData 0 = cfg.headerSize := rfl
    omega

theorem Appended.offset_le_free {cfg : Config} {s : CursorWindow} (hA : Appended cfg s) (k : Nat)
    (hk : k ≤ lastIdx cfg s) :
    chunkOffset cfg s.mData k + ROW_SLOT_CHUNK_SIZE cfg ≤ s.mFreeOffset := by
  have h := hA.chunk_hi
  rcases Nat.lt_or_ge k (lastIdx cfg s) with h1 | h1
  · have := hA.offset_lt _ k (Nat.le_refl _) h1
    omega
  · have : k = lastIdx cfg s := by omega
    subst this
    exact h

theorem Appended.rows_lt {cfg : Config} {s : CursorWindow} (hA : Appended cfg s)
    (hN : 0 < cfg.chunkNumRows) (hU : s.mSize < U32) : numRows cfg s + 1 < U32 := by
  have h1 := hA.cap
  have h2 := hA.free_le
  have h3 := le_cap cfg.chunkNumRows (numRows cfg s) hN
  unfold lastIdx at h1
  generalize cfg.chunkNumRows * ((numRows cfg s - 1) / cfg.chunkNumRows + 1) = c at h1 h3
  unfold U32 at hU ⊢
  omega

/-- The chunk of the next row is the last chunk in use or the one after it. -/
theorem div_le_lastIdx_succ (cfg : Config) (s : CursorWindow) (hN : 0 < cfg.chunkNumRows) :
    numRows cfg s / cfg.chunkNumRows ≤ lastIdx cfg s + 1 ∧
    lastIdx cfg s ≤ numRows cfg s / cfg.chunkNumRows := by
  have h := div_pred_cases cfg.chunkNumRows (numRows cfg s) hN
  unfold lastIdx
  by_cases hp : numRows cfg s % cfg.chunkNumRows = 0
  · rw [h.1 hp]
    generalize numRows cfg s / cfg.chunkNumRows = q
    omega
  · rw [h.2 hp]
    exact ⟨Nat.le_succ _, Nat.le_refl _⟩

/-- A state with the same row count that keeps the cache, the pointer and the link words
of the chunks in use, and does not lower the free offset. -/
theorem Appended.keep {cfg : Config} {s t : CursorWindow} (hA : Appended cfg s)
    (hN : 0 < cfg.chunkNumRows)
    (hn : numRows cfg t = numRows cfg s) (hfree : s.mFreeOffset ≤ t.mFreeOffset)
    (hfl : t.mFreeOffset ≤ t.mSize) (hsz : t.mSize < 2 ^ cfg.sizeBits)
    (hcache : t.mChunkNumToNextChunkOffset = s.mChunkNumToNextChunkOffset)
    (hlast : t.mLastChunkPtrOffset = s.mLastChunkPtrOffset)
    (hmem : ∀ k, k ≤ lastIdx cfg s →
      read32 t.mData (chunkOffset cfg s.mData k + cfg.chunkNumRows * 4)
        = read32 s.mData (chunkOffset cfg s.mData k + cfg.chunkNumRows * 4)) :
    Appended cfg t ∧
      ∀ k, k ≤ lastIdx cfg s + 1 → chunkOffset cfg t.mData k = chunkOffset cfg s.mData k := by
  have hL : lastIdx cfg t = lastIdx cfg s := by unfold lastIdx; rw [hn]
  have hco : ∀ k, k ≤ lastIdx cfg s + 1 →
      chunkOffset cfg t.mData k = chunkOffset cfg s.mData k :=
    fun k hk => chunkOffset_congr cfg _ _ k (fun j hj => hmem j (by omega))
  have hdl := div_le_lastIdx_succ cfg s hN
  refine ⟨⟨hfl, hsz, ?_, ?_, ?_, ?_, ?_, ?_, ?_⟩, hco⟩
  · intro k hk
    rw [hL] at hk
    rw [hco k (by omega), hco (k + 1) (by omega)]
    exact hA.chunk_mono k hk
  · rw [hL, hco _ (by omega)]
    have := hA.chunk_hi
    omega
  · rw [hL]
    have := hA.cap
    omega
  · rw [hL, hco _ (by omega), hmem _ (Nat.le_refl _)]
    exact hA.last_link
  · intro k h1 h2
    rw [hL] at h2
    rw [hcache, hco k (by omega)]
    exact hA.cache_hit k h1 h2
  · intro k hk
    rw [hL] at hk
    rw [hcache]
    exact hA.cache_miss k hk
  · have e : chunkPtrOffsetOf cfg t = chunkPtrOffsetOf cfg s := by
      unfold chunkPtrOffsetOf; rw [hlast]
    rw [e, hn, hco _ (by omega)]
    exact hA.last_ptr

/-- A row added to the last chunk in use. -/
theorem Appended.same {cfg : Config} {s t : CursorWindow} (hA : Appended cfg s)
    (hN : 0 < cfg.chunkNumRows)
    (hn : numRows cfg t = numRows cfg s + 1)
    (hsame : numRows cfg s / cfg.chunkNumRows = lastIdx cfg s)
    (hfree : t.mFreeOffset = s.mFreeOffset) (hsize : t.mSize = s.mSize)
    (hcache : t.mChunkNumToNextChunkOffset = s.mChunkNumToNextChunkOffset)
    (hmem : ∀ b, cfg.headerSize ≤ b → read32 t.mData b = read32 s.mData b)
    (hlast : chunkPtrOffsetOf cfg t
      = chunkOffset cfg s.mData ((numRows cfg s + 1) / cfg.chunkNumRows - 1)
        + cfg.chunkNumRows * 4) :
    Appended cfg t ∧
      ∀ k, k ≤ lastIdx cfg s + 1 → chunkOffset cfg t.mData k = chunkOffset cfg s.mData k := by
  have hL : lastIdx cfg t = lastIdx cfg s := by
    unfold lastIdx at hsame ⊢
    rw [hn, ← hsame]
    simp
  have hco : ∀ k, k ≤ lastIdx cfg s + 1 →
      chunkOffset cfg t.mData k = chunkOffset cfg s.mData k := by
    intro k hk
    apply chunkOffset_congr
    intro j hj
    have := hA.offset_ge j (by omega)
    exact hmem _ (by omega)
  have hds := div_succ_cases cfg.chunkNumRows (numRows cfg s) hN
  have hpl := Nat.mod_lt (numRows cfg s) hN
  have hq1 : (numRows cfg s + 1) / cfg.chunkNumRows ≤ lastIdx cfg s + 1 := by
    rcases Nat.lt_or_ge (numRows cfg s % cfg.chunkNumRows + 1) cfg.chunkNumRows with h | h
    · rw [(hds.1 h).1]; omega
    · rw [(hds.2 (by omega)).1]; omega
  refine ⟨⟨by rw [hfree, hsize]; exact hA.free_le, by rw [hsize]; exact hA.size_lt,
    ?_, ?_, ?_, ?_, ?_, ?_, ?_⟩, hco⟩
  · intro k hk
    rw [hL] at hk
    rw [hco k (by omega), hco (k + 1) (by omega)]
    exact hA.chunk_mono k hk
  · rw [hL, hco _ (by omega), hfree]
    exact hA.chunk_hi
  · rw [hL, hfree]
    exact hA.cap
  · have := hA.offset_ge _ (Nat.le_refl _)
    rw [hL, hco _ (by omega), hmem _ (by omega)]
    exact hA.last_link
  · intro k h1 h2
    rw [hL] at h2
    rw [hcache, hco k (by omega)]
    exact hA.cache_hit k h1 h2
  · intro k hk
    rw [hL] at hk
    rw [hcache]
    exact hA.cache_miss k hk
  · rw [hn, hco _ (by omega)]
    exact hlast

/-- A row that starts a new chunk at offset `o`. -/
theorem Appended.fresh {cfg : Config} {s t : CursorWindow} (hA : Appended cfg s)
    (hN : 2 ≤ cfg.chunkNumRows)
    (hn : numRows cfg t = numRows cfg s + 1)
    (hp : numRows cfg s % cfg.chunkNumRows = 0) (hq : 0 < numRows cfg s / cfg.chunkNumRows)
    (o : Nat) (ho : s.mFreeOffset ≤ o) (hfree : o + ROW_SLOT_CHUNK_SIZE cfg ≤ t.mFreeOffset)
    (hfl : t.mFreeOffset ≤ t.mSize) (hsz : t.mSize < 2 ^ cfg.sizeBits)
    (hmem : ∀ k, k < lastIdx cfg s →
      read32 t.mData (chunkOffset cfg s.mData k + cfg.chunkNumRows * 4)
        = read32 s.mData (chunkOffset cfg s.mData k + cfg.chunkNumRows * 4))
    (hlink : read32 t.mData (chunkOffset cfg s.mData (lastIdx cfg s) + cfg.chunkNumRows * 4) = o)
    (hterm : read32 t.mData (o + cfg.chunkNumRows * 4) = 0)
    (hcache : t.mChunkNumToNextChunkOffset
      = mapInsert s.mChunkNumToNextChunkOffset (numRows cfg s / cfg.chunkNumRows) o)
    (hlast : t.mLastChunkPtrOffset
      = chunkOffset cfg s.mData (lastIdx cfg s) + cfg.chunkNumRows * 4) :
    Appended cfg t ∧
      (∀ k, k ≤ lastIdx cfg s → chunkOffset cfg t.mData k = chunkOffset cfg s.mData k) ∧
      chunkOffset cfg t.mData (numRows cfg s / cfg.chunkNumRows) = o := by
  have hN0 : 0 < cfg.chunkNumRows := by omega
  have hC : ROW_SLOT_CHUNK_SIZE cfg = cfg.chunkNumRows * 4 + 4 := rfl
  have hLs : lastIdx cfg s = numRows cfg s / cfg.chunkNumRows - 1 :=
    (div_pred_cases cfg.chunkNumRows (numRows cfg s) hN0).1 hp
  have hLt : lastIdx cfg t = lastIdx cfg s + 1 := by
    have : lastIdx cfg t = numRows cfg s / cfg.chunkNumRows := by
      unfold lastIdx; rw [hn]; simp
    omega
  have hqL : numRows cfg s / cfg.chunkNumRows = lastIdx cfg s + 1 := by omega
  have hco : ∀ k, k ≤ lastIdx cfg s → chunkOffset cfg t.mData k = chunkOffset cfg s.mData k :=
    fun k hk => chunkOffset_congr cfg _ _ k (fun j hj => hmem j (by omega))
  have hnew : chunkOffset cfg t.mData (lastIdx cfg s + 1) = o := by
    show read32 t.mData (chunkOffset cfg t.mData (lastIdx cfg s) + _) = o
    rw [hco _ (Nat.le_refl _)]
    exact hlink
  have hchi := hA.chunk_hi
  have hcap := hA.cap
  have hds := (div_succ_cases cfg.chunkNumRows (numRows cfg s) hN0).1 (by omega)
  refine ⟨⟨hfl, hsz, ?_, ?_, ?_, ?_, ?_, ?_, ?_⟩, hco, by rw [hqL]; exact hnew⟩
  · intro k hk
    rw [hLt] at hk
    rcases Nat.lt_or_ge k (lastIdx cfg s) with h | h
    · rw [hco k (by omega), hco (k + 1) (by omega)]
      exact hA.chunk_mono k h
    · have : k = lastIdx cfg s := by omega
      subst this
      rw [hco _ (Nat.le_refl _), hnew]
      omega
  · rw [hLt, hnew]; exact hfree
  · rw [hLt, Nat.mul_succ]
    omega
  · rw [hLt, hnew]; exact hterm
  · intro k h1 h2
    rw [hLt] at h2
    rw [hcache]
    rcases Nat.lt_or_ge k (lastIdx cfg s + 1) with h | h
    · rw [mapFind_mapInsert_other _ _ _ _ (by omega), hco k (by omega)]
      exact hA.cache_hit k h1 (by omega)
    · have : k = lastIdx cfg s + 1 := by omega
      subst this
      rw [hqL, mapFind_mapInsert_self _ _ _ (hA.cache_miss _ (Or.inr (by omega))), hnew]
  · intro k hk
    rw [hLt] at hk
    rw [hcache, mapFind_mapInsert_other _ _ _ _ (by omega)]
    exact hA.cache_miss k (by omega)
  · have hge := hA.offset_ge _ (Nat.le_refl (lastIdx cfg s))
    have e : chunkPtrOffsetOf cfg t = t.mLastChunkPtrOffset := by
      unfold chunkPtrOffsetOf
      rw [if_pos (by rw [hlast]; omega)]
    rw [e, hlast, hn, hds.1, hqL]
    show _ = chunkOffset cfg t.mData (lastIdx cfg s) + _
    rw [hco _ (Nat.le_refl _)]

end Growable

namespace Growable

theorem allocRowSlot_head (cfg : Config) (s : CursorWindow) (re : Realloc)
    (hq : ¬ numRows cfg s / cfg.chunkNumRows > 0) :
    allocRowSlot cfg s re
      = (some (cfg.headerSize + numRows cfg s % cfg.chunkNumRows * 4),
          { s with mData := write32 s.mData cfg.numRowsOff ((numRows cfg s + 1) % U32) }) := by
  unfold allocRowSlot
  dsimp only
  rw [if_neg hq]

theorem allocRowSlot_follow (cfg : Config) (s : CursorWindow) (re : Realloc)
    (hq : numRows cfg s / cfg.chunkNumRows > 0)
    (hz : read32 s.mData (chunkPtrOffsetOf cfg s) ≠ 0) :
    allocRowSlot cfg s re
      = (some (read32 s.mData (chunkPtrOffsetOf cfg s) + numRows cfg s % cfg.chunkNumRows * 4),
          { s with
            mData := write32 s.mData cfg.numRowsOff ((numRows cfg s + 1) % U32)
            mLastChunkPtrOffset :=
              if numRows cfg s % cfg.chunkNumRows = cfg.chunkNumRows - 1 then
                read32 s.mData (chunkPtrOffsetOf cfg s) + cfg.chunkNumRows * 4
              else s.mLastChunkPtrOffset }) := by
  have hP : (if s.mLastChunkPtrOffset ≠ 0 then s.mLastChunkPtrOffset
      else cfg.headerSize + ROW_SLOT_CHUNK_SIZE cfg - 4) = chunkPtrOffsetOf cfg s := rfl
  unfold allocRowSlot
  dsimp only
  rw [hP, if_pos hq, if_neg hz]
  split <;> rfl

theorem allocRowSlot_new (cfg : Config) (s : CursorWindow) (re : Realloc)
    (hq : numRows cfg s / cfg.chunkNumRows > 0)
    (hz : read32 s.mData (chunkPtrOffsetOf cfg s) = 0) (o sz f : Nat) (ho : o ≠ 0)
    (hal : alloc cfg { s with mLastChunkPtrOffset := chunkPtrOffsetOf cfg s }
        (ROW_SLOT_CHUNK_SIZE cfg) true re
      = (o, { s with mLastChunkPtrOffset := chunkPtrOffsetOf cfg s, mSize := sz,
                     mFreeOffset := f })) :
    allocRowSlot cfg s re
      = (some (o + numRows cfg s % cfg.chunkNumRows * 4),
          { s with
            mData := write32 (write32 (write32 s.mData (chunkPtrOffsetOf cfg s) o)
                (o + ROW_SLOT_CHUNK_SIZE cfg - 4) 0) cfg.numRowsOff
              ((read32 (write32 (write32 s.mData (chunkPtrOffsetOf cfg s) o)
                (o + ROW_SLOT_CHUNK_SIZE cfg - 4) 0) cfg.numRowsOff + 1) % U32)
            mSize := sz
            mFreeOffset := f
            mChunkNumToNextChunkOffset :=
              mapInsert s.mChunkNumToNextChunkOffset (numRows cfg s / cfg.chunkNumRows) o
            mLastChunkPtrOffset := chunkPtrOffsetOf cfg s }) := by
  have hP : (if s.mLastChunkPtrOffset ≠ 0 then s.mLastChunkPtrOffset
      else cfg.headerSize + ROW_SLOT_CHUNK_SIZE cfg - 4) = chunkPtrOffsetOf cfg s := rfl
  unfold allocRowSlot
  dsimp only
  rw [hP, if_pos hq, if_pos hz, hal]
  dsimp only
  rw [if_neg ho]
  rfl

end Growable

namespace Growable

theorem allocRowSlot_new_mSize (cfg : Config) (s : CursorWindow) (re : Realloc)
    (hq : numRows cfg s / cfg.chunkNumRows > 0)
    (hz : read32 s.mData (chunkPtrOffsetOf cfg s) = 0) :
    (allocRowSlot cfg s re).2.mSize
      = (alloc cfg { s with mLastChunkPtrOffset := chunkPtrOffsetOf cfg s }
          (ROW_SLOT_CHUNK_SIZE cfg) true re).2.mSize := by
  have hP : (if s.mLastChunkPtrOffset ≠ 0 then s.mLastChunkPtrOffset
      else cfg.headerSize + ROW_SLOT_CHUNK_SIZE cfg - 4) = chunkPtrOffsetOf cfg s := rfl
  unfold allocRowSlot
  dsimp only
  rw [hP, if_pos hq, if_pos hz]
  split <;> rfl

/-- `allocRowSlot` on a window filled by sequential appends: when it returns a slot and
the buffer stays below `2^32` bytes, the new state is again of that kind, the row is
counted, the chunks in use stay where they are, and the slot returned is slot
`numRows % N` of chunk `numRows / N` of the list. -/
theorem appended_allocRowSlot (cfg : Config) (s : CursorWindow) (re : Realloc)
    (hN : 2 ≤ cfg.chunkNumRows) (hH : cfg.numRowsOff + 4 ≤ cfg.headerSize)
    (hA : Appended cfg s) (hf : AllocFits cfg s (ROW_SLOT_CHUNK_SIZE cfg))
    (hok : (allocRowSlot cfg s re).1 ≠ none) (hU : (allocRowSlot cfg s re).2.mSize < U32) :
    Appended cfg (allocRowSlot cfg s re).2 ∧
    numRows cfg (allocRowSlot cfg s re).2 = numRows cfg s + 1 ∧
    s.mFreeOffset ≤ (allocRowSlot cfg s re).2.mFreeOffset ∧
    s.mSize ≤ (allocRowSlot cfg s re).2.mSize ∧
    (allocRowSlot cfg s re).1
      = some (chunkOffset cfg (allocRowSlot cfg s re).2.mData (numRows cfg s / cfg.chunkNumRows)
          + (numRows cfg s % cfg.chunkNumRows) * 4) ∧
    (∀ k, k ≤ lastIdx cfg s →
      chunkOffset cfg (allocRowSlot cfg s re).2.mData k = chunkOffset cfg s.mData k) ∧
    ∀ b, b + 4 ≤ cfg.headerSize → (b + 4 ≤ cfg.numRowsOff ∨ cfg.numRowsOff + 4 ≤ b) →
      read32 (allocRowSlot cfg s re).2.mData b = read32 s.mData b := by
  have hN0 : 0 < cfg.chunkNumRows := by omega
  have hdp := div_pred_cases cfg.chunkNumRows (numRows cfg s) hN0
  have hds := div_succ_cases cfg.chunkNumRows (numRows cfg s) hN0
  have hpl := Nat.mod_lt (numRows cfg s) hN0
  have hC : ROW_SLOT_CHUNK_SIZE cfg = cfg.chunkNumRows * 4 + 4 := rfl
  have hptr := hA.last_ptr
  have hchi := hA.chunk_hi
  have hfle := hA.free_le
  have hmm : ∀ x, (x % U32) % U32 = x % U32 := fun x => Nat.mod_mod _ _
  have hgeL := hA.offset_ge (lastIdx cfg s) (Nat.le_refl _)
  by_cases hq : numRows cfg s / cfg.chunkNumRows > 0
  · have e : numRows cfg s / cfg.chunkNumRows - 1 + 1 = numRows cfg s / cfg.chunkNumRows := by
      omega
    have hnext : chunkOffset cfg s.mData (numRows cfg s / cfg.chunkNumRows)
        = read32 s.mData (chunkPtrOffsetOf cfg s) := by
      rw [hptr]
      conv => lhs; rw [← e]
      rfl
    by_cases hz : read32 s.mData (chunkPtrOffsetOf cfg s) = 0
    · -- a new chunk
      have hp : numRows cfg s % cfg.chunkNumRows = 0 := by
        by_contra hp
        have hL : lastIdx cfg s = numRows cfg s / cfg.chunkNumRows := hdp.2 hp
        have hm := hA.chunk_mono (numRows cfg s / cfg.chunkNumRows - 1) (by omega)
        rw [e] at hm
        omega
      have hL : lastIdx cfg s = numRows cfg s / cfg.chunkNumRows - 1 := hdp.1 hp
      have hptr2 : chunkPtrOffsetOf cfg s
          = chunkOffset cfg s.mData (lastIdx cfg s) + cfg.chunkNumRows * 4 := by
        rw [hptr, hL]
      have hne : (alloc cfg { s with mLastChunkPtrOffset := chunkPtrOffsetOf cfg s }
          (ROW_SLOT_CHUNK_SIZE cfg) true re).1 ≠ 0 := by
        intro h0
        apply hok
        exact (allocRowSlot_none_iff cfg s re).1.mpr
          ⟨⟨hq, hz⟩, by rw [← (alloc_setLast cfg s _ _ true re).1]; exact h0⟩
      have hU2 : (alloc cfg { s with mLastChunkPtrOffset := chunkPtrOffsetOf cfg s }
          (ROW_SLOT_CHUNK_SIZE cfg) true re).2.mSize < U32 := by
        rw [← allocRowSlot_new_mSize cfg s re hq hz]
        exact hU
      obtain ⟨sz, hsz1, hsz2, hsz3, hsz4, hal⟩ :=
        alloc_ok cfg { s with mLastChunkPtrOffset := chunkPtrOffsetOf cfg s }
          (ROW_SLOT_CHUNK_SIZE cfg) true re hfle hA.size_lt hf hne hU2
      have hpad : 1 ≤ allocPadding { s with mLastChunkPtrOffset := chunkPtrOffsetOf cfg s } true ∧
          allocPadding { s with mLastChunkPtrOffset := chunkPtrOffsetOf cfg s } true ≤ 4 := by
        unfold allocPadding
        simp only [if_true]
        omega
      generalize allocPadding { s with mLastChunkPtrOffset := chunkPtrOffsetOf cfg s } true
        = pad at hal hsz4 hpad
      have hsz4b : s.mFreeOffset + ROW_SLOT_CHUNK_SIZE cfg + pad ≤ sz := hsz4
      have hsz1b : s.mSize ≤ sz := hsz1
      have heq := allocRowSlot_new cfg s re hq hz (s.mFreeOffset + pad) sz
        (s.mFreeOffset + ROW_SLOT_CHUNK_SIZE cfg + pad) (by omega) hal
      clear hsz1 hsz4 hne hU2 hal hU hok
      have hrl := hA.rows_lt hN0 (by omega)
      have hm2 : read32 (write32 (write32 s.mData (chunkPtrOffsetOf cfg s) (s.mFreeOffset + pad))
          (s.mFreeOffset + pad + ROW_SLOT_CHUNK_SIZE cfg - 4) 0) cfg.numRowsOff
            = numRows cfg s := by
        rw [read32_write32_other _ _ _ _ (by omega), read32_write32_other _ _ _ _ (by omega)]
        rfl
      rw [hm2] at heq
      rw [heq]
      generalize hT : ({ s with
            mData := write32 (write32 (write32 s.mData (chunkPtrOffsetOf cfg s)
                (s.mFreeOffset + pad)) (s.mFreeOffset + pad + ROW_SLOT_CHUNK_SIZE cfg - 4) 0)
                cfg.numRowsOff ((numRows cfg s + 1) % U32)
            mSize := sz
            mFreeOffset := s.mFreeOffset + ROW_SLOT_CHUNK_SIZE cfg + pad
            mChunkNumToNextChunkOffset :=
              mapInsert s.mChunkNumToNextChunkOffset (numRows cfg s / cfg.chunkNumRows)
                (s.mFreeOffset + pad)
            mLastChunkPtrOffset := chunkPtrOffsetOf cfg s } : CursorWindow) = T
      dsimp only
      have hTd : T.mData = write32 (write32 (write32 s.mData (chunkPtrOffsetOf cfg s)
                (s.mFreeOffset + pad)) (s.mFreeOffset + pad + ROW_SLOT_CHUNK_SIZE cfg - 4) 0)
                cfg.numRowsOff ((numRows cfg s + 1) % U32) := by rw [← hT]
      have hTf : T.mFreeOffset = s.mFreeOffset + ROW_SLOT_CHUNK_SIZE cfg + pad := by rw [← hT]
      have hTs : T.mSize = sz := by rw [← hT]
      have hTc : T.mChunkNumToNextChunkOffset
          = mapInsert s.mChunkNumToNextChunkOffset (numRows cfg s / cfg.chunkNumRows)
              (s.mFreeOffset + pad) := by rw [← hT]
      have hTl : T.mLastChunkPtrOffset = chunkPtrOffsetOf cfg s := by rw [← hT]
      have hn : numRows cfg T = numRows cfg s + 1 := by
        unfold numRows
        rw [hTd, read32_write32_same, hmm]
        exact Nat.mod_eq_of_lt hrl
      have h := Appended.fresh (t := T) hA hN hn hp hq (s.mFreeOffset + pad) (by omega)
        (by rw [hTf]; omega) (by rw [hTf, hTs]; exact hsz4b) (by rw [hTs]; exact hsz3)
        (by
          intro k hk
          have h1 := hA.offset_lt _ k (Nat.le_refl _) hk
          have h2 := hA.offset_ge k (by omega)
          rw [hTd, read32_write32_other _ _ _ _ (by omega),
            read32_write32_other _ _ _ _ (by omega), read32_write32_other _ _ _ _ (by omega)])
        (by
          rw [hTd, ← hptr2, read32_write32_other _ _ _ _ (by omega),
            read32_write32_other _ _ _ _ (by omega), read32_write32_same]
          exact Nat.mod_eq_of_lt (by omega))
        (by
          have e2 : s.mFreeOffset + pad + ROW_SLOT_CHUNK_SIZE cfg - 4
              = s.mFreeOffset + pad + cfg.chunkNumRows * 4 := by omega
          rw [hTd, e2, read32_write32_other _ _ _ _ (by omega), read32_write32_same]
          rfl)
        hTc (by rw [hTl, hptr2])
      refine ⟨h.1, hn, by rw [hTf]; omega, by rw [hTs]; exact hsz1b, ?_, h.2.1, ?_⟩
      · rw [h.2.2]
      · intro b hb1 hb2
        rw [hTd, read32_write32_other _ _ _ _ (by omega),
          read32_write32_other _ _ _ _ (by omega), read32_write32_other _ _ _ _ (by omega)]
    · -- the chunk exists
      have hp : numRows cfg s % cfg.chunkNumRows ≠ 0 := by
        intro hp
        have hL : lastIdx cfg s = numRows cfg s / cfg.chunkNumRows - 1 := hdp.1 hp
        have hl := hA.last_link
        rw [hL, ← hptr] at hl
        exact hz hl
      have hL : lastIdx cfg s = numRows cfg s / cfg.chunkNumRows := hdp.2 hp
      have heq := allocRowSlot_follow cfg s re hq hz
      rw [heq] at hU
      have hU1 : s.mSize < U32 := hU
      have hrl := hA.rows_lt hN0 hU1
      rw [heq]
      generalize hT : ({ s with
            mData := write32 s.mData cfg.numRowsOff ((numRows cfg s + 1) % U32)
            mLastChunkPtrOffset :=
              if numRows cfg s % cfg.chunkNumRows = cfg.chunkNumRows - 1 then
                read32 s.mData (chunkPtrOffsetOf cfg s) + cfg.chunkNumRows * 4
              else s.mLastChunkPtrOffset } : CursorWindow) = T
      dsimp only
      have hTd : T.mData = write32 s.mData cfg.numRowsOff ((numRows cfg s + 1) % U32) := by
        rw [← hT]
      have hTl : T.mLastChunkPtrOffset
          = if numRows cfg s % cfg.chunkNumRows = cfg.chunkNumRows - 1 then
              read32 s.mData (chunkPtrOffsetOf cfg s) + cfg.chunkNumRows * 4
            else s.mLastChunkPtrOffset := by rw [← hT]
      have hn : numRows cfg T = numRows cfg s + 1 := by
        unfold numRows
        rw [hTd, read32_write32_same, hmm]
        exact Nat.mod_eq_of_lt hrl
      have hlast : chunkPtrOffsetOf cfg T
          = chunkOffset cfg s.mData ((numRows cfg s + 1) / cfg.chunkNumRows - 1)
            + cfg.chunkNumRows * 4 := by
        by_cases hpe : numRows cfg s % cfg.chunkNumRows = cfg.chunkNumRows - 1
        · rw [if_pos hpe] at hTl
          have e1 : chunkPtrOffsetOf cfg T = T.mLastChunkPtrOffset := by
            unfold chunkPtrOffsetOf
            rw [if_pos (by rw [hTl]; omega)]
          rw [e1, hTl, (hds.2 (by omega)).1, ← hnext]
          simp
        · rw [if_neg hpe] at hTl
          have e1 : chunkPtrOffsetOf cfg T = chunkPtrOffsetOf cfg s := by
            unfold chunkPtrOffsetOf
            rw [hTl]
          rw [e1, (hds.1 (by omega)).1]
          exact hptr
      have h := Appended.same (t := T) hA hN0 hn hL.symm (by rw [← hT]) (by rw [← hT])
        (by rw [← hT])
        (by
          intro b hb
          rw [hTd, read32_write32_other _ _ _ _ (by omega)])
        hlast
      refine ⟨h.1, hn, by rw [← hT], by rw [← hT], ?_, fun k hk => h.2 k (by omega), ?_⟩
      · rw [h.2 _ (by omega), hnext]
      · intro b hb1 hb2
        rw [hTd, read32_write32_other _ _ _ _ (by omega)]
  · -- the first chunk
    have hq0 : numRows cfg s / cfg.chunkNumRows = 0 := by
      generalize numRows cfg s / cfg.chunkNumRows = q at hq
      omega
    have hL0 : lastIdx cfg s = 0 := by
      show (numRows cfg s - 1) / cfg.chunkNumRows = 0
      by_cases hp : numRows cfg s % cfg.chunkNumRows = 0
      · rw [hdp.1 hp, hq0]
      · rw [hdp.2 hp, hq0]
    have heq := allocRowSlot_head cfg s re hq
    rw [heq] at hU
    have hU1 : s.mSize < U32 := hU
    have hrl := hA.rows_lt hN0 hU1
    rw [heq]
    generalize hT : ({ s with
          mData := write32 s.mData cfg.numRowsOff ((numRows cfg s + 1) % U32) } : CursorWindow)
      = T
    dsimp only
    have hTd : T.mData = write32 s.mData cfg.numRowsOff ((numRows cfg s + 1) % U32) := by
      rw [← hT]
    have hn : numRows cfg T = numRows cfg s + 1 := by
      unfold numRows
      rw [hTd, read32_write32_same, hmm]
      exact Nat.mod_eq_of_lt hrl
    have hlast : chunkPtrOffsetOf cfg T
        = chunkOffset cfg s.mData ((numRows cfg s + 1) / cfg.chunkNumRows - 1)
          + cfg.chunkNumRows * 4 := by
      have e1 : chunkPtrOffsetOf cfg T = chunkPtrOffsetOf cfg s := by
        rw [← hT]; rfl
      have e2 : (numRows cfg s + 1) / cfg.chunkNumRows - 1 = 0 := by
        rcases Nat.lt_or_ge (numRows cfg s % cfg.chunkNumRows + 1) cfg.chunkNumRows with h | h
        · rw [(hds.1 h).1, hq0]
        · rw [(hds.2 (by omega)).1, hq0]
      rw [e1, e2, hptr, hq0]
    have h := Appended.same (t := T) hA hN0 hn (by rw [hq0, hL0]) (by rw [← hT]) (by rw [← hT])
      (by rw [← hT])
      (by
        intro b hb
        rw [hTd, read32_write32_other _ _ _ _ (by omega)])
      hlast
    refine ⟨h.1, hn, by rw [← hT], by rw [← hT], ?_, fun k hk => h.2 k (by omega), ?_⟩
    · rw [hq0]
      rfl
    · intro b hb1 hb2
      rw [hTd, read32_write32_other _ _ _ _ (by omega)]

end Growable

namespace Growable

theorem allocRow_of_slot_none (cfg : Config) (s : CursorWindow) (re1 re2 : Realloc)
    (h : (allocRowSlot cfg s re1).1 = none) : (allocRow cfg s re1 re2).1 = none := by
  unfold allocRow
  split
  · rfl
  · next a t heq =>
    rw [heq] at h
    exact absurd h (by simp)

theorem allocRow_of_slot_some (cfg : Config) (s : CursorWindow) (re1 re2 : Realloc)
    (a : Nat) (t : CursorWindow) (h : allocRowSlot cfg s re1 = (some a, t)) :
    ((alloc cfg t ((numColumns cfg t * FIELD_SLOT_SIZE) % 2 ^ cfg.sizeBits)
        cfg.defaultAligned re2).1 = 0 → (allocRow cfg s re1 re2).1 = none) ∧
    (allocRow cfg s re1 re2).2.mSize
      = (alloc cfg t ((numColumns cfg t * FIELD_SLOT_SIZE) % 2 ^ cfg.sizeBits)
          cfg.defaultAligned re2).2.mSize ∧
    ∀ o sz f, o ≠ 0 →
      alloc cfg t ((numColumns cfg t * FIELD_SLOT_SIZE) % 2 ^ cfg.sizeBits)
          cfg.defaultAligned re2 = (o, { t with mSize := sz, mFreeOffset := f }) →
      allocRow cfg s re1 re2
        = (some o, { t with
            mSize := sz
            mFreeOffset := f
            mData := write32 (memset0 t.mData o
              ((numColumns cfg t * FIELD_SLOT_SIZE) % 2 ^ cfg.sizeBits)) a o }) := by
  unfold allocRow
  rw [h]
  dsimp only
  refine ⟨?_, ?_, ?_⟩
  · intro h0
    rw [if_pos h0]
  · split <;> rfl
  · intro o sz f ho hal
    rw [hal]
    dsimp only
    rw [if_neg ho]

theorem Appended.within {cfg : Config} {s : CursorWindow} (hA : Appended cfg s) :
    Within cfg s := by
  have h1 := hA.chunk_hi
  have h2 := hA.offset_ge _ (Nat.le_refl (lastIdx cfg s))
  have h3 := hA.free_le
  exact ⟨h3, hA.size_lt, by omega⟩

/-- `allocRow` on a window filled by sequential appends: when it returns a row and the
buffer stays below `2^32` bytes, the new state is again of that kind, the row is
counted, the chunks in use stay where they are, and the slot that `allocRowSlot` handed
out is slot `numRows % N` of chunk `numRows / N` of the list. -/
theorem appended_allocRow (cfg : Config) (s : CursorWindow) (re1 re2 : Realloc)
    (hN : 2 ≤ cfg.chunkNumRows) (hH : cfg.numRowsOff + 4 ≤ cfg.headerSize)
    (hA : Appended cfg s) (hf : (Op.allocRow re1 re2).Fits cfg s)
    (hok : (allocRow cfg s re1 re2).1 ≠ none) (hU : (allocRow cfg s re1 re2).2.mSize < U32) :
    Appended cfg (allocRow cfg s re1 re2).2 ∧
    numRows cfg (allocRow cfg s re1 re2).2 = numRows cfg s + 1 ∧
    s.mSize ≤ (allocRow cfg s re1 re2).2.mSize ∧
    (allocRowSlot cfg s re1).1
      = some (chunkOffset cfg (allocRow cfg s re1 re2).2.mData
          (numRows cfg s / cfg.chunkNumRows) + (numRows cfg s % cfg.chunkNumRows) * 4) ∧
    ∀ k, k ≤ lastIdx cfg s →
      chunkOffset cfg (allocRow cfg s re1 re2).2.mData k = chunkOffset cfg s.mData k := by
  have hN0 : 0 < cfg.chunkNumRows := by omega
  have hC : ROW_SLOT_CHUNK_SIZE cfg = cfg.chunkNumRows * 4 + 4 := rfl
  have hpl := Nat.mod_lt (numRows cfg s) hN0
  obtain ⟨hf1, hf2⟩ := hf
  have hW := allocRowSlot_within cfg s re1 hA.within hf1
  cases hsl : allocRowSlot cfg s re1 with
  | mk x t =>
    cases x with
    | none =>
      exact absurd (allocRow_of_slot_none cfg s re1 re2 (by rw [hsl])) hok
    | some a =>
      rw [hsl] at hf2 hW
      have hf2b : AllocFits cfg t ((numColumns cfg t * FIELD_SLOT_SIZE) % 2 ^ cfg.sizeBits) := hf2
      have hWt : Within cfg t := hW
      clear hf2 hW
      obtain ⟨hnone, hsize, heq⟩ := allocRow_of_slot_some cfg s re1 re2 a t hsl
      generalize (numColumns cfg t * FIELD_SLOT_SIZE) % 2 ^ cfg.sizeBits = fds at *
      have hne : (alloc cfg t fds cfg.defaultAligned re2).1 ≠ 0 := fun h0 => hok (hnone h0)
      have hU2 : (alloc cfg t fds cfg.defaultAligned re2).2.mSize < U32 := by
        rw [← hsize]; exact hU
      have hmono := alloc_mSize_le cfg t fds cfg.defaultAligned re2 hWt.1 hWt.2.1 hf2b
      have hUt : t.mSize < U32 := by omega
      have hst := appended_allocRowSlot cfg s re1 hN hH hA hf1 (by rw [hsl]; simp)
        (by rw [hsl]; exact hUt)
      rw [hsl] at hst
      dsimp only at hst
      obtain ⟨hAt, hnt, hft, hszt, hslot, hcot, _⟩ := hst
      have hnt2 : numRows cfg t = numRows cfg s + 1 := hnt
      have hslot2 : some a = some (chunkOffset cfg t.mData (numRows cfg s / cfg.chunkNumRows)
          + (numRows cfg s % cfg.chunkNumRows) * 4) := hslot
      have ha : a = chunkOffset cfg t.mData (numRows cfg s / cfg.chunkNumRows)
          + (numRows cfg s % cfg.chunkNumRows) * 4 := Option.some.inj hslot2
      have hLt : lastIdx cfg t = numRows cfg s / cfg.chunkNumRows := by
        unfold lastIdx; rw [hnt2]; simp
      obtain ⟨sz, hsz1, hsz2, hsz3, hsz4, hal⟩ :=
        alloc_ok cfg t fds cfg.defaultAligned re2 hWt.1 hWt.2.1 hf2b hne hU2
      have hp4 := allocPadding_le t cfg.defaultAligned
      generalize allocPadding t cfg.defaultAligned = pad at hal hsz4 hp4
      have heq2 := heq (t.mFreeOffset + pad) sz (t.mFreeOffset + fds + pad)
        (by have := hAt.chunk_hi; have := hAt.offset_ge _ (Nat.le_refl (lastIdx cfg t)); omega) hal
      rw [heq2]
      generalize hF : ({ t with
            mSize := sz
            mFreeOffset := t.mFreeOffset + fds + pad
            mData := write32 (memset0 t.mData (t.mFreeOffset + pad) fds) a
              (t.mFreeOffset + pad) } : CursorWindow) = F
      dsimp only
      have hFd : F.mData = write32 (memset0 t.mData (t.mFreeOffset + pad) fds) a
          (t.mFreeOffset + pad) := by rw [← hF]
      have hgeq := hAt.offset_ge _ (Nat.le_refl (lastIdx cfg t))
      have hhiq := hAt.chunk_hi
      rw [hLt] at hgeq hhiq
      have hrd : ∀ b, b + 4 ≤ t.mFreeOffset → (b + 4 ≤ a ∨ a + 4 ≤ b) →
          read32 F.mData b = read32 t.mData b := by
        intro b h1 h2
        rw [hFd, (frame_write32 _ _ _).read32 (by omega), (frame_memset0 _ _ _).read32 (by omega)]
      have hn : numRows cfg F = numRows cfg t := hrd _ (by omega) (by omega)
      have h := Appended.keep (t := F) hAt hN0 hn (by rw [← hF]; show _ ≤ t.mFreeOffset + fds + pad; omega)
        (by rw [← hF]; exact hsz4) (by rw [← hF]; exact hsz3) (by rw [← hF]) (by rw [← hF])
        (by
          intro k hk
          rw [hLt] at hk
          have h1 := hAt.offset_le_free k (by rw [hLt]; exact hk)
          apply hrd _ (by omega)
          rcases Nat.lt_or_ge k (numRows cfg s / cfg.chunkNumRows) with h2 | h2
          · have := hAt.offset_lt _ k (by rw [hLt]) h2
            omega
          · have : k = numRows cfg s / cfg.chunkNumRows := by omega
            subst this
            omega)
      refine ⟨h.1, by rw [hn, hnt2], ?_, ?_, ?_⟩
      · rw [← hF]
        show s.mSize ≤ sz
        omega
      · rw [h.2 _ (by rw [hLt]; omega), ← ha]
      · intro k hk
        have hk2 : k ≤ lastIdx cfg t + 1 := by
          have := (div_le_lastIdx_succ cfg s hN0).2
          rw [hLt]; omega
        rw [h.2 k hk2]
        exact hcot k hk

end Growable

namespace Growable

theorem appended_of_cleared (cfg : Config) (s : CursorWindow) (hc : Cleared cfg s)
    (h1 : s.mFreeOffset ≤ s.mSize) (h2 : s.mSize < 2 ^ cfg.sizeBits) : Appended cfg s := by
  obtain ⟨hn, hf, hl, hca, hla⟩ := hc
  have hL : lastIdx cfg s = 0 := by unfold lastIdx; rw [hn]; simp
  have hC : ROW_SLOT_CHUNK_SIZE cfg = cfg.chunkNumRows * 4 + 4 := rfl
  have h0 : chunkOffset cfg s.mData 0 = cfg.headerSize := rfl
  refine ⟨h1, h2, ?_, ?_, ?_, ?_, ?_, ?_, ?_⟩
  · intro k hk; rw [hL] at hk; omega
  · rw [hL, h0, hf]
  · rw [hL, hf, hC]; omega
  · rw [hL, h0]; exact hl
  · intro k hk1 hk2; rw [hL] at hk2; omega
  · intro k _; rw [hca]; rfl
  · have e : chunkPtrOffsetOf cfg s = cfg.headerSize + ROW_SLOT_CHUNK_SIZE cfg - 4 := by
      unfold chunkPtrOffsetOf
      rw [if_neg (by rw [hla]; simp)]
    rw [e, hn]
    simp only [Nat.zero_div, Nat.zero_sub]
    rw [h0, hC]
    omega

theorem cleared_clear (cfg : Config) (s : CursorWindow)
    (h : cfg.headerSize + ROW_SLOT_CHUNK_SIZE cfg < U32) : Cleared cfg (clear cfg s) := by
  have hr := clear_reads cfg s
  have hfree : (clear cfg s).mFreeOffset = cfg.headerSize + ROW_SLOT_CHUNK_SIZE cfg := by
    unfold clear
    exact Nat.mod_eq_of_lt h
  refine ⟨hr.1, hfree, ?_, rfl, rfl⟩
  have h3 := hr.2.2
  rw [hfree] at h3
  unfold ROW_SLOT_CHUNK_SIZE at h3
  exact h3

/-- Under `Appended`, `getRowSlot` of an allocated row returns slot `row % N` of chunk
`row / N` of the list, through the cache or through the walk. -/
theorem Appended.rowSlot_eq {cfg : Config} {s : CursorWindow} (hA : Appended cfg s)
    (i : Nat) (hi : i < numRows cfg s) :
    getRowSlot cfg s i
      = chunkOffset cfg s.mData (i / cfg.chunkNumRows) + (i % cfg.chunkNumRows) * 4 := by
  have hk : i / cfg.chunkNumRows ≤ lastIdx cfg s :=
    Nat.div_le_div_right (by omega)
  unfold getRowSlot
  dsimp only
  rcases Nat.eq_zero_or_pos (i / cfg.chunkNumRows) with h0 | h0
  · rw [hA.cache_miss _ (Or.inl h0)]
    dsimp only
    rw [walkChunks_eq]
  · rw [hA.cache_hit _ h0 hk]

theorem allocRowSlot_mSize_le (cfg : Config) (s : CursorWindow) (re : Realloc)
    (hW : Within cfg s) (hf : AllocFits cfg s (ROW_SLOT_CHUNK_SIZE cfg)) :
    s.mSize ≤ (allocRowSlot cfg s re).2.mSize := by
  rcases allocRowSlot_sizes cfg s re with ⟨_, h⟩ | ⟨_, _, h⟩
  · rw [h]
  · rw [h]
    exact alloc_mSize_le cfg s _ true re hW.1 hW.2.1 hf

theorem allocRow_mSize_le (cfg : Config) (s : CursorWindow) (re1 re2 : Realloc)
    (hW : Within cfg s) (hf : (Op.allocRow re1 re2).Fits cfg s) :
    s.mSize ≤ (allocRow cfg s re1 re2).2.mSize := by
  obtain ⟨hf1, hf2⟩ := hf
  have h1 := allocRowSlot_mSize_le cfg s re1 hW hf1
  have hW1 := allocRowSlot_within cfg s re1 hW hf1
  have h2 := alloc_mSize_le cfg (allocRowSlot cfg s re1).2 _ cfg.defaultAligned re2
    hW1.1 hW1.2.1 hf2
  unfold allocRow
  split
  · next t heq =>
    rw [heq] at h1
    exact h1
  · next a t heq =>
    rw [heq] at h1 h2
    dsimp only at h1 h2 ⊢
    split
    · exact Nat.le_trans h1 h2
    · exact Nat.le_trans h1 h2

theorem rows_mSize_le (cfg : Config) (rs : List (Realloc × Realloc)) :
    ∀ s : CursorWindow, Within cfg s → RunFits cfg s (rowOps rs) →
      s.mSize ≤ (run cfg s (rowOps rs)).mSize := by
  induction rs with
  | nil => intro s _ _; exact Nat.le_refl _
  | cons r rs ih =>
    intro s hW hf
    have hf1 : (Op.allocRow r.1 r.2).Fits cfg s := hf.1
    have h1 := allocRow_mSize_le cfg s r.1 r.2 hW hf1
    have hW1 := allocRow_within cfg s r.1 r.2 hW hf1
    have h2 := ih (allocRow cfg s r.1 r.2).2 hW1 hf.2
    exact Nat.le_trans h1 h2

/-- A run of successful `allocRow` calls from a window filled by sequential appends. -/
theorem appended_rows (cfg : Config) (hN : 2 ≤ cfg.chunkNumRows)
    (hH : cfg.numRowsOff + 4 ≤ cfg.headerSize) (rs : List (Realloc × Realloc)) :
    ∀ s : CursorWindow, Appended cfg s → RunFits cfg s (rowOps rs) →
      allSucceed cfg s rs = true → (run cfg s (rowOps rs)).mSize < U32 →
      Appended cfg (run cfg s (rowOps rs)) ∧
      numRows cfg (run cfg s (rowOps rs)) = numRows cfg s + rs.length ∧
      (∀ k, k ≤ lastIdx cfg s →
        chunkOffset cfg (run cfg s (rowOps rs)).mData k = chunkOffset cfg s.mData k) ∧
      ∀ i, i < rs.length →
        (slotsOf cfg s rs)[i]?
          = some (some (chunkOffset cfg (run cfg s (rowOps rs)).mData
              ((numRows cfg s + i) / cfg.chunkNumRows)
              + ((numRows cfg s + i) % cfg.chunkNumRows) * 4)) := by
  have hN0 : 0 < cfg.chunkNumRows := by omega
  induction rs with
  | nil =>
    intro s hA _ _ _
    exact ⟨hA, rfl, fun _ _ => rfl, fun i hi => absurd hi (by simp)⟩
  | cons r rs ih =>
    intro s hA hf hok hU
    have hf1 : (Op.allocRow r.1 r.2).Fits cfg s := hf.1
    have hok2 : (allocRow cfg s r.1 r.2).1.isSome = true ∧
        allSucceed cfg (allocRow cfg s r.1 r.2).2 rs = true := by
      have : ((allocRow cfg s r.1 r.2).1.isSome && allSucceed cfg (allocRow cfg s r.1 r.2).2 rs)
          = true := hok
      exact Bool.and_eq_true_iff.mp this
    have hne : (allocRow cfg s r.1 r.2).1 ≠ none := by
      intro h
      rw [h] at hok2
      exact absurd hok2.1 (by simp)
    have hW1 := allocRow_within cfg s r.1 r.2 hA.within hf1
    have hU2 : (run cfg (allocRow cfg s r.1 r.2).2 (rowOps rs)).mSize < U32 := hU
    have hmono := rows_mSize_le cfg rs (allocRow cfg s r.1 r.2).2 hW1 hf.2
    obtain ⟨hA1, hn1, _, hslot, hco1⟩ :=
      appended_allocRow cfg s r.1 r.2 hN hH hA hf1 hne (by omega)
    obtain ⟨hA2, hn2, hco2, hsl2⟩ := ih (allocRow cfg s r.1 r.2).2 hA1 hf.2 hok2.2 hU2
    have hL1 : lastIdx cfg (allocRow cfg s r.1 r.2).2 = numRows cfg s / cfg.chunkNumRows := by
      unfold lastIdx; rw [hn1]; simp
    have hrun : run cfg s (rowOps (r :: rs)) = run cfg (allocRow cfg s r.1 r.2).2 (rowOps rs) :=
      rfl
    rw [hrun]
    refine ⟨hA2, ?_, ?_, ?_⟩
    · rw [hn2, hn1, List.length_cons]; omega
    · intro k hk
      have := (div_le_lastIdx_succ cfg s hN0).2
      rw [hco2 k (by rw [hL1]; omega)]
      exact hco1 k hk
    · intro i hi
      have e0 : slotsOf cfg s (r :: rs)
          = (allocRowSlot cfg s r.1).1 :: slotsOf cfg (allocRow cfg s r.1 r.2).2 rs := rfl
      rw [e0]
      cases i with
      | zero =>
        rw [List.getElem?_cons_zero, hslot, Nat.add_zero, hco2 _ (by rw [hL1])]
      | succ i =>
        have hi2 : i < rs.length := by
          rw [List.length_cons] at hi; omega
        have h := hsl2 i hi2
        rw [hn1] at h
        have e : numRows cfg s + (i + 1) = numRows cfg s + 1 + i := by omega
        rw [e, List.getElem?_cons_succ]
        exact h

end Growable

namespace Growable

theorem allocRowSlot_growth (cfg : Config) (s : CursorWindow) (re : Realloc) :
    (allocRowSlot cfg s re).2.mGrowthPaddingSize = s.mGrowthPaddingSize := by
  have hmd := alloc_mData cfg { s with mLastChunkPtrOffset := chunkPtrOffsetOf cfg s }
    (ROW_SLOT_CHUNK_SIZE cfg) true re
  have hP : (if s.mLastChunkPtrOffset ≠ 0 then s.mLastChunkPtrOffset
      else cfg.headerSize + ROW_SLOT_CHUNK_SIZE cfg - 4) = chunkPtrOffsetOf cfg s := rfl
  unfold allocRowSlot
  dsimp only
  rw [hP]
  split
  · split
    · split
      · exact hmd.2.2
      · exact hmd.2.2
    · split <;> rfl
  · rfl

theorem allocRow_growth (cfg : Config) (s : CursorWindow) (re1 re2 : Realloc) :
    (allocRow cfg s re1 re2).2.mGrowthPaddingSize = s.mGrowthPaddingSize := by
  have h1 := allocRowSlot_growth cfg s re1
  unfold allocRow
  split
  · next t heq => rw [heq] at h1; exact h1
  · next a t heq =>
    rw [heq] at h1
    have h2 := (alloc_mData cfg t ((numColumns cfg t * FIELD_SLOT_SIZE) % 2 ^ cfg.sizeBits)
      cfg.defaultAligned re2).2.2
    dsimp only
    split
    · exact h2.trans h1
    · exact h2.trans h1

/-- In a window capped well below the range of `size_t`, no size computation of a run of
`allocRow` calls overflows. -/
theorem rows_fit (cfg : Config) (M g : Nat) (hM : 0 < M)
    (hB : M + 12 * U32 + ROW_SLOT_CHUNK_SIZE cfg + 4 + g < 2 ^ cfg.sizeBits)
    (rs : List (Realloc × Realloc)) :
    ∀ s : CursorWindow, Capped M s → s.mGrowthPaddingSize = g → RunFits cfg s (rowOps rs) := by
  induction rs with
  | nil => intro s _ _; exact True.intro
  | cons r rs ih =>
    intro s hc hg
    have hc1 := allocRowSlot_capped cfg M s r.1 hM hc
    have hg1 := allocRowSlot_growth cfg s r.1
    have hnc := read32_lt (allocRowSlot cfg s r.1).2.mData cfg.numColumnsOff
    have hmod := Nat.mod_le (numColumns cfg (allocRowSlot cfg s r.1).2 * FIELD_SLOT_SIZE)
      (2 ^ cfg.sizeBits)
    refine ⟨⟨?_, ?_⟩, ih _ (allocRow_capped cfg M s r.1 r.2 hM hc)
      ((allocRow_growth cfg s r.1 r.2).trans hg)⟩
    · unfold AllocFits
      have := hc.2
      omega
    · unfold AllocFits
      rw [hg1, hg]
      have := hc1.2
      have e : numColumns cfg (allocRowSlot cfg s r.1).2
          = read32 (allocRowSlot cfg s r.1).2.mData cfg.numColumnsOff := rfl
      have e2 : FIELD_SLOT_SIZE = 12 := rfl
      rw [e, e2] at hmod ⊢
      omega

end Growable
/-! ## Growable window: payload copies -/

namespace Growable

/-- An `alloc` that returns a non-zero offset returns a region inside the (new) buffer. -/
theorem alloc_offset_fits (cfg : Config) (s : CursorWindow) (n : Nat) (a : Bool)
    (re : Realloc) (h1 : s.mFreeOffset ≤ s.mSize) (h2 : s.mSize < 2 ^ cfg.sizeBits)
    (hf : AllocFits cfg s n) (hne : (alloc cfg s n a re).1 ≠ 0) :
    (alloc cfg s n a re).1 + n ≤ (alloc cfg s n a re).2.mSize := by
  unfold AllocFits at hf
  have hp := allocPadding_le s a
  have hfs := freeSpace_le cfg s h1 h2
  have hsize : allocSize cfg s n a = n + allocPadding s a := Nat.mod_eq_of_lt (by omega)
  have hmod := Nat.mod_le (s.mFreeOffset + allocPadding s a) U32
  by_cases hg : allocSize cfg s n a > freeSpace cfg s
  · by_cases hperm : s.mMaxSize = 0 ∨ newAllocationSz cfg s n a ≤ s.mMaxSize
    · by_cases hre : re = Realloc.failed
      · rw [alloc_fail_unchanged cfg s n a re hg (Or.inr hre)] at hne
        exact absurd rfl hne
      · rw [alloc_grow cfg s n a re hg hperm hre]
        have hnew : newAllocationSz cfg s n a
            = s.mSize + (n + allocPadding s a - freeSpace cfg s) + s.mGrowthPaddingSize := by
          unfold newAllocationSz
          rw [hsize, Nat.mod_eq_of_lt (by omega)]
          omega
        rw [hsize] at hg
        show (s.mFreeOffset + allocPadding s a) % U32 + n ≤ newAllocationSz cfg s n a
        rw [hnew]; omega
    · rw [alloc_fail_unchanged cfg s n a re hg (Or.inl hperm)] at hne
      exact absurd rfl hne
  · rw [alloc_fit cfg s n a re hg]
    show (s.mFreeOffset + allocPadding s a) % U32 + n ≤ s.mSize
    rw [hsize] at hg
    omega

/-- A run of `alloc` calls leaves the bytes of the buffer alone and does not shrink it. -/
theorem run_allocOps (cfg : Config) (rs : List (Nat × Bool × Realloc)) :
    ∀ s : CursorWindow, Within cfg s → RunFits cfg s (allocOps rs) →
      (run cfg s (allocOps rs)).mData = s.mData ∧ s.mSize ≤ (run cfg s (allocOps rs)).mSize := by
  induction rs with
  | nil => intro s _ _; exact ⟨rfl, Nat.le_refl _⟩
  | cons r rs ih =>
    intro s hW hf
    have hf1 : AllocFits cfg s r.1 := hf.1
    have hW1 := alloc_within cfg s r.1 r.2.1 r.2.2 hW hf1
    have h := ih (alloc cfg s r.1 r.2.1 r.2.2).2 hW1 hf.2
    have hm := (alloc_mData cfg s r.1 r.2.1 r.2.2).1
    have hs := alloc_mSize_le cfg s r.1 r.2.1 r.2.2 hW.1 hW.2.1 hf1
    refine ⟨?_, ?_⟩
    · show (run cfg (alloc cfg s r.1 r.2.1 r.2.2).2 (allocOps rs)).mData = s.mData
      rw [h.1, hm]
    · show s.mSize ≤ (run cfg (alloc cfg s r.1 r.2.1 r.2.2).2 (allocOps rs)).mSize
      omega

/-- The bytes read back from the place to which a list was copied are the list. -/
theorem memcpy_list_back (m : Mem) (off : Nat) (d : List Byte) :
    (List.range d.length).map
      (fun i => memcpy m off (fun j => d.getD j 0) d.length (off + i)) = d := by
  apply List.ext_getElem
  · simp
  · intro i h1 h2
    simp only [List.getElem_map, List.getElem_range]
    unfold memcpy
    rw [if_pos ⟨Nat.le_add_right _ _, by omega⟩, Nat.add_sub_cancel_left]
    simp [List.getD, List.getElem?_eq_getElem h2]

end Growable

namespace Growable

/-- The offset returned by `alloc` is a `uint32_t`. -/
theorem alloc_offset_lt (cfg : Config) (s : CursorWindow) (n : Nat) (a : Bool)
    (re : Realloc) : (alloc cfg s n a re).1 < U32 := by
  have hpos : 0 < U32 := by decide
  unfold alloc
  dsimp only
  split_ifs <;> first | exact hpos | exact Nat.mod_lt _ hpos

end Growable
/-! ## Shared window: the bytes that a cell write leaves alone -/

namespace Ashmem

/-- A byte outside the field slot of cell `(row, column)` is left alone by `putLong`. -/
theorem putLong_bytes (s : Window) (row column : Nat) (value : Int) (hI : Inv s) (i : Nat)
    (h : row < numRows s → column < numColumns s →
      i < rowDir s.mData row + 12 * column ∨ rowDir s.mData row + 12 * column + 12 ≤ i) :
    (putLong s row column value).2.mData i = s.mData i := by
  unfold putLong
  split
  · rfl
  · split
    · rfl
    · next slot hs =>
      obtain ⟨hr, hc, hslot⟩ := getFieldSlot_some s row column slot hI hs
      have h3 := h hr hc
      show write64 (write32 s.mData slot _) (slot + 4) _ i = s.mData i
      rw [frame_write64 _ _ _ i (by omega), frame_write32 _ _ _ i (by omega)]

theorem putDouble_bytes (s : Window) (row column : Nat) (bits : Nat) (hI : Inv s) (i : Nat)
    (h : row < numRows s → column < numColumns s →
      i < rowDir s.mData row + 12 * column ∨ rowDir s.mData row + 12 * column + 12 ≤ i) :
    (putDouble s row column bits).2.mData i = s.mData i := by
  unfold putDouble
  split
  · rfl
  · split
    · rfl
    · next slot hs =>
      obtain ⟨hr, hc, hslot⟩ := getFieldSlot_some s row column slot hI hs
      have h3 := h hr hc
      show write64 (write32 s.mData slot _) (slot + 4) _ i = s.mData i
      rw [frame_write64 _ _ _ i (by omega), frame_write32 _ _ _ i (by omega)]

theorem putNull_bytes (s : Window) (row column : Nat) (hI : Inv s) (i : Nat)
    (h : row < numRows s → column < numColumns s →
      i < rowDir s.mData row + 12 * column ∨ rowDir s.mData row + 12 * column + 12 ≤ i) :
    (putNull s row column).2.mData i = s.mData i := by
  unfold putNull
  split
  · rfl
  · split
    · rfl
    · next slot hs =>
      obtain ⟨hr, hc, hslot⟩ := getFieldSlot_some s row column slot hI hs
      have h3 := h hr hc
      show write32 (write32 (write32 s.mData slot _) (slot + 4) _) (slot + 8) _ i = s.mData i
      rw [frame_write32 _ _ _ i (by omega), frame_write32 _ _ _ i (by omega),
        frame_write32 _ _ _ i (by omega)]

theorem putBlobOrString_bytes (s : Window) (row column : Nat) (value : Nat → Byte)
    (size type : Nat) (hI : Inv s) (hsize : s.mSize + size < U32) (i : Nat)
    (h1 : 4 ≤ i) (h2 : i < freeOffset s)
    (h : row < numRows s → column < numColumns s →
      i < rowDir s.mData row + 12 * column ∨ rowDir s.mData row + 12 * column + 12 ≤ i) :
    (putBlobOrString s row column value size type).2.mData i = s.mData i := by
  unfold putBlobOrString
  split
  · rfl
  · split
    · rfl
    · next slot hs =>
      obtain ⟨hr, hc, hslot⟩ := getFieldSlot_some s row column slot hI hs
      have h3 := h hr hc
      have hfl := hI.free_lo
      rcases alloc_cases s hI size false (by rw [padOf_false]; omega) with ⟨_, ha⟩ | ⟨hfit, ha⟩
      · rw [ha]
        dsimp only
        rw [if_pos rfl]
      · rw [ha, padOf_false] at *
        dsimp only
        rw [if_neg (by omega)]
        show write32 (write32 (write32 (memcpy
          (write32 s.mData 0 _) _ value size) slot _) (slot + 4) _) (slot + 8) _ i = s.mData i
        rw [frame_write32 _ _ _ i (by omega), frame_write32 _ _ _ i (by omega),
          frame_write32 _ _ _ i (by omega), frame_memcpy _ _ _ _ i (by omega),
          frame_write32 _ _ _ i (by omega)]

/-- A cell write leaves the resolution of every cell as it was. -/
theorem putLong_resolves (s : Window) (row column : Nat) (value : Int) (hI : Inv s)
    (r c : Nat) : getFieldSlot (putLong s row column value).2 r c = getFieldSlot s r c :=
  getFieldSlot_congr (putLong_mDataPtr s row column value)
    (putLong_keeps s row column value hI).1 (putLong_keeps s row column value hI).2.1
    (putLong_chunks s row column value hI).2 (putLong_keeps s row column value hI).2.2 r c

theorem putDouble_resolves (s : Window) (row column : Nat) (bits : Nat) (hI : Inv s)
    (r c : Nat) : getFieldSlot (putDouble s row column bits).2 r c = getFieldSlot s r c :=
  getFieldSlot_congr (putDouble_mDataPtr s row column bits)
    (putDouble_keeps s row column bits hI).1 (putDouble_keeps s row column bits hI).2.1
    (putDouble_chunks s row column bits hI).2 (putDouble_keeps s row column bits hI).2.2 r c

theorem putNull_resolves (s : Window) (row column : Nat) (hI : Inv s)
    (r c : Nat) : getFieldSlot (putNull s row column).2 r c = getFieldSlot s r c :=
  getFieldSlot_congr (putNull_mDataPtr s row column)
    (putNull_keeps s row column hI).1 (putNull_keeps s row column hI).2.1
    (putNull_chunks s row column hI).2 (putNull_keeps s row column hI).2.2 r c

theorem putBlobOrString_resolves (s : Window) (row column : Nat) (value : Nat → Byte)
    (size type : Nat) (hI : Inv s) (hsize : s.mSize + size < U32) (r c : Nat) :
    getFieldSlot (putBlobOrString s row column value size type).2 r c
      = getFieldSlot s r c :=
  getFieldSlot_congr (putBlobOrString_mDataPtr s row column value size type)
    (putBlobOrString_keeps s row column value size type hI hsize).1
    (putBlobOrString_keeps s row column value size type hI hsize).2.1
    (putBlobOrString_chunks s row column value size type hI hsize).2
    (putBlobOrString_keeps s row column value size type hI hsize).2.2 r c

/-- A state that differs from `s`, below the free offset and behind the `freeOffset`
word, at most inside the field slot of cell `(row, column)`, resolves every other cell
in range to the slot it had, with the same twelve bytes. -/
theorem Inv.other_cell {s t : Window} (hI : Inv s) (hM : Mapped s)
    (hp : t.mDataPtr = s.mDataPtr) (row column r1 c1 : Nat)
    (hag : ∀ i, 4 ≤ i → i < freeOffset s →
      (row < numRows s → column < numColumns s →
        i < rowDir s.mData row + 12 * column ∨ rowDir s.mData row + 12 * column + 12 ≤ i) →
      t.mData i = s.mData i)
    (hr1 : r1 < numRows s) (hc1 : c1 < numColumns s) (hne : r1 ≠ row ∨ c1 ≠ column) :
    numRows t = numRows s ∧ numColumns t = numColumns s ∧
    getFieldSlot s r1 c1 = some (rowDir s.mData r1 + 12 * c1) ∧
    getFieldSlot t r1 c1 = some (rowDir s.mData r1 + 12 * c1) ∧
    ∀ j, j < 12 → t.mData (rowDir s.mData r1 + 12 * c1 + j)
      = s.mData (rowDir s.mData r1 + 12 * c1 + j) := by
  have hfl := hI.free_lo
  have hk : numRows t = numRows s ∧ numColumns t = numColumns s ∧
      ∀ r, r < numRows s → rowDir t.mData r = rowDir s.mData r := by
    apply hI.update_keeps
    intro i hi
    rcases hi with ⟨h1, h2⟩ | ⟨k, hk, h1, h2⟩
    · refine hag i h1 (by omega) ?_
      intro hr hc
      have hlo := hI.row_lo row hr
      omega
    · have hkf := hI.chunk_le_free k hk
      have hkg := hI.chunk_ge k hk
      refine hag i (by omega) (by omega) ?_
      intro hr hc
      have hd := hI.row_chunk row k hr hk
      omega
  obtain ⟨h8, h12, hrd⟩ := hk
  have hch : ∀ k, k ≤ lastChunk s → chunkAt t.mData k = chunkAt s.mData k := by
    apply hI.update_chunks
    intro i hi
    rcases hi with ⟨h1, h2⟩ | ⟨k, hk, h1, h2⟩
    · refine hag i h1 (by omega) ?_
      intro hr hc
      have hlo := hI.row_lo row hr
      omega
    · have hkf := hI.chunk_le_free k hk
      have hkg := hI.chunk_ge k hk
      refine hag i (by omega) (by omega) ?_
      intro hr hc
      have hd := hI.row_chunk row k hr hk
      omega
  have hs : getFieldSlot s r1 c1 = some (rowDir s.mData r1 + 12 * c1) :=
    getFieldSlot_in s hI hM r1 c1 hr1 hc1
  refine ⟨h8, h12, hs, ?_, ?_⟩
  · rw [getFieldSlot_congr hp h8 h12 hch hrd]; exact hs
  · intro j hj
    have hlo1 := hI.row_lo r1 hr1
    have hhi1 := hI.row_hi r1 hr1
    refine hag _ (by omega) (by omega) ?_
    intro hr hc
    rcases Nat.lt_trichotomy r1 row with hlt | heq | hgt
    · have := hI.row_mono r1 row hlt hr
      omega
    · subst heq
      rcases hne with h | h
      · exact absurd rfl h
      · omega
    · have := hI.row_mono row r1 hgt hr1
      omega

end Ashmem

namespace Ashmem

/-- A field slot whose twelve bytes are the same in two states reads the same in both:
type tag, integer, double, and size and offset of a string or blob. -/
theorem cell_reads_of_bytes (s t : Window) (slot : Nat)
    (hb : ∀ j, j < 12 → t.mData (slot + j) = s.mData (slot + j)) :
    getFieldSlotType t slot = getFieldSlotType s slot ∧
    getFieldSlotValueLong t slot = getFieldSlotValueLong s slot ∧
    getFieldSlotValueDouble t slot = getFieldSlotValueDouble s slot ∧
    getFieldSlotValueString t slot = getFieldSlotValueString s slot ∧
    getFieldSlotValueBlob t slot = getFieldSlotValueBlob s slot := by
  have e0 : read32 t.mData slot = read32 s.mData slot :=
    read32_congr _ _ _ (fun i h1 h2 => by
      have := hb (i - slot) (by omega)
      rw [Nat.add_sub_cancel' h1] at this
      exact this)
  have e4 : read32 t.mData (slot + 4) = read32 s.mData (slot + 4) :=
    read32_congr _ _ _ (fun i h1 h2 => by
      have := hb (i - slot) (by omega)
      rw [Nat.add_sub_cancel' (by omega)] at this
      exact this)
  have e8 : read32 t.mData (slot + 8) = read32 s.mData (slot + 8) :=
    read32_congr _ _ _ (fun i h1 h2 => by
      have := hb (i - slot) (by omega)
      rw [Nat.add_sub_cancel' (by omega)] at this
      exact this)
  have e64 : read64 t.mData (slot + 4) = read64 s.mData (slot + 4) := by
    unfold read64
    have e : slot + 4 + 4 = slot + 8 := by omega
    rw [e4, e, e8]
  refine ⟨e0, ?_, e64, ?_, ?_⟩
  · unfold getFieldSlotValueLong
    rw [e64]
  · unfold getFieldSlotValueString
    rw [e4, e8]
  · unfold getFieldSlotValueBlob
    rw [e4, e8]

end Ashmem

namespace Ashmem

theorem memcpy_read (m : Mem) (a : Nat) (src : Nat → Byte) (n i : Nat) (hi : i < n) :
    memcpy m a src n (a + i) = src i := by
  unfold memcpy
  rw [if_pos ⟨by omega, by omega⟩, Nat.add_sub_cancel_left]

/-- The state after a `putBlobOrString` that returns `OK`, under the invariant. -/
theorem putBlobOrString_ok (s : Window) (row column : Nat) (value : Nat → Byte)
    (size type : Nat) (hI : Inv s) (hsize : s.mSize + size < U32) (ht : type < U32)
    (hok : (putBlobOrString s row column value size type).1 = Status.OK) :
    ∃ slot, getFieldSlot s row column = some slot ∧
      read32 (putBlobOrString s row column value size type).2.mData slot = type ∧
      read32 (putBlobOrString s row column value size type).2.mData (slot + 4) = freeOffset s ∧
      read32 (putBlobOrString s row column value size type).2.mData (slot + 8) = size ∧
      ∀ i, i < size →
        (putBlobOrString s row column value size type).2.mData (freeOffset s + i) = value i := by
  unfold putBlobOrString at hok ⊢
  split at hok
  · exact absurd hok (by simp)
  · next hw =>
    rw [if_neg hw]
    split at hok
    · exact absurd hok (by simp)
    · next slot hs =>
      simp only [hs]
      obtain ⟨hr, hc, hslot⟩ := getFieldSlot_some s row column slot hI hs
      have hlo := hI.row_lo row hr
      have hhi := hI.row_hi row hr
      have hfh := hI.free_hi
      rcases alloc_cases s hI size false (by rw [padOf_false]; omega) with ⟨_, h⟩ | ⟨hfit, h⟩
      · rw [h] at hok
        dsimp only at hok
        rw [if_pos rfl] at hok
        exact absurd hok (by simp)
      · rw [h, padOf_false]
        dsimp only
        rw [if_neg (by omega)]
        refine ⟨slot, rfl, ?_, ?_, ?_, ?_⟩
        · show read32 (write32 (write32 (write32 _ slot type) (slot + 4) _) (slot + 8) _) slot = _
          rw [read32_write32_other _ _ _ _ (by omega), read32_write32_other _ _ _ _ (by omega),
            read32_write32_same]
          exact Nat.mod_eq_of_lt ht
        · show read32 (write32 (write32 (write32 _ slot type) (slot + 4) _) (slot + 8) _)
            (slot + 4) = _
          rw [read32_write32_other _ _ _ _ (by omega), read32_write32_same]
          exact Nat.mod_eq_of_lt (by omega)
        · show read32 (write32 (write32 (write32 _ slot type) (slot + 4) _) (slot + 8) _)
            (slot + 8) = _
          rw [read32_write32_same]
          exact Nat.mod_eq_of_lt (by omega)
        · intro i hi
          show write32 (write32 (write32 (memcpy _ _ value size) slot type) (slot + 4) _)
            (slot + 8) _ (freeOffset s + i) = _
          rw [frame_write32 _ _ _ _ (by omega), frame_write32 _ _ _ _ (by omega),
            frame_write32 _ _ _ _ (by omega)]
          exact memcpy_read _ _ _ _ _ hi

end Ashmem

/-! ## Shared window: the message of `throwExceptionWithRowCol` -/

namespace Ashmem

/-- The fixed part of the message alone has 127 characters. -/
theorem rowColMessage_length (row column : Int) :
    127 ≤ (rowColMessage row column).length := by
  unfold rowColMessage
  simp only [String.length_append]
  have h1 : "Couldn\x27t read row ".length = 18 := by decide
  have h2 : ", col ".length = 6 := by decide
  have h3 : " from AshmemCursorWindow.  Make sure the Cursor is initialized correctly before ".length
      = 80 := by decide
  have h4 : "accessing data from it.".length = 23 := by decide
  omega

/-- The message never fits the array of 100 bytes. -/
theorem throwExceptionWithRowCol_overrun (row column : Int) :
    throwExceptionWithRowCol row column
      = Pending.overrun ((rowColMessage row column).length + 1) := by
  have h := rowColMessage_length row column
  unfold throwExceptionWithRowCol
  rw [if_neg (by omega)]

end Ashmem

/-! ## Runs on which the code departs from the specification -/

namespace Growable

set_option maxRecDepth 1000000 in
/-- C1. Growable window, a run on which a written cell is lost.  With one column, rows
0..127 are allocated and cell (30, 0) is written with 42 and reads back as 42.  A payload
allocation uses up the free space, the allocation of row 128 fails (its new chunk would
exceed the maximum size), a one-byte allocation grows the buffer, and the retried
allocation of row 128 succeeds.  The cell (30, 0) still reads 42 at that point; the
following `putLong(128, 0, 7)` returns true, and afterwards `getLong(30, 0)` fails: the
chunk cache still maps chunk 1 to the offset 0 recorded by the failed attempt, so the
write for row 128 lands on the row slots of rows 30..33. -/
theorem C1_written_cell_lost_after_retried_row :
    getLong cfgA (run cfgA s0 (opsA 128 ++ [Op.putLong 30 0 42 Realloc.moved])) 30 0
      = (true, some 42) ∧
    (allocRow cfgA (run cfgA s0 (opsA 128 ++ [Op.putLong 30 0 42 Realloc.moved,
      Op.alloc 2036 false Realloc.moved])) Realloc.moved Realloc.moved).1 = none ∧
    numRows cfgA (run cfgA s0 opsB) = 129 ∧
    mapFind (run cfgA s0 opsB).mChunkNumToNextChunkOffset 1 = some 0 ∧
    getLong cfgA (run cfgA s0 opsB) 30 0 = (true, some 42) ∧
    (putLong cfgA (run cfgA s0 opsB) 128 0 7 Realloc.moved).1 = true ∧
    getLong cfgA (run cfgA s0 (opsB ++ [Op.putLong 128 0 7 Realloc.moved])) 30 0
      = (false, none) := by
  decide

set_option maxRecDepth 100000 in
/-- C9. Growable window, a call of `alloc` that returns 0 and changes the state.  In an
uncapped window whose free offset is `2^32 - 4`, `alloc(8, aligned)` adds 4 bytes of
padding, the `uint32_t` offset wraps to 0 and is returned, while the buffer has grown to
`2^32 + 8` bytes and the free offset has become 8. -/
theorem C9_alloc_returns_zero_after_growing :
    sWrap.mFreeOffset = 4294967292 ∧ sWrap.mSize = 4294967292 ∧
    (alloc cfgA sWrap 8 true Realloc.moved).1 = 0 ∧
    (alloc cfgA sWrap 8 true Realloc.moved).2.mFreeOffset = 8 ∧
    (alloc cfgA sWrap 8 true Realloc.moved).2.mSize = 4294967304 := by
  decide

set_option maxRecDepth 100000 in
/-- C14. Growable window, a state reached from creation by one call of `alloc` in which a
further call of `alloc` returns 0 although it allocated: at free offset `2^32 - 3`,
`alloc(16, aligned)` pads by 3 bytes, returns the wrapped offset 0, grows the buffer and
sets the free offset to 16, inside the first row-slot chunk. -/
theorem C14_zero_offset_is_ambiguous :
    sWrap3.mFreeOffset = 4294967293 ∧
    (alloc cfgA sWrap3 16 true Realloc.moved).1 = 0 ∧
    (alloc cfgA sWrap3 16 true Realloc.moved).2.mFreeOffset = 16 ∧
    (alloc cfgA sWrap3 16 true Realloc.moved).2.mSize ≠ sWrap3.mSize ∧
    (alloc cfgA sWrap3 16 true Realloc.moved).2.mFreeOffset
      < cfgA.headerSize + ROW_SLOT_CHUNK_SIZE cfgA := by
  decide

end Growable

namespace Ashmem

set_option maxRecDepth 100000 in
/-- C2. Shared window with a 32-bit `size_t`, a blob that does not read back.  After
`clear`, `setNumColumns(2^30)` and `allocRow` (whose directory size `2^30 * 12` is 0
modulo `2^32`), `putBlob(0, 5, v, 100)` with `v` all zero returns OK; the slot has type
BLOB, size 100 and offset 420, but byte 60 of the stored blob is 4, not `v[60] = 0`: the
slot itself lies at offset 480, inside the payload `[420, 520)`. -/
theorem C2_blob_overwritten_by_its_slot :
    (putBlob (run 32 w4096 opsOverlap) 0 5 zeroMem 100).1 = Status.OK ∧
    getFieldSlot (putBlob (run 32 w4096 opsOverlap) 0 5 zeroMem 100).2 0 5 = some 480 ∧
    getFieldSlotType (putBlob (run 32 w4096 opsOverlap) 0 5 zeroMem 100).2 480
      = NEW_FIELD_TYPE_BLOB ∧
    getFieldSlotValueBlob (putBlob (run 32 w4096 opsOverlap) 0 5 zeroMem 100).2 480
      = (100, 420) ∧
    (putBlob (run 32 w4096 opsOverlap) 0 5 zeroMem 100).2.mData (420 + 60) = 4 ∧
    zeroMem 60 = 0 := by
  decide

set_option maxRecDepth 100000 in
/-- C4. Shared window with a 32-bit `size_t`, a re-allocated row that is not zeroed.  A
cell is written with `putLong(0, 0, -1)`; after `clear`, `setNumColumns(2^30)`, `allocRow`
and `freeLastRow`, the next `allocRow` returns OK and creates row 0 again, but its cell
(0, 0) resolves to a slot of type INTEGER holding -1: the directory size `2^30 * 12`
wraps to 0, so nothing is zeroed. -/
theorem C4_reallocated_row_keeps_old_cell :
    numRows (run 32 w4096 opsStale) = 0 ∧
    (allocRow 32 (run 32 w4096 opsStale)).1 = Status.OK ∧
    numRows (allocRow 32 (run 32 w4096 opsStale)).2 = 1 ∧
    getFieldSlot (allocRow 32 (run 32 w4096 opsStale)).2 0 0 = some 420 ∧
    getFieldSlotType (allocRow 32 (run 32 w4096 opsStale)).2 420 = NEW_FIELD_TYPE_INTEGER ∧
    getFieldSlotValueLong (allocRow 32 (run 32 w4096 opsStale)).2 420 = -1 := by
  decide

set_option maxRecDepth 100000 in
/-- C10. Shared window, an allocation that does not fit and is granted.  After `clear` on
a window of 4096 bytes the free offset is 420; `alloc(2^32 - 400, unaligned)` returns 420
and sets the free offset to 20, although `420 + (2^32 - 400)` exceeds 4096. -/
theorem C10_alloc_wraps_around :
    freeOffset (clear w4096).2 = 420 ∧ (clear w4096).2.mSize = 4096 ∧
    (alloc (clear w4096).2 4294966896 false).1 = 420 ∧
    freeOffset (alloc (clear w4096).2 4294966896 false).2 = 20 := by
  decide

set_option maxRecDepth 100000 in
/-- C17. Shared window with a 32-bit `size_t`, a new row whose cell is not NULL.  With
`2^30` columns, row 0 is allocated and its cell (0, 0) written with 7; the next
`allocRow` returns OK and creates row 1, whose cell (1, 0) resolves to the same slot 420,
of type INTEGER with value 7. -/
theorem C17_new_row_shares_directory :
    (allocRow 32 (run 32 w4096 opsShared)).1 = Status.OK ∧
    numRows (allocRow 32 (run 32 w4096 opsShared)).2 = 2 ∧
    getFieldSlot (allocRow 32 (run 32 w4096 opsShared)).2 1 0 = some 420 ∧
    getFieldSlotType (allocRow 32 (run 32 w4096 opsShared)).2 420 = NEW_FIELD_TYPE_INTEGER ∧
    getFieldSlotValueLong (allocRow 32 (run 32 w4096 opsShared)).2 420 = 7 := by
  decide

end Ashmem

/-! ## Shared window: facts about the concrete windows -/

namespace Ashmem

/-- The window `sOneRow` satisfies the invariant. -/
theorem inv_sOneRow : Inv sOneRow :=
  inv_run 32 (by decide) [Op.setNumColumns 3, Op.allocRow] (clear w4096).2
    (inv_clear w4096 rfl (by decide) (by decide))
    (by
      intro op hop
      simp only [List.mem_cons, List.mem_singleton, List.mem_nil_iff, or_false] at hop
      rcases hop with h | h <;> subst h
      · show (clear w4096).2.mSize + 12 * 3 + 407 < U32
        decide
      · trivial)

/-- The region of `w4096` lies at `2^30 .. 2^30 + 4096`. -/
theorem mapped_w4096 : Mapped w4096 := by
  unfold Mapped
  decide

/-- The window `sOneRow` is `w4096` after three operations: same region. -/
theorem mapped_sOneRow : Mapped sOneRow :=
  mapped_run 32 [Op.clear, Op.setNumColumns 3, Op.allocRow] w4096 mapped_w4096

end Ashmem

/-! ## Shared window: statements of the specification -/

namespace Ashmem

/-- C3. Shared window, read-only attachment: on a window whose `mReadOnly` flag is set,
each of `clear`, `setNumColumns`, `allocRow`, `freeLastRow`, `putBlob`, `putString`,
`putLong`, `putDouble` and `putNull` returns `INVALID_OPERATION` for every argument list
and returns the state it was given: no byte of the buffer changes and the flag stays
set. -/
theorem C3_read_only_window_rejects_mutators (W : Nat) (s : Window) (n row column size : Nat)
    (value : Nat → Byte) (v : Int) (bits : Nat) (hro : s.mReadOnly = true) :
    clear s = (Status.INVALID_OPERATION, s) ∧
    setNumColumns s n = (Status.INVALID_OPERATION, s) ∧
    allocRow W s = (Status.INVALID_OPERATION, s) ∧
    freeLastRow s = (Status.INVALID_OPERATION, s) ∧
    putBlob s row column value size = (Status.INVALID_OPERATION, s) ∧
    putString s row column value size = (Status.INVALID_OPERATION, s) ∧
    putLong s row column v = (Status.INVALID_OPERATION, s) ∧
    putDouble s row column bits = (Status.INVALID_OPERATION, s) ∧
    putNull s row column = (Status.INVALID_OPERATION, s) := by
  unfold clear setNumColumns allocRow freeLastRow putBlob putString putBlobOrString putLong
    putDouble putNull
  simp only [hro, if_true, and_self]

theorem C3_read_only_witness :
    clear roWin = (Status.INVALID_OPERATION, roWin) ∧
    setNumColumns roWin 3 = (Status.INVALID_OPERATION, roWin) ∧
    allocRow 32 roWin = (Status.INVALID_OPERATION, roWin) ∧
    freeLastRow roWin = (Status.INVALID_OPERATION, roWin) ∧
    putBlob roWin 7 9 zeroMem 5 = (Status.INVALID_OPERATION, roWin) ∧
    putString roWin 7 9 zeroMem 5 = (Status.INVALID_OPERATION, roWin) ∧
    putLong roWin 7 9 (-1) = (Status.INVALID_OPERATION, roWin) ∧
    putDouble roWin 7 9 0 = (Status.INVALID_OPERATION, roWin) ∧
    putNull roWin 7 9 = (Status.INVALID_OPERATION, roWin) :=
  C3_read_only_window_rejects_mutators 32 roWin 3 7 9 5 zeroMem (-1) 0 rfl

/-- C5. Shared window, `setNumColumns(n)` on a writable window, `n` a `uint32_t`: when
(`numColumns > 0` or `numRows > 0`) and `numColumns ≠ n` it returns `INVALID_OPERATION`
and the state is unchanged; in every other case it returns `OK`, `numColumns` becomes `n`
and the other header fields keep their values.  So `INVALID_OPERATION` is returned exactly
in the first case; once a row exists a different value fails, and the current value is
accepted without changing anything. -/
theorem C5_setNumColumns_cases (s : Window) (n : Nat) (hw : s.mReadOnly = false)
    (hn : n < U32) :
    (((numColumns s > 0 ∨ numRows s > 0) ∧ numColumns s ≠ n) →
      setNumColumns s n = (Status.INVALID_OPERATION, s)) ∧
    (¬ ((numColumns s > 0 ∨ numRows s > 0) ∧ numColumns s ≠ n) →
      (setNumColumns s n).1 = Status.OK ∧ numColumns (setNumColumns s n).2 = n ∧
      numRows (setNumColumns s n).2 = numRows s ∧
      freeOffset (setNumColumns s n).2 = freeOffset s ∧
      firstChunkOffset (setNumColumns s n).2 = firstChunkOffset s) ∧
    ((setNumColumns s n).1 = Status.INVALID_OPERATION ↔
      ((numColumns s > 0 ∨ numRows s > 0) ∧ numColumns s ≠ n)) ∧
    (numRows s > 0 → numColumns s ≠ n → (setNumColumns s n).1 = Status.INVALID_OPERATION) ∧
    setNumColumns s (numColumns s) = (Status.OK, s) := by
  have hbad := setNumColumns_bad_state s n hw
  have hok := setNumColumns_ok_state s n hw
  refine ⟨hbad, ?_, ?_, ?_, setNumColumns_same s hw⟩
  · intro h
    rw [hok h]
    refine ⟨rfl, ?_, ?_, ?_, ?_⟩
    · show read32 (write32 s.mData 12 n) 12 = n
      rw [read32_write32_same]; exact Nat.mod_eq_of_lt hn
    · exact (frame_write32 _ _ _).read32 (by omega)
    · exact (frame_write32 _ _ _).read32 (by omega)
    · exact (frame_write32 _ _ _).read32 (by omega)
  · constructor
    · intro h
      by_cases hc : (numColumns s > 0 ∨ numRows s > 0) ∧ numColumns s ≠ n
      · exact hc
      · rw [hok hc] at h
        exact absurd h (by simp)
    · intro hc
      rw [hbad hc]
  · intro h1 h2
    rw [hbad ⟨Or.inr h1, h2⟩]

theorem C5_setNumColumns_witness :
    (((numColumns w4096 > 0 ∨ numRows w4096 > 0) ∧ numColumns w4096 ≠ 3) →
      setNumColumns w4096 3 = (Status.INVALID_OPERATION, w4096)) ∧
    (¬ ((numColumns w4096 > 0 ∨ numRows w4096 > 0) ∧ numColumns w4096 ≠ 3) →
      (setNumColumns w4096 3).1 = Status.OK ∧ numColumns (setNumColumns w4096 3).2 = 3 ∧
      numRows (setNumColumns w4096 3).2 = numRows w4096 ∧
      freeOffset (setNumColumns w4096 3).2 = freeOffset w4096 ∧
      firstChunkOffset (setNumColumns w4096 3).2 = firstChunkOffset w4096) ∧
    ((setNumColumns w4096 3).1 = Status.INVALID_OPERATION ↔
      ((numColumns w4096 > 0 ∨ numRows w4096 > 0) ∧ numColumns w4096 ≠ 3)) ∧
    (numRows w4096 > 0 → numColumns w4096 ≠ 3 →
      (setNumColumns w4096 3).1 = Status.INVALID_OPERATION) ∧
    setNumColumns w4096 (numColumns w4096) = (Status.OK, w4096) :=
  C5_setNumColumns_cases w4096 3 rfl (by decide)


/-- C6 (amended). Shared window, in the state after `clear` or any later state satisfying
the layout invariant: once `setNumColumns(k)` with `k > 0` has returned `OK` (the window
being able to hold sizes for `k` columns below `2^32`), then after every sequence of
operations without `clear` (blobs and strings of sizes below `2^32 - mSize`), a
`setNumColumns(m)` with `m ≠ k` returns `INVALID_OPERATION`. -/
theorem C6_nonzero_column_count_is_final (W : Nat) (hW : 32 ≤ W) (s : Window) (hI : Inv s)
    (k : Nat) (hk : 0 < k) (hreg : s.mSize + 12 * k + 407 < U32)
    (hok : (setNumColumns s k).1 = Status.OK) (ops : List Op)
    (hops : ∀ op, op ∈ ops →
      op.NotClear ∧ (op.Sized s.mSize ∨ ∃ n, op = Op.setNumColumns n))
    (m : Nat) (hm : m ≠ k) :
    (setNumColumns (run W (setNumColumns s k).2 ops) m).1 = Status.INVALID_OPERATION := by
  have hw : s.mReadOnly = false := by
    cases hw : s.mReadOnly with
    | true => rw [setNumColumns_readOnly s k hw] at hok; exact absurd hok (by simp)
    | false => rfl
  have hcond : ¬ ((numColumns s > 0 ∨ numRows s > 0) ∧ numColumns s ≠ k) := by
    intro hc
    rw [setNumColumns_bad_state s k hw hc] at hok
    exact absurd hok (by simp)
  have hI1 : Inv (setNumColumns s k).2 := inv_setNumColumns s k hI hreg
  have hk1 : numColumns (setNumColumns s k).2 = k := by
    rw [setNumColumns_ok_state s k hw hcond]
    show read32 (write32 s.mData 12 k) 12 = k
    rw [read32_write32_same]
    exact Nat.mod_eq_of_lt (by omega)
  have hsz : (setNumColumns s k).2.mSize = s.mSize := (setNumColumns_mSize s k).1
  obtain ⟨_, hkr⟩ := run_numColumns_fixed W hW k hk ops _ hI1 hk1
    (by rw [hsz]; exact hops)
  cases hwr : (run W (setNumColumns s k).2 ops).mReadOnly with
  | true => rw [setNumColumns_readOnly _ m hwr]
  | false => rw [setNumColumns_bad_state _ m hwr ⟨Or.inl (by omega), by omega⟩]

theorem C6_column_count_witness :
    (setNumColumns (run 32 (setNumColumns (clear w4096).2 3).2 opsThree) 5).1
      = Status.INVALID_OPERATION :=
  C6_nonzero_column_count_is_final 32 (by decide) (clear w4096).2
    (inv_clear w4096 rfl (by decide) (by decide)) 3 (by decide) (by decide) (by decide)
    opsThree
    (by
      intro op hop
      simp only [opsThree, List.mem_cons, List.mem_singleton, List.mem_nil_iff, or_false] at hop
      rcases hop with h | h | h | h | h | h <;> subst h
      · exact ⟨trivial, Or.inl trivial⟩
      · exact ⟨trivial, Or.inl trivial⟩
      · exact ⟨trivial, Or.inr ⟨3, rfl⟩⟩
      · exact ⟨trivial, Or.inl trivial⟩
      · exact ⟨trivial, Or.inl trivial⟩
      · exact ⟨trivial, Or.inl (by show (clear w4096).2.mSize + 10 < U32; decide)⟩)
    5 (by decide)

set_option maxRecDepth 100000 in
/-- C6 (counterexample). After `clear`, `setNumColumns(0)` returns `OK` and the later
`setNumColumns(5)` also returns `OK`: a column count of 0 does not fix the count. -/
theorem C6_zero_then_five :
    (setNumColumns (clear w4096).2 0).1 = Status.OK ∧
    (setNumColumns (setNumColumns (clear w4096).2 0).2 5).1 = Status.OK := by
  decide


/-- C12. Shared window, aligned allocation at a free offset `f < 2^32`: the padding
`(~f + 1) & 3` equals `(-f) mod 4`, lies in `0..3` and is 0 when `f` is a multiple of 4;
an aligned `alloc` that succeeds (returns a non-zero offset) returns `f + padding`, which
is a multiple of 4, at least `f`, and not above any multiple of 4 that is at least `f`.
Success is decided by the space left: while `f + padding + size` is below `2^32`, the
call returns `f + padding` and moves the free offset to `f + padding + size` when that
sum is at most `mSize`, and returns 0 without a change of state when it is larger. -/
theorem C12_aligned_padding (f : Nat) (hf : f < U32) :
    ((alignPadding f : Nat) : Int) = (-(f : Int)) % 4 ∧ alignPadding f ≤ 3 ∧
    (f % 4 = 0 → alignPadding f = 0) ∧
    (∀ (s : Window) (size : Nat), freeOffset s = f → (alloc s size true).1 ≠ 0 →
      (alloc s size true).1 = f + alignPadding f ∧ (alloc s size true).1 % 4 = 0 ∧
      f ≤ (alloc s size true).1 ∧
      (∀ m, m % 4 = 0 → f ≤ m → (alloc s size true).1 ≤ m)) ∧
    (∀ (s : Window) (size : Nat), freeOffset s = f → f + alignPadding f + size < U32 →
      (f + alignPadding f + size ≤ s.mSize →
        alloc s size true = (f + alignPadding f,
          { s with mData := write32 s.mData 0 (f + alignPadding f + size) })) ∧
      (s.mSize < f + alignPadding f + size → alloc s size true = (0, s))) := by
  have hp : alignPadding f = (4 - f % 4) % 4 := alloc_padding f hf
  refine ⟨?_, ?_, ?_, ?_, ?_⟩
  · rw [hp]; omega
  · rw [hp]; omega
  · intro h; rw [hp]; omega
  · intro s size hs hne
    have hres : (alloc s size true).1 = 0 ∨
        (alloc s size true).1 = (f + alignPadding f) % U32 := by
      unfold alloc alignPadding
      rw [hs]
      simp only [if_true]
      split
      · exact Or.inl rfl
      · exact Or.inr rfl
    rcases hres with h | h
    · exact absurd h hne
    · rw [h] at hne ⊢
      rw [hp] at hne ⊢
      unfold U32 at *
      refine ⟨?_, ?_, ?_, ?_⟩
      · omega
      · omega
      · omega
      · intro m hm hfm; omega
  · intro s size hs hno
    have hpad : padOf (freeOffset s) true = alignPadding f := by
      rw [hs, hp]; rfl
    have h := alloc_exact s size true (by rw [hpad, hs]; exact hno)
    rw [hpad, hs] at h
    exact ⟨h.2, h.1⟩

set_option maxRecDepth 100000 in
theorem C12_aligned_padding_witness :
    421 < U32 ∧ freeOffset sOdd = 421 ∧ 421 + alignPadding 421 + 8 < U32 ∧
    421 + alignPadding 421 + 8 ≤ sOdd.mSize ∧
    alloc sOdd 8 true = (421 + alignPadding 421,
      { sOdd with mData := write32 sOdd.mData 0 (421 + alignPadding 421 + 8) }) ∧
    (alloc sOdd 8 true).1 = 424 ∧ (alloc sOdd 8 true).1 ≠ 0 ∧
    freeOffset (alloc sOdd 8 true).2 = 432 :=
  ⟨by decide, by decide, by decide, by decide,
    ((C12_aligned_padding 421 (by decide)).2.2.2.2 sOdd 8 (by decide) (by decide)).1
      (by decide),
    by decide, by decide, by decide⟩

set_option maxRecDepth 100000 in
/-- C19. Shared window with 32-bit pointers, a cell in range that is refused with
`BAD_VALUE`.  In a window of 4096 bytes mapped at address `2^30`, after `clear()`,
`setNumColumns(2^30)` and `allocRow()`: the cell `(0, 268435421)` lies in the window
(one row, `2^30` columns), but the pointer to its field slot,
`mData + 420 + 12 * 268435421`, is 0 modulo `2^32`, so `getFieldSlot` returns `NULL`
and each of `putNull`, `putLong`, `putDouble`, `putString` and `putBlob` returns
`BAD_VALUE` for a cell that is in range. -/
theorem C19_bad_value_in_range :
    (run 32 w4096 opsOverlap).mReadOnly = false ∧
    numRows (run 32 w4096 opsOverlap) = 1 ∧
    numColumns (run 32 w4096 opsOverlap) = manyColumns ∧ nullColumn < manyColumns ∧
    (putNull (run 32 w4096 opsOverlap) 0 nullColumn).1 = Status.BAD_VALUE ∧
    (putLong (run 32 w4096 opsOverlap) 0 nullColumn 9).1 = Status.BAD_VALUE ∧
    (putDouble (run 32 w4096 opsOverlap) 0 nullColumn 0).1 = Status.BAD_VALUE ∧
    (putString (run 32 w4096 opsOverlap) 0 nullColumn hiBytes 3).1 = Status.BAD_VALUE ∧
    (putBlob (run 32 w4096 opsOverlap) 0 nullColumn hiBytes 3).1 = Status.BAD_VALUE := by
  decide

/-- X14. Shared window, writable, mapped inside the 32-bit address space and satisfying
the layout invariant: each of `putNull`, `putLong`, `putDouble`, `putString` and
`putBlob` returns `BAD_VALUE` if and only if `row ≥ numRows` or `column ≥ numColumns`,
and then returns the state it was given (no byte changes); `BAD_VALUE` differs from
`NO_MEMORY` and from `INVALID_OPERATION`; `putNull`, `putLong` and `putDouble` never
return `NO_MEMORY`. -/
theorem X14_bad_value_iff_out_of_range (s : Window) (row column : Nat)
    (value : Nat → Byte) (size : Nat) (v : Int) (bits : Nat) (hI : Inv s) (hM : Mapped s)
    (hw : s.mReadOnly = false) :
    ((putNull s row column).1 = Status.BAD_VALUE ↔ (row ≥ numRows s ∨ column ≥ numColumns s)) ∧
    ((putLong s row column v).1 = Status.BAD_VALUE ↔
      (row ≥ numRows s ∨ column ≥ numColumns s)) ∧
    ((putDouble s row column bits).1 = Status.BAD_VALUE ↔
      (row ≥ numRows s ∨ column ≥ numColumns s)) ∧
    ((putString s row column value size).1 = Status.BAD_VALUE ↔
      (row ≥ numRows s ∨ column ≥ numColumns s)) ∧
    ((putBlob s row column value size).1 = Status.BAD_VALUE ↔
      (row ≥ numRows s ∨ column ≥ numColumns s)) ∧
    ((row ≥ numRows s ∨ column ≥ numColumns s) →
      putNull s row column = (Status.BAD_VALUE, s) ∧
      putLong s row column v = (Status.BAD_VALUE, s) ∧
      putDouble s row column bits = (Status.BAD_VALUE, s) ∧
      putString s row column value size = (Status.BAD_VALUE, s) ∧
      putBlob s row column value size = (Status.BAD_VALUE, s)) ∧
    Status.BAD_VALUE ≠ Status.NO_MEMORY ∧ Status.BAD_VALUE ≠ Status.INVALID_OPERATION ∧
    (putNull s row column).1 ≠ Status.NO_MEMORY ∧
    (putLong s row column v).1 ≠ Status.NO_MEMORY ∧
    (putDouble s row column bits).1 ≠ Status.NO_MEMORY := by
  have hnone : getFieldSlot s row column = none ↔
      (row ≥ numRows s ∨ column ≥ numColumns s) := by
    constructor
    · intro h
      by_contra hc
      rw [getFieldSlot_in s hI hM row column (by omega) (by omega)] at h
      exact absurd h (by simp)
    · exact getFieldSlot_out s row column
  cases hg : getFieldSlot s row column with
  | none =>
    have hoor : row ≥ numRows s ∨ column ≥ numColumns s := hnone.mp hg
    unfold putString putBlob putBlobOrString putNull putLong putDouble
    simp only [hw, hg, Bool.false_eq_true, if_false]
    simp [hoor]
  | some slot =>
    have hin : ¬ (row ≥ numRows s ∨ column ≥ numColumns s) := by
      intro h
      rw [hnone.mpr h] at hg
      exact absurd hg (by simp)
    unfold putString putBlob putBlobOrString putNull putLong putDouble
    simp only [hw, hg, Bool.false_eq_true, if_false]
    refine ⟨?_, ?_, ?_, ?_, ?_, ?_, by simp, by simp, by simp, by simp, by simp⟩
    · simp [hin]
    · simp [hin]
    · simp [hin]
    · constructor
      · intro h
        split at h <;> exact absurd h (by simp)
      · intro h; exact absurd h hin
    · constructor
      · intro h
        split at h <;> exact absurd h (by simp)
      · intro h; exact absurd h hin
    · intro h; exact absurd h hin

theorem X14_bad_value_witness :
    sOneRow.mReadOnly = false ∧
    ((putNull sOneRow 2 1).1 = Status.BAD_VALUE ↔
      (2 ≥ numRows sOneRow ∨ 1 ≥ numColumns sOneRow)) ∧
    ((putLong sOneRow 0 1 9).1 = Status.BAD_VALUE ↔
      (0 ≥ numRows sOneRow ∨ 1 ≥ numColumns sOneRow)) :=
  ⟨by decide,
    (X14_bad_value_iff_out_of_range sOneRow 2 1 zeroMem 4 9 0 inv_sOneRow mapped_sOneRow
      (by decide)).1,
    (X14_bad_value_iff_out_of_range sOneRow 0 1 zeroMem 4 9 0 inv_sOneRow mapped_sOneRow
      (by decide)).2.1⟩

set_option maxRecDepth 100000 in
/-- C20. Shared window with 32-bit pointers, a successful cell write that cannot be
read back.  Window of 4096 bytes after `clear()`, `setNumColumns(2^30)` and
`allocRow()`: the cell `(0, 715827848)` is in range (one row, `2^30` columns) and
resolves to the field slot at offset 4 (`420 + 12 * 715827848` modulo `2^32`), inside
the header.  `putLong(0, 715827848, 7)` returns `OK` and stores the tag over
`firstChunkOffset` and the value over `numRows` and `numColumns`; afterwards the window
has no columns, `getFieldSlot(0, 715827848)` returns `NULL` and the type query reports
NULL instead of INTEGER: the written value cannot be observed through its cell. -/
theorem C20_written_cell_unreadable :
    (run 32 w4096 opsOverlap).mReadOnly = false ∧
    numRows (run 32 w4096 opsOverlap) = 1 ∧
    numColumns (run 32 w4096 opsOverlap) = manyColumns ∧ headerColumn < manyColumns ∧
    getFieldSlot (run 32 w4096 opsOverlap) 0 headerColumn = some 4 ∧
    (putLong (run 32 w4096 opsOverlap) 0 headerColumn 7).1 = Status.OK ∧
    firstChunkOffset (putLong (run 32 w4096 opsOverlap) 0 headerColumn 7).2 = 1 ∧
    numRows (putLong (run 32 w4096 opsOverlap) 0 headerColumn 7).2 = 7 ∧
    numColumns (putLong (run 32 w4096 opsOverlap) 0 headerColumn 7).2 = 0 ∧
    getFieldSlot (putLong (run 32 w4096 opsOverlap) 0 headerColumn 7).2 0 headerColumn
      = none ∧
    nativeGetType (putLong (run 32 w4096 opsOverlap) 0 headerColumn 7).2 0 715827848
      = (Pending.nothing, NEW_FIELD_TYPE_NULL) := by
  decide

/-- X15. Shared window, writable and satisfying the layout invariant, `(row, column)` a
cell that resolves to the field slot `slot`, whatever the slot held before, and
`mSize + size < 2^32`.  `putLong(v)` returns `OK`, the cell still resolves to `slot`,
and the slot has type INTEGER and `getFieldSlotValueLong = v`; `putDouble` leaves type
FLOAT and the stored bits; `putNull` leaves type NULL with buffer size and offset 0.
`putBlob` and `putString` return `OK` exactly when `freeOffset + size ≤ mSize`, and then
the cell still resolves to `slot`, which holds the tag BLOB or STRING, the given size
and the former free offset as the offset of the payload. -/
theorem X15_cell_write_overwrites_slot (s : Window) (row column slot : Nat)
    (value : Nat → Byte) (size : Nat) (v : Int) (bits : Nat) (hI : Inv s)
    (hw : s.mReadOnly = false) (hslot : getFieldSlot s row column = some slot)
    (hv : -9223372036854775808 ≤ v ∧ v < 9223372036854775808) (hbits : bits < U64)
    (hsize : s.mSize + size < U32) :
    ((putLong s row column v).1 = Status.OK ∧
      getFieldSlot (putLong s row column v).2 row column = some slot ∧
      getFieldSlotType (putLong s row column v).2 slot = NEW_FIELD_TYPE_INTEGER ∧
      getFieldSlotValueLong (putLong s row column v).2 slot = v) ∧
    ((putDouble s row column bits).1 = Status.OK ∧
      getFieldSlot (putDouble s row column bits).2 row column = some slot ∧
      getFieldSlotType (putDouble s row column bits).2 slot = NEW_FIELD_TYPE_FLOAT ∧
      getFieldSlotValueDouble (putDouble s row column bits).2 slot = bits) ∧
    ((putNull s row column).1 = Status.OK ∧
      getFieldSlot (putNull s row column).2 row column = some slot ∧
      getFieldSlotType (putNull s row column).2 slot = NEW_FIELD_TYPE_NULL ∧
      getFieldSlotValueBlob (putNull s row column).2 slot = (0, 0)) ∧
    (((putBlob s row column value size).1 = Status.OK ↔ freeOffset s + size ≤ s.mSize) ∧
      ((putBlob s row column value size).1 = Status.OK →
        getFieldSlot (putBlob s row column value size).2 row column = some slot ∧
        getFieldSlotType (putBlob s row column value size).2 slot = NEW_FIELD_TYPE_BLOB ∧
        getFieldSlotValueBlob (putBlob s row column value size).2 slot
          = (size, freeOffset s))) ∧
    (((putString s row column value size).1 = Status.OK ↔ freeOffset s + size ≤ s.mSize) ∧
      ((putString s row column value size).1 = Status.OK →
        getFieldSlot (putString s row column value size).2 row column = some slot ∧
        getFieldSlotType (putString s row column value size).2 slot
          = NEW_FIELD_TYPE_STRING ∧
        getFieldSlotValueString (putString s row column value size).2 slot
          = (size, freeOffset s))) := by
  have hfl := hI.free_lo
  have hfh := hI.free_hi
  have hblob : ∀ type : Nat, type < U32 →
      ((putBlobOrString s row column value size type).1 = Status.OK ↔
        freeOffset s + size ≤ s.mSize) ∧
      ((putBlobOrString s row column value size type).1 = Status.OK →
        getFieldSlot (putBlobOrString s row column value size type).2 row column
          = some slot ∧
        getFieldSlotType (putBlobOrString s row column value size type).2 slot = type ∧
        read32 (putBlobOrString s row column value size type).2.mData (slot + 8) = size ∧
        read32 (putBlobOrString s row column value size type).2.mData (slot + 4)
          = freeOffset s) := by
    intro type ht
    have hiff : (putBlobOrString s row column value size type).1 = Status.OK ↔
        freeOffset s + size ≤ s.mSize := by
      unfold putBlobOrString
      simp only [hw, hslot, Bool.false_eq_true, if_false]
      rcases alloc_cases s hI size false (by rw [padOf_false]; omega) with ⟨hlt, h⟩ | ⟨hfit, h⟩
      · rw [h]
        dsimp only
        rw [if_pos rfl]
        rw [padOf_false] at hlt
        constructor
        · intro hh; exact absurd hh (by simp)
        · intro hh; omega
      · rw [h, padOf_false]
        rw [padOf_false] at hfit
        dsimp only
        rw [if_neg (by omega)]
        exact ⟨fun _ => by omega, fun _ => rfl⟩
    refine ⟨hiff, ?_⟩
    intro hok
    obtain ⟨slot1, hs1, h1, h2, h3, _⟩ :=
      putBlobOrString_ok s row column value size type hI hsize ht hok
    rw [hslot] at hs1
    have he : slot1 = slot := (Option.some.inj hs1).symm
    subst he
    refine ⟨?_, h1, h3, h2⟩
    rw [putBlobOrString_resolves s row column value size type hI hsize]
    exact hslot
  refine ⟨?_, ?_, ?_, ?_, ?_⟩
  · refine ⟨?_, ?_, ?_, ?_⟩
    · unfold putLong
      simp only [hw, hslot, Bool.false_eq_true, if_false]
    · rw [putLong_resolves s row column v hI]; exact hslot
    · unfold putLong getFieldSlotType
      simp only [hw, hslot, Bool.false_eq_true, if_false]
      rw [(frame_write64 _ _ _).read32 (by omega), read32_write32_same]
      rfl
    · unfold putLong getFieldSlotValueLong
      simp only [hw, hslot, Bool.false_eq_true, if_false]
      rw [read64_write64_same, Nat.mod_eq_of_lt (toU64_lt v)]
      exact ofU64_toU64 v hv.1 hv.2
  · refine ⟨?_, ?_, ?_, ?_⟩
    · unfold putDouble
      simp only [hw, hslot, Bool.false_eq_true, if_false]
    · rw [putDouble_resolves s row column bits hI]; exact hslot
    · unfold putDouble getFieldSlotType
      simp only [hw, hslot, Bool.false_eq_true, if_false]
      rw [(frame_write64 _ _ _).read32 (by omega), read32_write32_same]
      rfl
    · unfold putDouble getFieldSlotValueDouble
      simp only [hw, hslot, Bool.false_eq_true, if_false]
      rw [read64_write64_same]
      exact Nat.mod_eq_of_lt hbits
  · refine ⟨?_, ?_, ?_, ?_⟩
    · unfold putNull
      simp only [hw, hslot, Bool.false_eq_true, if_false]
    · rw [putNull_resolves s row column hI]; exact hslot
    · unfold putNull getFieldSlotType
      simp only [hw, hslot, Bool.false_eq_true, if_false]
      rw [read32_write32_other _ _ _ _ (by omega), read32_write32_other _ _ _ _ (by omega),
        read32_write32_same]
      rfl
    · unfold putNull getFieldSlotValueBlob
      simp only [hw, hslot, Bool.false_eq_true, if_false]
      rw [read32_write32_same, read32_write32_other _ _ _ _ (by omega), read32_write32_same]
      rfl
  · obtain ⟨h0, h⟩ := hblob NEW_FIELD_TYPE_BLOB (by decide)
    refine ⟨h0, ?_⟩
    intro hok
    obtain ⟨h1, h2, h3, h4⟩ := h hok
    refine ⟨h1, h2, ?_⟩
    unfold getFieldSlotValueBlob
    show (read32 (putBlobOrString s row column value size NEW_FIELD_TYPE_BLOB).2.mData (slot + 8),
      read32 (putBlobOrString s row column value size NEW_FIELD_TYPE_BLOB).2.mData (slot + 4)) = _
    rw [h3, h4]
  · obtain ⟨h0, h⟩ := hblob NEW_FIELD_TYPE_STRING (by decide)
    refine ⟨h0, ?_⟩
    intro hok
    obtain ⟨h1, h2, h3, h4⟩ := h hok
    refine ⟨h1, h2, ?_⟩
    unfold getFieldSlotValueString
    show (read32 (putBlobOrString s row column value size NEW_FIELD_TYPE_STRING).2.mData (slot + 8),
      read32 (putBlobOrString s row column value size NEW_FIELD_TYPE_STRING).2.mData (slot + 4)) = _
    rw [h3, h4]

set_option maxRecDepth 100000 in
theorem X15_cell_write_witness :
    sOneRow.mReadOnly = false ∧ getFieldSlot sOneRow 0 1 = some 432 ∧
    sOneRow.mSize + 8 < U32 ∧ freeOffset sOneRow + 8 ≤ sOneRow.mSize ∧
    ((putLong sOneRow 0 1 (-5)).1 = Status.OK ∧
      getFieldSlot (putLong sOneRow 0 1 (-5)).2 0 1 = some 432 ∧
      getFieldSlotType (putLong sOneRow 0 1 (-5)).2 432 = NEW_FIELD_TYPE_INTEGER ∧
      getFieldSlotValueLong (putLong sOneRow 0 1 (-5)).2 432 = -5) ∧
    (putBlob sOneRow 0 1 hiBytes 8).1 = Status.OK ∧
    (getFieldSlot (putBlob sOneRow 0 1 hiBytes 8).2 0 1 = some 432 ∧
      getFieldSlotType (putBlob sOneRow 0 1 hiBytes 8).2 432 = NEW_FIELD_TYPE_BLOB ∧
      getFieldSlotValueBlob (putBlob sOneRow 0 1 hiBytes 8).2 432
        = (8, freeOffset sOneRow)) :=
  ⟨by decide, by decide, by decide, by decide,
    (X15_cell_write_overwrites_slot sOneRow 0 1 432 hiBytes 8 (-5) 0 inv_sOneRow (by decide)
      (by decide) (by decide) (by decide) (by decide)).1,
    ((X15_cell_write_overwrites_slot sOneRow 0 1 432 hiBytes 8 (-5) 0 inv_sOneRow (by decide)
      (by decide) (by decide) (by decide) (by decide)).2.2.2.1.1).mpr (by decide),
    ((X15_cell_write_overwrites_slot sOneRow 0 1 432 hiBytes 8 (-5) 0 inv_sOneRow (by decide)
      (by decide) (by decide) (by decide) (by decide)).2.2.2.1.2)
      (((X15_cell_write_overwrites_slot sOneRow 0 1 432 hiBytes 8 (-5) 0 inv_sOneRow
        (by decide) (by decide) (by decide) (by decide) (by decide)).2.2.2.1.1).mpr
        (by decide))⟩

end Ashmem

/-! ## Growable window: statements of the specification -/

namespace Growable

theorem C7_size_witness :
    (run cfgA (initBuffer cfgA 4096 600 4697 zeroMem)
      [Op.alloc 5000 false Realloc.moved, Op.alloc 1 false Realloc.moved]).mSize ≤ 4697 ∧
    (∀ (s : CursorWindow) (n : Nat) (a : Bool) (re : Realloc), s.mMaxSize = 4697 →
      (alloc cfgA s n a re).2.mSize ≠ s.mSize →
      (alloc cfgA s n a re).2.mSize = newAllocationSz cfgA s n a ∧
        newAllocationSz cfgA s n a ≤ 4697) :=
  C7_size_never_exceeds_max cfgA 4096 600 4697 zeroMem (by decide) (by decide)
    [Op.alloc 5000 false Realloc.moved, Op.alloc 1 false Realloc.moved]

/-- C13 (amended). Growable window, for every state and every requested size `n` with
`n + 4 < 2^sizeBits` and `mFreeOffset + n + 4 < 2^32`: the padding of an aligned `alloc`
is `4 - (mFreeOffset mod 4)`, which lies between 1 and 4 and is 4 when the free offset is
already a multiple of 4; an aligned `alloc(n)` that succeeds (returns a non-zero offset)
returns the free offset plus that padding, which is a multiple of 4, and advances the
free offset by exactly `n` plus that padding. -/
theorem C13_aligned_alloc_pads_one_to_four (cfg : Config) (s : CursorWindow) (n : Nat)
    (re : Realloc) (hn : n + 4 < 2 ^ cfg.sizeBits) (hf : s.mFreeOffset + n + 4 < U32)
    (hok : (alloc cfg s n true re).1 ≠ 0) :
    allocPadding s true = 4 - s.mFreeOffset % 4 ∧
    1 ≤ allocPadding s true ∧ allocPadding s true ≤ 4 ∧
    (s.mFreeOffset % 4 = 0 → allocPadding s true = 4) ∧
    (alloc cfg s n true re).1 = s.mFreeOffset + allocPadding s true ∧
    (alloc cfg s n true re).1 % 4 = 0 ∧
    (alloc cfg s n true re).2.mFreeOffset = s.mFreeOffset + n + allocPadding s true := by
  have hpad : allocPadding s true = 4 - s.mFreeOffset % 4 := by
    unfold allocPadding; simp only [if_true]
  have hres : (alloc cfg s n true re).1 = (s.mFreeOffset + allocPadding s true) % U32 ∧
      (alloc cfg s n true re).2.mFreeOffset
        = (s.mFreeOffset + (n + allocPadding s true) % 2 ^ cfg.sizeBits) % U32 := by
    unfold alloc at hok ⊢
    unfold allocSize at hok ⊢
    dsimp only at hok ⊢
    split at hok
    · next hg =>
      rw [if_pos hg]
      split at hok
      · next hp =>
        rw [if_pos hp]
        split at hok
        · exact absurd rfl hok
        · next hf => rw [if_neg hf]; exact ⟨rfl, rfl⟩
      · exact absurd rfl hok
    · next hg => rw [if_neg hg]; exact ⟨rfl, rfl⟩
  obtain ⟨h1, h2⟩ := hres
  have e0 : (s.mFreeOffset + allocPadding s true) % U32 = s.mFreeOffset + allocPadding s true :=
    Nat.mod_eq_of_lt (by rw [hpad]; omega)
  have e1 : (n + allocPadding s true) % 2 ^ cfg.sizeBits = n + allocPadding s true :=
    Nat.mod_eq_of_lt (by rw [hpad]; omega)
  have e2 : (s.mFreeOffset + (n + allocPadding s true)) % U32
      = s.mFreeOffset + (n + allocPadding s true) :=
    Nat.mod_eq_of_lt (by rw [hpad]; omega)
  refine ⟨hpad, ?_, ?_, ?_, ?_, ?_, ?_⟩
  · rw [hpad]; omega
  · rw [hpad]; omega
  · intro h; rw [hpad]; omega
  · rw [h1, e0]
  · rw [h1, e0, hpad]; omega
  · rw [h2, e1, e2]
    omega

set_option maxRecDepth 100000 in
theorem C13_aligned_alloc_witness :
    8 + 4 < 2 ^ cfgA.sizeBits ∧ s0.mFreeOffset + 8 + 4 < U32 ∧
    (alloc cfgA s0 8 true Realloc.inPlace).1 ≠ 0 ∧
    allocPadding s0 true = 4 - s0.mFreeOffset % 4 ∧
    1 ≤ allocPadding s0 true ∧ allocPadding s0 true ≤ 4 ∧
    (s0.mFreeOffset % 4 = 0 → allocPadding s0 true = 4) ∧
    (alloc cfgA s0 8 true Realloc.inPlace).1 = s0.mFreeOffset + allocPadding s0 true ∧
    (alloc cfgA s0 8 true Realloc.inPlace).1 % 4 = 0 ∧
    (alloc cfgA s0 8 true Realloc.inPlace).2.mFreeOffset
      = s0.mFreeOffset + 8 + allocPadding s0 true :=
  ⟨by decide, by decide, by decide,
    C13_aligned_alloc_pads_one_to_four cfgA s0 8 Realloc.inPlace (by decide) (by decide)
      (by decide)⟩

set_option maxRecDepth 100000 in
/-- C13 (counterexample). At free offset 524, a multiple of 4, the aligned `alloc(8)`
succeeds, returns 528 and moves the free offset to 536: 8 bytes plus 4 bytes of padding,
not 0 to 3. -/
theorem C13_four_bytes_of_padding :
    s0.mFreeOffset = 524 ∧ (alloc cfgA s0 8 true Realloc.inPlace).1 = 528 ∧
    (alloc cfgA s0 8 true Realloc.inPlace).2.mFreeOffset = 524 + 8 + 4 := by
  decide

/-- C11 (amended). Growable window: when `alloc` must grow (requested size plus padding
exceeds `freeSpace()`), growth is permitted and `realloc` succeeds, and the sum
`mSize + requested + 4 + growthPadding` is below `2^sizeBits`, the new total size is
`oldSize + (requested + padding - oldFreeSpace) + growthPadding`.  If moreover the free
offset was at most the old size, the old free space and the growth padding are below
`2^31` (the range of the `int32_t` result of `freeSpace()`) and the new free offset stays
below `2^32`, then `freeSpace()` after the allocation equals the growth padding. -/
theorem C11_growth_size (cfg : Config) (s : CursorWindow) (n : Nat) (a : Bool) (re : Realloc)
    (hgrow : n + allocPadding s a > freeSpace cfg s)
    (hperm : s.mMaxSize = 0 ∨ newAllocationSz cfg s n a ≤ s.mMaxSize)
    (hre : re ≠ Realloc.failed)
    (hsz : s.mSize + n + 4 + s.mGrowthPaddingSize < 2 ^ cfg.sizeBits) :
    (alloc cfg s n a re).2.mSize
      = s.mSize + (n + allocPadding s a - freeSpace cfg s) + s.mGrowthPaddingSize ∧
    (s.mFreeOffset ≤ s.mSize → s.mSize - s.mFreeOffset < 2147483648 →
      s.mGrowthPaddingSize < 2147483648 → s.mFreeOffset + n + 4 < U32 →
      freeSpace cfg (alloc cfg s n a re).2 = s.mGrowthPaddingSize) := by
  have hp := allocPadding_le s a
  have hsize : allocSize cfg s n a = n + allocPadding s a :=
    Nat.mod_eq_of_lt (by omega)
  have hnew : newAllocationSz cfg s n a
      = s.mSize + (n + allocPadding s a - freeSpace cfg s) + s.mGrowthPaddingSize := by
    unfold newAllocationSz
    rw [hsize, Nat.mod_eq_of_lt (by omega)]
    omega
  rw [alloc_grow cfg s n a re (by rw [hsize]; exact hgrow) hperm hre]
  refine ⟨hnew, ?_⟩
  intro h1 h2 h3 h4
  have hfs := freeSpace_exact cfg s h1 (by omega) h2
  have hfo : (s.mFreeOffset + allocSize cfg s n a) % U32 = s.mFreeOffset + (n + allocPadding s a) := by
    rw [hsize]; exact Nat.mod_eq_of_lt (by omega)
  rw [freeSpace_exact cfg _ ?_ ?_ ?_]
  · show newAllocationSz cfg s n a - (s.mFreeOffset + allocSize cfg s n a) % U32 = _
    rw [hnew, hfo, hfs]; omega
  · show (s.mFreeOffset + allocSize cfg s n a) % U32 ≤ newAllocationSz cfg s n a
    rw [hnew, hfo, hfs]; omega
  · show newAllocationSz cfg s n a < 2 ^ cfg.sizeBits
    rw [hnew]; omega
  · show newAllocationSz cfg s n a - (s.mFreeOffset + allocSize cfg s n a) % U32 < _
    rw [hnew, hfo, hfs]; omega

set_option maxRecDepth 100000 in
theorem C11_growth_size_witness :
    (alloc cfgA s0 3573 false Realloc.moved).2.mSize = 4096 + (3573 + 0 - 3572) + 600 ∧
    freeSpace cfgA (alloc cfgA s0 3573 false Realloc.moved).2 = 600 :=
  ⟨(C11_growth_size cfgA s0 3573 false Realloc.moved (by decide) (by decide) (by decide)
      (by decide)).1,
    (C11_growth_size cfgA s0 3573 false Realloc.moved (by decide) (by decide) (by decide)
      (by decide)).2 (by decide) (by decide) (by decide) (by decide)⟩

set_option maxRecDepth 100000 in
/-- C11 (counterexample). An uncapped window of 4096 bytes with growth padding `2^31`
and free offset 524: `alloc(4000)` must grow and succeeds, the new size is
`4096 + (4000 - 3572) + 2^31`, but `freeSpace()` afterwards is 0, not the growth
padding. -/
theorem C11_free_space_not_growth_padding :
    sPad.mFreeOffset = 524 ∧ sPad.mSize = 4096 ∧ freeSpace cfgA sPad = 3572 ∧
    sPad.mGrowthPaddingSize = 2147483648 ∧
    (alloc cfgA sPad 4000 false Realloc.moved).1 = 524 ∧
    (alloc cfgA sPad 4000 false Realloc.moved).2.mSize = 4096 + (4000 - 3572) + 2147483648 ∧
    freeSpace cfgA (alloc cfgA sPad 4000 false Realloc.moved).2 = 0 := by
  decide

/-- C8 (amended). Growable window, in a state whose free offset is positive and more than
a chunk below `2^32` (so that no offset wraps) and whose `mLastChunkPtrOffset` is unset
or behind the header field `numRows`: whenever `allocRow` fails, `numRows` has the value
it had before the call, and the free offset is either unchanged or, when the call first
allocated a new row-slot chunk and then failed on the field directory, advanced by the
padding plus `ROW_SLOT_CHUNK_SIZE`. -/
theorem C8_failed_allocRow_state (cfg : Config) (s : CursorWindow) (re1 re2 : Realloc)
    (hcfg : cfg.numRowsOff + 4 ≤ cfg.chunkNumRows * 4) (hlast : LastOk cfg s)
    (hB : ROW_SLOT_CHUNK_SIZE cfg + 4 < 2 ^ cfg.sizeBits)
    (hfree : 0 < s.mFreeOffset) (hnw : s.mFreeOffset + ROW_SLOT_CHUNK_SIZE cfg + 8 < U32)
    (hfail : (allocRow cfg s re1 re2).1 = none) :
    numRows cfg (allocRow cfg s re1 re2).2 = numRows cfg s ∧
    ((allocRow cfg s re1 re2).2.mFreeOffset = s.mFreeOffset ∨
      (needsNewChunk cfg s ∧ (allocRowSlot cfg s re1).1 ≠ none ∧
        (allocRow cfg s re1 re2).2.mFreeOffset
          = s.mFreeOffset + allocPadding s true + ROW_SLOT_CHUNK_SIZE cfg)) := by
  refine ⟨allocRow_fail_numRows cfg s re1 re2 hcfg hlast hfail, ?_⟩
  have hp := allocPadding_le s true
  have hsize : allocSize cfg s (ROW_SLOT_CHUNK_SIZE cfg) true
      = ROW_SLOT_CHUNK_SIZE cfg + allocPadding s true := Nat.mod_eq_of_lt (by omega)
  have hnone := (allocRowSlot_none_iff cfg s re1).1
  have hsizes := allocRowSlot_sizes cfg s re1
  have hcases := alloc_mFreeOffset_cases cfg s (ROW_SLOT_CHUNK_SIZE cfg) true re1
  rw [hsize, Nat.mod_eq_of_lt (by omega)] at hcases
  -- the free offset after `allocRowSlot`
  have hslot : (allocRowSlot cfg s re1).2.mFreeOffset = s.mFreeOffset ∨
      (needsNewChunk cfg s ∧ (allocRowSlot cfg s re1).1 ≠ none ∧
        (allocRowSlot cfg s re1).2.mFreeOffset
          = s.mFreeOffset + allocPadding s true + ROW_SLOT_CHUNK_SIZE cfg) := by
    rcases hsizes with ⟨e1, _⟩ | ⟨hn, e1, _⟩
    · exact Or.inl e1
    · rcases hcases with h | h
      · exact Or.inl (e1.trans h)
      · by_cases hres : (allocRowSlot cfg s re1).1 = none
        · have h0 := (hnone.mp hres).2
          have hun := alloc_zero_unchanged cfg s (ROW_SLOT_CHUNK_SIZE cfg) true re1 h0
            (by rw [Nat.mod_eq_of_lt (by omega)]; omega)
          left
          rw [e1, hun]
        · right
          exact ⟨hn, hres, by rw [e1, h]; omega⟩
  unfold allocRow at hfail ⊢
  split at hfail
  · next s1 heq =>
    simp only [heq] at hslot ⊢
    exact hslot
  · next rs s1 heq =>
    simp only [heq] at hslot ⊢
    dsimp only at hfail ⊢
    split at hfail
    · next h0 =>
      rw [if_pos h0]
      have hp1 := allocPadding_le s1 cfg.defaultAligned
      have hun := alloc_zero_unchanged cfg s1 _ cfg.defaultAligned re2 h0
        (by
          rcases hslot with h | ⟨_, _, h⟩
          · rw [Nat.mod_eq_of_lt (by omega)]; omega
          · rw [Nat.mod_eq_of_lt (by omega)]; omega)
      show (alloc cfg s1 _ cfg.defaultAligned re2).2.mFreeOffset = s.mFreeOffset ∨ _ ∧ _ ∧
        (alloc cfg s1 _ cfg.defaultAligned re2).2.mFreeOffset = _
      rw [hun]
      exact hslot
    · exact absurd hfail (by simp)

set_option maxRecDepth 1000000 in
theorem C8_failed_allocRow_witness :
    (allocRow cfgA sFull Realloc.moved Realloc.moved).1 = none ∧
    numRows cfgA (allocRow cfgA sFull Realloc.moved Realloc.moved).2 = numRows cfgA sFull :=
  ⟨by decide,
    (C8_failed_allocRow_state cfgA sFull Realloc.moved Realloc.moved (by decide)
      (Or.inl (by decide)) (by decide) (by decide) (by decide) (by decide)).1⟩

set_option maxRecDepth 1000000 in
/-- C8 (counterexample). A window capped at 2580 bytes, full at 2060 bytes with 128 rows:
the next `allocRow` starts a new chunk, whose allocation grows the buffer to 2580 bytes;
the field directory then would need 2592 bytes, so `allocRow` fails.  `numRows` is still
128, but the free offset has moved from 2060 to 2580. -/
theorem C8_free_offset_moves_on_failure :
    sFull.mMaxSize = 2580 ∧ numRows cfgA sFull = 128 ∧ sFull.mFreeOffset = 2060 ∧
    (allocRow cfgA sFull Realloc.moved Realloc.moved).1 = none ∧
    newAllocationSz cfgA (allocRowSlot cfgA sFull Realloc.moved).2 12 false = 2592 ∧
    numRows cfgA (allocRow cfgA sFull Realloc.moved Realloc.moved).2 = 128 ∧
    (allocRow cfgA sFull Realloc.moved Realloc.moved).2.mFreeOffset = 2580 := by
  decide

end Growable

/-! ## Statements about both windows -/

set_option maxRecDepth 100000 in
/-- C18. Shared window with 32-bit pointers, a cell in range that resolves to `NULL`.
In a window of 4096 bytes mapped at address `2^30`, after `clear()`,
`setNumColumns(2^30)` and `allocRow()`: the window has one row and `2^30` columns, the
field directory of row 0 is at offset 420, and the pointer `&fieldDir[268435421]` is
`2^30 + 420 + 12 * 268435421 = 2^32`, that is 0 in 32 bits.
`getFieldSlot(0, 268435421)` returns `NULL` although the row and the column are in
range; the neighbouring columns resolve. -/
theorem C18_in_range_cell_is_null :
    Ashmem.numRows (Ashmem.run 32 Ashmem.w4096 Ashmem.opsOverlap) = 1 ∧
    Ashmem.numColumns (Ashmem.run 32 Ashmem.w4096 Ashmem.opsOverlap) = Ashmem.manyColumns ∧
    Ashmem.nullColumn < Ashmem.manyColumns ∧
    (Ashmem.run 32 Ashmem.w4096 Ashmem.opsOverlap).mDataPtr + 420 + 12 * Ashmem.nullColumn
      = U32 ∧
    Ashmem.getFieldSlot (Ashmem.run 32 Ashmem.w4096 Ashmem.opsOverlap) 0 Ashmem.nullColumn
      = none ∧
    Ashmem.getFieldSlot (Ashmem.run 32 Ashmem.w4096 Ashmem.opsOverlap) 0
      (Ashmem.nullColumn - 1) = some 3221225460 ∧
    Ashmem.getFieldSlot (Ashmem.run 32 Ashmem.w4096 Ashmem.opsOverlap) 0
      (Ashmem.nullColumn + 1) = some 3221225484 := by
  decide

/-- X13. Shared window mapped inside the 32-bit address space and satisfying the layout
invariant: `getFieldSlot(row, column)` returns `NULL` if and only if `row ≥ numRows` or
`column ≥ numColumns`; in every state a cell outside the window resolves to `NULL`.
Growable window, every state: `getFieldSlotWithCheck` returns `NULL` whenever `row < 0`,
`row ≥ numRows`, `column < 0` or `column ≥ numColumns`. -/
theorem X13_null_iff_out_of_range :
    (∀ (s : Ashmem.Window) (row column : Nat), Ashmem.Inv s → Ashmem.Mapped s →
      (Ashmem.getFieldSlot s row column = none ↔
        (row ≥ Ashmem.numRows s ∨ column ≥ Ashmem.numColumns s))) ∧
    (∀ (s : Ashmem.Window) (row column : Nat),
      (row ≥ Ashmem.numRows s ∨ column ≥ Ashmem.numColumns s) →
      Ashmem.getFieldSlot s row column = none) ∧
    (∀ (cfg : Growable.Config) (s : Growable.CursorWindow) (row column : Int),
      (row < 0 ∨ row ≥ (Growable.numRows cfg s : Int) ∨ column < 0 ∨
        column ≥ (Growable.numColumns cfg s : Int)) →
      Growable.getFieldSlotWithCheck cfg s row column = none) := by
  refine ⟨?_, Ashmem.getFieldSlot_out, ?_⟩
  · intro s row column hI hM
    constructor
    · intro h
      by_contra hc
      rw [Ashmem.getFieldSlot_in s hI hM row column (by omega) (by omega)] at h
      exact absurd h (by simp)
    · exact Ashmem.getFieldSlot_out s row column
  · intro cfg s row column h
    unfold Growable.getFieldSlotWithCheck
    rw [if_pos h]

/-- C15 (amended). Both windows.  Shared window: created writable with a size of at
least 420 bytes (header plus first chunk) and below `2^32 - 407`, and operated with size
arguments that keep the 32-bit offsets exact (`Op.Sized`), it has `freeOffset ≤ mSize`
after `clear` followed by any sequence of operations.  Growable window: created by
`initBuffer` with an initial size of at least the header plus the first chunk (that sum
being below `2^32`), and operated with requests whose size computation does not
overflow `size_t` (`RunFits`), it has `mFreeOffset ≤ mSize` after any sequence of
operations. -/
theorem C15_free_offset_within_size (W : Nat) (w : Ashmem.Window) (ops : List Ashmem.Op)
    (cfg : Growable.Config) (initialSize growthPaddingSize maxSize : Nat) (mem : Mem)
    (gops : List Growable.Op)
    (hW : 32 ≤ W) (hw : w.mReadOnly = false) (h1 : 420 ≤ w.mSize) (h2 : w.mSize + 407 < U32)
    (hops : ∀ op, op ∈ ops → op.Sized w.mSize)
    (hg1 : cfg.headerSize + Growable.ROW_SLOT_CHUNK_SIZE cfg ≤ initialSize)
    (hg2 : initialSize < 2 ^ cfg.sizeBits)
    (hfits : Growable.RunFits cfg
      (Growable.initBuffer cfg initialSize growthPaddingSize maxSize mem) gops) :
    Ashmem.freeOffset (Ashmem.run W (Ashmem.clear w).2 ops)
      ≤ (Ashmem.run W (Ashmem.clear w).2 ops).mSize ∧
    (Growable.run cfg (Growable.initBuffer cfg initialSize growthPaddingSize maxSize mem)
        gops).mFreeOffset
      ≤ (Growable.run cfg (Growable.initBuffer cfg initialSize growthPaddingSize maxSize mem)
        gops).mSize := by
  constructor
  · have hI := Ashmem.inv_clear w hw h1 h2
    have hsz : (Ashmem.clear w).2.mSize = w.mSize := (Ashmem.clear_mSize w).1
    exact (Ashmem.inv_run W hW ops _ hI (by rw [hsz]; exact hops)).free_hi
  · have h0 : Growable.Within cfg
        (Growable.initBuffer cfg initialSize growthPaddingSize maxSize mem) :=
      Growable.clear_within cfg _ hg2 hg1
    exact (Growable.run_within cfg gops _ h0 hfits).1

set_option maxRecDepth 100000 in
theorem C15_free_offset_witness :
    Ashmem.freeOffset (Ashmem.run 32 (Ashmem.clear Ashmem.w4096).2 Ashmem.opsThree)
      ≤ (Ashmem.run 32 (Ashmem.clear Ashmem.w4096).2 Ashmem.opsThree).mSize ∧
    (Growable.run Growable.cfgA (Growable.initBuffer Growable.cfgA 4096 600 4697 zeroMem)
        [Growable.Op.alloc 5000 false Growable.Realloc.moved]).mFreeOffset
      ≤ (Growable.run Growable.cfgA (Growable.initBuffer Growable.cfgA 4096 600 4697 zeroMem)
        [Growable.Op.alloc 5000 false Growable.Realloc.moved]).mSize :=
  C15_free_offset_within_size 32 Ashmem.w4096 Ashmem.opsThree Growable.cfgA 4096 600 4697
    zeroMem [Growable.Op.alloc 5000 false Growable.Realloc.moved]
    (by decide) rfl (by decide) (by decide)
    (by
      intro op hop
      simp only [Ashmem.opsThree, List.mem_cons, List.mem_singleton, List.mem_nil_iff,
        or_false] at hop
      rcases hop with h | h | h | h | h | h <;> subst h
      · trivial
      · trivial
      · show Ashmem.w4096.mSize + 12 * 3 + 407 < U32
        decide
      · trivial
      · trivial
      · show Ashmem.w4096.mSize + 10 < U32
        decide)
    (by decide) (by decide)
    ⟨by show 4096 + 5000 + 4 + 600 < 2 ^ 64; decide, trivial⟩

set_option maxRecDepth 100000 in
/-- C15 (counterexample). A shared window created over a region of 100 bytes: the
`clear()` run by `create` returns `OK` and sets `freeOffset` to 420, above the size 100. -/
theorem C15_small_window_free_offset :
    (Ashmem.clear Ashmem.w100).1 = Ashmem.Status.OK ∧
    (Ashmem.clear Ashmem.w100).2.mSize = 100 ∧
    Ashmem.freeOffset (Ashmem.clear Ashmem.w100).2 = 420 := by
  decide

/-! ## Further properties of the shared window under the layout invariant -/

namespace Ashmem

theorem read32_zero (m : Mem) (a : Nat) (h : ∀ j, j < 4 → m (a + j) = 0) : read32 m a = 0 := by
  have h0 := h 0 (by omega)
  have h1 := h 1 (by omega)
  have h2 := h 2 (by omega)
  have h3 := h 3 (by omega)
  unfold read32
  rw [Nat.add_zero] at h0
  rw [h0, h1, h2, h3]
  rfl

/-- X1. Shared window, in a state satisfying the layout invariant (as established by
`clear` and kept by operations with in-range sizes) and for `size < 2^32 - mSize`: if
`putBlob(row, column, v, size)` returns `OK`, then `getFieldSlot(row, column)` is a slot
of type BLOB, `getFieldSlotValueBlob` reports size `size`, and the `size` bytes at the
returned location equal `v`; likewise `putString` with type STRING. -/
theorem X1_blob_reads_back (s : Window) (row column : Nat) (value : Nat → Byte) (size : Nat)
    (hI : Inv s) (hsize : s.mSize + size < U32) :
    ((putBlob s row column value size).1 = Status.OK →
      ∃ slot, getFieldSlot (putBlob s row column value size).2 row column = some slot ∧
        getFieldSlotType (putBlob s row column value size).2 slot = NEW_FIELD_TYPE_BLOB ∧
        (getFieldSlotValueBlob (putBlob s row column value size).2 slot).1 = size ∧
        ∀ i, i < size →
          (putBlob s row column value size).2.mData
            ((getFieldSlotValueBlob (putBlob s row column value size).2 slot).2 + i) = value i) ∧
    ((putString s row column value size).1 = Status.OK →
      ∃ slot, getFieldSlot (putString s row column value size).2 row column = some slot ∧
        getFieldSlotType (putString s row column value size).2 slot = NEW_FIELD_TYPE_STRING ∧
        (getFieldSlotValueString (putString s row column value size).2 slot).1 = size ∧
        ∀ i, i < size →
          (putString s row column value size).2.mData
            ((getFieldSlotValueString (putString s row column value size).2 slot).2 + i)
            = value i) := by
  have key : ∀ type : Nat, type < U32 →
      (putBlobOrString s row column value size type).1 = Status.OK →
      ∃ slot, getFieldSlot (putBlobOrString s row column value size type).2 row column
          = some slot ∧
        read32 (putBlobOrString s row column value size type).2.mData slot = type ∧
        read32 (putBlobOrString s row column value size type).2.mData (slot + 8) = size ∧
        ∀ i, i < size →
          (putBlobOrString s row column value size type).2.mData
            (read32 (putBlobOrString s row column value size type).2.mData (slot + 4) + i)
            = value i := by
    intro type ht hok
    obtain ⟨slot, hs, h1, h2, h3, h4⟩ := putBlobOrString_ok s row column value size type hI
      hsize ht hok
    refine ⟨slot, ?_, h1, h3, ?_⟩
    · rw [putBlobOrString_resolves s row column value size type hI hsize]; exact hs
    · rw [h2]; exact h4
  exact ⟨key NEW_FIELD_TYPE_BLOB (by decide), key NEW_FIELD_TYPE_STRING (by decide)⟩

set_option maxRecDepth 100000 in
theorem X1_blob_reads_back_witness :
    (putBlob sOneRow 0 1 zeroMem 8).1 = Status.OK ∧
    ∃ slot, getFieldSlot (putBlob sOneRow 0 1 zeroMem 8).2 0 1 = some slot ∧
      getFieldSlotType (putBlob sOneRow 0 1 zeroMem 8).2 slot = NEW_FIELD_TYPE_BLOB ∧
      (getFieldSlotValueBlob (putBlob sOneRow 0 1 zeroMem 8).2 slot).1 = 8 ∧
      ∀ i, i < 8 →
        (putBlob sOneRow 0 1 zeroMem 8).2.mData
          ((getFieldSlotValueBlob (putBlob sOneRow 0 1 zeroMem 8).2 slot).2 + i) = zeroMem i :=
  ⟨by decide, (X1_blob_reads_back sOneRow 0 1 zeroMem 8 inv_sOneRow (by decide)).1 (by decide)⟩

/-- X2. Shared window with a `size_t` of at least 32 bits, mapped inside the 32-bit
address space, in a state satisfying the layout invariant: if `allocRow` returns `OK`, then `numRows` has grown by one, the column
count is unchanged, and the new row (index: the previous `numRows`) has exactly
`numColumns` field slots: for every column below `numColumns`, `getFieldSlot` returns a
slot of type NULL whose 8 value bytes are zero, and for every other column it returns
`NULL`. -/
theorem X2_new_row_is_null (W : Nat) (hW : 32 ≤ W) (s : Window) (hI : Inv s)
    (hM : Mapped s) (hok : (allocRow W s).1 = Status.OK) :
    numRows (allocRow W s).2 = numRows s + 1 ∧
    numColumns (allocRow W s).2 = numColumns s ∧
    (∀ c, c < numColumns s →
      ∃ slot, getFieldSlot (allocRow W s).2 (numRows s) c = some slot ∧
        getFieldSlotType (allocRow W s).2 slot = NEW_FIELD_TYPE_NULL ∧
        read64 (allocRow W s).2.mData (slot + 4) = 0) ∧
    (∀ c, numColumns s ≤ c → getFieldSlot (allocRow W s).2 (numRows s) c = none) := by
  obtain ⟨hI1, h12, _, hsucc⟩ := allocRow_spec W hW s hI
  obtain ⟨h8, _, hzero⟩ := hsucc hok
  have hM1 : Mapped (allocRow W s).2 := mapped_step W s Op.allocRow hM
  refine ⟨h8, h12, ?_, ?_⟩
  · intro c hc
    refine ⟨rowDir (allocRow W s).2.mData (numRows s) + 12 * c, ?_, ?_, ?_⟩
    · exact getFieldSlot_in _ hI1 hM1 (numRows s) c (by omega) (by omega)
    · unfold getFieldSlotType
      apply read32_zero
      intro j hj
      rw [Nat.add_assoc]
      exact hzero _ (by omega)
    · unfold read64
      rw [read32_zero _ _ (fun j hj => by
          rw [Nat.add_assoc, Nat.add_assoc]; exact hzero _ (by omega)),
        read32_zero _ _ (fun j hj => by
          rw [Nat.add_assoc, Nat.add_assoc, Nat.add_assoc]; exact hzero _ (by omega))]
      rfl
  · intro c hc
    exact getFieldSlot_out _ _ _ (Or.inr (by omega))

set_option maxRecDepth 100000 in
theorem X2_new_row_witness :
    (allocRow 32 sOneRow).1 = Status.OK ∧
    numRows (allocRow 32 sOneRow).2 = numRows sOneRow + 1 :=
  ⟨by decide,
    (X2_new_row_is_null 32 (by decide) sOneRow inv_sOneRow mapped_sOneRow (by decide)).1⟩

/-- X4. Shared window, in a state satisfying the layout invariant and for a request with
`mSize + size + 3 < 2^32`: `alloc(size, aligned)` returns 0 and leaves the state unchanged
when `freeOffset + padding + size` exceeds the window size; otherwise it returns
`freeOffset + padding`, which is at least 420 (header plus first chunk), and sets
`freeOffset` to that offset plus `size`, which is within the window.  So 0 is returned
exactly when nothing was allocated. -/
theorem X4_alloc_within_bounds (s : Window) (size : Nat) (aligned : Bool) (hI : Inv s)
    (hno : s.mSize + size + 3 < U32) :
    (s.mSize < freeOffset s + padOf (freeOffset s) aligned + size →
      alloc s size aligned = (0, s)) ∧
    (freeOffset s + padOf (freeOffset s) aligned + size ≤ s.mSize →
      (alloc s size aligned).1 = freeOffset s + padOf (freeOffset s) aligned ∧
      420 ≤ (alloc s size aligned).1 ∧
      freeOffset (alloc s size aligned).2 = (alloc s size aligned).1 + size ∧
      freeOffset (alloc s size aligned).2 ≤ s.mSize ∧
      (alloc s size aligned).2.mSize = s.mSize) ∧
    ((alloc s size aligned).1 = 0 ↔
      s.mSize < freeOffset s + padOf (freeOffset s) aligned + size) := by
  have hp := padOf_le (freeOffset s) aligned
  have hfl := hI.free_lo
  have hfh := hI.free_hi
  have hex := alloc_exact s size aligned (by omega)
  refine ⟨hex.1, ?_, ?_⟩
  · intro h
    rw [hex.2 h]
    refine ⟨rfl, by show 420 ≤ freeOffset s + _; omega, ?_, ?_, rfl⟩
    · show read32 (write32 s.mData 0 _) 0 = _
      rw [read32_write32_same]
      exact Nat.mod_eq_of_lt (by omega)
    · show read32 (write32 s.mData 0 _) 0 ≤ _
      rw [read32_write32_same, Nat.mod_eq_of_lt (by omega)]
      exact h
  · constructor
    · intro h0
      rcases Nat.lt_or_ge s.mSize (freeOffset s + padOf (freeOffset s) aligned + size) with h | h
      · exact h
      · rw [hex.2 h] at h0
        have : freeOffset s + padOf (freeOffset s) aligned = 0 := h0
        omega
    · intro h
      rw [hex.1 h]

set_option maxRecDepth 100000 in
theorem X4_alloc_within_bounds_witness :
    (alloc sOneRow 5000 false).1 = 0 ∧ (alloc sOneRow 8 true).1 ≠ 0 :=
  ⟨(X4_alloc_within_bounds sOneRow 5000 false inv_sOneRow (by decide)).2.2.mpr (by decide),
    fun h => absurd ((X4_alloc_within_bounds sOneRow 8 true inv_sOneRow (by decide)).2.2.mp h)
      (by decide)⟩

end Ashmem

/-! ## Further properties of the growable window -/

namespace Growable

/-- X3. Growable window, in a state whose free offset is positive and below `2^32 - 4`
(so that the padded offset does not wrap): an `alloc` that returns 0 has changed nothing,
and an `alloc` that returns a non-zero offset returns the free offset plus the padding. -/
theorem X3_alloc_zero_means_unchanged (cfg : Config) (s : CursorWindow) (n : Nat) (a : Bool)
    (re : Realloc) (hpos : 0 < s.mFreeOffset) (hnw : s.mFreeOffset + 4 < U32) :
    ((alloc cfg s n a re).1 = 0 → (alloc cfg s n a re).2 = s) ∧
    ((alloc cfg s n a re).1 ≠ 0 →
      (alloc cfg s n a re).1 = s.mFreeOffset + allocPadding s a ∧
      (alloc cfg s n a re).2.mData = s.mData) := by
  have hp := allocPadding_le s a
  have hmod : (s.mFreeOffset + allocPadding s a) % U32 = s.mFreeOffset + allocPadding s a :=
    Nat.mod_eq_of_lt (by omega)
  refine ⟨fun h0 => alloc_zero_unchanged cfg s n a re h0 (by rw [hmod]; omega), ?_⟩
  intro hne
  refine ⟨?_, (alloc_mData cfg s n a re).1⟩
  by_cases hg : allocSize cfg s n a > freeSpace cfg s
  · by_cases hperm : s.mMaxSize = 0 ∨ newAllocationSz cfg s n a ≤ s.mMaxSize
    · by_cases hre : re = Realloc.failed
      · rw [alloc_fail_unchanged cfg s n a re hg (Or.inr hre)] at hne
        exact absurd rfl hne
      · rw [alloc_grow cfg s n a re hg hperm hre]
        exact hmod
    · rw [alloc_fail_unchanged cfg s n a re hg (Or.inl hperm)] at hne
      exact absurd rfl hne
  · rw [alloc_fit cfg s n a re hg]
    exact hmod

set_option maxRecDepth 100000 in
theorem X3_alloc_zero_witness :
    (alloc cfgA s0 10000 false Realloc.moved).1 = 0 ∧
    (alloc cfgA s0 10000 false Realloc.moved).2 = s0 :=
  ⟨by decide,
    (X3_alloc_zero_means_unchanged cfgA s0 10000 false Realloc.moved (by decide)
      (by decide)).1 (by decide)⟩

end Growable

/-! ## Typed readers, `clear`, and runs on which the directory breaks -/

namespace Growable

set_option maxRecDepth 1000000 in
/-- C22. Growable window, a `putLong` that returns true and cannot be read back.  After
the run `opsC` (rows 0..127, a failed and a retried allocation of row 128, row 129) the
window has 130 rows of one column; cell (129, 0) is in range and resolves to offset 1.
`putLong(129, 0, 5)` returns true, and afterwards `getLong(129, 0)` returns false: the
chunk cache maps chunk 1 to offset 0, so the row slot of row 129 is the header word at
offset 4 and the write lands on the header, leaving `numRows = 386`, `numColumns = 1280`. -/
theorem C22_put_long_not_read_back :
    numRows cfgA (run cfgA s0 opsC) = 130 ∧ numColumns cfgA (run cfgA s0 opsC) = 1 ∧
    getFieldSlotWithCheck cfgA (run cfgA s0 opsC) (toInt32 129) (toInt32 0) = some 1 ∧
    (putLong cfgA (run cfgA s0 opsC) 129 0 5 Realloc.moved).1 = true ∧
    getLong cfgA (putLong cfgA (run cfgA s0 opsC) 129 0 5 Realloc.moved).2 129 0
      = (false, none) ∧
    numRows cfgA (putLong cfgA (run cfgA s0 opsC) 129 0 5 Realloc.moved).2 = 386 ∧
    numColumns cfgA (putLong cfgA (run cfgA s0 opsC) 129 0 5 Realloc.moved).2 = 1280 := by
  decide

set_option maxRecDepth 1000000 in
/-- C30. Growable window, a state in which the cache and the list disagree.  After the
run `opsD` (rows 0..127, a payload allocation that uses up the free space, a failed
allocation of row 128, a one-byte allocation that grows the buffer, and the retried
allocation of row 128, which succeeds and hands out the slot at offset 4100) the window
has 129 rows; the first chunk's link is 4100, so the walk finds the slot of row 128 at
4100, while the cache maps chunk 1 to 0 and `getRowSlot(128)` returns 0. -/
theorem C30_cache_disagrees_with_walk :
    (allocRow cfgA (run cfgA s0 (opsD.take 129)) Realloc.moved Realloc.moved).1 = none ∧
    (allocRowSlot cfgA (run cfgA s0 (opsD.take 131)) Realloc.moved).1 = some 4100 ∧
    numRows cfgA (run cfgA s0 opsD) = 129 ∧
    read32 (run cfgA s0 opsD).mData 520 = 4100 ∧
    getRowSlotWalk cfgA (run cfgA s0 opsD) 128 = 4100 ∧
    mapFind (run cfgA s0 opsD).mChunkNumToNextChunkOffset 1 = some 0 ∧
    getRowSlot cfgA (run cfgA s0 opsD) 128 = 0 := by
  decide

end Growable

namespace Ashmem

set_option maxRecDepth 1000000 in
/-- C24. Shared window with a 32-bit `size_t`, a cell write that lowers `freeOffset`.
After the run `opsLow` on a window of 4096 bytes (`2^30` columns, 101 rows,
`putLong(0, 0, 0)`) the free offset is 824 and `alloc(3700, unaligned)` fails.  Cell
(100, 0) resolves to offset 1; `putNull(100, 0)` returns OK and leaves the free offset at
56, after which the same `alloc(3700, unaligned)` succeeds and returns 56. -/
theorem C24_free_offset_lowered_by_cell_write :
    freeOffset (run 32 w4096 opsLow) = 824 ∧ numRows (run 32 w4096 opsLow) = 101 ∧
    (alloc (run 32 w4096 opsLow) 3700 false).1 = 0 ∧
    getFieldSlot (run 32 w4096 opsLow) 100 0 = some 1 ∧
    (putNull (run 32 w4096 opsLow) 100 0).1 = Status.OK ∧
    freeOffset (putNull (run 32 w4096 opsLow) 100 0).2 = 56 ∧
    (alloc (putNull (run 32 w4096 opsLow) 100 0).2 3700 false).1 = 56 := by
  decide

end Ashmem

/-- C23. `clear()` resets a window to the Empty state from any state.  On a writable
shared window it returns OK and afterwards `numRows = 0`, `numColumns = 0`,
`firstChunkOffset = 16` (`sizeof(Header)`), `freeOffset = 420`
(`sizeof(Header) + sizeof(RowSlotChunk)`), the first chunk's `nextChunkOffset` (at 416)
is 0, and a second `clear()` gives the same result.  On a growable window whose header
and first chunk end below `2^32`, afterwards `numRows = 0`, `numColumns = 0`, the free
offset is the header size plus one chunk, the first chunk's link word (the last word
before the free offset) is 0, the chunk cache is empty, `mLastChunkPtrOffset` is 0, and a
second `clear()` changes nothing. -/
theorem C23_clear_resets (cfg : Growable.Config) (w : Ashmem.Window) (g : Growable.CursorWindow)
    (hw : w.mReadOnly = false)
    (hcfg : cfg.headerSize + Growable.ROW_SLOT_CHUNK_SIZE cfg < U32) :
    ((Ashmem.clear w).1 = Ashmem.Status.OK ∧
      Ashmem.numRows (Ashmem.clear w).2 = 0 ∧ Ashmem.numColumns (Ashmem.clear w).2 = 0 ∧
      Ashmem.firstChunkOffset (Ashmem.clear w).2 = 16 ∧
      Ashmem.freeOffset (Ashmem.clear w).2 = 16 + 404 ∧
      read32 (Ashmem.clear w).2.mData (16 + 400) = 0 ∧
      Ashmem.clear (Ashmem.clear w).2 = Ashmem.clear w) ∧
    (Growable.numRows cfg (Growable.clear cfg g) = 0 ∧
      Growable.numColumns cfg (Growable.clear cfg g) = 0 ∧
      (Growable.clear cfg g).mFreeOffset = cfg.headerSize + Growable.ROW_SLOT_CHUNK_SIZE cfg ∧
      read32 (Growable.clear cfg g).mData (cfg.headerSize + cfg.chunkNumRows * 4) = 0 ∧
      (Growable.clear cfg g).mChunkNumToNextChunkOffset = [] ∧
      (Growable.clear cfg g).mLastChunkPtrOffset = 0 ∧
      Growable.clear cfg (Growable.clear cfg g) = Growable.clear cfg g) := by
  have hs := Ashmem.clear_header w hw
  have hg := Growable.clear_reads cfg g
  have hfree : (Growable.clear cfg g).mFreeOffset
      = cfg.headerSize + Growable.ROW_SLOT_CHUNK_SIZE cfg := by
    unfold Growable.clear
    exact Nat.mod_eq_of_lt hcfg
  refine ⟨⟨?_, hs.2.2.1, hs.2.2.2.1, hs.2.1, hs.1, hs.2.2.2.2, Ashmem.clear_clear w hw⟩,
    hg.1, hg.2.1, hfree, ?_, rfl, rfl, Growable.clear_idem cfg g⟩
  · rw [Ashmem.clear_writable w hw]
  · have h := hg.2.2
    rw [hfree] at h
    unfold Growable.ROW_SLOT_CHUNK_SIZE at h
    exact h

set_option maxRecDepth 100000 in
theorem C23_clear_resets_witness :
    Ashmem.w4096.mReadOnly = false ∧
    Ashmem.freeOffset (Ashmem.clear Ashmem.w4096).2 = 16 + 404 ∧
    (Growable.clear Growable.cfgA Growable.s0).mFreeOffset = 524 :=
  ⟨by decide,
    (C23_clear_resets Growable.cfgA Ashmem.w4096 Growable.s0 (by decide) (by decide)).1.2.2.2.2.1,
    (C23_clear_resets Growable.cfgA Ashmem.w4096 Growable.s0 (by decide) (by decide)).2.2.2.1⟩

/-! ## Shared window: the native readers -/

namespace Ashmem

/-- C25. Shared window, native readers, for every state and every cell that resolves
(`getFieldSlot` non-NULL): when the slot's tag is BLOB, `nativeGetString`,
`nativeGetLong`, `nativeGetDouble` (and `nativeCopyStringToBuffer`) each leave a
`throw_sqlite3_exception` pending and return null / 0 / 0.0, whatever the payload is;
when the tag is INTEGER or FLOAT, `nativeGetBlob` leaves a `throw_sqlite3_exception`
pending and returns null. -/
theorem C25_wrong_type_reads_throw (s : Window) (row column : Int) (slot : Nat)
    (newByteArray : Bool)
    (hslot : getFieldSlot s (jintToU32 row) (jintToU32 column) = some slot) :
    (getFieldSlotType s slot = NEW_FIELD_TYPE_BLOB →
      nativeGetString s row column
        = (Pending.sqlite SqliteMessage.unableToConvertBlobToString, JString.null) ∧
      nativeGetLong s row column
        = (Pending.sqlite SqliteMessage.unableToConvertBlobToLong, JLong.value 0) ∧
      nativeGetDouble s row column
        = (Pending.sqlite SqliteMessage.unableToConvertBlobToDouble, JDouble.bits 0) ∧
      nativeCopyStringToBuffer s row column
        = (Pending.sqlite SqliteMessage.unableToConvertBlobToString, BufferEffect.untouched)) ∧
    (getFieldSlotType s slot = NEW_FIELD_TYPE_INTEGER →
      nativeGetBlob s row column newByteArray
        = (Pending.sqlite SqliteMessage.integerDataInGetBlob, none)) ∧
    (getFieldSlotType s slot = NEW_FIELD_TYPE_FLOAT →
      nativeGetBlob s row column newByteArray
        = (Pending.sqlite SqliteMessage.floatDataInGetBlob, none)) := by
  unfold nativeGetString nativeGetLong nativeGetDouble nativeCopyStringToBuffer nativeGetBlob
  simp only [hslot]
  refine ⟨?_, ?_, ?_⟩
  · intro h
    simp [h, NEW_FIELD_TYPE_BLOB, NEW_FIELD_TYPE_STRING, NEW_FIELD_TYPE_INTEGER,
      NEW_FIELD_TYPE_FLOAT, NEW_FIELD_TYPE_NULL]
  · intro h
    simp [h, NEW_FIELD_TYPE_BLOB, NEW_FIELD_TYPE_STRING, NEW_FIELD_TYPE_INTEGER,
      NEW_FIELD_TYPE_FLOAT, NEW_FIELD_TYPE_NULL]
  · intro h
    simp [h, NEW_FIELD_TYPE_BLOB, NEW_FIELD_TYPE_STRING, NEW_FIELD_TYPE_INTEGER,
      NEW_FIELD_TYPE_FLOAT, NEW_FIELD_TYPE_NULL]

set_option maxRecDepth 100000 in
theorem C25_wrong_type_witness :
    getFieldSlot (putLong sOneRow 0 1 5).2 (jintToU32 0) (jintToU32 1) = some 432 ∧
    nativeGetBlob (putLong sOneRow 0 1 5).2 0 1 true
      = (Pending.sqlite SqliteMessage.integerDataInGetBlob, none) :=
  ⟨by decide,
    (C25_wrong_type_reads_throw (putLong sOneRow 0 1 5).2 0 1 432 true (by decide)).2.1
      (by decide)⟩

/-- C26 (amended). Shared window, native readers, for every state and every cell that
resolves: when the tag is BLOB, reading it as a string (`nativeGetString`,
`nativeCopyStringToBuffer`) leaves a `throw_sqlite3_exception` pending and returns null;
when the tag is STRING, `nativeGetBlob` is accepted: with `NewByteArray` succeeding it
leaves no exception and returns the stored bytes of the string, `size` bytes (the
terminating NUL included) from the stored offset. -/
theorem C26_blob_string_conversions (s : Window) (row column : Int) (slot : Nat)
    (hslot : getFieldSlot s (jintToU32 row) (jintToU32 column) = some slot) :
    (getFieldSlotType s slot = NEW_FIELD_TYPE_BLOB →
      nativeGetString s row column
        = (Pending.sqlite SqliteMessage.unableToConvertBlobToString, JString.null) ∧
      nativeCopyStringToBuffer s row column
        = (Pending.sqlite SqliteMessage.unableToConvertBlobToString, BufferEffect.untouched)) ∧
    (getFieldSlotType s slot = NEW_FIELD_TYPE_STRING →
      nativeGetBlob s row column true
        = (Pending.nothing,
            some (bytesAt s.mData (getFieldSlotValueString s slot).2
              (getFieldSlotValueString s slot).1))) := by
  unfold nativeGetString nativeCopyStringToBuffer nativeGetBlob
  simp only [hslot]
  refine ⟨?_, ?_⟩
  · intro h
    simp [h, NEW_FIELD_TYPE_BLOB, NEW_FIELD_TYPE_STRING, NEW_FIELD_TYPE_INTEGER,
      NEW_FIELD_TYPE_FLOAT, NEW_FIELD_TYPE_NULL]
  · intro h
    simp [h, getFieldSlotValueBlob, getFieldSlotValueString]

set_option maxRecDepth 100000 in
theorem C26_conversions_witness :
    getFieldSlot sString (jintToU32 0) (jintToU32 1) = some 432 ∧
    getFieldSlotType sString 432 = NEW_FIELD_TYPE_STRING ∧
    nativeGetBlob sString 0 1 true
      = (Pending.nothing,
          some (bytesAt sString.mData (getFieldSlotValueString sString 432).2
            (getFieldSlotValueString sString 432).1)) :=
  ⟨by decide, by decide,
    (C26_blob_string_conversions sString 0 1 432 (by decide)).2 (by decide)⟩

set_option maxRecDepth 100000 in
/-- C26 (counterexample). Cell (0, 1) holds the string "hi" written by
`putString(0, 1, "hi", 3)`: its tag is STRING, and `nativeGetBlob(0, 1)` leaves no
exception and returns the three bytes `h`, `i`, NUL. -/
theorem C26_string_read_as_blob :
    (putString sOneRow 0 1 hiBytes 3).1 = Status.OK ∧
    getFieldSlot sString 0 1 = some 432 ∧
    getFieldSlotType sString 432 = NEW_FIELD_TYPE_STRING ∧
    nativeGetBlob sString 0 1 true = (Pending.nothing, some [104, 105, 0]) := by
  decide

set_option maxRecDepth 100000 in
/-- C27. Shared window, native readers, reads outside the window that signal no
failure or overrun a heap array.  The window `sOneRow` has one row of three zeroed
cells; the cell `(7, 9)` is outside it.  `nativeGetType(7, 9)` leaves no exception and
returns `NEW_FIELD_TYPE_NULL`, the result `nativeGetType(0, 0)` gives for the zeroed
cell.  `nativeGetLong(7, 9)` calls `throwExceptionWithRowCol`, whose `sprintf` writes the 129
characters of the message and the NUL, 130 bytes, into `new char[100]`: the reader runs
past the end of a heap array instead of raising its exception in a defined way; the same
holds for `nativeGetBlob`, `nativeGetString`, `nativeGetDouble` and
`nativeCopyStringToBuffer`. -/
theorem C27_out_of_range_read_overruns :
    numRows sOneRow = 1 ∧ numColumns sOneRow = 3 ∧
    nativeGetType sOneRow 7 9 = (Pending.nothing, NEW_FIELD_TYPE_NULL) ∧
    nativeGetType sOneRow 0 0 = (Pending.nothing, NEW_FIELD_TYPE_NULL) ∧
    (rowColMessage 7 9).length = 129 ∧
    nativeGetLong sOneRow 7 9 = (Pending.overrun 130, JLong.value 0) ∧
    nativeGetBlob sOneRow 7 9 true = (Pending.overrun 130, none) ∧
    nativeGetString sOneRow 7 9 = (Pending.overrun 130, JString.null) ∧
    nativeGetDouble sOneRow 7 9 = (Pending.overrun 130, JDouble.bits 0) ∧
    nativeCopyStringToBuffer sOneRow 7 9 = (Pending.overrun 130, BufferEffect.untouched) := by
  decide

/-- X16. Shared window, for every state and every `(row, column)` with `row ≥ numRows`
or `column ≥ numColumns` (as `uint32_t`): `nativeGetType` leaves no exception and
returns `NEW_FIELD_TYPE_NULL`; `nativeGetBlob`, `nativeGetString`, `nativeGetLong`,
`nativeGetDouble` and `nativeCopyStringToBuffer` each call `throwExceptionWithRowCol`,
whose message with its NUL is longer than the 100 bytes of the array it is written
to. -/
theorem X16_out_of_range_reads (s : Window) (row column : Int) (newByteArray : Bool)
    (hout : jintToU32 row ≥ numRows s ∨ jintToU32 column ≥ numColumns s) :
    100 < (rowColMessage row column).length + 1 ∧
    nativeGetBlob s row column newByteArray
      = (Pending.overrun ((rowColMessage row column).length + 1), none) ∧
    nativeGetString s row column
      = (Pending.overrun ((rowColMessage row column).length + 1), JString.null) ∧
    nativeGetLong s row column
      = (Pending.overrun ((rowColMessage row column).length + 1), JLong.value 0) ∧
    nativeGetDouble s row column
      = (Pending.overrun ((rowColMessage row column).length + 1), JDouble.bits 0) ∧
    nativeCopyStringToBuffer s row column
      = (Pending.overrun ((rowColMessage row column).length + 1), BufferEffect.untouched) ∧
    nativeGetType s row column = (Pending.nothing, NEW_FIELD_TYPE_NULL) := by
  have h := getFieldSlot_out s (jintToU32 row) (jintToU32 column) hout
  have hlen := rowColMessage_length row column
  have ht := throwExceptionWithRowCol_overrun row column
  unfold nativeGetBlob nativeGetString nativeGetLong nativeGetDouble nativeCopyStringToBuffer
    nativeGetType
  simp only [h, ht, and_self, and_true]
  omega

set_option maxRecDepth 100000 in
theorem X16_out_of_range_witness :
    (jintToU32 0 ≥ numRows sOneRow ∨ jintToU32 3 ≥ numColumns sOneRow) ∧
    nativeGetLong sOneRow 0 3
      = (Pending.overrun ((rowColMessage 0 3).length + 1), JLong.value 0) ∧
    nativeGetType sOneRow 0 3 = (Pending.nothing, NEW_FIELD_TYPE_NULL) :=
  ⟨Or.inr (by decide),
    (X16_out_of_range_reads sOneRow 0 3 true (Or.inr (by decide))).2.2.2.1,
    (X16_out_of_range_reads sOneRow 0 3 true (Or.inr (by decide))).2.2.2.2.2.2⟩

end Ashmem

/-! ## Shared window: the row directory is walked as it was built -/

namespace Ashmem

set_option maxRecDepth 1000000 in
/-- C28. Shared window with 32-bit pointers and `size_t`, a walk of `getRowSlot` that
follows a zero link.  Window of 4096 bytes with `2^30` columns and 101 rows; row 100
got slot 0 of the second chunk, at offset 420, which the first chunk links to through
its `nextChunkOffset` at offset 416.  The cell `(0, 2^30 - 1)` is in
range and resolves to the field slot at offset 408 (`420 + 12 * (2^30 - 1)` modulo
`2^32`), inside the first chunk.  `putLong(0, 2^30 - 1, 0)` returns `OK` and stores the
value over the bytes 412..419, which zeroes that link.  Afterwards the walk of
`getRowSlot(100)` follows the link 0 and returns offset 0, not the slot 420 that
`allocRowSlot` handed out for row 100. -/
theorem C28_walk_follows_zero_link :
    numRows (run 32 w4096 opsCut) = 101 ∧ numColumns (run 32 w4096 opsCut) = manyColumns ∧
    handedOut 32 w4096 opsCut (fun _ => none) 100 = some 420 ∧
    getFieldSlot (run 32 w4096 (opsCut.take 103)) 0 lastColumn = some 408 ∧
    (putLong (run 32 w4096 (opsCut.take 103)) 0 lastColumn 0).1 = Status.OK ∧
    (getRowSlotTrace (run 32 w4096 (opsCut.take 103)).mData 100
      (firstChunkOffset (run 32 w4096 (opsCut.take 103))) 100).1 = [420] ∧
    getRowSlot (run 32 w4096 (opsCut.take 103)) 100 = 420 ∧
    (getRowSlotTrace (run 32 w4096 opsCut).mData 100 (firstChunkOffset (run 32 w4096 opsCut))
      100).1 = [0] ∧
    getRowSlot (run 32 w4096 opsCut) 100 = 0 := by
  decide

/-- X17. Shared window with a `size_t` of at least 32 bits, for every window of at least
420 bytes and below `2^32 - 407` bytes, in every state reached from `clear()` by
`allocRow`, `freeLastRow`, cell writes (and `clear`, `setNumColumns`) whose column count
and blob sizes keep the 32-bit offsets exact, and for every `row < numRows`: the walk of
`getRowSlot(row)` follows `row / 100` links, every one of them non-zero; it returns
slot `row % 100` of the chunk `row / 100` links behind the first chunk; and that address
is the one `allocRowSlot` returned when the row was last allocated. -/
theorem X17_row_directory_walk (W : Nat) (hW : 32 ≤ W) (w : Window) (ops : List Op)
    (row : Nat) (hw : w.mReadOnly = false) (h1 : 420 ≤ w.mSize) (h2 : w.mSize + 407 < U32)
    (hops : ∀ op, op ∈ ops → op.Sized w.mSize)
    (hrow : row < numRows (run W (clear w).2 ops)) :
    (getRowSlotTrace (run W (clear w).2 ops).mData row
        (firstChunkOffset (run W (clear w).2 ops)) row).1.length = row / 100 ∧
    (∀ link, link ∈ (getRowSlotTrace (run W (clear w).2 ops).mData row
        (firstChunkOffset (run W (clear w).2 ops)) row).1 → link ≠ 0) ∧
    (getRowSlotTrace (run W (clear w).2 ops).mData row
        (firstChunkOffset (run W (clear w).2 ops)) row).2
      = getRowSlot (run W (clear w).2 ops) row ∧
    getRowSlot (run W (clear w).2 ops) row
      = chunkAt (run W (clear w).2 ops).mData (row / 100) + 4 * (row % 100) ∧
    handedOut W (clear w).2 ops (fun _ => none) row
      = some (getRowSlot (run W (clear w).2 ops) row) := by
  have hI0 : Inv (clear w).2 := inv_clear w hw h1 h2
  have hsz : (clear w).2.mSize = w.mSize := (clear_mSize w).1
  have hops2 : ∀ op, op ∈ ops → op.Sized (clear w).2.mSize := by
    intro op hop; rw [hsz]; exact hops op hop
  have hI := inv_run W hW ops (clear w).2 hI0 hops2
  have hn0 : numRows (clear w).2 = 0 := (clear_header w hw).2.2.1
  have hgh := run_handedOut W hW ops (clear w).2 (fun _ => none) hI0 hops2
    (fun r hr => by omega) row hrow
  generalize run W (clear w).2 ops = s at hI hrow hgh ⊢
  obtain ⟨hlen, hlinks⟩ :=
    getRowSlotTrace_links s.mData row (firstChunkOffset s) row (Nat.div_le_self _ _)
  refine ⟨hlen, ?_, ?_, ?_, ?_⟩
  · intro link hl
    obtain ⟨k, hk, he⟩ := hlinks link hl
    have hk2 : k + 1 ≤ lastChunk s := by
      have := row_div_le_lastChunk s row hrow
      omega
    have hge := hI.chunk_ge (k + 1) hk2
    have : link = chunkAt s.mData (k + 1) := by
      rw [he, chunkAt_eq_chunkFrom]; rfl
    omega
  · rw [getRowSlotTrace_snd]; rfl
  · rw [getRowSlot_eq]; rfl
  · rw [hgh, getRowSlot_eq]

theorem sized_opsRows : ∀ op, op ∈ opsRows → op.Sized w4096.mSize := by
  intro op hop
  unfold opsRows at hop
  rcases List.mem_append.mp hop with h | h
  · rw [List.mem_singleton.mp h]
    show 4096 + 12 * 2 + 407 < U32
    decide
  · rw [List.eq_of_mem_replicate h]
    trivial

set_option maxRecDepth 1000000 in
theorem X17_row_directory_witness :
    100 < numRows (run 32 (clear w4096).2 opsRows) ∧
    handedOut 32 (clear w4096).2 opsRows (fun _ => none) 100
      = some (getRowSlot (run 32 (clear w4096).2 opsRows) 100) :=
  ⟨by decide,
    (X17_row_directory_walk 32 (by decide) w4096 opsRows 100 (by decide) (by decide)
      (by decide) sized_opsRows (by decide)).2.2.2.2⟩

end Ashmem

/-! ## Growable window: the directory built by sequential appends -/

namespace Growable

set_option maxRecDepth 1000000 in
/-- C29. Growable window, sequential appends after which the list walk misses the
slot handed out.  Released layout, 64-bit `size_t`, no size limit: after `clear()` and
`setNumColumns(2732167)`, 132 `allocRow` calls all return a row while the buffer grows
beyond `2^32` bytes.  The chunk of rows 128..131 was
allocated at offset 4196609040 and `allocRowSlot` handed out its slot 0 for row 128; the
32-bit free offset then wrapped, the field directory of row 131 was placed at offset 272
and its `memset` zeroed the link word of the first chunk at offset 520.  `getRowSlot(128)`
still returns the handed-out slot from its cache, but chunk number 1 of the linked list
is now at offset 0: the list walk for row 128 ends at offset 0, not at the slot handed
out. -/
theorem C29_list_walk_reaches_zero :
    numRows cfgA sWide = 0 ∧ sWide.mFreeOffset = 524 ∧ sWide.mMaxSize = 0 ∧
    allSucceed cfgA sWide rows132 = true ∧
    (slotsOf cfgA sWide rows132)[128]? = some (some 4196609040) ∧
    getRowSlot cfgA (run cfgA sWide (rowOps rows132)) 128 = 4196609040 ∧
    chunkOffset cfgA (run cfgA sWide (rowOps rows132)).mData 1 = 0 ∧
    getRowSlotWalk cfgA (run cfgA sWide (rowOps rows132)) 128 = 0 ∧
    4294967296 < (run cfgA sWide (rowOps rows132)).mSize := by
  decide

/-- X18. Growable window, sequential appends, for every layout with at least two row
slots per chunk and `numRows` inside the header: starting from the state that `clear()`
leaves behind (any column count), after any number of `allocRow` calls that all return
a row, with any `realloc` outcomes, as long as no size computation of `alloc`
overflows `size_t` and the buffer stays below `2^32` bytes: `numRows` is the number of
calls; for every row `i` the slot that `allocRowSlot` handed out is slot `i % N` of the
chunk `i / N` links behind the first chunk, `getRowSlot(i)` returns exactly that slot,
and so does the fallback walk; and the link word of the last chunk in use is 0. -/
theorem X18_sequential_appends (cfg : Config) (e : CursorWindow)
    (rs : List (Realloc × Realloc)) (i : Nat)
    (hN : 2 ≤ cfg.chunkNumRows) (hH : cfg.numRowsOff + 4 ≤ cfg.headerSize)
    (he : Cleared cfg e) (h1 : e.mFreeOffset ≤ e.mSize) (h2 : e.mSize < 2 ^ cfg.sizeBits)
    (hfit : RunFits cfg e (rowOps rs)) (hok : allSucceed cfg e rs = true)
    (hU : (run cfg e (rowOps rs)).mSize < U32) (hi : i < rs.length) :
    numRows cfg (run cfg e (rowOps rs)) = rs.length ∧
    (slotsOf cfg e rs)[i]?
      = some (some (chunkOffset cfg (run cfg e (rowOps rs)).mData (i / cfg.chunkNumRows)
          + (i % cfg.chunkNumRows) * 4)) ∧
    getRowSlot cfg (run cfg e (rowOps rs)) i
      = chunkOffset cfg (run cfg e (rowOps rs)).mData (i / cfg.chunkNumRows)
          + (i % cfg.chunkNumRows) * 4 ∧
    getRowSlotWalk cfg (run cfg e (rowOps rs)) i
      = chunkOffset cfg (run cfg e (rowOps rs)).mData (i / cfg.chunkNumRows)
          + (i % cfg.chunkNumRows) * 4 ∧
    read32 (run cfg e (rowOps rs)).mData
      (chunkOffset cfg (run cfg e (rowOps rs)).mData ((rs.length - 1) / cfg.chunkNumRows)
        + cfg.chunkNumRows * 4) = 0 := by
  have hA := appended_of_cleared cfg e he h1 h2
  obtain ⟨hAf, hn, _, hsl⟩ := appended_rows cfg hN hH rs e hA hfit hok hU
  have hn0 : numRows cfg e = 0 := he.1
  rw [hn0, Nat.zero_add] at hn
  have h := hsl i hi
  rw [hn0] at h
  simp only [Nat.zero_add] at h
  refine ⟨hn, h, hAf.rowSlot_eq i (by rw [hn]; exact hi), getRowSlotWalk_eq cfg _ i, ?_⟩
  have hl := hAf.last_link
  unfold lastIdx at hl
  rw [hn] at hl
  exact hl

theorem fits_rows130 : RunFits cfgA s0 (rowOps rows130) :=
  rows_fit cfgA 4697 600 (by decide) (by decide) rows130 s0 ⟨rfl, by decide⟩ rfl

set_option maxRecDepth 1000000 in
theorem X18_sequential_appends_witness :
    allSucceed cfgA s0 rows130 = true ∧
    getRowSlot cfgA (run cfgA s0 (rowOps rows130)) 129
      = chunkOffset cfgA (run cfgA s0 (rowOps rows130)).mData (129 / cfgA.chunkNumRows)
          + (129 % cfgA.chunkNumRows) * 4 :=
  ⟨by decide,
    (X18_sequential_appends cfgA s0 rows130 129 (by decide) (by decide)
      (cleared_clear cfgA _ (by decide)) (by decide) (by decide) fits_rows130 (by decide)
      (by decide) (by decide)).2.2.1⟩

end Growable

/-! ## Shared window: no capacity is recovered -/

namespace Ashmem

/-- X5. Shared window with a `size_t` of at least 32 bits, in a state satisfying the
layout invariant, along any sequence of operations that contains no `clear` and whose
column count and blob sizes keep the 32-bit offsets exact: the free offset never
decreases, and a request `alloc(n, aligned)` with `mSize + n + 3 < 2^32` that fails in the
first state fails in the last one. -/
theorem X5_no_capacity_recovery (W : Nat) (hW : 32 ≤ W) (s : Window) (ops : List Op)
    (n : Nat) (aligned : Bool) (hI : Inv s)
    (hops : ∀ op, op ∈ ops → op.Sized s.mSize ∧ op.NotClear)
    (hn : s.mSize + n + 3 < U32) :
    freeOffset s ≤ freeOffset (run W s ops) ∧
    ((alloc s n aligned).1 = 0 → (alloc (run W s ops) n aligned).1 = 0) := by
  have hmono := run_freeOffset_mono W hW ops s hI hops
  have hI2 := inv_run W hW ops s hI (fun op hop => (hops op hop).1)
  have hsz := (run_mSize W ops s).1
  refine ⟨hmono, ?_⟩
  intro h0
  have hp := padOf_le (freeOffset s) aligned
  have hp2 := padOf_le (freeOffset (run W s ops)) aligned
  have hpm := padOf_mono _ _ aligned hmono
  have hfl := hI.free_lo
  rcases alloc_cases s hI n aligned (by omega) with ⟨hlt, _⟩ | ⟨_, h⟩
  · rcases alloc_cases (run W s ops) hI2 n aligned (by rw [hsz]; omega) with ⟨_, h⟩ | ⟨hfit, _⟩
    · rw [h]
    · rw [hsz] at hfit; omega
  · rw [h] at h0
    have : freeOffset s + padOf (freeOffset s) aligned = 0 := h0
    omega

set_option maxRecDepth 1000000 in
theorem X5_no_capacity_recovery_witness :
    (alloc (clear w4096).2 3700 false).1 = 0 ∧
    (alloc (run 32 (clear w4096).2 opsRows) 3700 false).1 = 0 :=
  ⟨by decide,
    (X5_no_capacity_recovery 32 (by decide) (clear w4096).2 opsRows 3700 false
      (inv_clear w4096 rfl (by decide) (by decide))
      (fun op hop => ⟨sized_opsRows op hop, by
        unfold opsRows at hop
        rcases List.mem_append.mp hop with h | h
        · rw [List.mem_singleton.mp h]; trivial
        · rw [List.eq_of_mem_replicate h]; trivial⟩)
      (by decide)).2 (by decide)⟩

end Ashmem

/-! ## Growable window: numeric cells read back what was written -/

namespace Growable

/-- X6. Growable window with inline numerics, a cell `(row, col)` that resolves to the
field slot `slot`: `putLong(v)`, `putDouble(d)` and `putNull` return true; and whenever
the cell still resolves to the same slot after the write, `getLong` yields `v` after
`putLong` (while `getDouble` misses and `getNull` reports false), `getDouble` yields the
bits of `d` after `putDouble` (while `getLong` misses and `getNull` reports false), and
`getNull` reports true after `putNull` (while `getLong` and `getDouble` miss). -/
theorem X6_numeric_round_trip (cfg : Config) (s : CursorWindow) (row col slot : Nat)
    (v : Int) (bits : Nat) (re : Realloc) (hin : cfg.inlineNumerics = true)
    (hslot : getFieldSlotWithCheck cfg s (toInt32 row) (toInt32 col) = some slot)
    (hv : -9223372036854775808 ≤ v ∧ v < 9223372036854775808) (hbits : bits < U64) :
    ((putLong cfg s row col v re).1 = true ∧
      (getFieldSlotWithCheck cfg (putLong cfg s row col v re).2 (toInt32 row) (toInt32 col)
          = some slot →
        getLong cfg (putLong cfg s row col v re).2 row col = (true, some v) ∧
        getDouble cfg (putLong cfg s row col v re).2 row col = (false, none) ∧
        getNull cfg (putLong cfg s row col v re).2 row col = (true, some false))) ∧
    ((putDouble cfg s row col bits re).1 = true ∧
      (getFieldSlotWithCheck cfg (putDouble cfg s row col bits re).2 (toInt32 row) (toInt32 col)
          = some slot →
        getDouble cfg (putDouble cfg s row col bits re).2 row col = (true, some bits) ∧
        getLong cfg (putDouble cfg s row col bits re).2 row col = (false, none) ∧
        getNull cfg (putDouble cfg s row col bits re).2 row col = (true, some false))) ∧
    ((putNull cfg s row col).1 = true ∧
      (getFieldSlotWithCheck cfg (putNull cfg s row col).2 (toInt32 row) (toInt32 col)
          = some slot →
        getNull cfg (putNull cfg s row col).2 row col = (true, some true) ∧
        getLong cfg (putNull cfg s row col).2 row col = (false, none) ∧
        getDouble cfg (putNull cfg s row col).2 row col = (false, none))) := by
  have hL : putLong cfg s row col v re
      = (true,
          { s with
            mData := write32 (write64 s.mData (slot + 4) (toU64 v)) slot FIELD_TYPE_INTEGER }) := by
    unfold putLong
    simp only [hslot, hin, if_true]
  have hD : putDouble cfg s row col bits re
      = (true,
          { s with
            mData := write32 (write64 s.mData (slot + 4) bits) slot FIELD_TYPE_FLOAT }) := by
    unfold putDouble
    simp only [hslot, hin, if_true]
  have hNl : putNull cfg s row col
      = (true,
          { s with
            mData := write32 (write32 (write32 s.mData slot FIELD_TYPE_NULL) (slot + 4) 0)
              (slot + 8) 0 }) := by
    unfold putNull
    simp only [hslot]
  have htL : read32 (write32 (write64 s.mData (slot + 4) (toU64 v)) slot FIELD_TYPE_INTEGER) slot
      = FIELD_TYPE_INTEGER := by
    rw [read32_write32_same]; rfl
  have hvL : read64 (write32 (write64 s.mData (slot + 4) (toU64 v)) slot FIELD_TYPE_INTEGER)
      (slot + 4) = toU64 v := by
    rw [(frame_write32 _ _ _).read64 (by omega), read64_write64_same]
    exact Nat.mod_eq_of_lt (Ashmem.toU64_lt v)
  have htD : read32 (write32 (write64 s.mData (slot + 4) bits) slot FIELD_TYPE_FLOAT) slot
      = FIELD_TYPE_FLOAT := by
    rw [read32_write32_same]; rfl
  have hvD : read64 (write32 (write64 s.mData (slot + 4) bits) slot FIELD_TYPE_FLOAT)
      (slot + 4) = bits := by
    rw [(frame_write32 _ _ _).read64 (by omega), read64_write64_same]
    exact Nat.mod_eq_of_lt hbits
  have htN : read32 (write32 (write32 (write32 s.mData slot FIELD_TYPE_NULL) (slot + 4) 0)
      (slot + 8) 0) slot = FIELD_TYPE_NULL := by
    rw [read32_write32_other _ _ _ _ (by omega), read32_write32_other _ _ _ _ (by omega),
      read32_write32_same]
    rfl
  refine ⟨⟨by rw [hL], ?_⟩, ⟨by rw [hD], ?_⟩, ⟨by rw [hNl], ?_⟩⟩
  · rw [hL]
    dsimp only
    intro hk
    unfold getLong getDouble getNull
    rw [hk]
    dsimp only
    rw [htL, hvL, ofU64_toU64 v hv.1 hv.2]
    simp [hin, FIELD_TYPE_INTEGER, FIELD_TYPE_FLOAT, FIELD_TYPE_NULL]
  · rw [hD]
    dsimp only
    intro hk
    unfold getLong getDouble getNull
    rw [hk]
    dsimp only
    rw [htD, hvD]
    simp [hin, FIELD_TYPE_INTEGER, FIELD_TYPE_FLOAT, FIELD_TYPE_NULL]
  · rw [hNl]
    dsimp only
    intro hk
    unfold getLong getDouble getNull
    rw [hk]
    dsimp only
    rw [htN]
    simp [FIELD_TYPE_INTEGER, FIELD_TYPE_FLOAT, FIELD_TYPE_NULL]

set_option maxRecDepth 1000000 in
theorem X6_numeric_round_trip_witness :
    getFieldSlotWithCheck cfgA (run cfgA s0 (opsA 2)) (toInt32 1) (toInt32 0) = some 536 ∧
    getLong cfgA (putLong cfgA (run cfgA s0 (opsA 2)) 1 0 (-7) Realloc.moved).2 1 0
      = (true, some (-7)) :=
  ⟨by decide,
    ((X6_numeric_round_trip cfgA (run cfgA s0 (opsA 2)) 1 0 536 (-7) 0 Realloc.moved rfl
      (by decide) (by decide) (by decide)).1.2 (by decide)).1⟩

end Growable

/-! ## Creation of a shared window -/

namespace Ashmem

set_option maxRecDepth 100000 in
/-- C37 (counterexample). A successful `create(name, 4096)`: the region's protection is
demoted to `PROT_READ` as the fourth call, before the window object exists; `clear()`
runs last, through the read-write mapping made before the demotion. -/
theorem C37_demoted_before_clear :
    (create envOk 4096).calls =
      [CreateEvent.createRegion 4096, CreateEvent.setProtRegion true,
        CreateEvent.mmap 4096 true, CreateEvent.setProtRegion false,
        CreateEvent.construct false, CreateEvent.clear] ∧
    (create envOk 4096).result = Status.code Status.OK ∧
    (create envOk 4096).out.isSome = true ∧
    List.indexOf (CreateEvent.setProtRegion false) (create envOk 4096).calls
      < List.indexOf CreateEvent.clear (create envOk 4096).calls := by
  decide

/-- C37 (amended). With `errno` positive after a failed `ashmem_create_region` or
`mmap`: `create` succeeds exactly when `ashmem_create_region`, both
`ashmem_set_prot_region` calls and `mmap` succeed.  A successful run makes the calls
create region, set protection read-write, map read-write, set protection read-only,
construct the writable window, `clear()`, in this order, returns `OK`, and the window
handed out is empty: no rows, no columns, `freeOffset = 420`, and it is writable over
the `size` bytes mapped.  A failing run sets the out-parameter to `NULL`, returns a
negative status and never runs `clear()`. -/
theorem C37_create_order (env : CreateEnv) (size : Nat)
    (h1 : 0 < env.createErrno) (h2 : 0 < env.mmapErrno) :
    ((create env size).out.isSome = true ↔
      (0 ≤ env.ashmemFd ∧ 0 ≤ env.protReadWrite ∧ env.mapped.isSome = true ∧
        0 ≤ env.protRead)) ∧
    (∀ w, (create env size).out = some w →
      (create env size).calls =
        [CreateEvent.createRegion size, CreateEvent.setProtRegion true,
          CreateEvent.mmap size true, CreateEvent.setProtRegion false,
          CreateEvent.construct false, CreateEvent.clear] ∧
      (create env size).result = Status.code Status.OK ∧
      numRows w = 0 ∧ numColumns w = 0 ∧ freeOffset w = 16 + 404 ∧
      w.mSize = size ∧ w.mReadOnly = false) ∧
    ((create env size).out = none →
      (create env size).result < 0 ∧ CreateEvent.clear ∉ (create env size).calls) := by
  unfold create
  by_cases hfd : env.ashmemFd < 0
  · simp only [hfd, if_true]
    refine ⟨?_, ?_, ?_⟩
    · simp; intro h; omega
    · intro w h; simp at h
    · intro _; refine ⟨by omega, by simp⟩
  · simp only [hfd, if_false]
    by_cases hrw : env.protReadWrite ≥ 0
    · simp only [hrw, if_true]
      cases hm : env.mapped with
      | none =>
        dsimp only
        refine ⟨?_, ?_, ?_⟩
        · simp
        · intro w h; simp at h
        · intro _; refine ⟨by omega, by simp⟩
      | some mem =>
        dsimp only
        by_cases hr : env.protRead ≥ 0
        · simp only [hr, if_true]
          have hc := clear_header
            { mData := mem, mDataPtr := env.mappedAt, mSize := size, mReadOnly := false } rfl
          have hw := clear_writable
            { mData := mem, mDataPtr := env.mappedAt, mSize := size, mReadOnly := false } rfl
          have hst : (clear
              { mData := mem, mDataPtr := env.mappedAt, mSize := size, mReadOnly := false }).1
              = Status.OK := by rw [hw]
          have hcode : Status.code (clear
              { mData := mem, mDataPtr := env.mappedAt, mSize := size,
                mReadOnly := false }).1 = 0 := by
            rw [hst]; rfl
          simp only [hcode, if_true]
          refine ⟨?_, ?_, ?_⟩
          · simp
            omega
          · intro w h
            simp only [Option.some.injEq] at h
            subst h
            refine ⟨trivial, trivial, hc.2.2.1, hc.2.2.2.1, hc.1, ?_, ?_⟩
            · rw [hw]
            · rw [hw]
          · intro h; simp at h
        · simp only [hr, if_false]
          refine ⟨?_, ?_, ?_⟩
          · simp
          · intro w h; simp at h
          · intro _; refine ⟨by omega, by simp⟩
    · simp only [hrw, if_false]
      refine ⟨?_, ?_, ?_⟩
      · simp
      · intro w h; simp at h
      · intro _; refine ⟨by omega, by simp⟩

theorem C37_create_order_witness :
    0 < envOk.createErrno ∧ 0 < envOk.mmapErrno ∧
    ((create envOk 4096).out.isSome = true ↔
      (0 ≤ envOk.ashmemFd ∧ 0 ≤ envOk.protReadWrite ∧ envOk.mapped.isSome = true ∧
        0 ≤ envOk.protRead)) ∧
    (∀ w, (create envOk 4096).out = some w →
      (create envOk 4096).calls =
        [CreateEvent.createRegion 4096, CreateEvent.setProtRegion true,
          CreateEvent.mmap 4096 true, CreateEvent.setProtRegion false,
          CreateEvent.construct false, CreateEvent.clear] ∧
      (create envOk 4096).result = Status.code Status.OK ∧
      numRows w = 0 ∧ numColumns w = 0 ∧ freeOffset w = 16 + 404 ∧
      w.mSize = 4096 ∧ w.mReadOnly = false) ∧
    ((create envOk 4096).out = none →
      (create envOk 4096).result < 0 ∧ CreateEvent.clear ∉ (create envOk 4096).calls) :=
  ⟨by decide, by decide, C37_create_order envOk 4096 (by decide) (by decide)⟩

end Ashmem

/-! ## Shared window: frame of a write, failed payload writes, directory bounds -/

namespace Ashmem

set_option maxRecDepth 100000 in
/-- C32. Shared window with a 32-bit `size_t`, a write that changes another cell.  With
`2^30` columns and two rows, the cells (0, 0) and (1, 0) both resolve to the slot at
offset 420 and cell (1, 0) has type NULL; `putLong(0, 0, 7)` returns OK and leaves the
row and column counts alone, and afterwards cell (1, 0) has type INTEGER and value 7. -/
theorem C32_write_changes_other_cell :
    numRows (run 32 w4096 opsTwo) = 2 ∧ numColumns (run 32 w4096 opsTwo) = manyColumns ∧
    getFieldSlot (run 32 w4096 opsTwo) 0 0 = some 420 ∧
    getFieldSlot (run 32 w4096 opsTwo) 1 0 = some 420 ∧
    getFieldSlotType (run 32 w4096 opsTwo) 420 = NEW_FIELD_TYPE_NULL ∧
    (putLong (run 32 w4096 opsTwo) 0 0 7).1 = Status.OK ∧
    numRows (putLong (run 32 w4096 opsTwo) 0 0 7).2 = 2 ∧
    numColumns (putLong (run 32 w4096 opsTwo) 0 0 7).2 = manyColumns ∧
    getFieldSlot (putLong (run 32 w4096 opsTwo) 0 0 7).2 1 0 = some 420 ∧
    getFieldSlotType (putLong (run 32 w4096 opsTwo) 0 0 7).2 420 = NEW_FIELD_TYPE_INTEGER ∧
    getFieldSlotValueLong (putLong (run 32 w4096 opsTwo) 0 0 7).2 420 = 7 := by
  decide

set_option maxRecDepth 1000000 in
/-- C33. Shared window with a 32-bit `size_t`, a `putBlob` that returns `NO_MEMORY` and
changes the free offset.  The run `opsOne` leaves `freeOffset = 1` (the type tag written
by `putLong(100, 0, ..)` at offset 0); `putBlob(0, 0, hdrBytes, 255)` returns OK, and its
payload, copied to offsets 1..255, leaves a header with `freeOffset = 0`, one row and one
column, cell (0, 0) resolving to the slot at 420.  Then `putBlob(0, 0, v, 10)` returns
`NO_MEMORY` although `alloc` granted the request at offset 0: the free offset is 10
afterwards. -/
theorem C33_no_memory_moves_free_offset :
    freeOffset (run 32 w4096 opsOne) = 1 ∧
    (putBlob (run 32 w4096 opsOne) 0 0 hdrBytes 255).1 = Status.OK ∧
    (run 32 w4096 opsZero).mReadOnly = false ∧ (run 32 w4096 opsZero).mSize = 4096 ∧
    freeOffset (run 32 w4096 opsZero) = 0 ∧
    numRows (run 32 w4096 opsZero) = 1 ∧ numColumns (run 32 w4096 opsZero) = 1 ∧
    getFieldSlot (run 32 w4096 opsZero) 0 0 = some 420 ∧
    (putBlob (run 32 w4096 opsZero) 0 0 zeroMem 10).1 = Status.NO_MEMORY ∧
    freeOffset (putBlob (run 32 w4096 opsZero) 0 0 zeroMem 10).2 = 10 := by
  decide

set_option maxRecDepth 100000 in
/-- C34. Shared window with a 32-bit `size_t`, a directory that exceeds the free offset.
After `clear`, `setNumColumns(2^30)` and `allocRow` on a window of 4096 bytes, the row
slot of row 0 holds the offset 420 and `freeOffset` is 420, so
`420 + numColumns * 12 ≤ freeOffset` fails; `getFieldSlot(0, 400)` returns the offset
5220, beyond the 4096 bytes of the window. -/
theorem C34_directory_exceeds_free_offset :
    numRows (run 32 w4096 opsOverlap) = 1 ∧
    numColumns (run 32 w4096 opsOverlap) = manyColumns ∧
    read32 (run 32 w4096 opsOverlap).mData (getRowSlot (run 32 w4096 opsOverlap) 0) = 420 ∧
    freeOffset (run 32 w4096 opsOverlap) = 420 ∧
    (run 32 w4096 opsOverlap).mSize = 4096 ∧
    ¬ (420 + numColumns (run 32 w4096 opsOverlap) * 12 ≤ freeOffset (run 32 w4096 opsOverlap)) ∧
    getFieldSlot (run 32 w4096 opsOverlap) 0 400 = some 5220 := by
  decide

end Ashmem

/-! ## Growable window: retried rows, out-of-line numerics, payload copies -/

namespace Growable

set_option maxRecDepth 1000000 in
/-- C31. Growable window, a successful `allocRow` whose row is not the directory it
zeroed.  With one column, rows 0..127 are allocated, a payload allocation uses up the
free space, the allocation of row 128 fails and a one-byte allocation grows the buffer
(run `opsE`).  The retried `allocRow` succeeds: it returns the directory offset 4616,
stores it in the row slot at 4100, and the directory word at 4616 is zero.  But
`getFieldSlotWithCheck(128, 0)` returns the offset 129, inside the first row-slot chunk,
and `getNull(128, 0)` reports false: the cache maps chunk 1 to the offset 0 recorded by
the failed attempt. -/
theorem C31_retried_row_resolves_elsewhere :
    (allocRow cfgA (run cfgA s0 (opsA 128 ++ [Op.alloc 2036 false Realloc.moved]))
      Realloc.moved Realloc.moved).1 = none ∧
    (allocRowSlot cfgA (run cfgA s0 opsE) Realloc.moved).1 = some 4100 ∧
    (allocRow cfgA (run cfgA s0 opsE) Realloc.moved Realloc.moved).1 = some 4616 ∧
    numRows cfgA (allocRow cfgA (run cfgA s0 opsE) Realloc.moved Realloc.moved).2 = 129 ∧
    numColumns cfgA (allocRow cfgA (run cfgA s0 opsE) Realloc.moved Realloc.moved).2 = 1 ∧
    read32 (allocRow cfgA (run cfgA s0 opsE) Realloc.moved Realloc.moved).2.mData 4100
      = 4616 ∧
    read32 (allocRow cfgA (run cfgA s0 opsE) Realloc.moved Realloc.moved).2.mData 4616
      = 0 ∧
    mapFind (allocRow cfgA (run cfgA s0 opsE) Realloc.moved
      Realloc.moved).2.mChunkNumToNextChunkOffset 1 = some 0 ∧
    getFieldSlotWithCheck cfgA
      (allocRow cfgA (run cfgA s0 opsE) Realloc.moved Realloc.moved).2 128 0 = some 129 ∧
    getNull cfgA (allocRow cfgA (run cfgA s0 opsE) Realloc.moved Realloc.moved).2 128 0
      = (true, some false) := by
  decide

set_option maxRecDepth 100000 in
/-- C36. Growable window, a `putLong` that returns true in the out-of-line build and
cannot be read back.  One column, one row, and the 4096 bytes used up (run `opsF`).  In
the inline build `putLong(0, 0, 42)` returns true and `getLong(0, 0)` yields 42.  In the
out-of-line build `alloc(8)` moves the buffer (which grows to 4704 bytes) and returns the
offset 4096, `putLong` returns true, the payload at 4096 is 42, but the tag of the cell
is still NULL and `getLong(0, 0)` returns false: the stores of offset, size and tag go
through the pointer taken before the buffer moved. -/
theorem C36_out_of_line_write_lost :
    (putLong cfgA (run cfgA (initBuffer cfgA 4096 600 0 zeroMem) opsF) 0 0 42
      Realloc.moved).1 = true ∧
    getLong cfgA (putLong cfgA (run cfgA (initBuffer cfgA 4096 600 0 zeroMem) opsF) 0 0 42
      Realloc.moved).2 0 0 = (true, some 42) ∧
    getFieldSlotWithCheck cfgO (run cfgO (initBuffer cfgO 4096 600 0 zeroMem) opsF)
      (toInt32 0) (toInt32 0) = some 524 ∧
    (alloc cfgO (run cfgO (initBuffer cfgO 4096 600 0 zeroMem) opsF) 8 cfgO.defaultAligned
      Realloc.moved).1 = 4096 ∧
    allocRelocates cfgO (run cfgO (initBuffer cfgO 4096 600 0 zeroMem) opsF) 8
      cfgO.defaultAligned Realloc.moved = true ∧
    (putLong cfgO (run cfgO (initBuffer cfgO 4096 600 0 zeroMem) opsF) 0 0 42
      Realloc.moved).1 = true ∧
    (putLong cfgO (run cfgO (initBuffer cfgO 4096 600 0 zeroMem) opsF) 0 0 42
      Realloc.moved).2.mSize = 4704 ∧
    read64 (putLong cfgO (run cfgO (initBuffer cfgO 4096 600 0 zeroMem) opsF) 0 0 42
      Realloc.moved).2.mData 4096 = 42 ∧
    read32 (putLong cfgO (run cfgO (initBuffer cfgO 4096 600 0 zeroMem) opsF) 0 0 42
      Realloc.moved).2.mData 524 = FIELD_TYPE_NULL ∧
    getLong cfgO (putLong cfgO (run cfgO (initBuffer cfgO 4096 600 0 zeroMem) opsF) 0 0 42
      Realloc.moved).2 0 0 = (false, none) := by
  decide

set_option maxRecDepth 100000 in
/-- C35. Growable window, a non-zero `alloc` result that fails the assertion of
`copyIn` and `copyOut`.  A window created with an initial size of 100 bytes, below the
header plus the first chunk (524 bytes), no growth padding and no maximum
(`CursorWindow(100, 0, 0)`): `clear()`, run by `initBuffer`, sets the free offset to 524
and stores the link word of the first chunk at offset 520, past the end of the block of
100 bytes.  `alloc(10)` then returns the non-zero offset 524 and grows the buffer to 110
bytes, and the assertion `offset + size <= mSize` of `copyIn(524, d, 10)` and of
`copyOut(524, buf, 10)` fails. -/
theorem C35_small_window_assertion_fails :
    sSmall.mSize = 100 ∧ sSmall.mFreeOffset = 524 ∧
    cfgA.headerSize + ROW_SLOT_CHUNK_SIZE cfgA - 4 = 520 ∧
    (alloc cfgA sSmall 10 false Realloc.moved).1 = 524 ∧
    (alloc cfgA sSmall 10 false Realloc.moved).2.mSize = 110 ∧
    (copyIn cfgA (alloc cfgA sSmall 10 false Realloc.moved).2 524 zeroMem 10).isNone = true ∧
    (copyOut cfgA (alloc cfgA sSmall 10 false Realloc.moved).2 524 10).isNone = true := by
  decide

end Growable

namespace Growable

/-- X19. Growable window created by `initBuffer` with an initial size of at
least the header plus the first chunk, after any sequence of operations (`clear`
included) whose allocation requests do not overflow `size_t` (`RunFits`): for every byte
sequence `d`, if `alloc(d.length)` returns a non-zero offset `off`, then the assertion of
`copyIn(off, d, d.length)` holds, `copyOut(off, d.length)` performed afterwards passes
its assertion and yields exactly `d`, and it still does so after any further run of
`alloc` calls (which may grow and move the buffer). -/
theorem X19_payload_copy (cfg : Config) (initialSize growthPaddingSize maxSize : Nat)
    (mem : Mem) (ops : List Op) (d : List Byte) (aligned : Bool) (re : Realloc)
    (hsz : cfg.headerSize + ROW_SLOT_CHUNK_SIZE cfg ≤ initialSize)
    (h2 : initialSize < 2 ^ cfg.sizeBits)
    (hfits : RunFits cfg (initBuffer cfg initialSize growthPaddingSize maxSize mem) ops)
    (hA : AllocFits cfg
      (run cfg (initBuffer cfg initialSize growthPaddingSize maxSize mem) ops) d.length)
    (hne : (alloc cfg (run cfg (initBuffer cfg initialSize growthPaddingSize maxSize mem) ops)
      d.length aligned re).1 ≠ 0) :
    ∃ s1,
      copyIn cfg
        (alloc cfg (run cfg (initBuffer cfg initialSize growthPaddingSize maxSize mem) ops)
          d.length aligned re).2
        (alloc cfg (run cfg (initBuffer cfg initialSize growthPaddingSize maxSize mem) ops)
          d.length aligned re).1
        (fun j => d.getD j 0) d.length = some s1 ∧
      copyOut cfg s1
        (alloc cfg (run cfg (initBuffer cfg initialSize growthPaddingSize maxSize mem) ops)
          d.length aligned re).1 d.length = some d ∧
      ∀ later : List (Nat × Bool × Realloc), RunFits cfg s1 (allocOps later) →
        copyOut cfg (run cfg s1 (allocOps later))
          (alloc cfg (run cfg (initBuffer cfg initialSize growthPaddingSize maxSize mem) ops)
            d.length aligned re).1 d.length = some d := by
  have hW0 : Within cfg (initBuffer cfg initialSize growthPaddingSize maxSize mem) :=
    clear_within cfg _ h2 hsz
  have hW := run_within cfg ops _ hW0 hfits
  generalize run cfg (initBuffer cfg initialSize growthPaddingSize maxSize mem) ops = S at *
  have hb := alloc_offset_fits cfg S d.length aligned re hW.1 hW.2.1 hA hne
  have hWa := alloc_within cfg S d.length aligned re hW hA
  generalize alloc cfg S d.length aligned re = r at *
  have hmod := Nat.mod_le (r.1 + d.length) (2 ^ cfg.sizeBits)
  have hle : (r.1 + d.length) % 2 ^ cfg.sizeBits ≤ r.2.mSize := by omega
  refine ⟨{ r.2 with mData := memcpy r.2.mData r.1 (fun j => d.getD j 0) d.length }, ?_, ?_, ?_⟩
  · unfold copyIn
    rw [if_pos hle]
  · unfold copyOut
    dsimp only
    rw [if_pos hle, memcpy_list_back]
  · intro later hl
    have hW1 : Within cfg
        { r.2 with mData := memcpy r.2.mData r.1 (fun j => d.getD j 0) d.length } := hWa
    obtain ⟨hm, hs⟩ := run_allocOps cfg later _ hW1 hl
    unfold copyOut
    rw [hm]
    dsimp only at hs ⊢
    rw [if_pos (by omega), memcpy_list_back]

end Growable

namespace Growable

set_option maxRecDepth 100000 in
theorem X19_payload_copy_witness :
    (alloc cfgA (run cfgA (initBuffer cfgA 4096 600 0 zeroMem) (opsA 1)) 3 false
      Realloc.moved).1 ≠ 0 ∧
    ∃ s1,
      copyIn cfgA
        (alloc cfgA (run cfgA (initBuffer cfgA 4096 600 0 zeroMem) (opsA 1)) 3 false
          Realloc.moved).2
        (alloc cfgA (run cfgA (initBuffer cfgA 4096 600 0 zeroMem) (opsA 1)) 3 false
          Realloc.moved).1
        (fun j => ([1, 2, 3] : List Byte).getD j 0) 3 = some s1 ∧
      copyOut cfgA s1
        (alloc cfgA (run cfgA (initBuffer cfgA 4096 600 0 zeroMem) (opsA 1)) 3 false
          Realloc.moved).1 3 = some [1, 2, 3] ∧
      ∀ later : List (Nat × Bool × Realloc), RunFits cfgA s1 (allocOps later) →
        copyOut cfgA (run cfgA s1 (allocOps later))
          (alloc cfgA (run cfgA (initBuffer cfgA 4096 600 0 zeroMem) (opsA 1)) 3 false
            Realloc.moved).1 3 = some [1, 2, 3] :=
  ⟨by decide,
    X19_payload_copy cfgA 4096 600 0 zeroMem (opsA 1) [1, 2, 3] false Realloc.moved
      (by decide) (by decide)
      ⟨trivial, ⟨by show 4096 + 516 + 4 + 600 < 2 ^ 64; decide,
        by
          show (allocRowSlot cfgA (step cfgA (initBuffer cfgA 4096 600 0 zeroMem)
            (Op.setNumColumns 1)) Realloc.moved).2.mSize + _ + 4 + _ < 2 ^ 64
          decide⟩, trivial⟩
      (by
        show (run cfgA (initBuffer cfgA 4096 600 0 zeroMem) (opsA 1)).mSize + 3 + 4 + _
          < 2 ^ 64
        decide)
      (by decide)⟩

end Growable

/-! ## Further properties: directory bounds and failed payload writes -/

namespace Ashmem

/-- X7. Shared window with a `size_t` of at least 32 bits, for every window of at least
420 bytes and below `2^32 - 407` bytes that is mapped inside the 32-bit address space,
in every state reached from `clear()` through
operations whose column count and blob sizes keep the 32-bit offsets exact: for every
`row < numRows` the row slot holds an offset `o` of at least 420 with
`o + numColumns * 12 ≤ freeOffset ≤ mSize`, and for every `column < numColumns` the slot
returned by `getFieldSlot` is `o + 12 * column`, lies behind the header and the first
chunk, ends at or before the free offset, and does not overlap any row-slot chunk in
use. -/
theorem X7_directories_in_allocated_part (W : Nat) (hW : 32 ≤ W) (w : Window)
    (ops : List Op) (row column : Nat) (hw : w.mReadOnly = false) (hM : Mapped w)
    (h1 : 420 ≤ w.mSize) (h2 : w.mSize + 407 < U32) (hops : ∀ op, op ∈ ops → op.Sized w.mSize)
    (hrow : row < numRows (run W (clear w).2 ops))
    (hcol : column < numColumns (run W (clear w).2 ops)) :
    420 ≤ read32 (run W (clear w).2 ops).mData (getRowSlot (run W (clear w).2 ops) row) ∧
    read32 (run W (clear w).2 ops).mData (getRowSlot (run W (clear w).2 ops) row)
        + numColumns (run W (clear w).2 ops) * 12 ≤ freeOffset (run W (clear w).2 ops) ∧
    freeOffset (run W (clear w).2 ops) ≤ (run W (clear w).2 ops).mSize ∧
    getFieldSlot (run W (clear w).2 ops) row column
      = some (read32 (run W (clear w).2 ops).mData (getRowSlot (run W (clear w).2 ops) row)
          + 12 * column) ∧
    read32 (run W (clear w).2 ops).mData (getRowSlot (run W (clear w).2 ops) row)
        + 12 * column + 12 ≤ freeOffset (run W (clear w).2 ops) ∧
    ∀ k, k ≤ lastChunk (run W (clear w).2 ops) →
      read32 (run W (clear w).2 ops).mData (getRowSlot (run W (clear w).2 ops) row)
          + 12 * column + 12 ≤ chunkAt (run W (clear w).2 ops).mData k ∨
        chunkAt (run W (clear w).2 ops).mData k + 404
          ≤ read32 (run W (clear w).2 ops).mData (getRowSlot (run W (clear w).2 ops) row)
            + 12 * column := by
  have hI0 : Inv (clear w).2 := inv_clear w hw h1 h2
  have hsz : (clear w).2.mSize = w.mSize := (clear_mSize w).1
  have hI := inv_run W hW ops (clear w).2 hI0 (by intro op hop; rw [hsz]; exact hops op hop)
  have hMs : Mapped (run W (clear w).2 ops) :=
    mapped_run W ops (clear w).2 (mapped_step W w Op.clear hM)
  generalize run W (clear w).2 ops = s at hI hMs hrow hcol ⊢
  have hlo := hI.row_lo row hrow
  have hhi := hI.row_hi row hrow
  have hd : read32 s.mData (getRowSlot s row) = rowDir s.mData row := by
    rw [getRowSlot_eq]; rfl
  rw [hd]
  refine ⟨hlo, by omega, hI.free_hi, ?_, by omega, ?_⟩
  · exact getFieldSlot_in s hI hMs row column hrow hcol
  · intro k hk
    have := hI.row_chunk row k hrow hk
    omega

set_option maxRecDepth 1000000 in
theorem X7_directories_witness :
    100 < numRows (run 32 (clear w4096).2 opsRows) ∧
    1 < numColumns (run 32 (clear w4096).2 opsRows) ∧
    getFieldSlot (run 32 (clear w4096).2 opsRows) 100 1
      = some (read32 (run 32 (clear w4096).2 opsRows).mData
          (getRowSlot (run 32 (clear w4096).2 opsRows) 100) + 12 * 1) :=
  ⟨by decide, by decide,
    (X7_directories_in_allocated_part 32 (by decide) w4096 opsRows 100 1 (by decide)
      mapped_w4096 (by decide) (by decide) sized_opsRows (by decide) (by decide)).2.2.2.1⟩

/-- X8. Shared window whose `freeOffset` is not 0 (under the layout invariant it is at
least 420): a `putBlob` or `putString` that returns `NO_MEMORY` returns the state it was
given, so no byte of the buffer, `freeOffset` included, has changed. -/
theorem X8_no_memory_keeps_state (s : Window) (row column : Nat) (value : Nat → Byte)
    (size : Nat) (hf : freeOffset s ≠ 0) :
    ((putBlob s row column value size).1 = Status.NO_MEMORY →
      (putBlob s row column value size).2 = s) ∧
    ((putString s row column value size).1 = Status.NO_MEMORY →
      (putString s row column value size).2 = s) := by
  have key : ∀ type : Nat,
      (putBlobOrString s row column value size type).1 = Status.NO_MEMORY →
      (putBlobOrString s row column value size type).2 = s := by
    intro type
    unfold putBlobOrString
    split
    · intro _; rfl
    · split
      · intro _; rfl
      · next slot hs =>
        dsimp only
        have ha : (alloc s size false).1 = 0 → (alloc s size false).2 = s := by
          unfold alloc
          simp only [Bool.false_eq_true, if_false]
          split
          · intro _; rfl
          · intro h0
            have hlt := freeOffset_lt s
            have : (freeOffset s + 0) % U32 = freeOffset s := by
              rw [Nat.add_zero]; exact Nat.mod_eq_of_lt hlt
            have h1 : (freeOffset s + 0) % U32 = 0 := h0
            omega
        split
        · next h0 => intro _; exact ha h0
        · intro h; exact absurd h (by simp)
  exact ⟨key NEW_FIELD_TYPE_BLOB, key NEW_FIELD_TYPE_STRING⟩

set_option maxRecDepth 100000 in
theorem X8_no_memory_witness :
    freeOffset sOneRow ≠ 0 ∧ (putBlob sOneRow 0 1 zeroMem 5000).1 = Status.NO_MEMORY ∧
    (putBlob sOneRow 0 1 zeroMem 5000).2 = sOneRow :=
  ⟨by decide, by decide,
    (X8_no_memory_keeps_state sOneRow 0 1 zeroMem 5000 (by decide)).1 (by decide)⟩

end Ashmem

namespace Ashmem

/-- X9. Shared window mapped inside the 32-bit address space, in a state satisfying the
layout invariant, for blob and string
sizes below `2^32 - mSize`: each of `putNull`, `putLong`, `putDouble`, `putBlob` and
`putString` on `(row, column)`, whatever it returns, leaves `numRows` and `numColumns`
unchanged, and every other cell `(r1, c1)` in range resolves to the same field slot as
before, with the same type tag, the same 8 value bytes (as `int64_t` and as `double`) and
the same size and offset of a string or blob; and every byte between the first chunk and
the old free offset that lies outside the field slot written is unchanged, which covers
the payload of every string or blob stored there. -/
theorem X9_cell_write_frame (s : Window) (row column r1 c1 : Nat) (value : Nat → Byte)
    (size : Nat) (v : Int) (bits : Nat) (hI : Inv s) (hM : Mapped s)
    (hsize : s.mSize + size < U32)
    (hr1 : r1 < numRows s) (hc1 : c1 < numColumns s) (hne : r1 ≠ row ∨ c1 ≠ column) :
    ∀ t, (t = (putNull s row column).2 ∨ t = (putLong s row column v).2 ∨
        t = (putDouble s row column bits).2 ∨ t = (putBlob s row column value size).2 ∨
        t = (putString s row column value size).2) →
      numRows t = numRows s ∧ numColumns t = numColumns s ∧
      (∃ slot1, getFieldSlot s r1 c1 = some slot1 ∧ getFieldSlot t r1 c1 = some slot1 ∧
        getFieldSlotType t slot1 = getFieldSlotType s slot1 ∧
        getFieldSlotValueLong t slot1 = getFieldSlotValueLong s slot1 ∧
        getFieldSlotValueDouble t slot1 = getFieldSlotValueDouble s slot1 ∧
        getFieldSlotValueString t slot1 = getFieldSlotValueString s slot1 ∧
        getFieldSlotValueBlob t slot1 = getFieldSlotValueBlob s slot1) ∧
      (∀ i, 420 ≤ i → i < freeOffset s →
        (∀ slot, getFieldSlot s row column = some slot → i < slot ∨ slot + 12 ≤ i) →
        t.mData i = s.mData i) := by
  intro t ht
  have hag : ∀ i, 4 ≤ i → i < freeOffset s →
      (row < numRows s → column < numColumns s →
        i < rowDir s.mData row + 12 * column ∨ rowDir s.mData row + 12 * column + 12 ≤ i) →
      t.mData i = s.mData i := by
    intro i h1 h2 h3
    rcases ht with h | h | h | h | h <;> subst h
    · exact putNull_bytes s row column hI i h3
    · exact putLong_bytes s row column v hI i h3
    · exact putDouble_bytes s row column bits hI i h3
    · exact putBlobOrString_bytes s row column value size _ hI hsize i h1 h2 h3
    · exact putBlobOrString_bytes s row column value size _ hI hsize i h1 h2 h3
  have hp : t.mDataPtr = s.mDataPtr := by
    rcases ht with h | h | h | h | h <;> subst h
    · exact putNull_mDataPtr s row column
    · exact putLong_mDataPtr s row column v
    · exact putDouble_mDataPtr s row column bits
    · exact putBlobOrString_mDataPtr s row column value size _
    · exact putBlobOrString_mDataPtr s row column value size _
  obtain ⟨h8, h12, hs, hts, hb⟩ := hI.other_cell hM hp row column r1 c1 hag hr1 hc1 hne
  have e0 : read32 t.mData (rowDir s.mData r1 + 12 * c1)
      = read32 s.mData (rowDir s.mData r1 + 12 * c1) :=
    read32_congr _ _ _ (fun i h1 h2 => by
      have := hb (i - (rowDir s.mData r1 + 12 * c1)) (by omega)
      rw [Nat.add_sub_cancel' h1] at this
      exact this)
  have e4 : read32 t.mData (rowDir s.mData r1 + 12 * c1 + 4)
      = read32 s.mData (rowDir s.mData r1 + 12 * c1 + 4) :=
    read32_congr _ _ _ (fun i h1 h2 => by
      have := hb (i - (rowDir s.mData r1 + 12 * c1)) (by omega)
      rw [Nat.add_sub_cancel' (by omega)] at this
      exact this)
  have e8 : read32 t.mData (rowDir s.mData r1 + 12 * c1 + 8)
      = read32 s.mData (rowDir s.mData r1 + 12 * c1 + 8) :=
    read32_congr _ _ _ (fun i h1 h2 => by
      have := hb (i - (rowDir s.mData r1 + 12 * c1)) (by omega)
      rw [Nat.add_sub_cancel' (by omega)] at this
      exact this)
  have e64 : read64 t.mData (rowDir s.mData r1 + 12 * c1 + 4)
      = read64 s.mData (rowDir s.mData r1 + 12 * c1 + 4) := by
    unfold read64
    have e : rowDir s.mData r1 + 12 * c1 + 4 + 4 = rowDir s.mData r1 + 12 * c1 + 8 := by omega
    rw [e4, e, e8]
  refine ⟨h8, h12, ⟨_, hs, hts, e0, ?_, e64, ?_, ?_⟩, ?_⟩
  · unfold getFieldSlotValueLong
    rw [e64]
  · unfold getFieldSlotValueString
    rw [e4, e8]
  · unfold getFieldSlotValueBlob
    rw [e4, e8]
  · intro i h1 h2 h3
    refine hag i (by omega) h2 ?_
    intro hr hc
    exact h3 _ (getFieldSlot_in s hI hM row column hr hc)

set_option maxRecDepth 100000 in
theorem X9_cell_write_frame_witness :
    numRows (putLong sOneRow 0 1 5).2 = numRows sOneRow ∧
    numColumns (putLong sOneRow 0 1 5).2 = numColumns sOneRow :=
  ⟨(X9_cell_write_frame sOneRow 0 1 0 2 zeroMem 8 5 0 inv_sOneRow mapped_sOneRow (by decide)
      (by decide) (by decide) (Or.inr (by decide)) _ (Or.inr (Or.inl rfl))).1,
    (X9_cell_write_frame sOneRow 0 1 0 2 zeroMem 8 5 0 inv_sOneRow mapped_sOneRow (by decide)
      (by decide) (by decide) (Or.inr (by decide)) _ (Or.inr (Or.inl rfl))).2.1⟩

end Ashmem

namespace Growable

/-- X10. Growable window built without inline numerics, in a state whose free offset is
within the buffer and in which a request of 8 bytes does not overflow `size_t`, a cell
`(row, col)` that resolves to the field slot `slot`, and `v` an `int64_t`.  When the
`alloc` of the 8-byte payload returns 0, `putLong` returns false and no byte of the
buffer has changed.  When it returns a non-zero offset, `putLong` returns true and the
payload lies inside the buffer (the assertion of `copyIn` and `copyOutLong` holds); and
if the buffer was not moved, the slot ends at or before the payload, and the cell still
resolves to the same slot, then `getLong` returns true with `v`. -/
theorem X10_out_of_line_round_trip (cfg : Config) (s : CursorWindow) (row col slot : Nat)
    (v : Int) (re : Realloc) (hout : cfg.inlineNumerics = false)
    (hfree : s.mFreeOffset ≤ s.mSize) (hsz : s.mSize < 2 ^ cfg.sizeBits)
    (hfit : AllocFits cfg s 8)
    (hslot : getFieldSlotWithCheck cfg s (toInt32 row) (toInt32 col) = some slot)
    (hv : -9223372036854775808 ≤ v ∧ v < 9223372036854775808) :
    ((alloc cfg s 8 cfg.defaultAligned re).1 = 0 →
      (putLong cfg s row col v re).1 = false ∧ (putLong cfg s row col v re).2.mData = s.mData) ∧
    ((alloc cfg s 8 cfg.defaultAligned re).1 ≠ 0 →
      (putLong cfg s row col v re).1 = true ∧
      (alloc cfg s 8 cfg.defaultAligned re).1 + 8 ≤ (putLong cfg s row col v re).2.mSize ∧
      (allocRelocates cfg s 8 cfg.defaultAligned re = false →
        slot + 12 ≤ (alloc cfg s 8 cfg.defaultAligned re).1 →
        getFieldSlotWithCheck cfg (putLong cfg s row col v re).2 (toInt32 row) (toInt32 col)
          = some slot →
        getLong cfg (putLong cfg s row col v re).2 row col = (true, some v))) := by
  have hlt := alloc_offset_lt cfg s 8 cfg.defaultAligned re
  have hmd := (alloc_mData cfg s 8 cfg.defaultAligned re).1
  have hin := alloc_offset_fits cfg s 8 cfg.defaultAligned re hfree hsz hfit
  have hP : putLong cfg s row col v re
      = if (alloc cfg s 8 cfg.defaultAligned re).1 = 0 then
          (false, (alloc cfg s 8 cfg.defaultAligned re).2)
        else if allocRelocates cfg s 8 cfg.defaultAligned re then
          (true, { (alloc cfg s 8 cfg.defaultAligned re).2 with
            mData := write64 (alloc cfg s 8 cfg.defaultAligned re).2.mData
              (alloc cfg s 8 cfg.defaultAligned re).1 (toU64 v) })
        else
          (true, { (alloc cfg s 8 cfg.defaultAligned re).2 with
            mData := write32 (write32 (write32
              (write64 (alloc cfg s 8 cfg.defaultAligned re).2.mData
                (alloc cfg s 8 cfg.defaultAligned re).1 (toU64 v))
              (slot + 4) (alloc cfg s 8 cfg.defaultAligned re).1) (slot + 8) 8)
              slot FIELD_TYPE_INTEGER }) := by
    unfold putLong
    simp only [hslot, hout, Bool.false_eq_true, if_false]
  rw [hP]
  generalize alloc cfg s 8 cfg.defaultAligned re = r at *
  refine ⟨?_, ?_⟩
  · intro h0
    rw [if_pos h0]
    exact ⟨rfl, hmd⟩
  · intro hne
    rw [if_neg hne]
    refine ⟨by split <;> rfl, ?_, ?_⟩
    · have := hin hne
      split <;> exact this
    intro hrel hdis
    rw [hrel]
    simp only [Bool.false_eq_true, if_false]
    intro hk
    unfold getLong
    rw [hk]
    dsimp only
    rw [read32_write32_same]
    have e4 : read32 (write32 (write32 (write32 (write64 r.2.mData r.1 (toU64 v))
        (slot + 4) r.1) (slot + 8) 8) slot FIELD_TYPE_INTEGER) (slot + 4) = r.1 := by
      rw [read32_write32_other _ _ _ _ (by omega), read32_write32_other _ _ _ _ (by omega),
        read32_write32_same]
      exact Nat.mod_eq_of_lt hlt
    have e64 : read64 (write32 (write32 (write32 (write64 r.2.mData r.1 (toU64 v))
        (slot + 4) r.1) (slot + 8) 8) slot FIELD_TYPE_INTEGER) r.1 = toU64 v := by
      rw [(frame_write32 _ _ _).read64 (by omega), (frame_write32 _ _ _).read64 (by omega),
        (frame_write32 _ _ _).read64 (by omega), read64_write64_same]
      exact Nat.mod_eq_of_lt (Ashmem.toU64_lt v)
    rw [e4, e64, ofU64_toU64 v hv.1 hv.2]
    simp [hout, FIELD_TYPE_INTEGER, U32]

set_option maxRecDepth 1000000 in
theorem X10_out_of_line_witness :
    getFieldSlotWithCheck cfgO (run cfgO (initBuffer cfgO 4096 600 0 zeroMem) (opsA 1))
      (toInt32 0) (toInt32 0) = some 524 ∧
    getLong cfgO
      (putLong cfgO (run cfgO (initBuffer cfgO 4096 600 0 zeroMem) (opsA 1)) 0 0 42
        Realloc.moved).2 0 0 = (true, some 42) :=
  ⟨by decide,
    ((X10_out_of_line_round_trip cfgO (run cfgO (initBuffer cfgO 4096 600 0 zeroMem) (opsA 1))
      0 0 524 42 Realloc.moved rfl (by decide) (by decide)
      (by
        show (run cfgO (initBuffer cfgO 4096 600 0 zeroMem) (opsA 1)).mSize + 8 + 4 + _
          < 2 ^ cfgO.sizeBits
        decide)
      (by decide) (by decide)).2 (by decide)).2.2 (by decide) (by decide) (by decide)⟩

end Growable

namespace Growable

/-- X11. Growable window filled by sequential appends (state `Appended`: reached from
`clear()` by `allocRow` calls that all returned a row), for a layout with at least two
row slots per chunk whose header holds `numRows` and `numColumns` in separate words, a
directory size `numColumns * 12` that fits `size_t`, allocations that do not overflow
`size_t` and a buffer that stays below `2^32` bytes: when `allocRow` returns the
directory offset `d`, the row count has grown by one, the column count is unchanged, and
for every column `c < numColumns` the call `getFieldSlotWithCheck(numRows - 1, c)`
returns the slot `d + 12 * c` of the directory, its twelve bytes are zero, and
`getNull(numRows - 1, c)` reports true. -/
theorem X11_new_row_present (cfg : Config) (s : CursorWindow) (re1 re2 : Realloc)
    (d c : Nat) (hN : 2 ≤ cfg.chunkNumRows) (hH : cfg.numRowsOff + 4 ≤ cfg.headerSize)
    (hHc : cfg.numColumnsOff + 4 ≤ cfg.headerSize)
    (hdis : cfg.numColumnsOff + 4 ≤ cfg.numRowsOff ∨ cfg.numRowsOff + 4 ≤ cfg.numColumnsOff)
    (hfd : numColumns cfg s * FIELD_SLOT_SIZE < 2 ^ cfg.sizeBits)
    (hA : Appended cfg s) (hf : (Op.allocRow re1 re2).Fits cfg s)
    (hok : (allocRow cfg s re1 re2).1 = some d)
    (hU : (allocRow cfg s re1 re2).2.mSize < U32) (hc : c < numColumns cfg s) :
    numRows cfg (allocRow cfg s re1 re2).2 = numRows cfg s + 1 ∧
    numColumns cfg (allocRow cfg s re1 re2).2 = numColumns cfg s ∧
    getFieldSlotWithCheck cfg (allocRow cfg s re1 re2).2 (toInt32 (numRows cfg s)) (toInt32 c)
      = some (d + c * FIELD_SLOT_SIZE) ∧
    (∀ j, j < 12 → (allocRow cfg s re1 re2).2.mData (d + c * FIELD_SLOT_SIZE + j) = 0) ∧
    getNull cfg (allocRow cfg s re1 re2).2 (numRows cfg s) c = (true, some true) := by
  have hN0 : 0 < cfg.chunkNumRows := by omega
  have hC : ROW_SLOT_CHUNK_SIZE cfg = cfg.chunkNumRows * 4 + 4 := rfl
  have hFS : FIELD_SLOT_SIZE = 12 := rfl
  have hpl := Nat.mod_lt (numRows cfg s) hN0
  have hok2 : (allocRow cfg s re1 re2).1 ≠ none := by rw [hok]; simp
  obtain ⟨hAF, hnF, _, hslF, _⟩ := appended_allocRow cfg s re1 re2 hN hH hA hf hok2 hU
  obtain ⟨hf1, hf2⟩ := hf
  have hW := allocRowSlot_within cfg s re1 hA.within hf1
  cases hsl : allocRowSlot cfg s re1 with
  | mk x t =>
    cases x with
    | none =>
      exact absurd (allocRow_of_slot_none cfg s re1 re2 (by rw [hsl])) hok2
    | some a =>
      rw [hsl] at hf2 hW hslF
      have hf2b : AllocFits cfg t ((numColumns cfg t * FIELD_SLOT_SIZE) % 2 ^ cfg.sizeBits) := hf2
      have hWt : Within cfg t := hW
      have ha : a = chunkOffset cfg (allocRow cfg s re1 re2).2.mData
          (numRows cfg s / cfg.chunkNumRows) + (numRows cfg s % cfg.chunkNumRows) * 4 :=
        Option.some.inj hslF
      clear hf2 hW hslF
      obtain ⟨hnone, hsize, heq⟩ := allocRow_of_slot_some cfg s re1 re2 a t hsl
      have hne : (alloc cfg t ((numColumns cfg t * FIELD_SLOT_SIZE) % 2 ^ cfg.sizeBits)
          cfg.defaultAligned re2).1 ≠ 0 := fun h0 => hok2 (hnone h0)
      have hU2 : (alloc cfg t ((numColumns cfg t * FIELD_SLOT_SIZE) % 2 ^ cfg.sizeBits)
          cfg.defaultAligned re2).2.mSize < U32 := by
        rw [← hsize]; exact hU
      have hmono := alloc_mSize_le cfg t _ cfg.defaultAligned re2 hWt.1 hWt.2.1 hf2b
      have hUt : t.mSize < U32 := by omega
      have hst := appended_allocRowSlot cfg s re1 hN hH hA hf1 (by rw [hsl]; simp)
        (by rw [hsl]; exact hUt)
      rw [hsl] at hst
      dsimp only at hst
      obtain ⟨hAt, hnt, _, _, hslot, _, hhdr⟩ := hst
      have hcol : numColumns cfg t = numColumns cfg s := hhdr cfg.numColumnsOff hHc hdis
      have hnt2 : numRows cfg t = numRows cfg s + 1 := hnt
      have hat : a = chunkOffset cfg t.mData (numRows cfg s / cfg.chunkNumRows)
          + (numRows cfg s % cfg.chunkNumRows) * 4 := Option.some.inj hslot
      have hLt : lastIdx cfg t = numRows cfg s / cfg.chunkNumRows := by
        unfold lastIdx; rw [hnt2]; simp
      have hfds : (numColumns cfg t * FIELD_SLOT_SIZE) % 2 ^ cfg.sizeBits
          = numColumns cfg s * 12 := by
        rw [hcol]; exact Nat.mod_eq_of_lt hfd
      rw [hfds] at hf2b hne hU2 heq
      obtain ⟨sz, hsz1, hsz2, hsz3, hsz4, hal⟩ :=
        alloc_ok cfg t (numColumns cfg s * 12) cfg.defaultAligned re2 hWt.1 hWt.2.1 hf2b hne hU2
      have hp4 := allocPadding_le t cfg.defaultAligned
      generalize allocPadding t cfg.defaultAligned = pad at hal hsz4 hp4
      have hgeq := hAt.offset_ge _ (Nat.le_refl (lastIdx cfg t))
      have hhiq := hAt.chunk_hi
      rw [hLt] at hgeq hhiq
      have heq2 := heq (t.mFreeOffset + pad) sz (t.mFreeOffset + numColumns cfg s * 12 + pad)
        (by omega) hal
      have hd : d = t.mFreeOffset + pad := by
        rw [heq2] at hok
        exact (Option.some.inj hok).symm
      rw [heq2] at ha hnF hAF ⊢
      generalize hF : ({ t with
            mSize := sz
            mFreeOffset := t.mFreeOffset + numColumns cfg s * 12 + pad
            mData := write32 (memset0 t.mData (t.mFreeOffset + pad) (numColumns cfg s * 12)) a
              (t.mFreeOffset + pad) } : CursorWindow) = F at ha hnF hAF ⊢
      dsimp only at ha hnF hAF ⊢
      have hFd : F.mData = write32 (memset0 t.mData (t.mFreeOffset + pad)
          (numColumns cfg s * 12)) a (t.mFreeOffset + pad) := by rw [← hF]
      have hFs : F.mSize = sz := by rw [← hF]
      have hcF : numColumns cfg F = numColumns cfg s := by
        unfold numColumns
        rw [hFd, read32_write32_other _ _ _ _ (by omega),
          (frame_memset0 _ _ _).read32 (by omega)]
        exact hcol
      have hrs : getRowSlot cfg F (numRows cfg s) = a := by
        rw [hAF.rowSlot_eq (numRows cfg s) (by omega), ha]
      have hrd : read32 F.mData a = d := by
        rw [hFd, read32_write32_same, hd]
        exact Nat.mod_eq_of_lt (by omega)
      have hzero : ∀ i, i < numColumns cfg s * 12 → F.mData (d + i) = 0 := by
        intro i hi
        rw [hFd, frame_write32 _ _ _ _ (by omega), hd]
        unfold memset0
        rw [if_pos ⟨by omega, by omega⟩]
      have hrl := hAF.rows_lt hN0 (by rw [hFs]; exact hsz2)
      have hn31 : numRows cfg s < 2147483648 := by
        have h1 := hAF.cap
        have h2 := hAF.free_le
        have h3 := le_cap cfg.chunkNumRows (numRows cfg F) hN0
        unfold lastIdx at h1
        generalize cfg.chunkNumRows * ((numRows cfg F - 1) / cfg.chunkNumRows + 1) = q at h1 h3
        rw [hFs] at h2
        unfold U32 at hsz2
        omega
      have hc31 : c < 2147483648 := by
        unfold U32 at hsz2
        omega
      have eR : toInt32 (numRows cfg s) = ((numRows cfg s : Nat) : Int) := by
        unfold toInt32
        have e : numRows cfg s % U32 = numRows cfg s := Nat.mod_eq_of_lt (by unfold U32; omega)
        rw [e, if_pos hn31]
      have eC : toInt32 c = ((c : Nat) : Int) := by
        unfold toInt32
        have e : c % U32 = c := Nat.mod_eq_of_lt (by unfold U32; omega)
        rw [e, if_pos hc31]
      have hslotF : getFieldSlotWithCheck cfg F (toInt32 (numRows cfg s)) (toInt32 c)
          = some (d + c * FIELD_SLOT_SIZE) := by
        unfold getFieldSlotWithCheck
        rw [eR, eC, hnF, hcF, if_neg (by omega)]
        simp only [Int.toNat_ofNat]
        rw [hrs, hrd, hFs, if_neg (by omega)]
      have hz32 : read32 F.mData (d + c * FIELD_SLOT_SIZE) = 0 := by
        apply read32_zero_bytes
        intro j hj
        rw [Nat.add_assoc]
        exact hzero _ (by rw [hFS]; omega)
      refine ⟨hnF, hcF, hslotF, ?_, ?_⟩
      · intro j hj
        rw [Nat.add_assoc]
        exact hzero _ (by rw [hFS]; omega)
      · unfold getNull
        rw [hslotF]
        dsimp only
        rw [hz32]
        simp [FIELD_TYPE_NULL]

end Growable

namespace Growable

/-- The window `s0` after `setNumColumns(1)` is in the state that `clear` leaves behind,
with one column. -/
theorem cleared_one_column : Cleared cfgA (setNumColumns cfgA s0 1).2 := by
  unfold Cleared
  decide

set_option maxRecDepth 100000 in
theorem X11_new_row_witness :
    (allocRow cfgA (setNumColumns cfgA s0 1).2 Realloc.moved Realloc.moved).1 = some 524 ∧
    getNull cfgA (allocRow cfgA (setNumColumns cfgA s0 1).2 Realloc.moved Realloc.moved).2
      (numRows cfgA (setNumColumns cfgA s0 1).2) 0 = (true, some true) :=
  ⟨by decide,
    (X11_new_row_present cfgA (setNumColumns cfgA s0 1).2 Realloc.moved Realloc.moved 524 0
      (by decide) (by decide) (by decide) (by decide) (by decide)
      (appended_of_cleared cfgA _ cleared_one_column (by decide) (by decide))
      ⟨by
          show (setNumColumns cfgA s0 1).2.mSize + 516 + 4 + _ < 2 ^ 64
          decide,
        by
          show (allocRowSlot cfgA (setNumColumns cfgA s0 1).2 Realloc.moved).2.mSize + _ + 4 + _
            < 2 ^ 64
          decide⟩
      (by decide) (by decide) (by decide)).2.2.2.2⟩

end Growable

namespace Ashmem

/-- X12. Shared window with a `size_t` of at least 32 bits, mapped inside the 32-bit
address space, in a state satisfying the layout invariant: `allocRow`, whether it succeeds or not, leaves `numColumns` unchanged,
and every cell `(r1, c1)` that was in range resolves to the same field slot as before,
with the same type tag, the same 8 value bytes and the same size and offset of a string
or blob; and every byte between the first chunk and the old free offset that lies
outside the row-slot chunks in use and outside the spare chunk is unchanged, which
covers the field directories of the existing rows and the payloads stored there. -/
theorem X12_allocRow_frame (W : Nat) (hW : 32 ≤ W) (s : Window) (hI : Inv s)
    (hM : Mapped s) (r1 c1 : Nat) (hr1 : r1 < numRows s) (hc1 : c1 < numColumns s) :
    numColumns (allocRow W s).2 = numColumns s ∧
    (∃ slot1, getFieldSlot s r1 c1 = some slot1 ∧
      getFieldSlot (allocRow W s).2 r1 c1 = some slot1 ∧
      getFieldSlotType (allocRow W s).2 slot1 = getFieldSlotType s slot1 ∧
      getFieldSlotValueLong (allocRow W s).2 slot1 = getFieldSlotValueLong s slot1 ∧
      getFieldSlotValueDouble (allocRow W s).2 slot1 = getFieldSlotValueDouble s slot1 ∧
      getFieldSlotValueString (allocRow W s).2 slot1 = getFieldSlotValueString s slot1 ∧
      getFieldSlotValueBlob (allocRow W s).2 slot1 = getFieldSlotValueBlob s slot1) ∧
    (∀ i, 420 ≤ i → i < freeOffset s →
      (∀ k, k ≤ lastChunk s → i < chunkAt s.mData k ∨ chunkAt s.mData k + 404 ≤ i) →
      (spareChunk s ≠ 0 → i < spareChunk s ∨ spareChunk s + 404 ≤ i) →
      (allocRow W s).2.mData i = s.mData i) := by
  obtain ⟨hIT, h12, hfail, hsucc, _, hch, _, hfr⟩ := allocRow_framed W hW s hI
  have hMT : Mapped (allocRow W s).2 := mapped_step W s Op.allocRow hM
  have hLdef : lastChunk s = (numRows s - 1) / 100 := rfl
  have hn : r1 < numRows (allocRow W s).2 := by
    by_cases hst : (allocRow W s).1 = Status.OK
    · rw [(hsucc hst).1]; omega
    · rw [hfail hst]; exact hr1
  generalize allocRow W s = T at *
  have hk := row_div_le_lastChunk s r1 hr1
  have hcL := hI.chunk_ge (lastChunk s) (Nat.le_refl _)
  have hcLf := hI.chunk_hi
  have hkg := hI.chunk_ge (r1 / 100) hk
  have hkf := hI.chunk_le_free (r1 / 100) hk
  -- the row slot of `r1` keeps its place and its content
  have hkL : chunkAt s.mData (r1 / 100) + 4 * (r1 % 100) + 4
      ≤ chunkAt s.mData (lastChunk s) + 4 * (numRows s - 100 * lastChunk s) := by
    rcases Nat.lt_or_ge (r1 / 100) (lastChunk s) with h | h
    · have := hI.chunk_lt (lastChunk s) (r1 / 100) (Nat.le_refl _) h
      omega
    · have e : r1 / 100 = lastChunk s := by omega
      rw [e]
      omega
  have hkS : spareChunk s ≠ 0 → chunkAt s.mData (r1 / 100) + 404 ≤ spareChunk s := by
    intro hsp
    rcases hI.spare with h | h
    · exact absurd h hsp
    · rcases Nat.lt_or_ge (r1 / 100) (lastChunk s) with h1 | h1
      · have := hI.chunk_lt (lastChunk s) (r1 / 100) (Nat.le_refl _) h1
        omega
      · have e : r1 / 100 = lastChunk s := by omega
        rw [e]
        exact h.1
  have haddr : rowSlotAddr T.2.mData r1 = rowSlotAddr s.mData r1 :=
    rowSlotAddr_of_chunks _ _ _ (hch _ hk)
  have hdir : rowDir T.2.mData r1 = rowDir s.mData r1 := by
    unfold rowDir
    rw [haddr]
    unfold rowSlotAddr
    refine read32_congr _ _ _ (fun i h1 h2 => ?_)
    exact hfr i (by omega) (by omega) (Or.inl (by omega))
      (fun hsp => Or.inl (by have := hkS hsp; omega))
  have hlo := hI.row_lo r1 hr1
  have hhi := hI.row_hi r1 hr1
  have hbytes : ∀ j, j < 12 → T.2.mData (rowDir s.mData r1 + 12 * c1 + j)
      = s.mData (rowDir s.mData r1 + 12 * c1 + j) := by
    intro j hj
    refine hfr _ (by omega) (by omega) ?_ ?_
    · have := hI.row_chunk r1 (lastChunk s) hr1 (Nat.le_refl _)
      omega
    · intro hsp
      have := hI.row_spare r1 hr1 hsp
      omega
  have hs : getFieldSlot s r1 c1 = some (rowDir s.mData r1 + 12 * c1) :=
    getFieldSlot_in s hI hM r1 c1 hr1 hc1
  have ht : getFieldSlot T.2 r1 c1 = some (rowDir s.mData r1 + 12 * c1) := by
    rw [← hdir]
    exact getFieldSlot_in T.2 hIT hMT r1 c1 hn (by omega)
  obtain ⟨e0, e1, e2, e3, e4⟩ := cell_reads_of_bytes s T.2 _ hbytes
  refine ⟨h12, ⟨_, hs, ht, e0, e1, e2, e3, e4⟩, ?_⟩
  intro i h1 h2 h3 hS
  refine hfr i (by omega) h2 ?_ hS
  have := h3 (lastChunk s) (Nat.le_refl _)
  omega

set_option maxRecDepth 100000 in
theorem X12_allocRow_frame_witness :
    0 < numRows sOneRow ∧ 1 < numColumns sOneRow ∧
    numColumns (allocRow 32 sOneRow).2 = numColumns sOneRow :=
  ⟨by decide, by decide,
    (X12_allocRow_frame 32 (by decide) sOneRow inv_sOneRow mapped_sOneRow 0 1 (by decide)
      (by decide)).1⟩

end Ashmem
end CW
